import Mathlib

/-!
# UCTMAXSAT: the CCLS playout engine, the pre-satisfaction analysis and the UCT tree

A shallow embedding of the incremental SLS state of `src/ccls/basic_uct.h`
(`unsat`, `sat`, `init`, `flip`), of the playout of `src/ccls/main_uct.cpp`
(`pick_var`, `local_search`, `setBranchingAtom`), of the pre-sat analysis and the playout
loop of `src/ubcsat/src/uct.c` (`setPreSat`, `setAlwaysSat`, `setBranchingAtom`,
`ubcsatrun`), and of the tree search `playNode` that both variants share (namespace `UCT`).

Conventions of the embedding.
* C arrays are total functions on `Nat`; `setAt a i x` is the store `a[i] = x`.
* `int` cells that hold counts, scores, weights and truth values are `Int`
  (unbounded: the sums of clause weights are assumed to stay inside `int`).
* `short` flags that are only tested for truth (`varMutable`, `preSat`,
  `closedFlag`) are `Bool`.
* Array positions and fill pointers are `Nat`; `pop` is `fill - 1`.
* `total_unsat_clause_weight` is `unsigned long long`: arithmetic modulo `2^64`.
* The sentinel-terminated literal arrays `clause_lit[c]` / `var_lit[v]` are lists
  (the sentinel has `var_num = 0` / `clause_num = -1`, real entries never do).
* `rand()` is a sequence `rnd` read at a position `pos`; `RandomInt` and `RunProcedures`
  of UBCSAT are parameters.
* In the tree search the rewards are rationals, and `estimateReward`, `selectMove` and the
  globals they use are the fields of a `World`.
-/

namespace CCLS

/-- The store `a[i] = x` on an array modelled as a function. -/
def setAt {α : Type} (a : Nat → α) (i : Nat) (x : α) : Nat → α :=
  fun j => if j = i then x else a j

/-- The literal record `struct lit` of basic_uct.h. -/
structure lit where
  clause_num : Nat
  var_num : Nat
  sense : Int
deriving DecidableEq, Repr

/-- The formula store: `num_vars`, `num_clauses`, `clause_lit`, `clause_weight`. -/
structure Instance where
  num_vars : Nat
  num_clauses : Nat
  clause_lit : Nat → List lit
  clause_weight : Nat → Int

/-- The array `var_lit[v]` as built by `build_instance` (lines 254-272): the clauses are scanned in
order and every literal of variable `v` is appended to `var_lit[v]`. -/
def var_lit (F : Instance) (v : Nat) : List lit :=
  (List.range F.num_clauses).flatMap
    (fun c => (F.clause_lit c).filter (fun l => decide (l.var_num = v)))

/-- The variables of clause `c`, in literal order. -/
def clauseVars (F : Instance) (c : Nat) : List Nat :=
  (F.clause_lit c).map lit.var_num

/-- What `build_instance_*` guarantees of a stored clause `c`: every literal carries
`clause_num = c`, a variable in `1..num_vars` and a sense in `{0,1}`; no variable occurs
twice (duplicates are removed, tautologies dropped). -/
def wfClause (F : Instance) (c : Nat) : Prop :=
  (∀ l ∈ F.clause_lit c,
      l.clause_num = c ∧ 1 ≤ l.var_num ∧ l.var_num ≤ F.num_vars ∧ (l.sense = 0 ∨ l.sense = 1))
    ∧ (clauseVars F c).Nodup

instance (F : Instance) (c : Nat) : Decidable (wfClause F c) := by
  unfold wfClause; infer_instance

/-- Well-formed formula store. -/
def WF (F : Instance) : Prop := ∀ c, c < F.num_clauses → wfClause F c

instance (F : Instance) : Decidable (WF F) := by
  unfold WF; infer_instance

/-- The global variables of basic_uct.h that `init` and `flip` read or write. -/
structure State where
  varMutable : Nat → Bool
  preSat : Nat → Bool
  closedFlag : Bool
  numPreFalsifiedClauses : Int
  score : Nat → Int
  conf_change : Nat → Int
  var_neighbor : Nat → List Nat
  sat_count : Nat → Int
  sat_var : Nat → Nat
  unsat_stack : Nat → Nat
  unsat_stack_fill_pointer : Nat
  index_in_unsat_stack : Nat → Nat
  unsatvar_stack : Nat → Nat
  unsatvar_stack_fill_pointer : Nat
  index_in_unsatvar_stack : Nat → Nat
  unsat_app_count : Nat → Int
  cur_soln : Nat → Int
  best_soln : Nat → Int
  total_unsat_clause_weight : Nat

/-- The conversion `(unsigned long long) w` of an `int`. -/
def toULL (w : Int) : Nat := (w % (2 ^ 64 : Int)).toNat

/-- Body of the literal loop of `unsat` (lines 455-464) for the literal of variable `v`. -/
def unsatVar (st : State) (v : Nat) : State :=
  if st.varMutable v = false then st
  else
    let st1 := { st with unsat_app_count := setAt st.unsat_app_count v (st.unsat_app_count v + 1) }
    if st1.unsat_app_count v = 1 then
      { st1 with
          index_in_unsatvar_stack :=
            setAt st1.index_in_unsatvar_stack v st1.unsatvar_stack_fill_pointer
          unsatvar_stack := setAt st1.unsatvar_stack st1.unsatvar_stack_fill_pointer v
          unsatvar_stack_fill_pointer := st1.unsatvar_stack_fill_pointer + 1 }
    else st1

/-- The function `unsat(clause)` (lines 446-465). -/
def unsat (F : Instance) (s : State) (clause : Nat) : State :=
  let s1 : State :=
    { s with
        index_in_unsat_stack := setAt s.index_in_unsat_stack clause s.unsat_stack_fill_pointer
        unsat_stack := setAt s.unsat_stack s.unsat_stack_fill_pointer clause
        unsat_stack_fill_pointer := s.unsat_stack_fill_pointer + 1
        total_unsat_clause_weight :=
          (s.total_unsat_clause_weight + toULL (F.clause_weight clause)) % 2 ^ 64 }
  (F.clause_lit clause).foldl (fun st p => unsatVar st p.var_num) s1

/-- Body of the literal loop of `sat` (lines 481-492) for the literal of variable `v`. -/
def satVar (st : State) (v : Nat) : State :=
  if st.varMutable v = false then st
  else
    let st1 := { st with unsat_app_count := setAt st.unsat_app_count v (st.unsat_app_count v - 1) }
    if st1.unsat_app_count v = 0 then
      let fp := st1.unsatvar_stack_fill_pointer - 1
      let last_unsat_var := st1.unsatvar_stack fp
      let index := st1.index_in_unsatvar_stack v
      { st1 with
          unsatvar_stack_fill_pointer := fp
          unsatvar_stack := setAt st1.unsatvar_stack index last_unsat_var
          index_in_unsatvar_stack := setAt st1.index_in_unsatvar_stack last_unsat_var index }
    else st1

/-- The function `sat(clause)` (lines 468-493). -/
def sat (F : Instance) (s : State) (clause : Nat) : State :=
  let fp := s.unsat_stack_fill_pointer - 1
  let last_unsat_clause := s.unsat_stack fp
  let index := s.index_in_unsat_stack clause
  let s1 : State :=
    { s with
        unsat_stack_fill_pointer := fp
        unsat_stack := setAt s.unsat_stack index last_unsat_clause
        index_in_unsat_stack := setAt s.index_in_unsat_stack last_unsat_clause index
        total_unsat_clause_weight :=
          (s.total_unsat_clause_weight + 2 ^ 64 - toULL (F.clause_weight clause)) % 2 ^ 64 }
  (F.clause_lit clause).foldl (fun st p => satVar st p.var_num) s1

/-- First loop of `init` (lines 511-516), body for variable `v`. -/
def initVar (st : State) (v : Nat) : State :=
  if st.varMutable v = false then st
  else
    { st with
        cur_soln := setAt st.cur_soln v (st.best_soln v)
        conf_change := setAt st.conf_change v 1
        unsat_app_count := setAt st.unsat_app_count v 0 }

/-- The locals of the literal loop of `init` together with the two cells `sat_count[c]`,
`sat_var[c]` it writes. -/
structure Scan where
  sat_count : Int
  sat_var : Nat
  clausePresat : Bool
  preFalsified : Bool
deriving DecidableEq, Repr

/-- The literal loop of `init` (lines 527-546), with its `break`. -/
def scanLits (varMutable : Nat → Bool) (cur_soln : Nat → Int) : List lit → Scan → Scan
  | [], a => a
  | l :: ls, a =>
    if varMutable l.var_num then
      let a1 : Scan := { a with preFalsified := false, clausePresat := false }
      if cur_soln l.var_num = l.sense then
        scanLits varMutable cur_soln ls
          { a1 with sat_count := a1.sat_count + 1, sat_var := l.var_num }
      else scanLits varMutable cur_soln ls a1
    else if l.sense ≠ 0 then
      { sat_count := 1, sat_var := l.var_num, clausePresat := true, preFalsified := false }
    else scanLits varMutable cur_soln ls a

/-- The literal loop of `init` run on clause `c`, from `sat_count[c] = 0`,
`clausePresat = 1`, `preFalsified = 1` (lines 523-546). -/
def scanClause (F : Instance) (st : State) (c : Nat) : Scan :=
  scanLits st.varMutable st.cur_soln (F.clause_lit c)
    { sat_count := 0, sat_var := st.sat_var c, clausePresat := true, preFalsified := true }

/-- Body of the clause loop of `init` (lines 521-568) for clause `c`. -/
def initClause (F : Instance) (st : State) (c : Nat) : State :=
  let a := scanClause F st c
  let st1 : State :=
    { st with sat_count := setAt st.sat_count c a.sat_count, sat_var := setAt st.sat_var c a.sat_var }
  if a.clausePresat then
    { st1 with
        preSat := setAt st1.preSat c true
        numPreFalsifiedClauses :=
          if a.preFalsified then st1.numPreFalsifiedClauses + 1 else st1.numPreFalsifiedClauses }
  else
    let st2 : State := { st1 with preSat := setAt st1.preSat c false, closedFlag := false }
    if st2.sat_count c = 0 then unsat F st2 c else st2

/-- The score that the loop of lines 578-586 accumulates for variable `v` from `preSat`,
`sat_count` and `cur_soln`. -/
def scoreOf (F : Instance) (st : State) (v : Nat) : Int :=
  (var_lit F v).foldl
    (fun acc q =>
      let c := q.clause_num
      if st.preSat c then acc
      else if st.sat_count c = 0 then acc + F.clause_weight c
      else if st.sat_count c = 1 ∧ q.sense = st.cur_soln v then acc - F.clause_weight c
      else acc)
    0

/-- Body of the score loop of `init` (lines 572-587) for variable `v`. -/
def initScore (F : Instance) (st : State) (v : Nat) : State :=
  if st.varMutable v = false then { st with score := setAt st.score v 0 }
  else { st with score := setAt st.score v (scoreOf F st v) }

/-- First part of `init` (lines 503-518): the stacks and counters are reset, the mutable
variables are seeded from `best_soln`, and `closedFlag` is raised. -/
def initSoln (F : Instance) (s : State) : State :=
  let s0 : State :=
    { s with
        unsat_stack_fill_pointer := 0
        unsatvar_stack_fill_pointer := 0
        total_unsat_clause_weight := 0
        numPreFalsifiedClauses := 0 }
  let s1 := (List.range' 1 F.num_vars).foldl initVar s0
  { s1 with closedFlag := true }

/-- Second part of `init` (lines 521-568): the clause loop. -/
def initClauses (F : Instance) (s : State) : State :=
  (List.range F.num_clauses).foldl (initClause F) (initSoln F s)

/-- The function `init()` (lines 497-593). -/
def init (F : Instance) (s : State) : State :=
  let s3 := initClauses F s
  let s4 := (List.range' 1 F.num_vars).foldl (initScore F) s3
  { s4 with conf_change := setAt s4.conf_change 0 0, score := setAt s4.score 0 0 }

/-- The update `score[v] += d`. -/
def addScore (st : State) (v : Nat) (d : Int) : State :=
  { st with score := setAt st.score v (st.score v + d) }

/-- Body of the occurrence loop of `flip` (lines 607-659) for the occurrence `q` of
`flipvar`; `cur_soln[flipvar]` has already been inverted. -/
def flipStep (F : Instance) (flipvar : Nat) (st : State) (q : lit) : State :=
  let c := q.clause_num
  let w := F.clause_weight c
  if st.preSat c then st
  else if st.cur_soln flipvar = q.sense then
    let st1 : State := { st with sat_count := setAt st.sat_count c (st.sat_count c + 1) }
    if st1.sat_count c = 2 then addScore st1 (st1.sat_var c) w
    else if st1.sat_count c = 1 then
      let st2 : State := { st1 with sat_var := setAt st1.sat_var c flipvar }
      let st3 := addScore st2 flipvar (-w)
      let st4 := (F.clause_lit c).foldl (fun t p => addScore t p.var_num (-w)) st3
      sat F st4 c
    else st1
  else
    let st1 : State := { st with sat_count := setAt st.sat_count c (st.sat_count c - 1) }
    if st1.sat_count c = 1 then
      match (F.clause_lit c).find? (fun p => decide (p.sense = st1.cur_soln p.var_num)) with
      | some p =>
        let st2 := addScore st1 p.var_num (-w)
        { st2 with sat_var := setAt st2.sat_var c p.var_num }
      | none => st1
    else if st1.sat_count c = 0 then
      let st2 := (F.clause_lit c).foldl (fun t p => addScore t p.var_num w) st1
      let st3 := addScore st2 flipvar w
      unsat F st3 c
    else st1

/-- First part of `flip` (lines 604-659): `cur_soln[flipvar]` is inverted and the
occurrence loop runs over `var_lit[flipvar]`. -/
def flipOccurrences (F : Instance) (s : State) (flipvar : Nat) : State :=
  (var_lit F flipvar).foldl (flipStep F flipvar)
    { s with cur_soln := setAt s.cur_soln flipvar (1 - s.cur_soln flipvar) }

/-- The function `flip(flipvar)` (lines 597-668). -/
def flip (F : Instance) (s : State) (flipvar : Nat) : State :=
  let s2 := flipOccurrences F s flipvar
  let s3 := (s2.var_neighbor flipvar).foldl
    (fun t v => { t with conf_change := setAt t.conf_change v 1 }) s2
  { s3 with conf_change := setAt s3.conf_change flipvar 0 }

/-- A sequence of `flip` calls. -/
def flips (F : Instance) (s : State) (vs : List Nat) : State :=
  vs.foldl (flip F) s

/-- Number of occurrences of `v` among the literals of `ls`, counted when `v` is mutable. -/
def mutOcc (m : Nat → Bool) (ls : List lit) (v : Nat) : Int :=
  if m v then ((ls.map lit.var_num).count v : Int) else 0

/-- The clauses that have to be on the unsat stack when the first `n` clauses have been
classified: live clauses with `sat_count = 0`. -/
def isUnsat (n : Nat) (preSat : Nat → Bool) (sat_count : Nat → Int) (c : Nat) : Bool :=
  decide (c < n) && (!preSat c && decide (sat_count c = 0))

/-- The stack `stack[0..fill)` with its position index holds exactly the set `U`. -/
def StackInv (U : Nat → Bool) (stack : Nat → Nat) (fill : Nat) (index : Nat → Nat) : Prop :=
  (∀ i, i < fill → U (stack i) = true ∧ index (stack i) = i) ∧
  (∀ c, U c = true → index c < fill ∧ stack (index c) = c)

/-- Number of clauses of the set `U` that contain variable `v`. -/
def unsatOcc (F : Instance) (U : Nat → Bool) (v : Nat) : Nat :=
  (List.range F.num_clauses).countP (fun c => U c && decide (v ∈ clauseVars F c))

/-- The array `unsat_app_count` agrees with `unsatOcc` on the mutable variables `1..num_vars`. -/
def CountInv (F : Instance) (m : Nat → Bool) (U : Nat → Bool) (cnt : Nat → Int) : Prop :=
  ∀ v, 1 ≤ v → v ≤ F.num_vars → m v = true → cnt v = (unsatOcc F U v : Int)

/-- The unsat stack and the unsat-appearance counts of state `s` represent the set `U`. -/
def SetInv (F : Instance) (U : Nat → Bool) (s : State) : Prop :=
  StackInv U s.unsat_stack s.unsat_stack_fill_pointer s.index_in_unsat_stack ∧
    CountInv F s.varMutable U s.unsat_app_count

/-- The fields that `flipStep` leaves alone or changes in a simple way. -/
structure StepFrame (flipvar : Nat) (t : State) (q : lit) (u : State) : Prop where
  varMutable : u.varMutable = t.varMutable
  preSat : u.preSat = t.preSat
  cur_soln : u.cur_soln = t.cur_soln
  best_soln : u.best_soln = t.best_soln
  var_neighbor : u.var_neighbor = t.var_neighbor
  conf_change : u.conf_change = t.conf_change
  closedFlag : u.closedFlag = t.closedFlag
  numPre : u.numPreFalsifiedClauses = t.numPreFalsifiedClauses
  sat_count : u.sat_count =
    if t.preSat q.clause_num = true then t.sat_count
    else setAt t.sat_count q.clause_num
      (t.sat_count q.clause_num + (if t.cur_soln flipvar = q.sense then 1 else -1))

/-- The value of `sat_count[q.clause_num]` after the step for occurrence `q`. -/
def stepVal (flipvar : Nat) (t : State) (q : lit) : Int :=
  if t.preSat q.clause_num = true then t.sat_count q.clause_num
  else t.sat_count q.clause_num + (if t.cur_soln flipvar = q.sense then 1 else -1)

/-- What the whole occurrence loop leaves alone, and what it does to `sat_count`. -/
structure LoopFrame (flipvar : Nat) (qs : List lit) (t u : State) : Prop where
  varMutable : u.varMutable = t.varMutable
  preSat : u.preSat = t.preSat
  cur_soln : u.cur_soln = t.cur_soln
  best_soln : u.best_soln = t.best_soln
  var_neighbor : u.var_neighbor = t.var_neighbor
  conf_change : u.conf_change = t.conf_change
  closedFlag : u.closedFlag = t.closedFlag
  numPre : u.numPreFalsifiedClauses = t.numPreFalsifiedClauses
  untouched : ∀ c, c ∉ qs.map lit.clause_num → u.sat_count c = t.sat_count c
  touched : (qs.map lit.clause_num).Nodup → ∀ q ∈ qs, u.sat_count q.clause_num = stepVal flipvar t q

/-- The guard under which a step keeps the stack consistent: the count is not decremented
below zero and not incremented from `-1`. -/
def StepOK (flipvar : Nat) (t : State) (q : lit) : Prop :=
  t.preSat q.clause_num = false →
    (t.cur_soln flipvar = q.sense → t.sat_count q.clause_num ≠ -1) ∧
    (t.cur_soln flipvar ≠ q.sense → t.sat_count q.clause_num ≠ 0)

/-- Number of literals of `ls` on a mutable variable whose sense equals `cur_soln`. -/
def mutTrue (m : Nat → Bool) (cur : Nat → Int) (ls : List lit) : Nat :=
  ls.countP (fun l => m l.var_num && decide (cur l.var_num = l.sense))

/-- Number of literals of `ls` whose sense equals `cur_soln` of their variable. -/
def trueCount (cur : Nat → Int) (ls : List lit) : Nat :=
  ls.countP (fun l => decide (cur l.var_num = l.sense))

/-- The invariant of the incremental SLS state between two calls of `flip`. -/
structure Inv (F : Instance) (s : State) : Prop where
  bin : ∀ v, 1 ≤ v → v ≤ F.num_vars → s.varMutable v = true →
    (s.cur_soln v = 0 ∨ s.cur_soln v = 1)
  cnt : ∀ c, c < F.num_clauses → s.preSat c = false →
    s.sat_count c = (mutTrue s.varMutable s.cur_soln (F.clause_lit c) : Int)
  set : SetInv F (isUnsat F.num_clauses s.preSat s.sat_count) s

/-- The clause has an immutable literal of positive sense: the test of line 538. -/
def hasImmPos (m : Nat → Bool) (ls : List lit) : Bool :=
  ls.any (fun l => !m l.var_num && decide (l.sense ≠ 0))

/-- The clause has an immutable literal that is true under `cur_soln`. -/
def hasImmTrue (m : Nat → Bool) (cur : Nat → Int) (ls : List lit) : Bool :=
  ls.any (fun l => !m l.var_num && decide (l.sense = cur l.var_num))

/-- Every literal of the clause is immutable. -/
def allImm (m : Nat → Bool) (ls : List lit) : Bool :=
  ls.all (fun l => !m l.var_num)

/-- Every literal of the clause is immutable and of sense 0. -/
def allImmNeg (m : Nat → Bool) (ls : List lit) : Bool :=
  ls.all (fun l => !m l.var_num && decide (l.sense = 0))

/-- Every literal of the clause is immutable and none is true under `cur_soln`. -/
def allImmFalse (m : Nat → Bool) (cur : Nat → Int) (ls : List lit) : Bool :=
  ls.all (fun l => !m l.var_num && !decide (l.sense = cur l.var_num))

/-- The state `t` of the clause loop of `init` after clauses `0..n-1`, started from `b`. -/
structure ClauseInv (F : Instance) (b : State) (n : Nat) (t : State) : Prop where
  varMutable : t.varMutable = b.varMutable
  cur_soln : t.cur_soln = b.cur_soln
  best_soln : t.best_soln = b.best_soln
  conf_change : t.conf_change = b.conf_change
  score : t.score = b.score
  var_neighbor : t.var_neighbor = b.var_neighbor
  preSat_lt : ∀ c, c < n →
    t.preSat c = (hasImmPos b.varMutable (F.clause_lit c) || allImm b.varMutable (F.clause_lit c))
  cnt : ∀ c, c < n → t.preSat c = false →
    t.sat_count c = (mutTrue b.varMutable b.cur_soln (F.clause_lit c) : Int)
  numPre : t.numPreFalsifiedClauses =
    b.numPreFalsifiedClauses +
      ((List.range n).countP (fun c => allImmNeg b.varMutable (F.clause_lit c)) : Int)
  closed : t.closedFlag = (b.closedFlag && (List.range n).all (fun c => t.preSat c))

/-- What one pass of the clause loop of `init` does to the fields outside the stacks. -/
structure ClauseStep (F : Instance) (t : State) (c : Nat) (u : State) : Prop where
  varMutable : u.varMutable = t.varMutable
  cur_soln : u.cur_soln = t.cur_soln
  best_soln : u.best_soln = t.best_soln
  conf_change : u.conf_change = t.conf_change
  score : u.score = t.score
  var_neighbor : u.var_neighbor = t.var_neighbor
  preSat : u.preSat = setAt t.preSat c (scanClause F t c).clausePresat
  sat_count : u.sat_count = setAt t.sat_count c (scanClause F t c).sat_count
  numPre : u.numPreFalsifiedClauses =
    t.numPreFalsifiedClauses + (if (scanClause F t c).preFalsified = true then 1 else 0)
  closed : u.closedFlag = (t.closedFlag && (scanClause F t c).clausePresat)

/-- The globals as the C runtime zero-initialises them, with a given mutability mask,
current assignment and best assignment. -/
def zeroState (m : Nat → Bool) (cur best : Nat → Int) : State :=
  { varMutable := m, preSat := fun _ => false, closedFlag := false, numPreFalsifiedClauses := 0,
    score := fun _ => 0, conf_change := fun _ => 0, var_neighbor := fun _ => [],
    sat_count := fun _ => 0, sat_var := fun _ => 0, unsat_stack := fun _ => 0,
    unsat_stack_fill_pointer := 0, index_in_unsat_stack := fun _ => 0,
    unsatvar_stack := fun _ => 0, unsatvar_stack_fill_pointer := 0,
    index_in_unsatvar_stack := fun _ => 0, unsat_app_count := fun _ => 0,
    cur_soln := cur, best_soln := best, total_unsat_clause_weight := 0 }

/-- A formula store given by its clause lists and weights. -/
def mkInstance (n : Nat) (cls : List (List lit)) (w : List Int) : Instance :=
  { num_vars := n, num_clauses := cls.length, clause_lit := fun c => cls.getD c [],
    clause_weight := fun c => w.getD c 1 }

/-- The clause `(x1 ∨ x2)`. -/
def exPosPos : Instance := mkInstance 2 [[⟨0, 1, 1⟩, ⟨0, 2, 1⟩]] [1]

/-- The clauses `(¬x1 ∨ x2)` and `(x2 ∨ x3)`. -/
def exTwo : Instance := mkInstance 3 [[⟨0, 1, 0⟩, ⟨0, 2, 1⟩], [⟨1, 2, 1⟩, ⟨1, 3, 1⟩]] [1, 1]

/-- Variable 1 is immutable and fixed to 1, the others are mutable with best value 1. -/
def stFix1True : State :=
  zeroState (fun v => decide (v ≠ 1)) (fun v => if v = 1 then 1 else 0) (fun _ => 1)

/-- Every variable is mutable, the best assignment is all 0. -/
def stAllMutable : State := zeroState (fun _ => true) (fun _ => 0) (fun _ => 0)

/-- Variable 1 is immutable and fixed to 0, the others are mutable with best value 1. -/
def stFix1False : State :=
  zeroState (fun v => decide (v ≠ 1)) (fun _ => 0) (fun _ => 1)

/-- The clause `(¬x1 ∨ x2)`. -/
def exNegPos : Instance := mkInstance 2 [[⟨0, 1, 0⟩, ⟨0, 2, 1⟩]] [1]

/-- The weighted unit clause `(¬x1)` of weight 5. -/
def exWeighted : Instance := mkInstance 1 [[⟨0, 1, 0⟩]] [5]

/-- The clause `(¬x1 ∨ x2 ∨ x3)`. -/
def exThree : Instance := mkInstance 3 [[⟨0, 1, 0⟩, ⟨0, 2, 1⟩, ⟨0, 3, 1⟩]] [1]

/-- Total weight of the clauses all of whose literals are immutable and none of whose
literals is true under `cur_soln`. -/
def preFalsifiedWeight (F : Instance) (s : State) : Int :=
  (((List.range F.num_clauses).filter
      (fun c => allImmFalse s.varMutable s.cur_soln (F.clause_lit c))).map F.clause_weight).sum

/-- The contribution of clause `c` to the score of `v` in the formula of the spec:
`+weight` if the clause is unsat, `-weight` if `sat_count = 1` and the literal of `v` in `c`
is true, `0` otherwise. -/
def scoreTerm (F : Instance) (s : State) (v c : Nat) : Int :=
  if s.sat_count c = 0 then F.clause_weight c
  else if s.sat_count c = 1 ∧ (∃ l ∈ F.clause_lit c, l.var_num = v ∧ l.sense = s.cur_soln v) then
    - F.clause_weight c
  else 0

/-- The score formula of the spec: the sum of `scoreTerm` over the live clauses containing `v`. -/
def scoreSpec (F : Instance) (s : State) (v : Nat) : Int :=
  (((List.range F.num_clauses).filter
      (fun c => !s.preSat c && decide (v ∈ clauseVars F c))).map (scoreTerm F s v)).sum

/-- The summand of the loop of `scoreOf` for the occurrence `q` of `v`. -/
def occTerm (F : Instance) (s : State) (v : Nat) (q : lit) : Int :=
  if s.preSat q.clause_num = true then 0
  else if s.sat_count q.clause_num = 0 then F.clause_weight q.clause_num
  else if s.sat_count q.clause_num = 1 ∧ q.sense = s.cur_soln v then
    - F.clause_weight q.clause_num
  else 0

end CCLS

namespace UBCSAT

open CCLS (setAt)

/-- What `setPreSat` and `setAlwaysSat` read of the UBCSAT instance. The literal macros
`GetVarFromLit`, `GetLitSign` and `IsLitTrue` of ubcsat-lit.h (the last one under the current
`aVarValue`) are parameters; `aClauseLen[j]` is the length of `pClauseLits j`. -/
structure Formula where
  iNumClauses : Nat
  pClauseLits : Nat → List Nat
  GetVarFromLit : Nat → Nat
  GetLitSign : Nat → Bool
  IsLitTrue : Nat → Bool

/-- The literal loop of `setPreSat` (uct.c lines 469-478), with its `break`. -/
def presatScan (P : Formula) (varMutable : Nat → Bool) : List Nat → Bool → Bool
  | [], clausePresat => clausePresat
  | L :: rest, clausePresat =>
    if varMutable (P.GetVarFromLit L) then presatScan P varMutable rest false
    else if P.IsLitTrue L then true
    else presatScan P varMutable rest clausePresat

/-- The globals written by `setPreSat`. -/
structure PreSatState where
  preSat : Nat → Bool
  closedFlag : Bool

/-- Body of the clause loop of `setPreSat` (uct.c lines 461-487) for clause `j`. -/
def setPreSatClause (P : Formula) (varMutable alwaysSat : Nat → Bool) (st : PreSatState)
    (j : Nat) : PreSatState :=
  if alwaysSat j then { st with preSat := setAt st.preSat j true }
  else if presatScan P varMutable (P.pClauseLits j) true then
    { st with preSat := setAt st.preSat j true }
  else { preSat := setAt st.preSat j false, closedFlag := false }

/-- The function `setPreSat()` (uct.c lines 451-488). -/
def setPreSat (P : Formula) (varMutable alwaysSat : Nat → Bool) (st : PreSatState) :
    PreSatState :=
  (List.range P.iNumClauses).foldl (setPreSatClause P varMutable alwaysSat)
    { st with closedFlag := true }

/-- The inner loop of `setAlwaysSat` (uct.c lines 506-514) for the literal at position `k`:
`pLit2` starts at `pLit` (position `k`) and advances once per iteration `l = k+1 .. len-1`,
so iteration `l` inspects the literal at position `k + (l - (k + 1))`. -/
def alwaysSatInner (P : Formula) (lits : List Nat) (k : Nat) : Bool :=
  (List.range' (k + 1) (lits.length - (k + 1))).any (fun l =>
    decide (P.GetVarFromLit (lits.getD (k + (l - (k + 1))) 0) = P.GetVarFromLit (lits.getD k 0))
      && !P.GetLitSign (lits.getD (k + (l - (k + 1))) 0))

/-- The literal loop of `setAlwaysSat` (uct.c lines 503-521) on one clause: the value left in
`alwaysSat[j]`. -/
def alwaysSatClause (P : Formula) (lits : List Nat) : Bool :=
  (List.range lits.length).any (fun k =>
    P.GetLitSign (lits.getD k 0) && alwaysSatInner P lits k)

/-- The function `setAlwaysSat()` (uct.c lines 492-524). -/
def setAlwaysSat (P : Formula) (alwaysSat : Nat → Bool) : Nat → Bool :=
  (List.range P.iNumClauses).foldl
    (fun a j => setAt a j (alwaysSatClause P (P.pClauseLits j))) alwaysSat

/-- The clause has an immutable literal that is true. -/
def hasImmTrueLit (P : Formula) (varMutable : Nat → Bool) (lits : List Nat) : Bool :=
  lits.any (fun L => !varMutable (P.GetVarFromLit L) && P.IsLitTrue L)

/-- Every literal of the clause is immutable. -/
def allImmLits (P : Formula) (varMutable : Nat → Bool) (lits : List Nat) : Bool :=
  lits.all (fun L => !varMutable (P.GetVarFromLit L))

/-- The clause contains some variable with both signs. -/
def hasBothSigns (P : Formula) (lits : List Nat) : Bool :=
  lits.any (fun a => lits.any (fun b =>
    decide (P.GetVarFromLit a = P.GetVarFromLit b) && P.GetLitSign a && !P.GetLitSign b))

/-- A literal encoding: the literal of variable `v` is `2v + 1` when positive and `2v` when
negative, `GetLitSign` is the low bit, and every variable is false. -/
def exFormula (cls : List (List Nat)) : Formula :=
  { iNumClauses := cls.length, pClauseLits := fun j => cls.getD j [],
    GetVarFromLit := fun L => L / 2, GetLitSign := fun L => decide (L % 2 = 1),
    IsLitTrue := fun L => decide (L % 2 = 0) }

/-- The globals written by `setPreSat`, zero-initialised. -/
def zeroPreSat : PreSatState := { preSat := fun _ => false, closedFlag := false }

end UBCSAT

namespace CCLS

/-- The variables that have to be on the unsat-var stack: the mutable variables of
`1..num_vars` with a positive unsat-appearance count. -/
def isUnsatVar (n : Nat) (m : Nat → Bool) (cnt : Nat → Int) (v : Nat) : Bool :=
  m v && (decide (1 ≤ v ∧ v ≤ n) && decide (0 < cnt v))

/-- The unsat-var stack with its position index holds exactly the mutable variables with a
positive unsat-appearance count. -/
def VarInv (F : Instance) (s : State) : Prop :=
  StackInv (isUnsatVar F.num_vars s.varMutable s.unsat_app_count) s.unsatvar_stack
    s.unsatvar_stack_fill_pointer s.index_in_unsatvar_stack

/-! ### main_uct.cpp: the picker, the playout and the branching heuristic -/

/-- The constant `RAND_MAX_INT` of main_uct.cpp. -/
def RAND_MAX_INT : Nat := 10000000

/-- The globals of main_uct.cpp on top of those of basic_uct.h. The field `rnd` is the
sequence of values that successive calls of `rand()` return and `pos` the number of calls made
so far. The array `varScores` is kept between calls of `setBranchingAtom`. -/
structure Globals where
  s : State
  bestNumUnsat : Nat
  step : Nat
  varScores : Nat → Int
  nextBranchingAtom : Nat
  rnd : Nat → Nat
  pos : Nat

/-- One call of `rand()`. -/
def rand (g : Globals) : Nat × Globals :=
  (g.rnd g.pos, { g with pos := g.pos + 1 })

/-- The second loop of the greedy branch of `pick_var` (lines 313-328): `acc` is
`best_array[0..best_array_count)` with `best_score`. -/
def greedyRest (st : State) : List Nat → List Nat × Int → List Nat × Int
  | [], acc => acc
  | v :: vs, acc =>
    if st.varMutable v = false then greedyRest st vs acc
    else if st.conf_change v = 0 then greedyRest st vs acc
    else if st.score v > acc.2 then greedyRest st vs ([v], st.score v)
    else if st.score v = acc.2 then greedyRest st vs (acc.1 ++ [v], acc.2)
    else greedyRest st vs acc

/-- The first loop of the greedy branch of `pick_var` (lines 300-312), which hands over to
the second loop at its `break`. -/
def greedyScan (st : State) : List Nat → List Nat × Int
  | [] => ([], 0)
  | v :: vs =>
    if st.varMutable v = false then greedyScan st vs
    else if st.conf_change v = 1 then greedyRest st vs ([v], st.score v)
    else greedyScan st vs

/-- The entries `unsatvar_stack[0..unsatvar_stack_fill_pointer)`. -/
def unsatVars (st : State) : List Nat :=
  (List.range st.unsatvar_stack_fill_pointer).map st.unsatvar_stack

/-- The function `pick_var()` (lines 278-335). In C `rand() % 0` is undefined; here `%` is
the total remainder of `Nat`, an empty `best_array` yields variable 0 and a position past a
clause yields the sentinel variable 0. -/
def pick_var (F : Instance) (prob : Int) (g : Globals) : Nat × Globals :=
  let (r0, g0) := rand g
  if ((r0 % RAND_MAX_INT : Nat) : Int) < prob then
    let (r1, g1) := rand g0
    let c := g.s.unsat_stack (r1 % g.s.unsat_stack_fill_pointer)
    let best_array :=
      ((F.clause_lit c).map lit.var_num).filter (fun v => g.s.varMutable v)
    let (r2, g2) := rand g1
    (best_array.getD (r2 % best_array.length) 0, g2)
  else
    let best_array := (greedyScan g.s (unsatVars g.s)).1
    if best_array.length > 0 then
      let (r1, g1) := rand g0
      (best_array.getD (r1 % best_array.length) 0, g1)
    else
      let (r1, g1) := rand g0
      let c := g.s.unsat_stack (r1 % g.s.unsat_stack_fill_pointer)
      let (r2, g2) := rand g1
      (((F.clause_lit c).map lit.var_num).getD (r2 % (F.clause_lit c).length) 0, g2)

/-- The sum `total_unsat_clause_weight + numPreFalsifiedClauses` in `unsigned long long`. -/
def unsatSum (s : State) : Nat :=
  (s.total_unsat_clause_weight + toULL s.numPreFalsifiedClauses) % 2 ^ 64

/-- The copy loop `best_soln[v] = cur_soln[v]` for `v = 1..num_vars` (lines 349-350 and
366-367). -/
def copyBest (F : Instance) (s : State) : State :=
  (List.range' 1 F.num_vars).foldl
    (fun st v => { st with best_soln := setAt st.best_soln v (st.cur_soln v) }) s

/-- The block of lines 344-352 and of lines 364-368: when `local_opt` is below
`bestNumUnsat`, it becomes the incumbent value and `cur_soln` is copied into `best_soln`. -/
def recordBest (F : Instance) (g : Globals) (local_opt : Nat) : Globals :=
  if local_opt < g.bestNumUnsat then
    { g with bestNumUnsat := local_opt, s := copyBest F g.s }
  else g

/-- The conversion of an `unsigned long long` to the `int` that `local_search` returns. -/
def toInt32 (x : Nat) : Int :=
  if x % 2 ^ 32 < 2 ^ 31 then ((x % 2 ^ 32 : Nat) : Int) else ((x % 2 ^ 32 : Nat) : Int) - 2 ^ 32

/-- The value returned by `local_search` and the globals it leaves. -/
structure LSResult where
  ret : Int
  g : Globals

/-- The head of a step of the loop of `local_search` (lines 361-371): the pair of the
globals and `local_opt` after the bookkeeping. -/
def lsCheck (F : Instance) (g : Globals) (local_opt : Nat) : Globals × Nat :=
  if unsatSum g.s < local_opt then (recordBest F g (unsatSum g.s), unsatSum g.s)
  else (g, local_opt)

/-- The rest of a step of the loop of `local_search` (lines 378-382 and the `step++` of the
loop header): a variable is picked and, when it is mutable, flipped. -/
def lsMove (F : Instance) (prob : Int) (g : Globals) : Globals :=
  let p := pick_var F prob g
  let g3 : Globals :=
    if p.2.s.varMutable p.1 = true then { p.2 with s := flip F p.2.s p.1 } else p.2
  { g3 with step := g3.step + 1 }

/-- The loop of `local_search` (lines 358-385); the first argument is `maxFlips - step`. -/
def lsLoop (F : Instance) (prob : Int) : Nat → Globals → Nat → LSResult
  | 0, g, local_opt =>
    { ret := toInt32 ((local_opt + toULL g.s.numPreFalsifiedClauses) % 2 ^ 64), g := g }
  | fuel + 1, g, local_opt =>
    if (lsCheck F g local_opt).1.s.total_unsat_clause_weight = 0 then
      { ret := toInt32 (lsCheck F g local_opt).2, g := (lsCheck F g local_opt).1 }
    else lsLoop F prob fuel (lsMove F prob (lsCheck F g local_opt).1) (lsCheck F g local_opt).2

/-- The function `local_search()` (lines 339-386). -/
def local_search (F : Instance) (prob : Int) (maxFlips : Nat) (g : Globals) : LSResult :=
  let local_opt := unsatSum g.s
  let g1 := recordBest F g local_opt
  if g1.s.total_unsat_clause_weight = 0 then { ret := toInt32 local_opt, g := g1 }
  else lsLoop F prob maxFlips { g1 with step := 0 } local_opt

/-- The counting loop of `setBranchingAtom` (lines 205-210): one increment of
`varScores[var_num]` per literal of every non-pre-sat clause. -/
def countLive (F : Instance) (preSat : Nat → Bool) (varScores : Nat → Int) : Nat → Int :=
  (List.range F.num_clauses).foldl
    (fun a j =>
      if preSat j = true then a
      else (F.clause_lit j).foldl (fun a l => setAt a l.var_num (a l.var_num + 1)) a)
    varScores

/-- The selection loop of `setBranchingAtom` (lines 212-223): `bestVars[0..numBest)` and
`bestScore` after the variables `1..num_vars`. -/
def selectBest (n : Nat) (varMutable : Nat → Bool) (varScores : Nat → Int) : List Nat × Int :=
  (List.range' 1 n).foldl
    (fun acc j =>
      if varMutable j = false then acc
      else if varScores j > acc.2 then ([j], varScores j)
      else if varScores j = acc.2 then (acc.1 ++ [j], acc.2)
      else acc)
    ([], -1)

/-- The function `setBranchingAtom()` of main_uct.cpp (lines 196-231). The reset loop runs
over `j = 0..num_vars-1`; the cell `varScores[num_vars]`, one past the allocation
`new int[num_vars]`, is modelled as a cell of the same array. -/
def setBranchingAtom (F : Instance) (g : Globals) : Globals :=
  let vs0 := (List.range F.num_vars).foldl (fun a j => setAt a j 0) g.varScores
  let vs1 := countLive F g.s.preSat vs0
  let bestVars := (selectBest F.num_vars g.s.varMutable vs1).1
  if bestVars.length = 0 then { g with varScores := vs1, nextBranchingAtom := 0 }
  else
    let (r, g1) := rand g
    { g1 with varScores := vs1, nextBranchingAtom := bestVars.getD (r % bestVars.length) 0 }

/-- The number of literal occurrences of `v` in the non-pre-sat clauses. -/
def liveOcc (F : Instance) (preSat : Nat → Bool) (v : Nat) : Nat :=
  (((List.range F.num_clauses).filter (fun j => !preSat j)).map
    (fun j => (clauseVars F j).count v)).sum

/-- Globals around a state of basic_uct.h, with zeroed `varScores`, a huge incumbent value
and the constant random sequence 0. -/
def mkGlobals (s : State) : Globals :=
  { s := s, bestNumUnsat := 100000000, step := 0, varScores := fun _ => 0,
    nextBranchingAtom := 0, rnd := fun _ => 0, pos := 0 }

/-- Total weight, as `unsigned long long` summands, of the clauses of the set `U`. -/
def wsum (F : Instance) (U : Nat → Bool) : Nat :=
  (((List.range F.num_clauses).filter U).map (fun c => toULL (F.clause_weight c))).sum

/-- Total weight of all the clauses. -/
def totalWeight (F : Instance) : Nat :=
  ((List.range F.num_clauses).map (fun c => toULL (F.clause_weight c))).sum

/-- The counter `total_unsat_clause_weight` is the weight of the set `U`. -/
def TotInv (F : Instance) (U : Nat → Bool) (s : State) : Prop :=
  s.total_unsat_clause_weight = wsum F U

/-- The invariant of the SLS state that `local_search` relies on: `Inv` together with the
weight of the unsat stack. -/
structure Good (F : Instance) (s : State) : Prop where
  inv : Inv F s
  tot : TotInv F (isUnsat F.num_clauses s.preSat s.sat_count) s

/-- One moment of a playout as seen from the incumbent: either `bestNumUnsat` and
`best_soln` are both left as they are, or the sum
`total_unsat_clause_weight + numPreFalsifiedClauses` of the current state is strictly below
`bestNumUnsat`, becomes the new `bestNumUnsat`, and `cur_soln[v]` is copied into
`best_soln[v]` for `v = 1..num_vars` (the other cells of `best_soln` are left alone). -/
inductive BestStep (F : Instance) : Globals → Globals → Prop
  | keep (g h : Globals) :
      h.bestNumUnsat = g.bestNumUnsat → h.s.best_soln = g.s.best_soln → BestStep F g h
  | improve (g h : Globals) :
      unsatSum g.s < g.bestNumUnsat → h.bestNumUnsat = unsatSum g.s →
      (∀ v, 1 ≤ v → v ≤ F.num_vars → h.s.best_soln v = g.s.cur_soln v) →
      (∀ v, ¬ (1 ≤ v ∧ v ≤ F.num_vars) → h.s.best_soln v = g.s.best_soln v) →
      BestStep F g h

/-- The clauses `(¬x1)`, `(x2)` and `(¬x2)`. -/
def exUnsatPair : Instance :=
  mkInstance 2 [[⟨0, 1, 0⟩], [⟨1, 2, 1⟩], [⟨2, 2, 0⟩]] [1, 1, 1]

/-- The clauses `(x1)` and `(x2)`. -/
def exTwoUnits : Instance := mkInstance 2 [[⟨0, 1, 1⟩], [⟨1, 2, 1⟩]] [1, 1]

/-- The clauses `(x1)` and `(x1 ∨ x2)`. -/
def exOneTwo : Instance := mkInstance 2 [[⟨0, 1, 1⟩], [⟨1, 1, 1⟩, ⟨1, 2, 1⟩]] [1, 1]

/-- A formula with one variable and no clause. -/
def exNoClause : Instance := mkInstance 1 [] []

/-- The globals at the successive program points of the loop of `local_search`: at the top of
a step, after the block of lines 361-371, and after the (possible) flip of lines 378-382,
which is the top of the next step. -/
def lsTrace (F : Instance) (prob : Int) : Nat → Globals → Nat → List Globals
  | 0, g, _ => [g]
  | fuel + 1, g, local_opt =>
    if (lsCheck F g local_opt).1.s.total_unsat_clause_weight = 0 then
      [g, (lsCheck F g local_opt).1]
    else
      g :: (lsCheck F g local_opt).1 ::
        lsTrace F prob fuel (lsMove F prob (lsCheck F g local_opt).1) (lsCheck F g local_opt).2

/-- The globals at the successive program points of `local_search`: at entry, after the block
of lines 344-352, and then those of the loop. -/
def searchTrace (F : Instance) (prob : Int) (maxFlips : Nat) (g : Globals) : List Globals :=
  let local_opt := unsatSum g.s
  let g1 := recordBest F g local_opt
  if g1.s.total_unsat_clause_weight = 0 then [g, g1]
  else g :: g1 :: lsTrace F prob maxFlips { g1 with step := 0 } local_opt

end CCLS

namespace UBCSAT

open CCLS (setAt)

/-- The counting loop of `setBranchingAtom` (uct.c lines 254-260): one increment of
`varScores[GetVar(j,k)]` per literal of every non-pre-sat clause. The macro `GetVar(j,k)` of
UBCSAT is the variable of the `k`-th literal of clause `j`. -/
def countScores (P : Formula) (preSat : Nat → Bool) (varScores : Nat → Int) : Nat → Int :=
  (List.range P.iNumClauses).foldl
    (fun a j =>
      if preSat j = true then a
      else (P.pClauseLits j).foldl
        (fun a L => setAt a (P.GetVarFromLit L) (a (P.GetVarFromLit L) + 1)) a)
    varScores

/-- The function `setBranchingAtom()` of uct.c (lines 243-285): the value left in
`nextBranchingAtom`. The local array `varScores` starts with arbitrary contents, the reset
loop runs over `j = 1..iNumVars`, the selection loop is the one of main_uct.cpp, and
`RandomInt` of UBCSAT is a parameter. -/
def setBranchingAtom (P : Formula) (iNumVars : Nat) (preSat varMutable : Nat → Bool)
    (varScores : Nat → Int) (RandomInt : Nat → Nat) : Nat :=
  let vs0 := (List.range' 1 iNumVars).foldl (fun a j => setAt a j 0) varScores
  let vs1 := countScores P preSat vs0
  let bestVars := (CCLS.selectBest iNumVars varMutable vs1).1
  if bestVars.length = 0 then 0
  else bestVars.getD (RandomInt bestVars.length) 0

end UBCSAT

namespace UBCSAT

open CCLS (setAt)

/-- The event points at which `ubcsatrun` calls `RunProcedures`. -/
inductive Event
  | PreRun | PreStep | CheckRestart | PreInit | InitData | InitStateInfo | PostInit
  | ChooseCandidate | PreFlip | FlipCandidate | UpdateStateInfo | PostFlip
  | PostStep | StepCalculations | CheckTerminate | RunCalculations | PostRun

/-- The globals of UBCSAT that `ubcsatrun` reads or writes, and the rest of the state of
UBCSAT (`rest`), which only the procedures behind `RunProcedures` touch. -/
structure Engine (ι : Type) where
  iRun : Nat
  iStep : Nat
  iCutoff : Nat
  iFlipCandidate : Nat
  iNumVars : Nat
  bSolutionFound : Bool
  bTerminateRun : Bool
  bRestart : Bool
  iBestNumFalse : Nat
  aVarValue : Nat → Int
  rest : ι

/-- The state of a playout of uct.c: the UBCSAT engine and the two globals of uct.c used by
`ubcsatrun`, `bestSoln` and `runBestNumFalse`. -/
structure UctRun (ι : Type) where
  e : Engine ι
  bestSoln : Nat → Int
  runBestNumFalse : Int

/-- The copy loop of lines 409-411: `bestSoln[j] = aVarValue[j]` for `j = 1..iNumVars`. -/
def copySoln (iNumVars : Nat) (aVarValue bestSoln : Nat → Int) : Nat → Int :=
  (List.range' 1 iNumVars).foldl (fun b j => setAt b j (aVarValue j)) bestSoln

/-- One iteration of the loop of `ubcsatrun` (uct.c lines 388-421). `RunProcedures`, which
belongs to UBCSAT, is the parameter `RP`. -/
def ubcsatStep {ι : Type} (RP : Event → Engine ι → Engine ι) (st : UctRun ι) : UctRun ι :=
  let e1 : Engine ι := { st.e with iStep := st.e.iStep + 1, iFlipCandidate := 0 }
  let e2 := RP Event.CheckRestart (RP Event.PreStep e1)
  let st3 : UctRun ι :=
    if e2.bRestart = true then
      { st with
          e := { RP Event.PostInit (RP Event.InitStateInfo (RP Event.InitData
                  (RP Event.PreInit e2))) with bRestart := false } }
    else
      let e3 := RP Event.PostFlip (RP Event.UpdateStateInfo (RP Event.FlipCandidate
        (RP Event.PreFlip (RP Event.ChooseCandidate e2))))
      if (e3.iBestNumFalse : Int) < st.runBestNumFalse then
        { st with e := e3, bestSoln := copySoln e3.iNumVars e3.aVarValue st.bestSoln }
      else { st with e := e3 }
  { st3 with
      e := RP Event.CheckTerminate (RP Event.StepCalculations (RP Event.PostStep st3.e)) }

/-- The loop of `ubcsatrun` (uct.c line 386); `none` when the fuel runs out before the loop
condition fails. -/
def ubcsatLoop {ι : Type} (RP : Event → Engine ι → Engine ι) :
    Nat → UctRun ι → Option (UctRun ι)
  | 0, st =>
    if st.e.iStep < st.e.iCutoff ∧ st.e.bSolutionFound = false ∧ st.e.bTerminateRun = false
    then none else some st
  | fuel + 1, st =>
    if st.e.iStep < st.e.iCutoff ∧ st.e.bSolutionFound = false ∧ st.e.bTerminateRun = false
    then ubcsatLoop RP fuel (ubcsatStep RP st) else some st

/-- The function `ubcsatrun()` (uct.c lines 374-429): the value returned and the state left.
The run clock is not modelled. -/
def ubcsatrun {ι : Type} (RP : Event → Engine ι → Engine ι) (fuel : Nat) (st : UctRun ι) :
    Option (Nat × UctRun ι) :=
  let e0 : Engine ι :=
    { st.e with iRun := st.e.iRun + 1, iStep := 0, bSolutionFound := false,
                bTerminateRun := false, bRestart := true }
  match ubcsatLoop RP fuel { st with e := RP Event.PreRun e0 } with
  | none => none
  | some st1 =>
    some ((RP Event.PostRun (RP Event.RunCalculations st1.e)).iBestNumFalse,
      { st1 with e := RP Event.PostRun (RP Event.RunCalculations st1.e) })

/-- The constant `MAX_NUM_CLAUSES` of ubcsat.h. -/
def MAX_NUM_CLAUSES : Int := 10000

/-- Number of false clauses of `(x1) ∧ (x2) ∧ (¬x2)` under the assignment `a`. -/
def toyNumFalse (a : Nat → Int) : Nat := (if a 1 = 1 then 0 else 1) + 1

/-- A stand-in for the procedures of UBCSAT on the formula `(x1) ∧ (x2) ∧ (¬x2)`: the
initialisation sets every variable to 0, every flip step flips `x1`, and `iBestNumFalse` is
the smallest number of false clauses seen since the initialisation. -/
def toyProcedures : Event → Engine Unit → Engine Unit
  | Event.InitStateInfo, e =>
    { e with aVarValue := fun _ => 0, iBestNumFalse := toyNumFalse (fun _ => 0) }
  | Event.ChooseCandidate, e => { e with iFlipCandidate := 1 }
  | Event.FlipCandidate, e =>
    { e with aVarValue := setAt e.aVarValue e.iFlipCandidate (1 - e.aVarValue e.iFlipCandidate) }
  | Event.UpdateStateInfo, e =>
    { e with iBestNumFalse := min e.iBestNumFalse (toyNumFalse e.aVarValue) }
  | _, e => e

/-- The state at the start of a run of uct.c on the toy formula: `runBestNumFalse` is
`MAX_NUM_CLAUSES + 1` and `bestSoln` is all 1, with a cutoff of `cutoff` steps. -/
def toyStart (cutoff : Nat) : UctRun Unit :=
  { e := { iRun := 0, iStep := 0, iCutoff := cutoff, iFlipCandidate := 0, iNumVars := 2,
           bSolutionFound := false, bTerminateRun := false, bRestart := false,
           iBestNumFalse := 0, aVarValue := fun _ => 0, rest := () },
    bestSoln := fun _ => 1, runBestNumFalse := MAX_NUM_CLAUSES + 1 }

/-- The state left by `ubcsatrun`, or the state at entry when the fuel does not suffice. -/
def runState {ι : Type} (RP : Event → Engine ι → Engine ι) (fuel : Nat) (st : UctRun ι) :
    UctRun ι :=
  match ubcsatrun RP fuel st with
  | none => st
  | some r => r.2

end UBCSAT

namespace UCT

/-- An array of `BF = 2` cells indexed by the arm, `LEFT = 0` being `false` and `RIGHT = 1`
being `true`, with the cell `a` replaced by `v`. -/
def setArm {α : Type} (f : Bool → α) (a : Bool) (v : α) : Bool → α :=
  fun b => if b = a then v else f b

/-- The fields of a `uctnode` other than `children`. The rewards `x` are exact rationals
instead of doubles and the visit counts `n` are unbounded. -/
structure NodeData where
  x : Bool → ℚ
  n : Bool → Nat
  atom : Nat
  nextAtom : Bool → Nat
  closed : Bool → Bool
  depth : Int

/-- A search tree: a node without children (`children == NULL`) or a node with its two
children. -/
inductive uctnode
  | leaf (d : NodeData)
  | node (d : NodeData) (l r : uctnode)

/-- The fields of the root of a tree. -/
def uctnode.data : uctnode → NodeData
  | uctnode.leaf d => d
  | uctnode.node d _ _ => d

/-- What `playNode` uses of the rest of the program, over a state `E` of the globals: the
stores `varMutable[atom] = 0` and `cur_soln[atom] = arm` (`aVarValue` in uct.c),
`estimateReward()`, the globals `closedFlag`, `nextBranchingAtom` and `depthLimit`, and
`selectMove(node)`, whose floating-point scores and random tie-break are left abstract.
`uninit` is the content of `nextAtom` in freshly allocated memory. -/
structure World (E : Type) where
  markImmutable : Nat → E → E
  setValue : Nat → Bool → E → E
  estimateReward : E → ℚ × E
  closedFlag : E → Bool
  clearClosedFlag : E → E
  nextBranchingAtom : E → Nat
  selectMove : NodeData → E → Bool × E
  depthLimit : Int
  uninit : Bool → Nat

/-- The function `getNewNode(parent, armNum)` (main_uct.cpp lines 235-247, uct.c lines
303-315), with `MIN_REWARD = 0.0`. -/
def getNewNode {E : Type} (W : World E) (parent : NodeData) (armNum : Bool) : NodeData :=
  { x := fun _ => 0, n := fun _ => 0, atom := parent.nextAtom armNum, nextAtom := W.uninit,
    closed := fun _ => false, depth := parent.depth + 1 }

/-- The play of one arm in the first visit of a node (main_uct.cpp lines 48-56 for `LEFT`
and 58-66 for `RIGHT`). -/
def playArm {E : Type} (W : World E) (a : Bool) (d : NodeData) (e : E) : NodeData × E :=
  let r := W.estimateReward (W.setValue d.atom a e)
  if W.closedFlag r.2 = true then
    ({ d with x := setArm d.x a r.1, closed := setArm d.closed a true }, W.clearClosedFlag r.2)
  else
    ({ d with x := setArm d.x a r.1, nextAtom := setArm d.nextAtom a (W.nextBranchingAtom r.2) },
      r.2)

/-- The first visit of a node (main_uct.cpp lines 45-73): the reward, the node and the
globals afterwards. -/
def firstVisit {E : Type} (W : World E) (d : NodeData) (e : E) : ℚ × NodeData × E :=
  let p1 := playArm W false { d with n := fun _ => 1 } e
  let p2 := playArm W true p1.1 p1.2
  let reward := (p2.1.x false + p2.1.x true) / 2
  if p2.1.depth ≥ W.depthLimit then (reward, { p2.1 with closed := fun _ => true }, p2.2)
  else (reward, p2.1, p2.2)

/-- The value that `estimateReward()` returns for arm `a` in the first visit of a node. -/
def firstReward {E : Type} (W : World E) (d : NodeData) (e : E) (a : Bool) : ℚ :=
  let e0 := W.markImmutable d.atom e
  let r1 := W.estimateReward (W.setValue d.atom false e0)
  match a with
  | false => r1.1
  | true =>
    (W.estimateReward (W.setValue d.atom true (playArm W false { d with n := fun _ => 1 } e0).2)).1

/-- The arm played in a later visit (main_uct.cpp lines 77, 89, 101-102): `RIGHT` when the
left arm is closed, else `LEFT` when the right arm is closed, else `selectMove(node)`. -/
def chooseArm {E : Type} (W : World E) (d : NodeData) (e : E) : Bool × E :=
  if d.closed false = true then (true, e)
  else if d.closed true = true then (false, e)
  else W.selectMove d e

/-- The update after the recursion into arm `a` returned `reward` (main_uct.cpp lines 84,
96, 108 and 112-126), on a node whose `n[a]` has already been incremented; `c` is the child
on arm `a` after the recursion. -/
def backup (d : NodeData) (a : Bool) (reward : ℚ) (c : NodeData) : NodeData :=
  if (c.closed false && c.closed true) = true then
    { d with x := setArm d.x a (d.x a + (reward - d.x a) / (d.n a : ℚ)),
             closed := setArm d.closed a true }
  else { d with x := setArm d.x a (d.x a + (reward - d.x a) / (d.n a : ℚ)) }

/-- What a call of `playNode` leaves: the value returned, the local `armPlayed` (`none` for
`BOTH`), the tree below the node, and the globals. -/
structure Played (E : Type) where
  reward : ℚ
  armPlayed : Option Bool
  tree : uctnode
  env : E

/-- The end of a later visit: the recursion into arm `a` gave `p`, the node `d` (with `n[a]`
incremented) is updated and the child on arm `a` is the tree left by the recursion. -/
def finish {E : Type} (d : NodeData) (a : Bool) (l r : uctnode) (p : Played E) : Played E :=
  { reward := p.reward, armPlayed := some a,
    tree := match a with
      | false => uctnode.node (backup d a p.reward p.tree.data) p.tree r
      | true => uctnode.node (backup d a p.reward p.tree.data) l p.tree,
    env := p.env }

/-- The call `playNode(node)` on a node with `n[LEFT] == 0` and no children, after
`varMutable[node->atom] = 0`. -/
def playFresh {E : Type} (W : World E) (d : NodeData) (e : E) : Played E :=
  { reward := (firstVisit W d (W.markImmutable d.atom e)).1, armPlayed := none,
    tree := uctnode.leaf (firstVisit W d (W.markImmutable d.atom e)).2.1,
    env := (firstVisit W d (W.markImmutable d.atom e)).2.2 }

/-- The function `playNode(node)` (main_uct.cpp lines 37-128, uct.c lines 103-194). On a
node without children a later visit calls `createChildren`; the child it then recurses
into is fresh, so that call is a first visit. -/
def playNode {E : Type} (W : World E) : uctnode → E → Played E
  | uctnode.leaf d, e =>
    if d.n false = 0 then playFresh W d e
    else
      let c := chooseArm W d (W.markImmutable d.atom e)
      let d1 : NodeData := { d with n := setArm d.n c.1 (d.n c.1 + 1) }
      finish d1 c.1 (uctnode.leaf (getNewNode W d1 false)) (uctnode.leaf (getNewNode W d1 true))
        (playFresh W (getNewNode W d1 c.1) (W.setValue d.atom c.1 c.2))
  | uctnode.node d l r, e =>
    if d.n false = 0 then
      { reward := (firstVisit W d (W.markImmutable d.atom e)).1, armPlayed := none,
        tree := uctnode.node (firstVisit W d (W.markImmutable d.atom e)).2.1 l r,
        env := (firstVisit W d (W.markImmutable d.atom e)).2.2 }
    else
      let c := chooseArm W d (W.markImmutable d.atom e)
      let d1 : NodeData := { d with n := setArm d.n c.1 (d.n c.1 + 1) }
      finish d1 c.1 l r
        (match c.1 with
          | false => playNode W l (W.setValue d.atom false c.2)
          | true => playNode W r (W.setValue d.atom true c.2))

/-- The node reached from the root by the arms of the path, if it exists. -/
def nodeAt : uctnode → List Bool → Option NodeData
  | t, [] => some t.data
  | uctnode.leaf _, _ :: _ => none
  | uctnode.node _ l _, false :: p => nodeAt l p
  | uctnode.node _ _ r, true :: p => nodeAt r p

/-- The child on arm `a`, if the node has children. -/
def childOn : uctnode → Bool → Option NodeData
  | uctnode.leaf _, _ => none
  | uctnode.node _ l _, false => some l.data
  | uctnode.node _ _ r, true => some r.data

/-- A history of calls of `playNode` on one node, seen from arm `a`: the first visit, which
gives the arm the reward `r_1` of its playout, followed by calls that play arm `a` (the
recursion returning the next reward of the list) or the other arm. The globals at each call
are arbitrary. -/
inductive ArmRun {E : Type} (W : World E) (a : Bool) : uctnode → List ℚ → Prop
  | first (t : uctnode) (e : E) :
      t.data.n false = 0 → ArmRun W a (playNode W t e).tree [firstReward W t.data e a]
  | played (t : uctnode) (e : E) (rs : List ℚ) :
      ArmRun W a t rs → (playNode W t e).armPlayed = some a →
      ArmRun W a (playNode W t e).tree (rs ++ [(playNode W t e).reward])
  | other (t : uctnode) (e : E) (rs : List ℚ) :
      ArmRun W a t rs → (playNode W t e).armPlayed = some (!a) →
      ArmRun W a (playNode W t e).tree rs

/-- A world over a counter: the `k`-th playout returns the reward `1 / (k + 1)`, never sets
`closedFlag`, and `selectMove` always answers `LEFT`. -/
def toyWorld (limit : Int) : World Nat :=
  { markImmutable := fun _ e => e, setValue := fun _ _ e => e,
    estimateReward := fun e => (1 / ((e : ℚ) + 1), e + 1),
    closedFlag := fun _ => false, clearClosedFlag := fun e => e,
    nextBranchingAtom := fun e => e, selectMove := fun _ e => (false, e),
    depthLimit := limit, uninit := fun _ => 0 }

/-- The root as `setRootNode` leaves it, branching on variable 1. -/
def toyRoot : uctnode :=
  uctnode.leaf { x := fun _ => 0, n := fun _ => 0, atom := 1, nextAtom := fun _ => 0,
                 closed := fun _ => false, depth := 0 }

/-- The tree after the first call of `playNode` on `toyRoot`. -/
def toyTree1 (limit : Int) : uctnode := (playNode (toyWorld limit) toyRoot 0).tree

end UCT

namespace UCT

/-- The children of a node, if `children` is not `NULL`. -/
def uctnode.children : uctnode → Option (uctnode × uctnode)
  | uctnode.leaf _ => none
  | uctnode.node _ l r => some (l, r)

end UCT

namespace UCT

/-- The UCB1 score of arm `a` as `selectMove` computes it (main_uct.cpp lines 137-140, uct.c
lines 202-205), over an ordered field `K` in place of the floating-point type, with `sqrt`
and `log` of the C library as parameters. -/
def ucbScore {K : Type} [LinearOrderedField K] (sqrt log : K → K) (C : K) (x : Bool → K)
    (n : Bool → Nat) (a : Bool) : K :=
  x a + C * sqrt (log ((n false + n true : Nat) : K) / ((n a : Nat) : K))

/-- The function `selectMove(node)` (main_uct.cpp lines 133-147, uct.c lines 198-212);
`draw` is the value of `rand()` (of `RandomInt(BF)` in uct.c). -/
def selectMove {K : Type} [LinearOrderedField K] (sqrt log : K → K) (C : K) (x : Bool → K)
    (n : Bool → Nat) (draw : Nat) : Bool :=
  if ucbScore sqrt log C x n false = ucbScore sqrt log C x n true then decide (draw % 2 = 1)
  else decide (ucbScore sqrt log C x n true > ucbScore sqrt log C x n false)

/-- The reward that `estimateReward()` computes from the playout result `ls` (main_uct.cpp
lines 158-161, uct.c lines 222-224). -/
def rewardOf {K : Type} [LinearOrderedField K] (num_clauses ls : Int) : K :=
  (((num_clauses - ls : Int) : K) / ((num_clauses : Int) : K)) *
    (((num_clauses - ls : Int) : K) / ((num_clauses : Int) : K))

/-- The update `bestReward = (reward > bestReward) ? reward : bestReward`. -/
def updateBest {K : Type} [LinearOrderedField K] (bestReward reward : K) : K :=
  if reward > bestReward then reward else bestReward

end UCT

namespace CCLS

/-- The candidates of the greedy branch of `pick_var`: mutable variables with
`conf_change = 1`. -/
def isCand (st : State) (v : Nat) : Bool :=
  st.varMutable v && decide (st.conf_change v = 1)

end CCLS

namespace CCLS

/-- The globals written by `build_neighbor_relation`. The array `var_neighbor[v]` is the
allocated block of `var_neighbor_count[v] + 1` cells, terminator included. -/
structure Neighbors where
  neighbor_flag : Nat → Int
  var_neighbor : Nat → List Nat
  var_neighbor_count : Nat → Nat
  depthLimit : Int

/-- Body of the innermost loop of `build_neighbor_relation` (lines 170-175) for the variable
`u` of a literal: `acc` is `neighbor_flag` with `temp_neighbor[0..temp_neighbor_count)`. -/
def neighborStep (acc : (Nat → Int) × List Nat) (u : Nat) : (Nat → Int) × List Nat :=
  if acc.1 u = 0 then (setAt acc.1 u 1, acc.2 ++ [u]) else acc

/-- The two nested loops of `build_neighbor_relation` (lines 165-178) for variable `v`, over
the occurrences `var_lit[v]` and the literals of their clauses. -/
def neighborScan (F : Instance) (v : Nat) (acc : (Nat → Int) × List Nat) :
    (Nat → Int) × List Nat :=
  (var_lit F v).foldl
    (fun acc q => (F.clause_lit q.clause_num).foldl (fun acc l => neighborStep acc l.var_num) acc)
    acc

/-- Body of the outer loop of `build_neighbor_relation` (lines 160-193) for variable `v`. -/
def neighborVar (F : Instance) (nb : Neighbors) (v : Nat) : Neighbors :=
  let r := neighborScan F v (setAt nb.neighbor_flag v 1, [])
  let flag2 := setAt r.1 v 0
  { nb with
      neighbor_flag := r.2.foldl (fun f u => setAt f u 0) flag2
      var_neighbor := setAt nb.var_neighbor v (r.2 ++ [0])
      var_neighbor_count := setAt nb.var_neighbor_count v r.2.length }

/-- The function `build_neighbor_relation()` (basic_uct.h lines 152-194). -/
def build_neighbor_relation (F : Instance) (nb : Neighbors) : Neighbors :=
  (List.range' 1 F.num_vars).foldl (neighborVar F)
    { nb with depthLimit := (F.num_vars : Int) - 1 }

/-- The invariant of the scan for variable `v`: the flag of `u` is clear exactly when `u` is
neither `v` nor already collected, and no variable is collected twice. -/
def ScanInv (v : Nat) (acc : (Nat → Int) × List Nat) : Prop :=
  (∀ u, acc.1 u = 0 ↔ (u ≠ v ∧ u ∉ acc.2)) ∧ acc.2.Nodup

/-- Zero-initialised globals of the neighbour relation. -/
def zeroNeighbors : Neighbors :=
  { neighbor_flag := fun _ => 0, var_neighbor := fun _ => [], var_neighbor_count := fun _ => 0,
    depthLimit := 0 }

/-- The state `s` with `var_neighbor` as `build_neighbor_relation()` leaves it from
zero-initialised globals: the cells of each array before its terminator. -/
def withNeighbors (F : Instance) (s : State) : State :=
  { s with
      var_neighbor := fun v =>
        ((build_neighbor_relation F zeroNeighbors).var_neighbor v).take
          ((build_neighbor_relation F zeroNeighbors).var_neighbor_count v) }

/-- The clause `(¬x1 ∨ x2)` with `x1` immutable and fixed to 1 and the neighbour relation
built, after `init()` and `flip(2)`. -/
def exFallback : State :=
  flip exNegPos (init exNegPos (withNeighbors exNegPos stFix1True)) 2

/-- The globals written by `build_instance_weighted` and `build_instance_unweighted`. The
statistics `maxi_clause_len`, `mini_clause_len`, `maxi_clause_weight`, `mini_clause_weight`
and `probtype` are left out. -/
structure Build where
  num_clauses : Nat
  clause_lit : Nat → List lit
  clause_lit_count : Nat → Nat
  clause_weight : Nat → Int
  var_lit_count : Nat → Nat
  total_clause_weight : Nat
  temp_lit : Nat → Int

/-- The scan of `temp_lit[0..clause_lit_count[c])` for `cur_lit` (lines 293-303 and 368-378),
with its two `break`s: the pair (`lit_redundent`, clause found redundant). -/
def scanTemp (cur_lit : Int) : List Int → Bool × Bool
  | [] => (false, false)
  | t :: ts =>
    if cur_lit = t then (true, false)
    else if cur_lit = -t then (false, true)
    else scanTemp cur_lit ts

/-- The locals of the reading of one clause: `temp_lit`, `clause_lit_count[c]` and
`clause_redundent`. -/
structure Reading where
  temp_lit : Nat → Int
  count : Nat
  clause_redundent : Bool

/-- Body of the loop `while (cur_lit != 0)` (lines 290-313 and 365-388). -/
def readLit (r : Reading) (cur_lit : Int) : Reading :=
  let sc := scanTemp cur_lit ((List.range r.count).map r.temp_lit)
  let cr := r.clause_redundent || sc.2
  if sc.1 = false then
    { temp_lit := setAt r.temp_lit r.count cur_lit, count := r.count + 1, clause_redundent := cr }
  else { r with clause_redundent := cr }

/-- The stored literal for the integer `t` read in clause `c` (lines 320-323). -/
def toLit (c : Nat) (t : Int) : lit :=
  { clause_num := c, var_num := t.natAbs, sense := if t > 0 then 1 else 0 }

/-- Body of the clause loop (lines 283-351 and 361-426) at index `c` for a clause read as
the weight `cl.1` and the literals `cl.2` (the integers before the terminating 0): the new
globals and the new value of `c`. -/
def buildClause (b : Build) (c : Nat) (cl : Int × List Int) : Build × Nat :=
  let b1 : Build :=
    { b with clause_weight := setAt b.clause_weight c cl.1
             total_clause_weight := (b.total_clause_weight + toULL cl.1) % 2 ^ 64 }
  let r := cl.2.foldl readLit
    { temp_lit := b1.temp_lit, count := b1.clause_lit_count c, clause_redundent := false }
  if r.clause_redundent = false then
    let lits := (List.range r.count).map (fun i => toLit c (r.temp_lit i))
    ({ b1 with
        temp_lit := r.temp_lit
        clause_lit_count := setAt b1.clause_lit_count c r.count
        clause_lit := setAt b1.clause_lit c lits
        var_lit_count :=
          lits.foldl (fun a l => setAt a l.var_num (a l.var_num + 1)) b1.var_lit_count },
      c + 1)
  else
    ({ b1 with
        temp_lit := r.temp_lit
        num_clauses := b1.num_clauses - 1
        clause_lit_count := setAt b1.clause_lit_count c 0 },
      c)

/-- The loop `for (c = 0; c < num_clauses; )` over the clauses of the input stream. -/
def buildLoop : List (Int × List Int) → Build → Nat → Build
  | [], b, _ => b
  | cl :: rest, b, c =>
    if c < b.num_clauses then buildLoop rest (buildClause b c cl).1 (buildClause b c cl).2
    else b

/-- The function `build_instance_weighted()` (basic_uct.h lines 278-352) on the stream of
weighted clauses `input`. -/
def build_instance_weighted (input : List (Int × List Int)) (b : Build) : Build :=
  buildLoop input b 0

/-- The function `build_instance_unweighted()` (basic_uct.h lines 354-429) on the stream of
clauses `input`: the same loop with `clause_weight[c] = 1`. -/
def build_instance_unweighted (input : List (List Int)) (b : Build) : Build :=
  buildLoop (input.map (fun ls => ((1 : Int), ls))) b 0

/-- Modelled from the spec: a clause is tautological when it contains a literal together
with its negation. -/
def isTaut (ls : List Int) : Bool :=
  ls.any (fun l => decide (-l ∈ ls))

/-- Modelled from the spec: the literals of a clause deduplicated in first-occurrence
order. -/
def dedupFirst (ls : List Int) : List Int :=
  ls.foldl (fun acc x => if x ∈ acc then acc else acc ++ [x]) []

/-- Modelled from the spec: the input clauses that are not tautological, in input order. -/
def keptClauses (input : List (Int × List Int)) : List (Int × List Int) :=
  input.filter (fun cl => !isTaut cl.2)

/-- Zero-initialised globals of the reader with `num_clauses` as read from the header. -/
def zeroBuild (m : Nat) : Build :=
  { num_clauses := m, clause_lit := fun _ => [], clause_lit_count := fun _ => 0,
    clause_weight := fun _ => 0, var_lit_count := fun _ => 0, total_clause_weight := 0,
    temp_lit := fun _ => 0 }

/-- The weighted stream `3 x1 ¬x1 x2 0`, `5 ¬x2 ¬x2 0`. -/
def exStream : List (Int × List Int) := [(3, [1, -1, 2]), (5, [-2, -2])]

/-- The stream `x1 ¬x1 x2 0`, `¬x2 0` of the tautology-bearing CNF. -/
def exStreamU : List (List Int) := [[1, -1, 2], [-2]]

end CCLS

namespace UCT

open CCLS (setAt)

/-- The value stored in `cur_soln[atom]` (`aVarValue[atom]` in uct.c) for an arm: `LEFT` is
0 and `RIGHT` is 1. -/
def armVal (a : Bool) : Int := if a then 1 else 0

/-- The states of the globals at which `playNode(node)` calls `estimateReward()`, in call
order, each with the path of the playout: the pairs (atom, arm) from the node of the
playout (first) up to the root (last). The argument `path` is the path of the ancestors of
`node`. The control flow is that of `playNode`. -/
def playouts {E : Type} (W : World E) :
    uctnode → E → List (Nat × Bool) → List (List (Nat × Bool) × E)
  | uctnode.leaf d, e, path =>
    if d.n false = 0 then
      [((d.atom, false) :: path, W.setValue d.atom false (W.markImmutable d.atom e)),
       ((d.atom, true) :: path,
         W.setValue d.atom true
           (playArm W false { d with n := fun _ => 1 } (W.markImmutable d.atom e)).2)]
    else
      let c := chooseArm W d (W.markImmutable d.atom e)
      let d1 : NodeData := { d with n := setArm d.n c.1 (d.n c.1 + 1) }
      let e1 := W.setValue d.atom c.1 c.2
      let ch := getNewNode W d1 c.1
      [((ch.atom, false) :: (d.atom, c.1) :: path,
         W.setValue ch.atom false (W.markImmutable ch.atom e1)),
       ((ch.atom, true) :: (d.atom, c.1) :: path,
         W.setValue ch.atom true
           (playArm W false { ch with n := fun _ => 1 } (W.markImmutable ch.atom e1)).2)]
  | uctnode.node d l r, e, path =>
    if d.n false = 0 then
      [((d.atom, false) :: path, W.setValue d.atom false (W.markImmutable d.atom e)),
       ((d.atom, true) :: path,
         W.setValue d.atom true
           (playArm W false { d with n := fun _ => 1 } (W.markImmutable d.atom e)).2)]
    else
      let c := chooseArm W d (W.markImmutable d.atom e)
      match c.1 with
      | false => playouts W l (W.setValue d.atom false c.2) ((d.atom, false) :: path)
      | true => playouts W r (W.setValue d.atom true c.2) ((d.atom, true) :: path)

/-- What the path invariant of `playNode` uses of the rest of the program, in terms of two
views of the globals, `mutv e v` for `varMutable[v]` and `val e v` for `cur_soln[v]`: the two
stores of `playNode` write their cell, and `estimateReward()`, the reset of `closedFlag` and
`selectMove()` leave `varMutable` and the values of the immutable variables alone. -/
structure Laws {E : Type} (W : World E) (mutv : E → Nat → Bool) (val : E → Nat → Int) :
    Prop where
  mark_mut : ∀ v e u, mutv (W.markImmutable v e) u = if u = v then false else mutv e u
  mark_val : ∀ v e u, val (W.markImmutable v e) u = val e u
  set_mut : ∀ v a e u, mutv (W.setValue v a e) u = mutv e u
  set_val : ∀ v a e u, val (W.setValue v a e) u = if u = v then armVal a else val e u
  est_mut : ∀ e u, mutv (W.estimateReward e).2 u = mutv e u
  est_val : ∀ e u, mutv e u = false → val (W.estimateReward e).2 u = val e u
  clear_mut : ∀ e u, mutv (W.clearClosedFlag e) u = mutv e u
  clear_val : ∀ e u, val (W.clearClosedFlag e) u = val e u
  sel_mut : ∀ d e u, mutv (W.selectMove d e).2 u = mutv e u
  sel_val : ∀ d e u, val (W.selectMove d e).2 u = val e u

/-- The invariant of the path: a variable is immutable exactly when it was immutable at the
start `e0` or is the atom of a node of the path, and the value of an atom of the path is the
arm taken at the deepest node of the path with that atom. -/
def PathInv {E : Type} (mutv : E → Nat → Bool) (val : E → Nat → Int) (e0 e : E)
    (path : List (Nat × Bool)) : Prop :=
  (∀ v, mutv e v = false ↔ (mutv e0 v = false ∨ v ∈ path.map Prod.fst)) ∧
    (∀ v a, path.lookup v = some a → val e v = armVal a)

/-- The globals of main_uct.cpp used by the tree search: those of the playout engine and
`bestReward`. -/
structure Run where
  g : CCLS.Globals
  bestReward : ℚ

/-- The function `estimateReward()` of main_uct.cpp (lines 151-171), with rational
rewards. -/
def estimateReward (F : CCLS.Instance) (prob : Int) (maxFlips : Nat) (r : Run) : ℚ × Run :=
  let ls := CCLS.local_search F prob maxFlips { r.g with s := CCLS.init F r.g.s }
  let reward : ℚ := rewardOf (F.num_clauses : Int) ls.ret
  let g2 := if ls.g.s.closedFlag = true then ls.g else CCLS.setBranchingAtom F ls.g
  (reward, { g := g2, bestReward := updateBest r.bestReward reward })

/-- The rest of main_uct.cpp as `playNode` sees it, for the formula `F`; `selectMove` (with
its floating-point scores) and the content of fresh memory are parameters, and `depthLimit`
is `num_vars - 1` as `build_neighbor_relation` sets it. -/
def cclsWorld (F : CCLS.Instance) (prob : Int) (maxFlips : Nat)
    (sel : NodeData → Run → Bool × Run) (uninit : Bool → Nat) : World Run :=
  { markImmutable := fun v r =>
      { r with g := { r.g with s := { r.g.s with varMutable := setAt r.g.s.varMutable v false } } }
    setValue := fun v a r =>
      { r with g := { r.g with s := { r.g.s with cur_soln := setAt r.g.s.cur_soln v (armVal a) } } }
    estimateReward := estimateReward F prob maxFlips
    closedFlag := fun r => r.g.s.closedFlag
    clearClosedFlag := fun r =>
      { r with g := { r.g with s := { r.g.s with closedFlag := false } } }
    nextBranchingAtom := fun r => r.g.nextBranchingAtom
    selectMove := sel
    depthLimit := (F.num_vars : Int) - 1
    uninit := uninit }

/-- The function `setMutable()` of main_uct.cpp (lines 390-395). -/
def setMutable (F : CCLS.Instance) (r : Run) : Run :=
  { r with
      g := { r.g with
        s := { r.g.s with
          varMutable :=
            (List.range' 1 F.num_vars).foldl (fun m i => setAt m i true) r.g.s.varMutable } } }

/-- The function `setRootNode()` of main_uct.cpp (lines 180-193): the root and the globals
afterwards. -/
def setRootNode (F : CCLS.Instance) (uninit : Bool → Nat) (r : Run) : uctnode × Run :=
  let g1 := CCLS.setBranchingAtom F { r.g with s := CCLS.init F r.g.s }
  (uctnode.leaf
    { x := fun _ => 0, n := fun _ => 0, atom := g1.nextBranchingAtom, nextAtom := uninit,
      closed := fun _ => false, depth := 0 },
    { r with g := g1 })

/-- The loop body `setMutable(); playNode(root);` of `runUCTtimed` (lines 418-421), run
`k` times. -/
def uctIterate {E : Type} (W : World E) (prep : E → E) : Nat → uctnode × E → uctnode × E
  | 0, p => p
  | k + 1, p =>
    uctIterate W prep k
      ((playNode W p.1 (prep p.2)).tree, (playNode W p.1 (prep p.2)).env)

/-- Number of nodes of a tree. -/
def uctnode.size : uctnode → Nat
  | uctnode.leaf _ => 1
  | uctnode.node _ l r => 1 + l.size + r.size

/-- The largest `depth` field in a tree. -/
def uctnode.maxDepth : uctnode → Int
  | uctnode.leaf d => d.depth
  | uctnode.node d l r => max d.depth (max l.maxDepth r.maxDepth)

/-- The formula with the single clause `(x1)` over one variable. -/
def exUnit : CCLS.Instance := CCLS.mkInstance 1 [[⟨0, 1, 1⟩]] [1]

/-- The world of `exUnit` with 10 flips per playout, a `selectMove` that answers `LEFT` and
fresh memory reading 0. -/
def exWorld : World Run :=
  cclsWorld exUnit 0 10 (fun _ r => (false, r)) (fun _ => 0)

/-- The start of `runUCTtimed` on `exUnit` (lines 401-415): zero-initialised globals with
the neighbour relation built, `setMutable()`, then `setRootNode()`. -/
def exStart : uctnode × Run :=
  setRootNode exUnit (fun _ => 0)
    (setMutable exUnit
      { g := CCLS.mkGlobals
          (CCLS.withNeighbors exUnit (CCLS.zeroState (fun _ => false) (fun _ => 0) (fun _ => 0))),
        bestReward := 0 })

end UCT

namespace CCLS

/-- The value of `verify_weights` at the end of the loop of `verify_sol_non_partial()`
(basic_uct.h lines 689-698): the `unsigned long long` sum of `clause_weight[c]` over the
clauses `c` none of whose literals has `best_soln[var_num] == sense`. -/
def verifyWeights (F : Instance) (best_soln : Nat → Int) : Nat :=
  (List.range F.num_clauses).foldl
    (fun acc c =>
      if (F.clause_lit c).any (fun l => decide (best_soln l.var_num = l.sense)) then acc
      else (acc + toULL (F.clause_weight c)) % 2 ^ 64)
    0

/-- The function `verify_sol_non_partial()` (basic_uct.h lines 685-702). -/
def verify_sol_non_partial (F : Instance) (best_soln : Nat → Int)
    (opt_unsat_clause_weight : Nat) : Bool :=
  decide (verifyWeights F best_soln = opt_unsat_clause_weight)

/-- The clause `(¬x1 ∨ x3 ∨ x2)`. -/
def exThreeB : Instance := mkInstance 3 [[⟨0, 1, 0⟩, ⟨0, 3, 1⟩, ⟨0, 2, 1⟩]] [1]

/-- Variable 1 is immutable and fixed to 0, variable 3 has best value 1 and the others best
value 0. -/
def stFix1FalseB : State :=
  zeroState (fun v => decide (v ≠ 1)) (fun _ => 0) (fun v => if v = 3 then 1 else 0)

end CCLS

namespace UBCSAT

open CCLS (setAt)

/-- What the pickers of mylocal.c read of the UBCSAT globals. `aClauseLen[j]` is the length
of `pClauseLits j` and `aNumLitOcc[L]` the length of `pLitClause L`. The literal macros
`GetVarFromLit` and `GetNegatedLit` of ubcsat-lit.h are parameters, as are the random
generators: `RandomInt k n` is the value of the `k`-th call `RandomInt(n)` of the picker and
`RandomProb` the outcome of its call of `RandomProb`. `aCandidateList` holds what earlier
picks left in it. -/
structure Picker where
  iNumClauses : Nat
  iNumFalse : Nat
  preSat : Nat → Bool
  varMutable : Nat → Bool
  aNumTrueLit : Nat → Nat
  pClauseLits : Nat → List Nat
  pLitClause : Nat → List Nat
  GetVarFromLit : Nat → Nat
  GetNegatedLit : Nat → Nat
  aVarLastChange : Nat → Nat
  aCandidateList : Nat → Nat
  RandomInt : Nat → Nat → Nat
  RandomProb : Bool
  bTerminateRun : Bool
  closedFlag : Bool

/-- The globals a picker writes. -/
structure Pick where
  iFlipCandidate : Nat
  bTerminateRun : Bool
  closedFlag : Bool

/-- The local array `falseClauses[0..numFalseClauses)` of both pickers (mylocal.c lines
110-115 and 248-253). -/
def falseClauses (K : Picker) : List Nat :=
  (List.range K.iNumClauses).filter (fun j => !K.preSat j && decide (K.aNumTrueLit j = 0))

/-- The clause `iClause = falseClauses[RandomInt(numFalseClauses)]`; a draw past the end
reads 0. -/
def selectedClause (K : Picker) : Nat :=
  (falseClauses K).getD (K.RandomInt 0 (falseClauses K).length) 0

/-- The score of `PickWalkSatUCT` for the literal `L` (lines 156-166): the number of
occurrences of the negated literal in clauses with exactly one true literal. -/
def breakCount (K : Picker) (L : Nat) : Int :=
  (((K.pLitClause (K.GetNegatedLit L)).countP (fun c => decide (K.aNumTrueLit c = 1)) : Nat)
    : Int)

/-- The number of occurrences of the literal `L` in clauses with no true literal
(lines 284-294). -/
def makeCount (K : Picker) (L : Nat) : Int :=
  (((K.pLitClause L).countP (fun c => decide (K.aNumTrueLit c = 0)) : Nat) : Int)

/-- The candidate list of `PickWalkSatUCT` with its length and `iBestScore`. -/
structure Cands where
  aCandidateList : Nat → Nat
  iNumCandidates : Nat
  iBestScore : Int

/-- One pass of the literal loop of `PickWalkSatUCT` (lines 143-178). -/
def walkStep (K : Picker) (a : Cands) (L : Nat) : Cands :=
  if K.varMutable (K.GetVarFromLit L) = false then a
  else if breakCount K L ≤ a.iBestScore then
    let a1 : Cands :=
      if breakCount K L < a.iBestScore then
        { a with iNumCandidates := 0, iBestScore := breakCount K L }
      else a
    { a1 with
        aCandidateList := setAt a1.aCandidateList a1.iNumCandidates (K.GetVarFromLit L)
        iNumCandidates := a1.iNumCandidates + 1 }
  else a

/-- The candidates of `PickWalkSatUCT` after the literal loop over the selected clause. -/
def walkCands (K : Picker) : Cands :=
  (K.pClauseLits (selectedClause K)).foldl (walkStep K)
    { aCandidateList := K.aCandidateList, iNumCandidates := 0, iBestScore := K.iNumClauses }

/-- The function `PickWalkSatUCT()` (mylocal.c lines 89-198). -/
def PickWalkSatUCT (K : Picker) : Pick :=
  if K.iNumFalse = 0 then { iFlipCandidate := 0, bTerminateRun := true, closedFlag := true }
  else if (falseClauses K).length = 0 then
    { iFlipCandidate := 0, bTerminateRun := true, closedFlag := true }
  else if (walkCands K).iBestScore > 0 ∧ K.RandomProb = true then
    if K.varMutable (K.GetVarFromLit ((K.pClauseLits (selectedClause K)).getD
        (K.RandomInt 1 (K.pClauseLits (selectedClause K)).length) 0)) = false then
      { iFlipCandidate := 0, bTerminateRun := K.bTerminateRun, closedFlag := K.closedFlag }
    else
      { iFlipCandidate := K.GetVarFromLit ((K.pClauseLits (selectedClause K)).getD
          (K.RandomInt 1 (K.pClauseLits (selectedClause K)).length) 0),
        bTerminateRun := K.bTerminateRun, closedFlag := K.closedFlag }
  else if (walkCands K).iNumCandidates > 1 then
    { iFlipCandidate :=
        (walkCands K).aCandidateList (K.RandomInt 1 (walkCands K).iNumCandidates),
      bTerminateRun := K.bTerminateRun, closedFlag := K.closedFlag }
  else
    { iFlipCandidate := (walkCands K).aCandidateList 0,
      bTerminateRun := K.bTerminateRun, closedFlag := K.closedFlag }

/-- The locals of the literal loop of `PickNoveltyUCT`. -/
structure Nov where
  iBestVar : Nat
  iSecondBestVar : Nat
  iBestScore : Int
  iSecondBestScore : Int
  iYoungestVar : Nat

/-- The score of `PickNoveltyUCT` for the literal `L` (lines 283-306). -/
def noveltyScore (K : Picker) (L : Nat) : Int := breakCount K L - makeCount K L

/-- One pass of the literal loop of `PickNoveltyUCT` (lines 277-327). -/
def noveltyStep (K : Picker) (a : Nov) (L : Nat) : Nov :=
  if K.varMutable (K.GetVarFromLit L) = false then a
  else
    let y :=
      if K.aVarLastChange (K.GetVarFromLit L) > K.aVarLastChange a.iYoungestVar then
        K.GetVarFromLit L
      else a.iYoungestVar
    if noveltyScore K L < a.iBestScore ∨
        (noveltyScore K L = a.iBestScore ∧
          K.aVarLastChange (K.GetVarFromLit L) < K.aVarLastChange a.iBestVar) then
      { iBestVar := K.GetVarFromLit L, iSecondBestVar := a.iBestVar,
        iBestScore := noveltyScore K L, iSecondBestScore := a.iBestScore, iYoungestVar := y }
    else if noveltyScore K L < a.iSecondBestScore ∨
        (noveltyScore K L = a.iSecondBestScore ∧
          K.aVarLastChange (K.GetVarFromLit L) < K.aVarLastChange a.iSecondBestVar) then
      { a with iSecondBestVar := K.GetVarFromLit L, iSecondBestScore := noveltyScore K L,
               iYoungestVar := y }
    else { a with iYoungestVar := y }

/-- The locals of `PickNoveltyUCT` after the literal loop over the selected clause; the
read `*pLit` of the first literal gives 0 on an empty clause. -/
def noveltyLoop (K : Picker) : Nov :=
  (K.pClauseLits (selectedClause K)).foldl (noveltyStep K)
    { iBestVar := 0, iSecondBestVar := 0, iBestScore := K.iNumClauses,
      iSecondBestScore := K.iNumClauses,
      iYoungestVar := K.GetVarFromLit ((K.pClauseLits (selectedClause K)).getD 0 0) }

/-- The function `PickNoveltyUCT()` (mylocal.c lines 227-343). -/
def PickNoveltyUCT (K : Picker) : Pick :=
  if K.iNumFalse = 0 then
    { iFlipCandidate := 0, bTerminateRun := K.bTerminateRun, closedFlag := true }
  else if (falseClauses K).length = 0 then
    { iFlipCandidate := 0, bTerminateRun := true, closedFlag := true }
  else if (noveltyLoop K).iBestVar ≠ (noveltyLoop K).iYoungestVar ∨
      K.varMutable (noveltyLoop K).iSecondBestVar = false then
    { iFlipCandidate := (noveltyLoop K).iBestVar, bTerminateRun := K.bTerminateRun,
      closedFlag := K.closedFlag }
  else if K.RandomProb = true then
    { iFlipCandidate := (noveltyLoop K).iSecondBestVar, bTerminateRun := K.bTerminateRun,
      closedFlag := K.closedFlag }
  else
    { iFlipCandidate := (noveltyLoop K).iBestVar, bTerminateRun := K.bTerminateRun,
      closedFlag := K.closedFlag }

/-- A picker state over the literal encoding of `exFormula` (`2v + 1` positive, `2v`
negative): clauses `(x1 ∨ x2)` and `(¬x2)`, both variables false, `x1` immutable, `x2`
mutable, no clause pre-satisfied; every random draw is 0 and `RandomProb` answers yes as
given by `prob`. -/
def exPicker (prob : Bool) : Picker :=
  { iNumClauses := 2, iNumFalse := 1, preSat := fun _ => false,
    varMutable := fun v => decide (v ≠ 1),
    aNumTrueLit := fun c => if c = 1 then 1 else 0,
    pClauseLits := fun j => [[3, 5], [4]].getD j [],
    pLitClause := fun L => if L = 3 then [0] else if L = 5 then [0] else if L = 4 then [1] else [],
    GetVarFromLit := fun L => L / 2,
    GetNegatedLit := fun L => if L % 2 = 1 then L - 1 else L + 1,
    aVarLastChange := fun _ => 0, aCandidateList := fun _ => 0,
    RandomInt := fun _ _ => 0, RandomProb := prob, bTerminateRun := false,
    closedFlag := false }

end UBCSAT

namespace UBCSAT

/-- The invariant of the literal loop of `PickWalkSatUCT` after the literals of the set `S`,
started with `iBestScore = B0` and no candidate: the candidates are variables of mutable
literals seen whose score is `iBestScore`, no mutable literal seen has a smaller score, and a
candidate exists as soon as a mutable literal with a score of at most `B0` has been seen. -/
structure WalkInv (K : Picker) (B0 : Int) (S : Nat → Prop) (a : Cands) : Prop where
  mem : ∀ i, i < a.iNumCandidates →
    ∃ L, S L ∧ K.varMutable (K.GetVarFromLit L) = true ∧
      a.aCandidateList i = K.GetVarFromLit L ∧ breakCount K L = a.iBestScore
  low : ∀ L, S L → K.varMutable (K.GetVarFromLit L) = true → a.iBestScore ≤ breakCount K L
  le0 : a.iBestScore ≤ B0
  some : (∃ L, S L ∧ K.varMutable (K.GetVarFromLit L) = true ∧ breakCount K L ≤ B0) →
    0 < a.iNumCandidates
  zero : a.iNumCandidates = 0 → a.iBestScore = B0

/-- The variable `v` is the sentinel 0 or the variable of a mutable literal of the set
`S`. -/
def OkVar (K : Picker) (S : Nat → Prop) (v : Nat) : Prop :=
  v = 0 ∨ (K.varMutable v = true ∧ ∃ L, S L ∧ K.GetVarFromLit L = v)

end UBCSAT

namespace UCT

open CCLS (setAt)

/-- The formula has a live clause under the mutability mask `m`: a clause that `init()`
does not mark pre-satisfied, that is, one with no immutable literal of positive sense and
with a mutable literal (basic_uct.h lines 521-568). -/
def liveMask (F : CCLS.Instance) (m : Nat → Bool) : Bool :=
  (List.range F.num_clauses).any
    (fun c => !(CCLS.hasImmPos m (F.clause_lit c) || CCLS.allImm m (F.clause_lit c)))

/-- The mutability mask in which exactly the variables of the list `A` are immutable. -/
def pathMask (A : List Nat) : Nat → Bool := fun v => decide (v ∉ A)

/-- What the freshness of the branching atoms uses of the rest of the program, in terms of
the view `mutv e v` of `varMutable[v]`, a condition `ok` on the globals that every operation
keeps, and the predicate `live m` (the formula has a live clause under the mask `m`): the
stores of `playNode` write their cell of `varMutable` or leave it alone, `estimateReward()`
leaves `varMutable` alone, raises `closedFlag` exactly when no clause is live, and otherwise
leaves in `nextBranchingAtom` a variable of `1..N` that is mutable; and a clause that is live
stays live when more variables of `1..N` are mutable. -/
structure AtomLaws {E : Type} (W : World E) (mutv : E → Nat → Bool) (N : Nat) (ok : E → Prop)
    (live : (Nat → Bool) → Bool) : Prop where
  mark_mut : ∀ v e u, mutv (W.markImmutable v e) u = if u = v then false else mutv e u
  set_mut : ∀ v a e u, mutv (W.setValue v a e) u = mutv e u
  est_mut : ∀ e u, mutv (W.estimateReward e).2 u = mutv e u
  clear_mut : ∀ e u, mutv (W.clearClosedFlag e) u = mutv e u
  sel_mut : ∀ d e u, mutv (W.selectMove d e).2 u = mutv e u
  mark_ok : ∀ v e, ok e → ok (W.markImmutable v e)
  set_ok : ∀ v a e, ok e → ok (W.setValue v a e)
  est_ok : ∀ e, ok e → ok (W.estimateReward e).2
  clear_ok : ∀ e, ok e → ok (W.clearClosedFlag e)
  sel_ok : ∀ d e, ok e → ok (W.selectMove d e).2
  est_closed : ∀ e, ok e → W.closedFlag (W.estimateReward e).2 = !live (mutv e)
  est_atom : ∀ e, ok e → live (mutv e) = true →
    1 ≤ W.nextBranchingAtom (W.estimateReward e).2 ∧
      W.nextBranchingAtom (W.estimateReward e).2 ≤ N ∧
      mutv e (W.nextBranchingAtom (W.estimateReward e).2) = true
  live_mono : ∀ m1 m2 : Nat → Bool, (∀ v, 1 ≤ v → v ≤ N → m1 v = true → m2 v = true) →
    live m1 = true → live m2 = true

/-- The atom `x` is a variable of `1..N` that is not among the atoms `anc`. -/
def FreshAt (N : Nat) (anc : List Nat) (x : Nat) : Prop := 1 ≤ x ∧ x ≤ N ∧ x ∉ anc

/-- A node below the ancestors with atoms `anc`: its atom is fresh, and once it has been
visited, if the formula has a live clause when the atoms of the path down to the node are
immutable, both its `nextAtom` are fresh for that path. -/
def NodeOK (N : Nat) (live : (Nat → Bool) → Bool) (anc : List Nat) (d : NodeData) : Prop :=
  FreshAt N anc d.atom ∧
    (d.n false ≠ 0 → live (pathMask (d.atom :: anc)) = true →
      ∀ a, FreshAt N (d.atom :: anc) (d.nextAtom a))

/-- The invariant of the tree below the ancestors with atoms `anc`: every node is `NodeOK`
for its path, a node with children has been visited and its children carry its `nextAtom`,
as far down as the formula has a live clause under the atoms of the path. -/
def FreshTree (N : Nat) (live : (Nat → Bool) → Bool) : uctnode → List Nat → Prop
  | uctnode.leaf d, anc => NodeOK N live anc d
  | uctnode.node d l r, anc =>
    NodeOK N live anc d ∧ d.n false ≠ 0 ∧ l.data.atom = d.nextAtom false ∧
      r.data.atom = d.nextAtom true ∧
      (live (pathMask (d.atom :: anc)) = true →
        FreshTree N live l (d.atom :: anc) ∧ FreshTree N live r (d.atom :: anc))

/-- The atoms of the proper ancestors of the node reached by the path of arms, the parent
first and the root last. -/
def ancAtoms : uctnode → List Bool → List Nat
  | _, [] => []
  | uctnode.leaf _, _ :: _ => []
  | uctnode.node d l _, false :: p => ancAtoms l p ++ [d.atom]
  | uctnode.node d _ r, true :: p => ancAtoms r p ++ [d.atom]

/-- The globals at a call of `playNode` on a node below the ancestors with atoms `anc`:
among the variables `1..N` exactly those atoms are immutable. -/
def EnvOK {E : Type} (mutv : E → Nat → Bool) (N : Nat) (ok : E → Prop) (anc : List Nat)
    (e : E) : Prop :=
  ok e ∧ ∀ v, 1 ≤ v → v ≤ N → mutv e v = pathMask anc v

/-- The clauses `(x1 ∨ x2)` and `(¬x1 ∨ x3)` over three variables. -/
def exFresh : CCLS.Instance :=
  CCLS.mkInstance 3 [[⟨0, 1, 1⟩, ⟨0, 2, 1⟩], [⟨1, 1, 0⟩, ⟨1, 3, 1⟩]] [1, 1]

end UCT

namespace UBCSAT

/-- The picker state in which `ubcsatrun()` runs a picker: `estimateReward()` of uct.c calls
`setPreSat()` right before `ubcsatrun()` (lines 220-222), so `preSat` and `closedFlag` are
those that `setPreSat()` computes from the current `varMutable`, `alwaysSat` and literal
values. The macros `GetLitSign` and `IsLitTrue` are parameters. -/
def afterSetPreSat (K : Picker) (GetLitSign IsLitTrue : Nat → Bool) (alwaysSat : Nat → Bool) :
    Picker :=
  { K with
      preSat :=
        (setPreSat
          { iNumClauses := K.iNumClauses, pClauseLits := K.pClauseLits,
            GetVarFromLit := K.GetVarFromLit, GetLitSign := GetLitSign, IsLitTrue := IsLitTrue }
          K.varMutable alwaysSat { preSat := K.preSat, closedFlag := K.closedFlag }).preSat
      closedFlag :=
        (setPreSat
          { iNumClauses := K.iNumClauses, pClauseLits := K.pClauseLits,
            GetVarFromLit := K.GetVarFromLit, GetLitSign := GetLitSign, IsLitTrue := IsLitTrue }
          K.varMutable alwaysSat { preSat := K.preSat, closedFlag := K.closedFlag }).closedFlag }

end UBCSAT

namespace UCT

/-- The world of main_uct.cpp for the formula `F` with 10 flips per playout, a `selectMove`
that answers `LEFT` and fresh memory reading `u`. -/
def atomWorld (F : CCLS.Instance) (u : Nat) : World Run :=
  cclsWorld F 0 10 (fun _ r => (false, r)) (fun _ => u)

/-- The start of `runUCTtimed` on `F` (lines 401-415): zero-initialised globals with the
neighbour relation built, the array `varScores` holding `vs`, `setMutable()`, then
`setRootNode()`; fresh memory reads `u`. -/
def atomStart (F : CCLS.Instance) (u : Nat) (vs : Nat → Int) : uctnode × Run :=
  setRootNode F (fun _ => u)
    (setMutable F
      { g :=
          { CCLS.mkGlobals
              (CCLS.withNeighbors F
                (CCLS.zeroState (fun _ => false) (fun _ => 0) (fun _ => 0))) with
            varScores := vs },
        bestReward := 0 })

end UCT

namespace CCLS
@[simp] theorem setAt_apply {α : Type} (a : Nat → α) (i : Nat) (x : α) (j : Nat) :
    setAt a i x j = if j = i then x else a j := rfl

theorem mutOcc_nil (m : Nat → Bool) (v : Nat) : mutOcc m [] v = 0 := by
  simp [mutOcc]

theorem mutOcc_cons (m : Nat → Bool) (p : lit) (ps : List lit) (v : Nat) :
    mutOcc m (p :: ps) v = (if m v = true ∧ p.var_num = v then 1 else 0) + mutOcc m ps v := by
  unfold mutOcc
  by_cases hv : m v = true
  · by_cases hp : p.var_num = v
    · simp [hv, hp, List.count_cons]; ring
    · simp [hv, hp, List.count_cons]
  · simp [hv]

theorem unsatVar_eq (s : State) (v : Nat) :
    unsatVar s v =
      { s with
          unsat_app_count := fun u =>
            s.unsat_app_count u + (if s.varMutable u = true ∧ v = u then 1 else 0)
          index_in_unsatvar_stack := (unsatVar s v).index_in_unsatvar_stack
          unsatvar_stack := (unsatVar s v).unsatvar_stack
          unsatvar_stack_fill_pointer := (unsatVar s v).unsatvar_stack_fill_pointer } := by
  by_cases hm : s.varMutable v = false
  · have hf : (fun u => s.unsat_app_count u + (if s.varMutable u = true ∧ v = u then 1 else 0))
        = s.unsat_app_count := by
      funext u
      have : ¬ (s.varMutable u = true ∧ v = u) := by
        rintro ⟨h1, rfl⟩; simp [hm] at h1
      simp [this]
    rw [hf]
    simp [unsatVar, hm]
  · have hm1 : s.varMutable v = true := by simpa using hm
    have hf : (fun u => s.unsat_app_count u + (if s.varMutable u = true ∧ v = u then 1 else 0))
        = setAt s.unsat_app_count v (s.unsat_app_count v + 1) := by
      funext u
      by_cases hu : u = v
      · subst hu; simp [hm1]
      · have : ¬ (s.varMutable u = true ∧ v = u) := fun h => hu h.2.symm
        simp [hu, this]
    rw [hf]
    by_cases h1 : s.unsat_app_count v + 1 = 1
    · simp [unsatVar, hm1, h1]
    · simp [unsatVar, hm1, h1]

theorem satVar_eq (s : State) (v : Nat) :
    satVar s v =
      { s with
          unsat_app_count := fun u =>
            s.unsat_app_count u - (if s.varMutable u = true ∧ v = u then 1 else 0)
          index_in_unsatvar_stack := (satVar s v).index_in_unsatvar_stack
          unsatvar_stack := (satVar s v).unsatvar_stack
          unsatvar_stack_fill_pointer := (satVar s v).unsatvar_stack_fill_pointer } := by
  by_cases hm : s.varMutable v = false
  · have hf : (fun u => s.unsat_app_count u - (if s.varMutable u = true ∧ v = u then 1 else 0))
        = s.unsat_app_count := by
      funext u
      have : ¬ (s.varMutable u = true ∧ v = u) := by
        rintro ⟨h1, rfl⟩; simp [hm] at h1
      simp [this]
    rw [hf]
    simp [satVar, hm]
  · have hm1 : s.varMutable v = true := by simpa using hm
    have hf : (fun u => s.unsat_app_count u - (if s.varMutable u = true ∧ v = u then 1 else 0))
        = setAt s.unsat_app_count v (s.unsat_app_count v - 1) := by
      funext u
      by_cases hu : u = v
      · subst hu; simp [hm1]
      · have : ¬ (s.varMutable u = true ∧ v = u) := fun h => hu h.2.symm
        simp [hu, this]
    rw [hf]
    by_cases h1 : s.unsat_app_count v - 1 = 0
    · simp [satVar, hm1, h1]
    · simp [satVar, hm1, h1]

theorem foldl_unsatVar (ls : List lit) (s : State) :
    ∃ ix stk fp,
      ls.foldl (fun st p => unsatVar st p.var_num) s =
        { s with
            unsat_app_count := fun v => s.unsat_app_count v + mutOcc s.varMutable ls v
            index_in_unsatvar_stack := ix
            unsatvar_stack := stk
            unsatvar_stack_fill_pointer := fp } := by
  induction ls generalizing s with
  | nil =>
    exact ⟨s.index_in_unsatvar_stack, s.unsatvar_stack, s.unsatvar_stack_fill_pointer,
      by simp [mutOcc_nil]⟩
  | cons p ps ih =>
    obtain ⟨ix, stk, fp, h⟩ := ih (unsatVar s p.var_num)
    refine ⟨ix, stk, fp, ?_⟩
    rw [List.foldl_cons, h, unsatVar_eq]
    simp only [State.mk.injEq, true_and, and_true]
    funext v
    rw [mutOcc_cons]
    ring

theorem foldl_satVar (ls : List lit) (s : State) :
    ∃ ix stk fp,
      ls.foldl (fun st p => satVar st p.var_num) s =
        { s with
            unsat_app_count := fun v => s.unsat_app_count v - mutOcc s.varMutable ls v
            index_in_unsatvar_stack := ix
            unsatvar_stack := stk
            unsatvar_stack_fill_pointer := fp } := by
  induction ls generalizing s with
  | nil =>
    exact ⟨s.index_in_unsatvar_stack, s.unsatvar_stack, s.unsatvar_stack_fill_pointer,
      by simp [mutOcc_nil]⟩
  | cons p ps ih =>
    obtain ⟨ix, stk, fp, h⟩ := ih (satVar s p.var_num)
    refine ⟨ix, stk, fp, ?_⟩
    rw [List.foldl_cons, h, satVar_eq]
    simp only [State.mk.injEq, true_and, and_true]
    funext v
    rw [mutOcc_cons]
    ring

/-! ### The unsat stack as an abstract swap-remove set -/

theorem StackInv_congr {U V : Nat → Bool} {stack : Nat → Nat} {fill : Nat} {index : Nat → Nat}
    (h : StackInv U stack fill index) (huv : ∀ d, V d = U d) : StackInv V stack fill index := by
  have : V = U := funext huv
  rw [this]; exact h

theorem StackInv_push {U V : Nat → Bool} {stack : Nat → Nat} {fill : Nat} {index : Nat → Nat}
    (h : StackInv U stack fill index) (c : Nat) (hc : U c = false) (hvc : V c = true)
    (hv : ∀ d, d ≠ c → V d = U d) :
    StackInv V (setAt stack fill c) (fill + 1) (setAt index c fill) := by
  obtain ⟨ha, hb⟩ := h
  constructor
  · intro i hi
    by_cases hif : i = fill
    · subst hif; simp [hvc]
    · have hlt : i < fill := by omega
      obtain ⟨h1, h2⟩ := ha i hlt
      have hne : stack i ≠ c := by
        intro he; rw [he, hc] at h1; exact Bool.noConfusion h1
      simp [hif, hne, hv _ hne, h1, h2]
  · intro d hd
    by_cases hdc : d = c
    · subst hdc; simp
    · rw [hv d hdc] at hd
      obtain ⟨h1, h2⟩ := hb d hd
      have : index d ≠ fill := by omega
      simp [hdc, this, h2]; omega

theorem StackInv_pop {U V : Nat → Bool} {stack : Nat → Nat} {fill : Nat} {index : Nat → Nat}
    (h : StackInv U stack fill index) (c : Nat) (hc : U c = true) (hvc : V c = false)
    (hv : ∀ d, d ≠ c → V d = U d) :
    StackInv V (setAt stack (index c) (stack (fill - 1))) (fill - 1)
      (setAt index (stack (fill - 1)) (index c)) := by
  obtain ⟨ha, hb⟩ := h
  obtain ⟨hc1, hc2⟩ := hb c hc
  have hfill : fill - 1 < fill := by omega
  obtain ⟨hl1, hl2⟩ := ha (fill - 1) hfill
  constructor
  · intro i hi
    have hlt : i < fill := by omega
    obtain ⟨h1, h2⟩ := ha i hlt
    by_cases hii : i = index c
    · have hne : stack (fill - 1) ≠ c := by
        intro he; rw [he] at hl2; omega
      simp [hii, hv _ hne, hl1]
    · have hne : stack i ≠ c := by
        intro he; rw [he] at h2; exact hii h2.symm
      have hne2 : stack i ≠ stack (fill - 1) := by
        intro he; rw [he, hl2] at h2; omega
      simp [hii, hne2, hv _ hne, h1, h2]
  · intro d hd
    have hdc : d ≠ c := by
      intro he; rw [he, hvc] at hd; exact Bool.noConfusion hd
    rw [hv d hdc] at hd
    obtain ⟨h1, h2⟩ := hb d hd
    by_cases hdl : d = stack (fill - 1)
    · have : index c ≠ fill - 1 := by
        intro he; rw [he] at hc2; exact hdc (hdl.trans hc2)
      simp [hdl]; omega
    · have hj : index d ≠ fill - 1 := by
        intro he; rw [he] at h2; exact hdl h2.symm
      have hj2 : index d ≠ index c := by
        intro he; rw [he, hc2] at h2; exact hdc h2.symm
      simp [hdl, hj2, h2]; omega

/-! ### Counting the unsat clauses that mention a variable -/

theorem countP_toggle (l : List Nat) (hl : l.Nodup) (c : Nat) (hc : c ∈ l) (p q : Nat → Bool)
    (hp : p c = false) (hq : q c = true) (hpq : ∀ d, d ≠ c → q d = p d) :
    l.countP q = l.countP p + 1 := by
  induction l with
  | nil => simp at hc
  | cons a as ih =>
    rw [List.nodup_cons] at hl
    by_cases hac : a = c
    · subst hac
      have hrest : as.countP q = as.countP p := by
        apply List.countP_congr
        intro d hd
        have : d ≠ a := fun he => hl.1 (he ▸ hd)
        rw [hpq d this]
      simp [List.countP_cons, hp, hq, hrest]
    · have hc2 : c ∈ as := by
        rcases List.mem_cons.mp hc with h | h
        · exact absurd h.symm hac
        · exact h
      have := ih hl.2 hc2
      simp [List.countP_cons, this, hpq a hac]
      omega

theorem countP_same (l : List Nat) (p q : Nat → Bool) (hpq : ∀ d, d ∈ l → q d = p d) :
    l.countP q = l.countP p := by
  apply List.countP_congr
  intro d hd
  rw [hpq d hd]

theorem unsatOcc_congr (F : Instance) (U V : Nat → Bool) (v : Nat) (h : ∀ d, V d = U d) :
    unsatOcc F V v = unsatOcc F U v := by
  have : V = U := funext h
  rw [this]

theorem unsatOcc_push (F : Instance) (U V : Nat → Bool) (v c : Nat) (hcM : c < F.num_clauses)
    (hc : U c = false) (hvc : V c = true) (hv : ∀ d, d ≠ c → V d = U d) :
    unsatOcc F V v = unsatOcc F U v + (if v ∈ clauseVars F c then 1 else 0) := by
  unfold unsatOcc
  by_cases hmem : v ∈ clauseVars F c
  · rw [if_pos hmem]
    apply countP_toggle _ (List.nodup_range _) c (List.mem_range.mpr hcM)
    · simp [hc]
    · simp [hvc, hmem]
    · intro d hd; rw [hv d hd]
  · rw [if_neg hmem, Nat.add_zero]
    apply countP_same
    intro d _
    by_cases hd : d = c
    · subst hd; simp [hmem]
    · rw [hv d hd]

theorem mutOcc_nodup (m : Nat → Bool) (ls : List lit) (hn : (ls.map lit.var_num).Nodup) (v : Nat) :
    mutOcc m ls v = if m v = true ∧ v ∈ ls.map lit.var_num then 1 else 0 := by
  unfold mutOcc
  by_cases hv : m v = true
  · by_cases hmem : v ∈ ls.map lit.var_num
    · rw [List.count_eq_one_of_mem hn hmem]; simp [hv, hmem]
    · rw [List.count_eq_zero_of_not_mem hmem]; simp [hv, hmem]
  · simp [hv]

theorem CountInv_congr {F : Instance} {m U V : Nat → Bool} {cnt : Nat → Int}
    (h : CountInv F m U cnt) (huv : ∀ d, V d = U d) : CountInv F m V cnt := by
  have : V = U := funext huv
  rw [this]; exact h

theorem CountInv_push {F : Instance} {m U V : Nat → Bool} {cnt : Nat → Int}
    (h : CountInv F m U cnt) (c : Nat) (hcM : c < F.num_clauses)
    (hn : (clauseVars F c).Nodup)
    (hc : U c = false) (hvc : V c = true) (hv : ∀ d, d ≠ c → V d = U d) :
    CountInv F m V (fun v => cnt v + mutOcc m (F.clause_lit c) v) := by
  intro v h1 h2 hm
  show cnt v + mutOcc m (F.clause_lit c) v = _
  rw [unsatOcc_push F U V v c hcM hc hvc hv, h v h1 h2 hm, mutOcc_nodup m _ hn v]
  unfold clauseVars
  by_cases hmem : v ∈ (F.clause_lit c).map lit.var_num
  · simp [hm, hmem]
  · simp [hm, hmem]

theorem CountInv_pop {F : Instance} {m U V : Nat → Bool} {cnt : Nat → Int}
    (h : CountInv F m U cnt) (c : Nat) (hcM : c < F.num_clauses)
    (hn : (clauseVars F c).Nodup)
    (hc : U c = true) (hvc : V c = false) (hv : ∀ d, d ≠ c → V d = U d) :
    CountInv F m V (fun v => cnt v - mutOcc m (F.clause_lit c) v) := by
  intro v h1 h2 hm
  have hpush := unsatOcc_push F V U v c hcM hvc hc (fun d hd => (hv d hd).symm)
  show cnt v - mutOcc m (F.clause_lit c) v = _
  rw [h v h1 h2 hm, hpush, mutOcc_nodup m _ hn v]
  unfold clauseVars
  by_cases hmem : v ∈ (F.clause_lit c).map lit.var_num
  · simp [hm, hmem]
  · simp [hm, hmem]

/-! ### What `unsat` and `sat` change -/

theorem unsat_eq (F : Instance) (s : State) (c : Nat) :
    ∃ ix stk fp,
      unsat F s c =
        { s with
            index_in_unsat_stack := setAt s.index_in_unsat_stack c s.unsat_stack_fill_pointer
            unsat_stack := setAt s.unsat_stack s.unsat_stack_fill_pointer c
            unsat_stack_fill_pointer := s.unsat_stack_fill_pointer + 1
            total_unsat_clause_weight :=
              (s.total_unsat_clause_weight + toULL (F.clause_weight c)) % 2 ^ 64
            unsat_app_count := fun v => s.unsat_app_count v + mutOcc s.varMutable (F.clause_lit c) v
            index_in_unsatvar_stack := ix
            unsatvar_stack := stk
            unsatvar_stack_fill_pointer := fp } := by
  unfold unsat
  obtain ⟨ix, stk, fp, h⟩ := foldl_unsatVar (F.clause_lit c)
    { s with
        index_in_unsat_stack := setAt s.index_in_unsat_stack c s.unsat_stack_fill_pointer
        unsat_stack := setAt s.unsat_stack s.unsat_stack_fill_pointer c
        unsat_stack_fill_pointer := s.unsat_stack_fill_pointer + 1
        total_unsat_clause_weight :=
          (s.total_unsat_clause_weight + toULL (F.clause_weight c)) % 2 ^ 64 }
  exact ⟨ix, stk, fp, h⟩

theorem sat_eq (F : Instance) (s : State) (c : Nat) :
    ∃ ix stk fp,
      sat F s c =
        { s with
            unsat_stack_fill_pointer := s.unsat_stack_fill_pointer - 1
            unsat_stack :=
              setAt s.unsat_stack (s.index_in_unsat_stack c)
                (s.unsat_stack (s.unsat_stack_fill_pointer - 1))
            index_in_unsat_stack :=
              setAt s.index_in_unsat_stack (s.unsat_stack (s.unsat_stack_fill_pointer - 1))
                (s.index_in_unsat_stack c)
            total_unsat_clause_weight :=
              (s.total_unsat_clause_weight + 2 ^ 64 - toULL (F.clause_weight c)) % 2 ^ 64
            unsat_app_count := fun v => s.unsat_app_count v - mutOcc s.varMutable (F.clause_lit c) v
            index_in_unsatvar_stack := ix
            unsatvar_stack := stk
            unsatvar_stack_fill_pointer := fp } := by
  unfold sat
  obtain ⟨ix, stk, fp, h⟩ := foldl_satVar (F.clause_lit c)
    { s with
        unsat_stack_fill_pointer := s.unsat_stack_fill_pointer - 1
        unsat_stack :=
          setAt s.unsat_stack (s.index_in_unsat_stack c)
            (s.unsat_stack (s.unsat_stack_fill_pointer - 1))
        index_in_unsat_stack :=
          setAt s.index_in_unsat_stack (s.unsat_stack (s.unsat_stack_fill_pointer - 1))
            (s.index_in_unsat_stack c)
        total_unsat_clause_weight :=
          (s.total_unsat_clause_weight + 2 ^ 64 - toULL (F.clause_weight c)) % 2 ^ 64 }
  exact ⟨ix, stk, fp, h⟩

@[simp] theorem unsat_varMutable (F : Instance) (s : State) (c : Nat) :
    (unsat F s c).varMutable = s.varMutable := by
  obtain ⟨ix, stk, fp, h⟩ := unsat_eq F s c
  rw [h]

@[simp] theorem unsat_preSat (F : Instance) (s : State) (c : Nat) :
    (unsat F s c).preSat = s.preSat := by
  obtain ⟨ix, stk, fp, h⟩ := unsat_eq F s c
  rw [h]

@[simp] theorem unsat_closedFlag (F : Instance) (s : State) (c : Nat) :
    (unsat F s c).closedFlag = s.closedFlag := by
  obtain ⟨ix, stk, fp, h⟩ := unsat_eq F s c
  rw [h]

@[simp] theorem unsat_numPreFalsifiedClauses (F : Instance) (s : State) (c : Nat) :
    (unsat F s c).numPreFalsifiedClauses = s.numPreFalsifiedClauses := by
  obtain ⟨ix, stk, fp, h⟩ := unsat_eq F s c
  rw [h]

@[simp] theorem unsat_score (F : Instance) (s : State) (c : Nat) :
    (unsat F s c).score = s.score := by
  obtain ⟨ix, stk, fp, h⟩ := unsat_eq F s c
  rw [h]

@[simp] theorem unsat_conf_change (F : Instance) (s : State) (c : Nat) :
    (unsat F s c).conf_change = s.conf_change := by
  obtain ⟨ix, stk, fp, h⟩ := unsat_eq F s c
  rw [h]

@[simp] theorem unsat_var_neighbor (F : Instance) (s : State) (c : Nat) :
    (unsat F s c).var_neighbor = s.var_neighbor := by
  obtain ⟨ix, stk, fp, h⟩ := unsat_eq F s c
  rw [h]

@[simp] theorem unsat_sat_count (F : Instance) (s : State) (c : Nat) :
    (unsat F s c).sat_count = s.sat_count := by
  obtain ⟨ix, stk, fp, h⟩ := unsat_eq F s c
  rw [h]

@[simp] theorem unsat_sat_var (F : Instance) (s : State) (c : Nat) :
    (unsat F s c).sat_var = s.sat_var := by
  obtain ⟨ix, stk, fp, h⟩ := unsat_eq F s c
  rw [h]

@[simp] theorem unsat_cur_soln (F : Instance) (s : State) (c : Nat) :
    (unsat F s c).cur_soln = s.cur_soln := by
  obtain ⟨ix, stk, fp, h⟩ := unsat_eq F s c
  rw [h]

@[simp] theorem unsat_best_soln (F : Instance) (s : State) (c : Nat) :
    (unsat F s c).best_soln = s.best_soln := by
  obtain ⟨ix, stk, fp, h⟩ := unsat_eq F s c
  rw [h]

@[simp] theorem sat_varMutable (F : Instance) (s : State) (c : Nat) :
    (sat F s c).varMutable = s.varMutable := by
  obtain ⟨ix, stk, fp, h⟩ := sat_eq F s c
  rw [h]

@[simp] theorem sat_preSat (F : Instance) (s : State) (c : Nat) :
    (sat F s c).preSat = s.preSat := by
  obtain ⟨ix, stk, fp, h⟩ := sat_eq F s c
  rw [h]

@[simp] theorem sat_closedFlag (F : Instance) (s : State) (c : Nat) :
    (sat F s c).closedFlag = s.closedFlag := by
  obtain ⟨ix, stk, fp, h⟩ := sat_eq F s c
  rw [h]

@[simp] theorem sat_numPreFalsifiedClauses (F : Instance) (s : State) (c : Nat) :
    (sat F s c).numPreFalsifiedClauses = s.numPreFalsifiedClauses := by
  obtain ⟨ix, stk, fp, h⟩ := sat_eq F s c
  rw [h]

@[simp] theorem sat_score (F : Instance) (s : State) (c : Nat) :
    (sat F s c).score = s.score := by
  obtain ⟨ix, stk, fp, h⟩ := sat_eq F s c
  rw [h]

@[simp] theorem sat_conf_change (F : Instance) (s : State) (c : Nat) :
    (sat F s c).conf_change = s.conf_change := by
  obtain ⟨ix, stk, fp, h⟩ := sat_eq F s c
  rw [h]

@[simp] theorem sat_var_neighbor (F : Instance) (s : State) (c : Nat) :
    (sat F s c).var_neighbor = s.var_neighbor := by
  obtain ⟨ix, stk, fp, h⟩ := sat_eq F s c
  rw [h]

@[simp] theorem sat_sat_count (F : Instance) (s : State) (c : Nat) :
    (sat F s c).sat_count = s.sat_count := by
  obtain ⟨ix, stk, fp, h⟩ := sat_eq F s c
  rw [h]

@[simp] theorem sat_sat_var (F : Instance) (s : State) (c : Nat) :
    (sat F s c).sat_var = s.sat_var := by
  obtain ⟨ix, stk, fp, h⟩ := sat_eq F s c
  rw [h]

@[simp] theorem sat_cur_soln (F : Instance) (s : State) (c : Nat) :
    (sat F s c).cur_soln = s.cur_soln := by
  obtain ⟨ix, stk, fp, h⟩ := sat_eq F s c
  rw [h]

@[simp] theorem sat_best_soln (F : Instance) (s : State) (c : Nat) :
    (sat F s c).best_soln = s.best_soln := by
  obtain ⟨ix, stk, fp, h⟩ := sat_eq F s c
  rw [h]

theorem SetInv_congr {F : Instance} {U V : Nat → Bool} {s : State}
    (h : SetInv F U s) (huv : ∀ d, V d = U d) : SetInv F V s :=
  ⟨StackInv_congr h.1 huv, CountInv_congr h.2 huv⟩

theorem SetInv_frame {F : Instance} {U : Nat → Bool} {s t : State} (h : SetInv F U s)
    (h1 : t.unsat_stack = s.unsat_stack)
    (h2 : t.unsat_stack_fill_pointer = s.unsat_stack_fill_pointer)
    (h3 : t.index_in_unsat_stack = s.index_in_unsat_stack)
    (h4 : t.varMutable = s.varMutable)
    (h5 : t.unsat_app_count = s.unsat_app_count) : SetInv F U t := by
  unfold SetInv
  rw [h1, h2, h3, h4, h5]
  exact h

theorem SetInv_unsat {F : Instance} {U V : Nat → Bool} {s : State} (h : SetInv F U s)
    (c : Nat) (hcM : c < F.num_clauses) (hn : (clauseVars F c).Nodup)
    (hc : U c = false) (hvc : V c = true) (hv : ∀ d, d ≠ c → V d = U d) :
    SetInv F V (unsat F s c) := by
  obtain ⟨ix, stk, fp, he⟩ := unsat_eq F s c
  rw [he]
  exact ⟨StackInv_push h.1 c hc hvc hv, CountInv_push h.2 c hcM hn hc hvc hv⟩

theorem SetInv_sat {F : Instance} {U V : Nat → Bool} {s : State} (h : SetInv F U s)
    (c : Nat) (hcM : c < F.num_clauses) (hn : (clauseVars F c).Nodup)
    (hc : U c = true) (hvc : V c = false) (hv : ∀ d, d ≠ c → V d = U d) :
    SetInv F V (sat F s c) := by
  obtain ⟨ix, stk, fp, he⟩ := sat_eq F s c
  rw [he]
  exact ⟨StackInv_pop h.1 c hc hvc hv, CountInv_pop h.2 c hcM hn hc hvc hv⟩

/-! ### One step of the occurrence loop of `flip` -/

theorem foldl_addScore (ls : List lit) (d : Int) (s : State) :
    ∃ sc, ls.foldl (fun t p => addScore t p.var_num d) s = { s with score := sc } := by
  induction ls generalizing s with
  | nil => exact ⟨s.score, rfl⟩
  | cons p ps ih =>
    obtain ⟨sc, h⟩ := ih (addScore s p.var_num d)
    exact ⟨sc, by rw [List.foldl_cons, h]; rfl⟩

theorem flipStep_presat (F : Instance) (flipvar : Nat) (t : State) (q : lit)
    (hp : t.preSat q.clause_num = true) : flipStep F flipvar t q = t := by
  simp [flipStep, hp]

theorem flipStep_inc2 (F : Instance) (flipvar : Nat) (t : State) (q : lit)
    (hp : t.preSat q.clause_num = false) (hs : t.cur_soln flipvar = q.sense)
    (h : t.sat_count q.clause_num + 1 = 2) :
    flipStep F flipvar t q =
      addScore { t with sat_count := setAt t.sat_count q.clause_num (t.sat_count q.clause_num + 1) }
        (t.sat_var q.clause_num) (F.clause_weight q.clause_num) := by
  simp [flipStep, hp, hs, h]

theorem flipStep_inc1 (F : Instance) (flipvar : Nat) (t : State) (q : lit)
    (hp : t.preSat q.clause_num = false) (hs : t.cur_soln flipvar = q.sense)
    (h : t.sat_count q.clause_num + 1 = 1) :
    flipStep F flipvar t q =
      sat F
        ((F.clause_lit q.clause_num).foldl
          (fun t p => addScore t p.var_num (-F.clause_weight q.clause_num))
          (addScore
            { t with
                sat_count := setAt t.sat_count q.clause_num (t.sat_count q.clause_num + 1)
                sat_var := setAt t.sat_var q.clause_num flipvar }
            flipvar (-F.clause_weight q.clause_num)))
        q.clause_num := by
  simp [flipStep, hp, hs, h]

theorem flipStep_inc0 (F : Instance) (flipvar : Nat) (t : State) (q : lit)
    (hp : t.preSat q.clause_num = false) (hs : t.cur_soln flipvar = q.sense)
    (h2 : t.sat_count q.clause_num + 1 ≠ 2) (h1 : t.sat_count q.clause_num + 1 ≠ 1) :
    flipStep F flipvar t q =
      { t with sat_count := setAt t.sat_count q.clause_num (t.sat_count q.clause_num + 1) } := by
  simp [flipStep, hp, hs, h2, h1]

theorem flipStep_dec1 (F : Instance) (flipvar : Nat) (t : State) (q : lit)
    (hp : t.preSat q.clause_num = false) (hs : t.cur_soln flipvar ≠ q.sense)
    (h : t.sat_count q.clause_num - 1 = 1) :
    ∃ sc sv, flipStep F flipvar t q =
      { t with
          sat_count := setAt t.sat_count q.clause_num (t.sat_count q.clause_num - 1)
          score := sc
          sat_var := sv } := by
  simp only [flipStep, hp, hs, h, setAt_apply, if_true, if_false, Bool.false_eq_true]
  split
  · exact ⟨_, _, rfl⟩
  · exact ⟨t.score, t.sat_var, rfl⟩

theorem flipStep_dec0 (F : Instance) (flipvar : Nat) (t : State) (q : lit)
    (hp : t.preSat q.clause_num = false) (hs : t.cur_soln flipvar ≠ q.sense)
    (h : t.sat_count q.clause_num - 1 = 0) :
    flipStep F flipvar t q =
      unsat F
        (addScore
          ((F.clause_lit q.clause_num).foldl
            (fun t p => addScore t p.var_num (F.clause_weight q.clause_num))
            { t with sat_count := setAt t.sat_count q.clause_num (t.sat_count q.clause_num - 1) })
          flipvar (F.clause_weight q.clause_num))
        q.clause_num := by
  simp [flipStep, hp, hs, h]

theorem flipStep_decN (F : Instance) (flipvar : Nat) (t : State) (q : lit)
    (hp : t.preSat q.clause_num = false) (hs : t.cur_soln flipvar ≠ q.sense)
    (h1 : t.sat_count q.clause_num - 1 ≠ 1) (h0 : t.sat_count q.clause_num - 1 ≠ 0) :
    flipStep F flipvar t q =
      { t with sat_count := setAt t.sat_count q.clause_num (t.sat_count q.clause_num - 1) } := by
  simp [flipStep, hp, hs, h1, h0]
@[simp] theorem foldl_addScore_varMutable (ls : List lit) (d : Int) (s : State) :
    (ls.foldl (fun t p => addScore t p.var_num d) s).varMutable = s.varMutable := by
  obtain ⟨sc, h⟩ := foldl_addScore ls d s
  rw [h]

@[simp] theorem addScore_varMutable (s : State) (v : Nat) (d : Int) :
    (addScore s v d).varMutable = s.varMutable := rfl

@[simp] theorem foldl_addScore_preSat (ls : List lit) (d : Int) (s : State) :
    (ls.foldl (fun t p => addScore t p.var_num d) s).preSat = s.preSat := by
  obtain ⟨sc, h⟩ := foldl_addScore ls d s
  rw [h]

@[simp] theorem addScore_preSat (s : State) (v : Nat) (d : Int) :
    (addScore s v d).preSat = s.preSat := rfl

@[simp] theorem foldl_addScore_closedFlag (ls : List lit) (d : Int) (s : State) :
    (ls.foldl (fun t p => addScore t p.var_num d) s).closedFlag = s.closedFlag := by
  obtain ⟨sc, h⟩ := foldl_addScore ls d s
  rw [h]

@[simp] theorem addScore_closedFlag (s : State) (v : Nat) (d : Int) :
    (addScore s v d).closedFlag = s.closedFlag := rfl

@[simp] theorem foldl_addScore_numPreFalsifiedClauses (ls : List lit) (d : Int) (s : State) :
    (ls.foldl (fun t p => addScore t p.var_num d) s).numPreFalsifiedClauses = s.numPreFalsifiedClauses := by
  obtain ⟨sc, h⟩ := foldl_addScore ls d s
  rw [h]

@[simp] theorem addScore_numPreFalsifiedClauses (s : State) (v : Nat) (d : Int) :
    (addScore s v d).numPreFalsifiedClauses = s.numPreFalsifiedClauses := rfl

@[simp] theorem foldl_addScore_conf_change (ls : List lit) (d : Int) (s : State) :
    (ls.foldl (fun t p => addScore t p.var_num d) s).conf_change = s.conf_change := by
  obtain ⟨sc, h⟩ := foldl_addScore ls d s
  rw [h]

@[simp] theorem addScore_conf_change (s : State) (v : Nat) (d : Int) :
    (addScore s v d).conf_change = s.conf_change := rfl

@[simp] theorem foldl_addScore_var_neighbor (ls : List lit) (d : Int) (s : State) :
    (ls.foldl (fun t p => addScore t p.var_num d) s).var_neighbor = s.var_neighbor := by
  obtain ⟨sc, h⟩ := foldl_addScore ls d s
  rw [h]

@[simp] theorem addScore_var_neighbor (s : State) (v : Nat) (d : Int) :
    (addScore s v d).var_neighbor = s.var_neighbor := rfl

@[simp] theorem foldl_addScore_sat_count (ls : List lit) (d : Int) (s : State) :
    (ls.foldl (fun t p => addScore t p.var_num d) s).sat_count = s.sat_count := by
  obtain ⟨sc, h⟩ := foldl_addScore ls d s
  rw [h]

@[simp] theorem addScore_sat_count (s : State) (v : Nat) (d : Int) :
    (addScore s v d).sat_count = s.sat_count := rfl

@[simp] theorem foldl_addScore_sat_var (ls : List lit) (d : Int) (s : State) :
    (ls.foldl (fun t p => addScore t p.var_num d) s).sat_var = s.sat_var := by
  obtain ⟨sc, h⟩ := foldl_addScore ls d s
  rw [h]

@[simp] theorem addScore_sat_var (s : State) (v : Nat) (d : Int) :
    (addScore s v d).sat_var = s.sat_var := rfl

@[simp] theorem foldl_addScore_cur_soln (ls : List lit) (d : Int) (s : State) :
    (ls.foldl (fun t p => addScore t p.var_num d) s).cur_soln = s.cur_soln := by
  obtain ⟨sc, h⟩ := foldl_addScore ls d s
  rw [h]

@[simp] theorem addScore_cur_soln (s : State) (v : Nat) (d : Int) :
    (addScore s v d).cur_soln = s.cur_soln := rfl

@[simp] theorem foldl_addScore_best_soln (ls : List lit) (d : Int) (s : State) :
    (ls.foldl (fun t p => addScore t p.var_num d) s).best_soln = s.best_soln := by
  obtain ⟨sc, h⟩ := foldl_addScore ls d s
  rw [h]

@[simp] theorem addScore_best_soln (s : State) (v : Nat) (d : Int) :
    (addScore s v d).best_soln = s.best_soln := rfl

@[simp] theorem foldl_addScore_unsat_stack (ls : List lit) (d : Int) (s : State) :
    (ls.foldl (fun t p => addScore t p.var_num d) s).unsat_stack = s.unsat_stack := by
  obtain ⟨sc, h⟩ := foldl_addScore ls d s
  rw [h]

@[simp] theorem addScore_unsat_stack (s : State) (v : Nat) (d : Int) :
    (addScore s v d).unsat_stack = s.unsat_stack := rfl

@[simp] theorem foldl_addScore_unsat_stack_fill_pointer (ls : List lit) (d : Int) (s : State) :
    (ls.foldl (fun t p => addScore t p.var_num d) s).unsat_stack_fill_pointer = s.unsat_stack_fill_pointer := by
  obtain ⟨sc, h⟩ := foldl_addScore ls d s
  rw [h]

@[simp] theorem addScore_unsat_stack_fill_pointer (s : State) (v : Nat) (d : Int) :
    (addScore s v d).unsat_stack_fill_pointer = s.unsat_stack_fill_pointer := rfl

@[simp] theorem foldl_addScore_index_in_unsat_stack (ls : List lit) (d : Int) (s : State) :
    (ls.foldl (fun t p => addScore t p.var_num d) s).index_in_unsat_stack = s.index_in_unsat_stack := by
  obtain ⟨sc, h⟩ := foldl_addScore ls d s
  rw [h]

@[simp] theorem addScore_index_in_unsat_stack (s : State) (v : Nat) (d : Int) :
    (addScore s v d).index_in_unsat_stack = s.index_in_unsat_stack := rfl

@[simp] theorem foldl_addScore_unsatvar_stack (ls : List lit) (d : Int) (s : State) :
    (ls.foldl (fun t p => addScore t p.var_num d) s).unsatvar_stack = s.unsatvar_stack := by
  obtain ⟨sc, h⟩ := foldl_addScore ls d s
  rw [h]

@[simp] theorem addScore_unsatvar_stack (s : State) (v : Nat) (d : Int) :
    (addScore s v d).unsatvar_stack = s.unsatvar_stack := rfl

@[simp] theorem foldl_addScore_unsatvar_stack_fill_pointer (ls : List lit) (d : Int) (s : State) :
    (ls.foldl (fun t p => addScore t p.var_num d) s).unsatvar_stack_fill_pointer = s.unsatvar_stack_fill_pointer := by
  obtain ⟨sc, h⟩ := foldl_addScore ls d s
  rw [h]

@[simp] theorem addScore_unsatvar_stack_fill_pointer (s : State) (v : Nat) (d : Int) :
    (addScore s v d).unsatvar_stack_fill_pointer = s.unsatvar_stack_fill_pointer := rfl

@[simp] theorem foldl_addScore_index_in_unsatvar_stack (ls : List lit) (d : Int) (s : State) :
    (ls.foldl (fun t p => addScore t p.var_num d) s).index_in_unsatvar_stack = s.index_in_unsatvar_stack := by
  obtain ⟨sc, h⟩ := foldl_addScore ls d s
  rw [h]

@[simp] theorem addScore_index_in_unsatvar_stack (s : State) (v : Nat) (d : Int) :
    (addScore s v d).index_in_unsatvar_stack = s.index_in_unsatvar_stack := rfl

@[simp] theorem foldl_addScore_unsat_app_count (ls : List lit) (d : Int) (s : State) :
    (ls.foldl (fun t p => addScore t p.var_num d) s).unsat_app_count = s.unsat_app_count := by
  obtain ⟨sc, h⟩ := foldl_addScore ls d s
  rw [h]

@[simp] theorem addScore_unsat_app_count (s : State) (v : Nat) (d : Int) :
    (addScore s v d).unsat_app_count = s.unsat_app_count := rfl

@[simp] theorem foldl_addScore_total_unsat_clause_weight (ls : List lit) (d : Int) (s : State) :
    (ls.foldl (fun t p => addScore t p.var_num d) s).total_unsat_clause_weight = s.total_unsat_clause_weight := by
  obtain ⟨sc, h⟩ := foldl_addScore ls d s
  rw [h]

@[simp] theorem addScore_total_unsat_clause_weight (s : State) (v : Nat) (d : Int) :
    (addScore s v d).total_unsat_clause_weight = s.total_unsat_clause_weight := rfl

theorem isUnsat_setAt_ne (n : Nat) (p : Nat → Bool) (sc : Nat → Int) (c : Nat) (x : Int) (d : Nat)
    (h : d ≠ c) : isUnsat n p (setAt sc c x) d = isUnsat n p sc d := by
  simp [isUnsat, h]

theorem isUnsat_setAt_same (n : Nat) (p : Nat → Bool) (sc : Nat → Int) (c : Nat) (x : Int) :
    isUnsat n p (setAt sc c x) c = (decide (c < n) && (!p c && decide (x = 0))) := by
  simp [isUnsat]

theorem flipStep_frame (F : Instance) (flipvar : Nat) (t : State) (q : lit) :
    StepFrame flipvar t q (flipStep F flipvar t q) := by
  by_cases hp : t.preSat q.clause_num = true
  · rw [flipStep_presat F flipvar t q hp]
    constructor <;> simp [hp]
  · have hp0 : t.preSat q.clause_num = false := by simpa using hp
    by_cases hs : t.cur_soln flipvar = q.sense
    · by_cases h2 : t.sat_count q.clause_num + 1 = 2
      · rw [flipStep_inc2 F flipvar t q hp0 hs h2]
        constructor <;> simp [hp0, hs]
      · by_cases h1 : t.sat_count q.clause_num + 1 = 1
        · rw [flipStep_inc1 F flipvar t q hp0 hs h1]
          constructor <;> simp [hp0, hs]
        · rw [flipStep_inc0 F flipvar t q hp0 hs h2 h1]
          constructor <;> simp [hp0, hs]
    · by_cases h1 : t.sat_count q.clause_num - 1 = 1
      · obtain ⟨sc, sv, he⟩ := flipStep_dec1 F flipvar t q hp0 hs h1
        rw [he]
        constructor <;> simp [hp0, hs]
        rfl
      · by_cases h0 : t.sat_count q.clause_num - 1 = 0
        · rw [flipStep_dec0 F flipvar t q hp0 hs h0]
          constructor <;> simp [hp0, hs]
          rfl
        · rw [flipStep_decN F flipvar t q hp0 hs h1 h0]
          constructor <;> simp [hp0, hs]
          rfl

theorem flipStep_SetInv (F : Instance) (flipvar : Nat) (t : State) (q : lit)
    (hcM : q.clause_num < F.num_clauses) (hn : (clauseVars F q.clause_num).Nodup)
    (hpre : t.preSat q.clause_num = false →
      (t.cur_soln flipvar = q.sense → t.sat_count q.clause_num ≠ -1) ∧
      (t.cur_soln flipvar ≠ q.sense → t.sat_count q.clause_num ≠ 0))
    (h : SetInv F (isUnsat F.num_clauses t.preSat t.sat_count) t) :
    SetInv F
      (isUnsat F.num_clauses (flipStep F flipvar t q).preSat (flipStep F flipvar t q).sat_count)
      (flipStep F flipvar t q) := by
  by_cases hp : t.preSat q.clause_num = true
  · rw [flipStep_presat F flipvar t q hp]; exact h
  · have hp0 : t.preSat q.clause_num = false := by simpa using hp
    obtain ⟨hpre1, hpre2⟩ := hpre hp0
    -- the set after the step agrees with the set before the step away from the clause
    have hoff : ∀ (x : Int) (d : Nat), d ≠ q.clause_num →
        isUnsat F.num_clauses t.preSat (setAt t.sat_count q.clause_num x) d =
          isUnsat F.num_clauses t.preSat t.sat_count d :=
      fun x d hd => isUnsat_setAt_ne _ _ _ _ x d hd
    -- a step that takes the count from a nonzero value to a nonzero value
    have hsame : ∀ (x : Int), t.sat_count q.clause_num ≠ 0 → x ≠ 0 → ∀ d,
        isUnsat F.num_clauses t.preSat (setAt t.sat_count q.clause_num x) d =
          isUnsat F.num_clauses t.preSat t.sat_count d := by
      intro x h0 hx d
      by_cases hd : d = q.clause_num
      · subst hd; simp [isUnsat, h0, hx]
      · exact hoff x d hd
    by_cases hs : t.cur_soln flipvar = q.sense
    · have hm1 := hpre1 hs
      by_cases h2 : t.sat_count q.clause_num + 1 = 2
      · rw [flipStep_inc2 F flipvar t q hp0 hs h2]
        have h0 : t.sat_count q.clause_num ≠ 0 := by omega
        exact SetInv_congr (SetInv_frame h rfl rfl rfl rfl rfl)
          (hsame _ h0 (by omega))
      · by_cases h1 : t.sat_count q.clause_num + 1 = 1
        · rw [flipStep_inc1 F flipvar t q hp0 hs h1]
          have h0 : t.sat_count q.clause_num = 0 := by omega
          simp only [sat_preSat, sat_sat_count, foldl_addScore_preSat, foldl_addScore_sat_count,
            addScore_preSat, addScore_sat_count]
          apply SetInv_sat (SetInv_frame h _ _ _ _ _) q.clause_num hcM hn
          · simp [isUnsat, hcM, hp0, h0]
          · simp [isUnsat, h0]
          · intro d hd; exact hoff _ d hd
          all_goals simp
        · rw [flipStep_inc0 F flipvar t q hp0 hs h2 h1]
          have h0 : t.sat_count q.clause_num ≠ 0 := by omega
          exact SetInv_congr (SetInv_frame h rfl rfl rfl rfl rfl)
            (hsame _ h0 (by omega))
    · have hne0 := hpre2 hs
      by_cases h1 : t.sat_count q.clause_num - 1 = 1
      · obtain ⟨sc, sv, he⟩ := flipStep_dec1 F flipvar t q hp0 hs h1
        rw [he]
        exact SetInv_congr (SetInv_frame h rfl rfl rfl rfl rfl)
          (hsame _ hne0 (by omega))
      · by_cases h0 : t.sat_count q.clause_num - 1 = 0
        · rw [flipStep_dec0 F flipvar t q hp0 hs h0]
          simp only [unsat_preSat, unsat_sat_count, foldl_addScore_preSat, foldl_addScore_sat_count,
            addScore_preSat, addScore_sat_count]
          apply SetInv_unsat (SetInv_frame h _ _ _ _ _) q.clause_num hcM hn
          · simp [isUnsat, hne0]
          · simp [isUnsat, hcM, hp0, h0]
          · intro d hd; exact hoff _ d hd
          all_goals simp
        · rw [flipStep_decN F flipvar t q hp0 hs h1 h0]
          exact SetInv_congr (SetInv_frame h rfl rfl rfl rfl rfl)
            (hsame _ hne0 (by omega))

/-! ### The inverted index `var_lit` -/

theorem mem_var_lit (F : Instance) (hwf : WF F) (v : Nat) (q : lit) (hq : q ∈ var_lit F v) :
    q.clause_num < F.num_clauses ∧ q ∈ F.clause_lit q.clause_num ∧ q.var_num = v := by
  unfold var_lit at hq
  rw [List.mem_flatMap] at hq
  obtain ⟨c, hc, hqc⟩ := hq
  rw [List.mem_range] at hc
  rw [List.mem_filter] at hqc
  have hnum : q.clause_num = c := ((hwf c hc).1 q hqc.1).1
  rw [hnum]
  exact ⟨hc, hqc.1, by simpa using hqc.2⟩

theorem mem_var_lit_of_mem (F : Instance) (c : Nat) (hc : c < F.num_clauses) (l : lit)
    (hl : l ∈ F.clause_lit c) : l ∈ var_lit F l.var_num := by
  unfold var_lit
  rw [List.mem_flatMap]
  exact ⟨c, List.mem_range.mpr hc, List.mem_filter.mpr ⟨hl, by simp⟩⟩

theorem filter_var_clause_nums (ls : List lit) (n v : Nat)
    (hnum : ∀ l ∈ ls, l.clause_num = n) (hn : (ls.map lit.var_num).Nodup) :
    ((ls.filter (fun l => decide (l.var_num = v))).map lit.clause_num) =
      if v ∈ ls.map lit.var_num then [n] else [] := by
  induction ls with
  | nil => simp
  | cons a as ih =>
    rw [List.map_cons, List.nodup_cons] at hn
    have hnum2 : ∀ l ∈ as, l.clause_num = n := fun l hl => hnum l (List.mem_cons_of_mem _ hl)
    have iha := ih hnum2 hn.2
    by_cases hav : a.var_num = v
    · have hnot : v ∉ as.map lit.var_num := hav ▸ hn.1
      rw [if_neg hnot] at iha
      simp [List.filter_cons, hav, iha, hnum a (List.mem_cons_self _ _)]
    · have hva : ¬ v = a.var_num := fun h => hav h.symm
      simp only [List.filter_cons, hav, decide_False, Bool.false_eq_true, if_false, iha,
        List.map_cons, List.mem_cons, hva, false_or]

theorem var_lit_clause_nums (F : Instance) (hwf : WF F) (v : Nat) :
    (var_lit F v).map lit.clause_num =
      (List.range F.num_clauses).filter (fun c => decide (v ∈ clauseVars F c)) := by
  unfold var_lit
  have key : ∀ n, n ≤ F.num_clauses →
      ((List.range n).flatMap
          (fun c => (F.clause_lit c).filter (fun l => decide (l.var_num = v)))).map lit.clause_num =
        (List.range n).filter (fun c => decide (v ∈ clauseVars F c)) := by
    intro n
    induction n with
    | zero => intro _; simp
    | succ k ih =>
      intro hk
      have hkM : k < F.num_clauses := by omega
      rw [List.range_succ, List.flatMap_append, List.map_append, List.filter_append, ih (by omega)]
      congr 1
      simp only [List.flatMap_cons, List.flatMap_nil, List.append_nil]
      rw [filter_var_clause_nums (F.clause_lit k) k v (fun l hl => ((hwf k hkM).1 l hl).1)
        (hwf k hkM).2]
      have hcv : clauseVars F k = (F.clause_lit k).map lit.var_num := rfl
      by_cases hmem : v ∈ (F.clause_lit k).map lit.var_num
      · rw [if_pos hmem, List.filter_cons, hcv, decide_eq_true hmem, if_pos rfl, List.filter_nil]
      · rw [if_neg hmem, List.filter_cons, hcv, decide_eq_false hmem]
        simp
  exact key _ (Nat.le_refl _)

theorem var_lit_nodup (F : Instance) (hwf : WF F) (v : Nat) :
    ((var_lit F v).map lit.clause_num).Nodup := by
  rw [var_lit_clause_nums F hwf v]
  exact (List.nodup_range _).filter _

/-! ### The occurrence loop of `flip` -/

theorem flipStep_sat_count_ne (F : Instance) (flipvar : Nat) (t : State) (q : lit) (c : Nat)
    (hc : c ≠ q.clause_num) : (flipStep F flipvar t q).sat_count c = t.sat_count c := by
  rw [(flipStep_frame F flipvar t q).sat_count]
  by_cases hp : t.preSat q.clause_num = true
  · rw [if_pos hp]
  · rw [if_neg hp, setAt_apply, if_neg hc]

theorem flipStep_sat_count_same (F : Instance) (flipvar : Nat) (t : State) (q : lit) :
    (flipStep F flipvar t q).sat_count q.clause_num = stepVal flipvar t q := by
  rw [(flipStep_frame F flipvar t q).sat_count]
  unfold stepVal
  by_cases hp : t.preSat q.clause_num = true
  · rw [if_pos hp, if_pos hp]
  · rw [if_neg hp, if_neg hp, setAt_apply, if_pos rfl]

theorem flipLoop_frame (F : Instance) (flipvar : Nat) (qs : List lit) (t : State) :
    LoopFrame flipvar qs t (qs.foldl (flipStep F flipvar) t) := by
  induction qs generalizing t with
  | nil =>
    exact ⟨rfl, rfl, rfl, rfl, rfl, rfl, rfl, rfl, fun _ _ => rfl,
      fun _ q hq => absurd hq (List.not_mem_nil q)⟩
  | cons q qs ih =>
    have h1 := flipStep_frame F flipvar t q
    have h2 := ih (flipStep F flipvar t q)
    rw [List.foldl_cons]
    refine ⟨h2.varMutable.trans h1.varMutable, h2.preSat.trans h1.preSat,
      h2.cur_soln.trans h1.cur_soln, h2.best_soln.trans h1.best_soln,
      h2.var_neighbor.trans h1.var_neighbor, h2.conf_change.trans h1.conf_change,
      h2.closedFlag.trans h1.closedFlag, h2.numPre.trans h1.numPre, ?_, ?_⟩
    · intro c hc
      rw [List.map_cons, List.mem_cons, not_or] at hc
      rw [h2.untouched c hc.2, flipStep_sat_count_ne F flipvar t q c hc.1]
    · intro hnd r hr
      rw [List.map_cons, List.nodup_cons] at hnd
      rcases List.mem_cons.mp hr with hrq | hrqs
      · subst hrq
        rw [h2.untouched _ hnd.1, flipStep_sat_count_same]
      · have hne : r.clause_num ≠ q.clause_num := by
          intro he
          exact hnd.1 (he ▸ List.mem_map_of_mem lit.clause_num hrqs)
        rw [h2.touched hnd.2 r hrqs]
        unfold stepVal
        rw [h1.preSat, h1.cur_soln, flipStep_sat_count_ne F flipvar t q _ hne]

theorem flipLoop_SetInv (F : Instance) (flipvar : Nat) (qs : List lit) (t : State)
    (hnd : (qs.map lit.clause_num).Nodup)
    (hcl : ∀ q ∈ qs, q.clause_num < F.num_clauses ∧ (clauseVars F q.clause_num).Nodup)
    (hok : ∀ q ∈ qs, StepOK flipvar t q)
    (h : SetInv F (isUnsat F.num_clauses t.preSat t.sat_count) t) :
    SetInv F
      (isUnsat F.num_clauses (qs.foldl (flipStep F flipvar) t).preSat
        (qs.foldl (flipStep F flipvar) t).sat_count)
      (qs.foldl (flipStep F flipvar) t) := by
  induction qs generalizing t with
  | nil => exact h
  | cons q qs ih =>
    rw [List.map_cons, List.nodup_cons] at hnd
    rw [List.foldl_cons]
    have hq := hcl q (List.mem_cons_self _ _)
    have h1 := flipStep_frame F flipvar t q
    apply ih (flipStep F flipvar t q) hnd.2
      (fun r hr => hcl r (List.mem_cons_of_mem _ hr))
    · intro r hr
      have hne : r.clause_num ≠ q.clause_num := by
        intro he
        exact hnd.1 (he ▸ List.mem_map_of_mem lit.clause_num hr)
      have := hok r (List.mem_cons_of_mem _ hr)
      unfold StepOK at this ⊢
      rw [h1.preSat, h1.cur_soln, flipStep_sat_count_ne F flipvar t q _ hne]
      exact this
    · exact flipStep_SetInv F flipvar t q hq.1 hq.2 (hok q (List.mem_cons_self _ _)) h

/-! ### `sat_count` against the assignment -/

theorem mutTrue_setAt_not_mem (m : Nat → Bool) (cur : Nat → Int) (ls : List lit) (f : Nat)
    (x : Int) (h : f ∉ ls.map lit.var_num) :
    mutTrue m (setAt cur f x) ls = mutTrue m cur ls := by
  unfold mutTrue
  apply List.countP_congr
  intro l hl
  have : l.var_num ≠ f := fun he => h (he ▸ List.mem_map_of_mem lit.var_num hl)
  simp [this]

theorem mutTrue_pos (m : Nat → Bool) (cur : Nat → Int) (ls : List lit) (l : lit) (hl : l ∈ ls)
    (hm : m l.var_num = true) (hc : cur l.var_num = l.sense) : 0 < mutTrue m cur ls := by
  unfold mutTrue
  rw [List.countP_pos_iff]
  exact ⟨l, hl, by simp [hm, hc]⟩

theorem mutTrue_cons (m : Nat → Bool) (cur : Nat → Int) (a : lit) (as : List lit) :
    mutTrue m cur (a :: as) =
      mutTrue m cur as + (if m a.var_num = true ∧ cur a.var_num = a.sense then 1 else 0) := by
  unfold mutTrue
  rw [List.countP_cons]
  simp

theorem mutTrue_flip (m : Nat → Bool) (cur : Nat → Int) (ls : List lit) (f : Nat) (l : lit)
    (hn : (ls.map lit.var_num).Nodup) (hl : l ∈ ls) (hlf : l.var_num = f) (hm : m f = true)
    (hb : cur f = 0 ∨ cur f = 1) (hs : l.sense = 0 ∨ l.sense = 1) :
    (mutTrue m (setAt cur f (1 - cur f)) ls : Int) =
      (mutTrue m cur ls : Int) + (if 1 - cur f = l.sense then 1 else -1) := by
  induction ls with
  | nil => simp at hl
  | cons a as ih =>
    rw [List.map_cons, List.nodup_cons] at hn
    rw [mutTrue_cons, mutTrue_cons]
    by_cases hal : a = l
    · subst hal
      have hnot : f ∉ as.map lit.var_num := hlf ▸ hn.1
      rw [mutTrue_setAt_not_mem m cur as f (1 - cur f) hnot]
      simp only [setAt_apply, hlf, if_true, hm, true_and]
      rcases hb with hb | hb <;> rcases hs with hs | hs <;> simp [hb, hs]
    · have hl2 : l ∈ as := by
        rcases List.mem_cons.mp hl with h | h
        · exact absurd h.symm hal
        · exact h
      have haf : a.var_num ≠ f := by
        intro he
        exact hn.1 (he ▸ hlf ▸ List.mem_map_of_mem lit.var_num hl2)
      have := ih hn.2 hl2
      simp only [setAt_apply, haf, if_false]
      push_cast
      rw [this]
      ring

/-! ### `flip` keeps the invariant -/

theorem foldl_conf_change (ls : List Nat) (s : State) :
    ∃ cc, ls.foldl (fun t v => { t with conf_change := setAt t.conf_change v 1 }) s =
      { s with conf_change := cc } := by
  induction ls generalizing s with
  | nil => exact ⟨s.conf_change, rfl⟩
  | cons p ps ih =>
    obtain ⟨cc, h⟩ := ih { s with conf_change := setAt s.conf_change p 1 }
    exact ⟨cc, by rw [List.foldl_cons, h]⟩

theorem flip_eq (F : Instance) (s : State) (flipvar : Nat) :
    ∃ cc, flip F s flipvar = { flipOccurrences F s flipvar with conf_change := cc } := by
  unfold flip
  obtain ⟨cc, h⟩ := foldl_conf_change ((flipOccurrences F s flipvar).var_neighbor flipvar)
    (flipOccurrences F s flipvar)
  simp only [h]
  exact ⟨_, rfl⟩

theorem Inv_conf_change {F : Instance} {u : State} (cc : Nat → Int) (h : Inv F u) :
    Inv F { u with conf_change := cc } :=
  ⟨h.bin, h.cnt, h.set⟩

theorem flip_Inv (F : Instance) (hwf : WF F) (s : State) (h : Inv F s) (f : Nat)
    (hf1 : 1 ≤ f) (hf2 : f ≤ F.num_vars) (hm : s.varMutable f = true) :
    Inv F (flip F s f) := by
  obtain ⟨cc, he⟩ := flip_eq F s f
  rw [he]
  apply Inv_conf_change
  have hbf := h.bin f hf1 hf2 hm
  have LF := flipLoop_frame F f (var_lit F f)
    { s with cur_soln := setAt s.cur_soln f (1 - s.cur_soln f) }
  unfold flipOccurrences
  have hnd := var_lit_nodup F hwf f
  -- every occurrence is of a well-formed clause and its step is guarded
  have hocc : ∀ q ∈ var_lit F f,
      q.clause_num < F.num_clauses ∧ (clauseVars F q.clause_num).Nodup := by
    intro q hq
    have hq1 := mem_var_lit F hwf f q hq
    exact ⟨hq1.1, (hwf _ hq1.1).2⟩
  have hok : ∀ q ∈ var_lit F f,
      StepOK f { s with cur_soln := setAt s.cur_soln f (1 - s.cur_soln f) } q := by
    intro q hq hp
    obtain ⟨hq1, hq2, hq3⟩ := mem_var_lit F hwf f q hq
    have hcnt := h.cnt q.clause_num hq1 hp
    constructor
    · intro _
      show s.sat_count q.clause_num ≠ -1
      rw [hcnt]; omega
    · intro hne
      show s.sat_count q.clause_num ≠ 0
      have hsq := ((hwf _ hq1).1 q hq2).2.2.2
      have hne2 : ¬ (1 - s.cur_soln f = q.sense) := by simpa using hne
      have htrue : s.cur_soln q.var_num = q.sense := by
        rw [hq3]
        rcases hbf with hb | hb <;> rcases hsq with hs | hs <;> simp [hb, hs] at hne2 ⊢
      have := mutTrue_pos s.varMutable s.cur_soln (F.clause_lit q.clause_num) q hq2
        (by rw [hq3]; exact hm) htrue
      rw [hcnt]; omega
  refine ⟨?_, ?_, ?_⟩
  · intro v hv1 hv2 hvm
    rw [LF.cur_soln]
    rw [LF.varMutable] at hvm
    by_cases hvf : v = f
    · subst hvf
      simp only [setAt_apply, if_true]
      rcases hbf with hb | hb <;> simp [hb]
    · simp only [setAt_apply, hvf, if_false]
      exact h.bin v hv1 hv2 hvm
  · intro c hc hp
    rw [LF.preSat] at hp
    rw [LF.varMutable, LF.cur_soln]
    show _ = ((mutTrue s.varMutable (setAt s.cur_soln f (1 - s.cur_soln f)) (F.clause_lit c) : Nat) : Int)
    have hp0 : s.preSat c = false := hp
    by_cases hmem : f ∈ clauseVars F c
    · obtain ⟨l, hl, hlf⟩ := List.mem_map.mp hmem
      have hlwf := (hwf c hc).1 l hl
      have hlv : l ∈ var_lit F f := hlf ▸ mem_var_lit_of_mem F c hc l hl
      have ht := LF.touched hnd l hlv
      rw [hlwf.1] at ht
      rw [ht, mutTrue_flip s.varMutable s.cur_soln (F.clause_lit c) f l (hwf c hc).2 hl hlf hm hbf
        hlwf.2.2.2]
      unfold stepVal
      rw [hlwf.1]
      simp only [hp0, Bool.false_eq_true, if_false, setAt_apply, if_true]
      rw [h.cnt c hc hp0]
    · have hun : c ∉ (var_lit F f).map lit.clause_num := by
        rw [var_lit_clause_nums F hwf f, List.mem_filter]
        simp [hmem]
      rw [LF.untouched c hun, mutTrue_setAt_not_mem _ _ _ _ _ hmem]
      exact h.cnt c hc hp0
  · exact flipLoop_SetInv F f (var_lit F f) _ hnd hocc hok h.set

theorem flips_Inv (F : Instance) (hwf : WF F) (vs : List Nat) (s : State) (h : Inv F s)
    (hvs : ∀ v ∈ vs, 1 ≤ v ∧ v ≤ F.num_vars ∧ s.varMutable v = true) :
    Inv F (flips F s vs) ∧ (flips F s vs).varMutable = s.varMutable
      ∧ (flips F s vs).preSat = s.preSat := by
  induction vs generalizing s with
  | nil => exact ⟨h, rfl, rfl⟩
  | cons v vs ih =>
    have hv := hvs v (List.mem_cons_self _ _)
    have h1 := flip_Inv F hwf s h v hv.1 hv.2.1 hv.2.2
    obtain ⟨cc, he⟩ := flip_eq F s v
    have LF := flipLoop_frame F v (var_lit F v)
      { s with cur_soln := setAt s.cur_soln v (1 - s.cur_soln v) }
    have hmut : (flip F s v).varMutable = s.varMutable := by rw [he]; exact LF.varMutable
    have hps : (flip F s v).preSat = s.preSat := by rw [he]; exact LF.preSat
    have := ih (flip F s v) h1 (fun w hw => by
      have := hvs w (List.mem_cons_of_mem _ hw)
      exact ⟨this.1, this.2.1, by rw [hmut]; exact this.2.2⟩)
    unfold flips at this ⊢
    rw [List.foldl_cons]
    exact ⟨this.1, this.2.1.trans hmut, this.2.2.trans hps⟩

/-! ### The literal loop of `init` -/

theorem scanLits_clausePresat (m : Nat → Bool) (cur : Nat → Int) (ls : List lit) (a : Scan) :
    (scanLits m cur ls a).clausePresat =
      (hasImmPos m ls || (allImm m ls && a.clausePresat)) := by
  induction ls generalizing a with
  | nil => simp [scanLits, hasImmPos, allImm]
  | cons l ls ih =>
    unfold scanLits
    by_cases hm : m l.var_num = true
    · simp only [hm, if_true]
      split_ifs <;> simp [ih, hasImmPos, allImm, hm]
    · have hm0 : m l.var_num = false := by simpa using hm
      by_cases hs : l.sense = 0
      · simp [hm0, hs, ih, hasImmPos, allImm]
      · simp [hm0, hs, hasImmPos, allImm]

theorem scanLits_preFalsified (m : Nat → Bool) (cur : Nat → Int) (ls : List lit) (a : Scan) :
    (scanLits m cur ls a).preFalsified = (allImmNeg m ls && a.preFalsified) := by
  induction ls generalizing a with
  | nil => simp [scanLits, allImmNeg]
  | cons l ls ih =>
    unfold scanLits
    by_cases hm : m l.var_num = true
    · simp only [hm, if_true]
      split_ifs <;> simp [ih, allImmNeg, hm]
    · have hm0 : m l.var_num = false := by simpa using hm
      by_cases hs : l.sense = 0
      · simp [hm0, hs, ih, allImmNeg]
      · simp [hm0, hs, allImmNeg]

theorem scanLits_sat_count (m : Nat → Bool) (cur : Nat → Int) (ls : List lit) (a : Scan)
    (h : (scanLits m cur ls a).clausePresat = false) :
    (scanLits m cur ls a).sat_count = a.sat_count + (mutTrue m cur ls : Int) := by
  induction ls generalizing a with
  | nil => simp [scanLits, mutTrue]
  | cons l ls ih =>
    rw [mutTrue_cons]
    unfold scanLits at h ⊢
    by_cases hm : m l.var_num = true
    · simp only [hm, if_true] at h ⊢
      by_cases hc : cur l.var_num = l.sense
      · simp only [hc, if_true] at h ⊢
        rw [ih _ h]
        simp; ring
      · simp only [hc, if_false] at h ⊢
        rw [ih _ h]
        simp
    · have hm0 : m l.var_num = false := by simpa using hm
      by_cases hs : l.sense = 0
      · simp only [hm0, hs] at h ⊢
        simp only [Bool.false_eq_true, if_false, ne_eq, not_true_eq_false] at h ⊢
        rw [ih _ h]
        simp
      · simp [hm0, hs] at h

/-! ### The first loop of `init` -/

theorem foldl_initVar (vs : List Nat) (s : State) :
    vs.foldl initVar s =
      { s with
          cur_soln := fun v =>
            if v ∈ vs ∧ s.varMutable v = true then s.best_soln v else s.cur_soln v
          conf_change := fun v =>
            if v ∈ vs ∧ s.varMutable v = true then 1 else s.conf_change v
          unsat_app_count := fun v =>
            if v ∈ vs ∧ s.varMutable v = true then 0 else s.unsat_app_count v } := by
  induction vs generalizing s with
  | nil => simp
  | cons a as ih =>
    rw [List.foldl_cons, ih]
    unfold initVar
    by_cases hm : s.varMutable a = true
    · simp only [hm, Bool.true_eq_false, if_false, State.mk.injEq, true_and, and_true]
      refine ⟨?_, ?_, ?_⟩ <;>
      · funext v
        by_cases hva : v = a
        · subst hva; simp [hm]
        · simp [hva]
    · have hm0 : s.varMutable a = false := by simpa using hm
      simp only [hm0, if_true, State.mk.injEq, true_and, and_true]
      refine ⟨?_, ?_, ?_⟩ <;>
      · funext v
        by_cases hva : v = a
        · subst hva; simp [hm0]
        · simp [hva]

theorem initSoln_eq (F : Instance) (s : State) :
    initSoln F s =
      { s with
          unsat_stack_fill_pointer := 0
          unsatvar_stack_fill_pointer := 0
          total_unsat_clause_weight := 0
          numPreFalsifiedClauses := 0
          closedFlag := true
          cur_soln := fun v =>
            if (1 ≤ v ∧ v ≤ F.num_vars) ∧ s.varMutable v = true then s.best_soln v
            else s.cur_soln v
          conf_change := fun v =>
            if (1 ≤ v ∧ v ≤ F.num_vars) ∧ s.varMutable v = true then 1 else s.conf_change v
          unsat_app_count := fun v =>
            if (1 ≤ v ∧ v ≤ F.num_vars) ∧ s.varMutable v = true then 0
            else s.unsat_app_count v } := by
  unfold initSoln
  simp only [foldl_initVar, State.mk.injEq, true_and, and_true]
  have hr : ∀ v, v ∈ List.range' 1 F.num_vars ↔ (1 ≤ v ∧ v ≤ F.num_vars) := by
    intro v; rw [List.mem_range'_1]; omega
  refine ⟨?_, ?_, ?_⟩ <;>
  · funext v
    simp only [hr v]

/-! ### The clause loop of `init` -/

theorem scanClause_clausePresat (F : Instance) (t : State) (c : Nat) :
    (scanClause F t c).clausePresat =
      (hasImmPos t.varMutable (F.clause_lit c) || allImm t.varMutable (F.clause_lit c)) := by
  unfold scanClause
  rw [scanLits_clausePresat]
  simp

theorem scanClause_preFalsified (F : Instance) (t : State) (c : Nat) :
    (scanClause F t c).preFalsified = allImmNeg t.varMutable (F.clause_lit c) := by
  unfold scanClause
  rw [scanLits_preFalsified]
  simp

theorem scanClause_sat_count (F : Instance) (t : State) (c : Nat)
    (h : (scanClause F t c).clausePresat = false) :
    (scanClause F t c).sat_count = (mutTrue t.varMutable t.cur_soln (F.clause_lit c) : Int) := by
  unfold scanClause at h ⊢
  rw [scanLits_sat_count _ _ _ _ h]
  simp

theorem allImmNeg_allImm (m : Nat → Bool) (ls : List lit) (h : allImmNeg m ls = true) :
    allImm m ls = true := by
  unfold allImmNeg at h
  unfold allImm
  rw [List.all_eq_true] at h ⊢
  intro l hl
  have := h l hl
  simp at this ⊢
  exact this.1

theorem initClause_presat (F : Instance) (t : State) (c : Nat)
    (h : (scanClause F t c).clausePresat = true) :
    initClause F t c =
      { t with
          sat_count := setAt t.sat_count c (scanClause F t c).sat_count
          sat_var := setAt t.sat_var c (scanClause F t c).sat_var
          preSat := setAt t.preSat c true
          numPreFalsifiedClauses :=
            if (scanClause F t c).preFalsified = true then t.numPreFalsifiedClauses + 1
            else t.numPreFalsifiedClauses } := by
  simp [initClause, h]

theorem initClause_unsat (F : Instance) (t : State) (c : Nat)
    (h : (scanClause F t c).clausePresat = false) (h0 : (scanClause F t c).sat_count = 0) :
    initClause F t c =
      unsat F
        { t with
            sat_count := setAt t.sat_count c (scanClause F t c).sat_count
            sat_var := setAt t.sat_var c (scanClause F t c).sat_var
            preSat := setAt t.preSat c false
            closedFlag := false } c := by
  simp [initClause, h, h0]

theorem initClause_live (F : Instance) (t : State) (c : Nat)
    (h : (scanClause F t c).clausePresat = false) (h0 : (scanClause F t c).sat_count ≠ 0) :
    initClause F t c =
      { t with
          sat_count := setAt t.sat_count c (scanClause F t c).sat_count
          sat_var := setAt t.sat_var c (scanClause F t c).sat_var
          preSat := setAt t.preSat c false
          closedFlag := false } := by
  simp [initClause, h, h0]

theorem initClause_step (F : Instance) (t : State) (c : Nat) :
    ClauseStep F t c (initClause F t c) := by
  by_cases h : (scanClause F t c).clausePresat = true
  · rw [initClause_presat F t c h]
    constructor <;> simp [h]
    split_ifs <;> simp
  · have h0 : (scanClause F t c).clausePresat = false := by simpa using h
    have hpf : (scanClause F t c).preFalsified = false := by
      rw [scanClause_preFalsified]
      rw [scanClause_clausePresat] at h0
      by_contra hne
      have := allImmNeg_allImm _ _ (by simpa using hne)
      simp [this] at h0
    by_cases hz : (scanClause F t c).sat_count = 0
    · rw [initClause_unsat F t c h0 hz]
      constructor <;> simp [h0, hpf]
    · rw [initClause_live F t c h0 hz]
      constructor <;> simp [h0, hpf]

theorem scanClause_congr (F : Instance) (t b : State) (c : Nat)
    (h1 : t.varMutable = b.varMutable) (h2 : t.cur_soln = b.cur_soln) :
    (scanClause F t c).clausePresat =
        (hasImmPos b.varMutable (F.clause_lit c) || allImm b.varMutable (F.clause_lit c)) ∧
      (scanClause F t c).preFalsified = allImmNeg b.varMutable (F.clause_lit c) ∧
      ((scanClause F t c).clausePresat = false →
        (scanClause F t c).sat_count = (mutTrue b.varMutable b.cur_soln (F.clause_lit c) : Int)) := by
  refine ⟨?_, ?_, ?_⟩
  · rw [scanClause_clausePresat, h1]
  · rw [scanClause_preFalsified, h1]
  · intro h; rw [scanClause_sat_count F t c h, h1, h2]

theorem ClauseInv_step (F : Instance) (b t : State) (n : Nat) (h : ClauseInv F b n t) :
    ClauseInv F b (n + 1) (initClause F t n) := by
  have st := initClause_step F t n
  obtain ⟨hps, hpf, hsc⟩ := scanClause_congr F t b n h.varMutable h.cur_soln
  refine ⟨st.varMutable.trans h.varMutable, st.cur_soln.trans h.cur_soln,
    st.best_soln.trans h.best_soln, st.conf_change.trans h.conf_change,
    st.score.trans h.score, st.var_neighbor.trans h.var_neighbor, ?_, ?_, ?_, ?_⟩
  · intro c hc
    rw [st.preSat]
    by_cases hcn : c = n
    · subst hcn; simp [hps]
    · simp only [setAt_apply, hcn, if_false]
      exact h.preSat_lt c (by omega)
  · intro c hc hp
    rw [st.preSat] at hp
    rw [st.sat_count]
    by_cases hcn : c = n
    · subst hcn
      simp only [setAt_apply, if_true] at hp ⊢
      exact hsc hp
    · simp only [setAt_apply, hcn, if_false] at hp ⊢
      exact h.cnt c (by omega) hp
  · rw [st.numPre, h.numPre, hpf, List.range_succ, List.countP_append]
    simp only [List.countP_cons, List.countP_nil]
    push_cast
    split_ifs <;> simp
    ring
  · rw [st.closed, h.closed, st.preSat, List.range_succ, List.all_append]
    have : (List.range n).all (fun c => setAt t.preSat n (scanClause F t n).clausePresat c) =
        (List.range n).all (fun c => t.preSat c) := by
      rw [Bool.eq_iff_iff, List.all_eq_true, List.all_eq_true]
      constructor
      · intro hh c hc
        have hcn : c ≠ n := by
          have := List.mem_range.mp hc; omega
        have := hh c hc
        simpa [hcn] using this
      · intro hh c hc
        have hcn : c ≠ n := by
          have := List.mem_range.mp hc; omega
        simpa [hcn] using hh c hc
    rw [this]
    simp [Bool.and_assoc]

theorem initClauses_loop (F : Instance) (b : State) (n : Nat) :
    ClauseInv F b n ((List.range n).foldl (initClause F) b) := by
  induction n with
  | zero =>
    exact ⟨rfl, rfl, rfl, rfl, rfl, rfl, fun c hc => absurd hc (Nat.not_lt_zero c),
      fun c hc => absurd hc (Nat.not_lt_zero c), by simp, by simp⟩
  | succ k ih =>
    rw [List.range_succ, List.foldl_append]
    exact ClauseInv_step F b _ k ih

theorem isUnsat_succ_ne (n : Nat) (p : Nat → Bool) (sc : Nat → Int) (b : Bool) (x : Int) (d : Nat)
    (hd : d ≠ n) :
    isUnsat (n + 1) (setAt p n b) (setAt sc n x) d = isUnsat n p sc d := by
  have : (d < n + 1) = (d < n) := by
    apply propext; omega
  simp [isUnsat, hd, this]

theorem isUnsat_self (n : Nat) (p : Nat → Bool) (sc : Nat → Int) : isUnsat n p sc n = false := by
  simp [isUnsat]

theorem initClause_SetInv (F : Instance) (t : State) (n : Nat) (hn : n < F.num_clauses)
    (hnd : (clauseVars F n).Nodup)
    (h : SetInv F (isUnsat n t.preSat t.sat_count) t) :
    SetInv F
      (isUnsat (n + 1) (initClause F t n).preSat (initClause F t n).sat_count)
      (initClause F t n) := by
  have hsame : ∀ (b : Bool) (x : Int), (b = true ∨ x ≠ 0) → ∀ d,
      isUnsat (n + 1) (setAt t.preSat n b) (setAt t.sat_count n x) d =
        isUnsat n t.preSat t.sat_count d := by
    intro b x hbx d
    by_cases hd : d = n
    · subst hd
      rw [isUnsat_self]
      rcases hbx with hb | hx
      · simp [isUnsat, hb]
      · simp [isUnsat, hx]
    · exact isUnsat_succ_ne n _ _ b x d hd
  by_cases hp : (scanClause F t n).clausePresat = true
  · rw [initClause_presat F t n hp]
    exact SetInv_congr (SetInv_frame h rfl rfl rfl rfl rfl) (hsame true _ (Or.inl rfl))
  · have hp0 : (scanClause F t n).clausePresat = false := by simpa using hp
    by_cases hz : (scanClause F t n).sat_count = 0
    · rw [initClause_unsat F t n hp0 hz]
      simp only [unsat_preSat, unsat_sat_count]
      apply SetInv_unsat (SetInv_frame h _ _ _ _ _) n hn hnd (isUnsat_self n _ _)
      · simp [isUnsat, hz]
      · intro d hd; exact isUnsat_succ_ne n _ _ _ _ d hd
      all_goals rfl
    · rw [initClause_live F t n hp0 hz]
      exact SetInv_congr (SetInv_frame h rfl rfl rfl rfl rfl) (hsame false _ (Or.inr hz))

theorem initClauses_SetInv (F : Instance) (hwf : WF F) (b : State)
    (hb : SetInv F (isUnsat 0 b.preSat b.sat_count) b) (n : Nat) (hn : n ≤ F.num_clauses) :
    SetInv F
      (isUnsat n ((List.range n).foldl (initClause F) b).preSat
        ((List.range n).foldl (initClause F) b).sat_count)
      ((List.range n).foldl (initClause F) b) := by
  induction n with
  | zero => exact hb
  | succ k ih =>
    rw [List.range_succ, List.foldl_append]
    exact initClause_SetInv F _ k (by omega) (hwf k (by omega)).2 (ih (by omega))

theorem initSoln_SetInv (F : Instance) (s : State) :
    SetInv F (isUnsat 0 (initSoln F s).preSat (initSoln F s).sat_count) (initSoln F s) := by
  have hU : ∀ d, isUnsat 0 (initSoln F s).preSat (initSoln F s).sat_count d = false := by
    intro d; simp [isUnsat]
  rw [initSoln_eq]
  refine ⟨⟨?_, ?_⟩, ?_⟩
  · intro i hi
    exact absurd hi (Nat.not_lt_zero i)
  · intro c hc
    simp [isUnsat] at hc
  · intro v h1 h2 hm
    have : unsatOcc F (isUnsat 0 s.preSat s.sat_count) v = 0 := by
      unfold unsatOcc
      rw [List.countP_eq_zero]
      intro c _
      simp [isUnsat]
    have hm1 : s.varMutable v = true := hm
    simp only [this]
    simp [h1, h2, hm1]

theorem init_eq (F : Instance) (s : State) :
    ∃ sc cc, init F s = { initClauses F s with score := sc, conf_change := cc } := by
  unfold init
  have key : ∀ (vs : List Nat) (t : State),
      ∃ sc, vs.foldl (initScore F) t = { t with score := sc } := by
    intro vs
    induction vs with
    | nil => intro t; exact ⟨t.score, rfl⟩
    | cons a as ih =>
      intro t
      obtain ⟨sc, h⟩ := ih (initScore F t a)
      rw [List.foldl_cons, h]
      unfold initScore
      split_ifs <;> exact ⟨sc, rfl⟩
  obtain ⟨sc, h⟩ := key (List.range' 1 F.num_vars) (initClauses F s)
  simp only [h]
  exact ⟨_, _, rfl⟩

theorem Inv_score_conf {F : Instance} {u : State} (sc cc : Nat → Int) (h : Inv F u) :
    Inv F { u with score := sc, conf_change := cc } :=
  ⟨h.bin, h.cnt, h.set⟩

theorem init_Inv (F : Instance) (hwf : WF F) (s : State)
    (hbest : ∀ v, s.best_soln v = 0 ∨ s.best_soln v = 1) : Inv F (init F s) := by
  obtain ⟨sc, cc, he⟩ := init_eq F s
  rw [he]
  apply Inv_score_conf
  have CI := initClauses_loop F (initSoln F s) F.num_clauses
  have SI := initClauses_SetInv F hwf (initSoln F s) (initSoln_SetInv F s) F.num_clauses
    (Nat.le_refl _)
  have hcur : ∀ v, 1 ≤ v → v ≤ F.num_vars → s.varMutable v = true →
      (initSoln F s).cur_soln v = s.best_soln v := by
    intro v h1 h2 hm
    rw [initSoln_eq]
    simp [h1, h2, hm]
  have hmut : (initSoln F s).varMutable = s.varMutable := by rw [initSoln_eq]
  refine ⟨?_, ?_, SI⟩
  · intro v h1 h2 hm
    unfold initClauses at hm ⊢
    rw [CI.varMutable, hmut] at hm
    rw [CI.cur_soln, hcur v h1 h2 hm]
    exact hbest v
  · intro c hc hp
    unfold initClauses at hp ⊢
    rw [CI.varMutable, CI.cur_soln]
    exact CI.cnt c hc hp

/-! ### The invariant on every reachable state -/

theorem init_varMutable (F : Instance) (s : State) : (init F s).varMutable = s.varMutable := by
  obtain ⟨sc, cc, he⟩ := init_eq F s
  rw [he]
  have CI := initClauses_loop F (initSoln F s) F.num_clauses
  show (initClauses F s).varMutable = _
  unfold initClauses
  rw [CI.varMutable, initSoln_eq]

theorem reachable_Inv (F : Instance) (hwf : WF F) (s0 : State)
    (hbest : ∀ v, s0.best_soln v = 0 ∨ s0.best_soln v = 1) (vs : List Nat)
    (hvs : ∀ v ∈ vs, 1 ≤ v ∧ v ≤ F.num_vars ∧ s0.varMutable v = true) :
    Inv F (flips F (init F s0) vs) ∧
      (flips F (init F s0) vs).varMutable = s0.varMutable := by
  have h := flips_Inv F hwf vs (init F s0) (init_Inv F hwf s0 hbest)
    (fun v hv => by
      have := hvs v hv
      exact ⟨this.1, this.2.1, by rw [init_varMutable]; exact this.2.2⟩)
  exact ⟨h.1, h.2.1.trans (init_varMutable F s0)⟩

theorem mutTrue_eq_trueCount (m : Nat → Bool) (cur : Nat → Int) (ls : List lit)
    (h : hasImmTrue m cur ls = false) : mutTrue m cur ls = trueCount cur ls := by
  unfold mutTrue trueCount
  apply List.countP_congr
  intro l hl
  unfold hasImmTrue at h
  rw [List.any_eq_false] at h
  have := h l hl
  by_cases hm : m l.var_num = true
  · simp [hm]
  · have hm0 : m l.var_num = false := by simpa using hm
    simp [hm0] at this ⊢
    exact fun he => this he.symm

/-- C1 (as stated) fails: for the clause `(x1 ∨ x2)` with `x1` immutable and fixed to 1 and
`x2` mutable with best value 1, `init()` leaves `sat_count[0] = 1` although two literals of
the clause have their sense equal to `cur_soln`. -/
theorem sat_count_presat_counterexample :
    WF exPosPos ∧ (init exPosPos stFix1True).preSat 0 = true ∧
      (init exPosPos stFix1True).sat_count 0 = 1 ∧
      trueCount (init exPosPos stFix1True).cur_soln (exPosPos.clause_lit 0) = 2 := by
  decide

/-- C1 (amended): after `init()` and any sequence of `flip(v)` on mutable variables, for every
live (non-pre-sat) clause `c`, `sat_count[c]` is the number of literals of `c` on a mutable
variable whose sense equals `cur_soln`; when no immutable literal of `c` is true under
`cur_soln` this is the number of all literals of `c` whose sense equals `cur_soln`. -/
theorem sat_count_live (F : Instance) (hwf : WF F) (s0 : State)
    (hbest : ∀ v, s0.best_soln v = 0 ∨ s0.best_soln v = 1) (vs : List Nat)
    (hvs : ∀ v ∈ vs, 1 ≤ v ∧ v ≤ F.num_vars ∧ s0.varMutable v = true)
    (c : Nat) (hc : c < F.num_clauses) (hlive : (flips F (init F s0) vs).preSat c = false) :
    (flips F (init F s0) vs).sat_count c =
        (mutTrue (flips F (init F s0) vs).varMutable (flips F (init F s0) vs).cur_soln
          (F.clause_lit c) : Int) ∧
      (hasImmTrue (flips F (init F s0) vs).varMutable (flips F (init F s0) vs).cur_soln
          (F.clause_lit c) = false →
        (flips F (init F s0) vs).sat_count c =
          (trueCount (flips F (init F s0) vs).cur_soln (F.clause_lit c) : Int)) := by
  have h := (reachable_Inv F hwf s0 hbest vs hvs).1
  refine ⟨h.cnt c hc hlive, fun himm => ?_⟩
  rw [h.cnt c hc hlive, mutTrue_eq_trueCount _ _ _ himm]

theorem sat_count_live_witness :
    (flips exTwo (init exTwo stAllMutable) [2, 1, 2]).sat_count 1 =
        (mutTrue (flips exTwo (init exTwo stAllMutable) [2, 1, 2]).varMutable
          (flips exTwo (init exTwo stAllMutable) [2, 1, 2]).cur_soln (exTwo.clause_lit 1) : Int) ∧
      (hasImmTrue (flips exTwo (init exTwo stAllMutable) [2, 1, 2]).varMutable
          (flips exTwo (init exTwo stAllMutable) [2, 1, 2]).cur_soln (exTwo.clause_lit 1) = false →
        (flips exTwo (init exTwo stAllMutable) [2, 1, 2]).sat_count 1 =
          (trueCount (flips exTwo (init exTwo stAllMutable) [2, 1, 2]).cur_soln
            (exTwo.clause_lit 1) : Int)) :=
  sat_count_live exTwo (by decide) stAllMutable (fun _ => Or.inl rfl) [2, 1, 2] (by decide)
    1 (by decide) (by decide)

/-- C2: after `init()` and any sequence of `flip(v)` on mutable variables, a clause `c`
occurs in `unsat_stack[0..fill)` iff `preSat[c] = 0` and `sat_count[c] = 0`; it occurs at
most once; and when it occurs `unsat_stack[index_in_unsat_stack[c]] = c`. -/
theorem unsat_stack_exact (F : Instance) (hwf : WF F) (s0 : State)
    (hbest : ∀ v, s0.best_soln v = 0 ∨ s0.best_soln v = 1) (vs : List Nat)
    (hvs : ∀ v ∈ vs, 1 ≤ v ∧ v ≤ F.num_vars ∧ s0.varMutable v = true)
    (c : Nat) (hc : c < F.num_clauses) :
    ((∃ i, i < (flips F (init F s0) vs).unsat_stack_fill_pointer ∧
          (flips F (init F s0) vs).unsat_stack i = c) ↔
        ((flips F (init F s0) vs).preSat c = false ∧ (flips F (init F s0) vs).sat_count c = 0)) ∧
      (∀ i j, i < (flips F (init F s0) vs).unsat_stack_fill_pointer →
        j < (flips F (init F s0) vs).unsat_stack_fill_pointer →
        (flips F (init F s0) vs).unsat_stack i = c →
        (flips F (init F s0) vs).unsat_stack j = c → i = j) ∧
      ((∃ i, i < (flips F (init F s0) vs).unsat_stack_fill_pointer ∧
          (flips F (init F s0) vs).unsat_stack i = c) →
        (flips F (init F s0) vs).index_in_unsat_stack c <
            (flips F (init F s0) vs).unsat_stack_fill_pointer ∧
          (flips F (init F s0) vs).unsat_stack
            ((flips F (init F s0) vs).index_in_unsat_stack c) = c) := by
  have h := (reachable_Inv F hwf s0 hbest vs hvs).1
  obtain ⟨ha, hb⟩ := h.set.1
  have hocc : ∀ i, i < (flips F (init F s0) vs).unsat_stack_fill_pointer →
      (flips F (init F s0) vs).unsat_stack i = c →
      isUnsat F.num_clauses (flips F (init F s0) vs).preSat (flips F (init F s0) vs).sat_count c
        = true ∧ (flips F (init F s0) vs).index_in_unsat_stack c = i := by
    intro i hi hic
    have := ha i hi
    rw [hic] at this
    exact this
  refine ⟨⟨?_, ?_⟩, ?_, ?_⟩
  · rintro ⟨i, hi, hic⟩
    have := (hocc i hi hic).1
    simp only [isUnsat, Bool.and_eq_true, decide_eq_true_eq, Bool.not_eq_true'] at this
    exact ⟨this.2.1, this.2.2⟩
  · rintro ⟨hp, hz⟩
    have hU : isUnsat F.num_clauses (flips F (init F s0) vs).preSat
        (flips F (init F s0) vs).sat_count c = true := by
      simp [isUnsat, hc, hp, hz]
    exact ⟨_, (hb c hU).1, (hb c hU).2⟩
  · intro i j hi hj hic hjc
    rw [← (hocc i hi hic).2, ← (hocc j hj hjc).2]
  · rintro ⟨i, hi, hic⟩
    exact hb c (hocc i hi hic).1

theorem unsat_stack_exact_witness :
    ((∃ i, i < (flips exTwo (init exTwo stAllMutable) [2, 1, 2]).unsat_stack_fill_pointer ∧
          (flips exTwo (init exTwo stAllMutable) [2, 1, 2]).unsat_stack i = 1) ↔
        ((flips exTwo (init exTwo stAllMutable) [2, 1, 2]).preSat 1 = false ∧
          (flips exTwo (init exTwo stAllMutable) [2, 1, 2]).sat_count 1 = 0)) ∧
      (∀ i j, i < (flips exTwo (init exTwo stAllMutable) [2, 1, 2]).unsat_stack_fill_pointer →
        j < (flips exTwo (init exTwo stAllMutable) [2, 1, 2]).unsat_stack_fill_pointer →
        (flips exTwo (init exTwo stAllMutable) [2, 1, 2]).unsat_stack i = 1 →
        (flips exTwo (init exTwo stAllMutable) [2, 1, 2]).unsat_stack j = 1 → i = j) ∧
      ((∃ i, i < (flips exTwo (init exTwo stAllMutable) [2, 1, 2]).unsat_stack_fill_pointer ∧
          (flips exTwo (init exTwo stAllMutable) [2, 1, 2]).unsat_stack i = 1) →
        (flips exTwo (init exTwo stAllMutable) [2, 1, 2]).index_in_unsat_stack 1 <
            (flips exTwo (init exTwo stAllMutable) [2, 1, 2]).unsat_stack_fill_pointer ∧
          (flips exTwo (init exTwo stAllMutable) [2, 1, 2]).unsat_stack
            ((flips exTwo (init exTwo stAllMutable) [2, 1, 2]).index_in_unsat_stack 1) = 1) :=
  unsat_stack_exact exTwo (by decide) stAllMutable (fun _ => Or.inl rfl) [2, 1, 2] (by decide)
    1 (by decide)

/-- C10: after `init()` and any sequence of `flip(v)` on mutable variables, for every mutable
variable `v`, `unsat_app_count[v]` is the number of clauses `c` that contain `v` and have
`preSat[c] = 0` and `sat_count[c] = 0`. -/
theorem unsat_app_count_exact (F : Instance) (hwf : WF F) (s0 : State)
    (hbest : ∀ v, s0.best_soln v = 0 ∨ s0.best_soln v = 1) (vs : List Nat)
    (hvs : ∀ v ∈ vs, 1 ≤ v ∧ v ≤ F.num_vars ∧ s0.varMutable v = true)
    (v : Nat) (hv1 : 1 ≤ v) (hv2 : v ≤ F.num_vars)
    (hm : (flips F (init F s0) vs).varMutable v = true) :
    (flips F (init F s0) vs).unsat_app_count v =
      (((List.range F.num_clauses).filter (fun c =>
          decide (v ∈ clauseVars F c) && (!(flips F (init F s0) vs).preSat c &&
            decide ((flips F (init F s0) vs).sat_count c = 0)))).length : Int) := by
  have h := (reachable_Inv F hwf s0 hbest vs hvs).1
  rw [h.set.2 v hv1 hv2 hm]
  unfold unsatOcc
  rw [List.countP_eq_length_filter]
  congr 2
  apply List.filter_congr
  intro c hc
  have hcM : c < F.num_clauses := List.mem_range.mp hc
  simp only [isUnsat, hcM, decide_True, Bool.true_and]
  rw [Bool.and_comm]

theorem unsat_app_count_exact_witness :
    (flips exTwo (init exTwo stAllMutable) [2, 1, 2]).unsat_app_count 2 =
      (((List.range exTwo.num_clauses).filter (fun c =>
          decide (2 ∈ clauseVars exTwo c) &&
            (!(flips exTwo (init exTwo stAllMutable) [2, 1, 2]).preSat c &&
              decide ((flips exTwo (init exTwo stAllMutable) [2, 1, 2]).sat_count c = 0)))).length
        : Int) :=
  unsat_app_count_exact exTwo (by decide) stAllMutable (fun _ => Or.inl rfl) [2, 1, 2]
    (by decide) 2 (by decide) (by decide) (by decide)

/-! ### The pre-sat classification of `init` -/

theorem init_preSat_closed (F : Instance) (s : State) :
    (init F s).preSat = (initClauses F s).preSat ∧
      (init F s).closedFlag = (initClauses F s).closedFlag ∧
      (init F s).numPreFalsifiedClauses = (initClauses F s).numPreFalsifiedClauses ∧
      (init F s).sat_count = (initClauses F s).sat_count ∧
      (init F s).cur_soln = (initClauses F s).cur_soln := by
  obtain ⟨sc, cc, he⟩ := init_eq F s
  rw [he]
  exact ⟨rfl, rfl, rfl, rfl, rfl⟩

theorem init_closedFlag (F : Instance) (s : State) :
    (init F s).closedFlag = true ↔ ∀ c, c < F.num_clauses → (init F s).preSat c = true := by
  obtain ⟨hp, hc, _, _, _⟩ := init_preSat_closed F s
  rw [hp, hc]
  have CI := initClauses_loop F (initSoln F s) F.num_clauses
  unfold initClauses
  rw [CI.closed]
  have : (initSoln F s).closedFlag = true := by rw [initSoln_eq]
  rw [this, Bool.true_and, List.all_eq_true]
  constructor
  · intro h c hc; exact h c (List.mem_range.mpr hc)
  · intro h c hc; exact h c (List.mem_range.mp hc)

/-- C3 (code evaluated at the failing inputs): `init()` tests the sense of an immutable
literal, not its truth value. With `x1` immutable and fixed to 0 and `x2` mutable, the clause
`(x1 ∨ x2)` has no true immutable literal and has a mutable literal, yet `preSat[0] = 1`;
the clause `(¬x1 ∨ x2)` has the true immutable literal `¬x1`, yet `preSat[0] = 0`. -/
theorem init_preSat_tests_sense :
    (hasImmTrue stFix1False.varMutable (init exPosPos stFix1False).cur_soln
        (exPosPos.clause_lit 0) = false ∧
      allImm stFix1False.varMutable (exPosPos.clause_lit 0) = false ∧
      (init exPosPos stFix1False).preSat 0 = true) ∧
    (hasImmTrue stFix1False.varMutable (init exNegPos stFix1False).cur_soln
        (exNegPos.clause_lit 0) = true ∧
      (init exNegPos stFix1False).preSat 0 = false) := by
  decide

/-- C4 (code evaluated at the failing input): for the weighted unit clause `(¬x1)` of weight 5
with `x1` immutable and fixed to 1, every literal is immutable and none is true, so the
pre-falsified weight is 5, but `init()` leaves `numPreFalsifiedClauses = 1`. -/
theorem init_numPreFalsified_counts_clauses :
    WF exWeighted ∧
      preFalsifiedWeight exWeighted (init exWeighted stFix1True) = 5 ∧
      (init exWeighted stFix1True).numPreFalsifiedClauses = 1 := by
  decide

/-- C9 (code evaluated at the failing input): clause `(¬x1 ∨ x2 ∨ x3)`, `x1` immutable and
fixed to 0, `x2`, `x3` mutable with value 1. After `init()` and `flip(2)` the clause has
`sat_count = 1` with `x3` its true mutable literal, so the score formula of `init()` gives
`score[3] = -1`; the incrementally maintained `score[3]` is `0`, because the search for the
remaining true literal stopped at the immutable literal `¬x1`. -/
theorem flip_score_diverges :
    WF exThree ∧ stFix1False.varMutable 2 = true ∧ stFix1False.varMutable 3 = true ∧
      (flip exThree (init exThree stFix1False) 2).preSat 0 = false ∧
      (flip exThree (init exThree stFix1False) 2).sat_count 0 = 1 ∧
      (flip exThree (init exThree stFix1False) 2).score 3 = 0 ∧
      scoreOf exThree (flip exThree (init exThree stFix1False) 2) 3 = -1 := by
  decide

/-! ### The score loop of `init` -/

theorem scoreOf_eq_sum (F : Instance) (s : State) (v : Nat) :
    scoreOf F s v = ((var_lit F v).map (occTerm F s v)).sum := by
  unfold scoreOf
  have key : ∀ (qs : List lit) (acc : Int),
      qs.foldl
        (fun acc q =>
          if s.preSat q.clause_num = true then acc
          else if s.sat_count q.clause_num = 0 then acc + F.clause_weight q.clause_num
          else if s.sat_count q.clause_num = 1 ∧ q.sense = s.cur_soln v then
            acc - F.clause_weight q.clause_num
          else acc) acc = acc + (qs.map (occTerm F s v)).sum := by
    intro qs
    induction qs with
    | nil => intro acc; simp
    | cons q qs ih =>
      intro acc
      rw [List.foldl_cons, ih, List.map_cons, List.sum_cons]
      unfold occTerm
      split_ifs <;> ring
  have := key (var_lit F v) 0
  simpa using this

theorem scoreOf_congr (F : Instance) (s t : State) (v : Nat) (h1 : t.preSat = s.preSat)
    (h2 : t.sat_count = s.sat_count) (h3 : t.cur_soln = s.cur_soln) :
    scoreOf F t v = scoreOf F s v := by
  unfold scoreOf
  rw [h1, h2, h3]

theorem filter_var_singleton (ls : List lit) (v : Nat) (hn : (ls.map lit.var_num).Nodup)
    (hv : v ∈ ls.map lit.var_num) :
    ∃ l, l ∈ ls ∧ l.var_num = v ∧ ls.filter (fun l => decide (l.var_num = v)) = [l] := by
  induction ls with
  | nil => simp at hv
  | cons a as ih =>
    rw [List.map_cons, List.nodup_cons] at hn
    by_cases hav : a.var_num = v
    · refine ⟨a, List.mem_cons_self _ _, hav, ?_⟩
      have hnot : v ∉ as.map lit.var_num := hav ▸ hn.1
      have : as.filter (fun l => decide (l.var_num = v)) = [] := by
        rw [List.filter_eq_nil_iff]
        intro l hl
        have : l.var_num ≠ v := fun he => hnot (he ▸ List.mem_map_of_mem lit.var_num hl)
        simp [this]
      simp [List.filter_cons, hav, this]
    · have hv2 : v ∈ as.map lit.var_num := by
        rw [List.map_cons, List.mem_cons] at hv
        rcases hv with h | h
        · exact absurd h.symm hav
        · exact h
      obtain ⟨l, hl, hlv, hf⟩ := ih hn.2 hv2
      exact ⟨l, List.mem_cons_of_mem _ hl, hlv, by simp [List.filter_cons, hav, hf]⟩

theorem filter_var_nil (ls : List lit) (v : Nat) (hv : v ∉ ls.map lit.var_num) :
    ls.filter (fun l => decide (l.var_num = v)) = [] := by
  rw [List.filter_eq_nil_iff]
  intro l hl
  have : l.var_num ≠ v := fun he => hv (he ▸ List.mem_map_of_mem lit.var_num hl)
  simp [this]

theorem occTerm_clause (F : Instance) (hwf : WF F) (s : State) (v c : Nat)
    (hc : c < F.num_clauses) :
    (((F.clause_lit c).filter (fun l => decide (l.var_num = v))).map (occTerm F s v)).sum =
      (((if (!s.preSat c && decide (v ∈ clauseVars F c)) = true then [c] else []).map
        (scoreTerm F s v)).sum) := by
  by_cases hv : v ∈ (F.clause_lit c).map lit.var_num
  · obtain ⟨l, hl, hlv, hf⟩ := filter_var_singleton _ v (hwf c hc).2 hv
    have hnum : l.clause_num = c := ((hwf c hc).1 l hl).1
    have huniq : (∃ r ∈ F.clause_lit c, r.var_num = v ∧ r.sense = s.cur_soln v) ↔
        l.sense = s.cur_soln v := by
      constructor
      · rintro ⟨r, hr, hrv, hrs⟩
        have : r ∈ (F.clause_lit c).filter (fun l => decide (l.var_num = v)) :=
          List.mem_filter.mpr ⟨hr, by simp [hrv]⟩
        rw [hf, List.mem_singleton] at this
        rw [← this]; exact hrs
      · intro h; exact ⟨l, hl, hlv, h⟩
    rw [hf]
    have hv2 : v ∈ clauseVars F c := hv
    by_cases hp : s.preSat c = true
    · simp [occTerm, hnum, hp]
    · have hp0 : s.preSat c = false := by simpa using hp
      simp only [hp0, hv2, Bool.not_false, decide_True, Bool.and_self, if_true, List.map_cons,
        List.map_nil, List.sum_cons, List.sum_nil, add_zero]
      unfold occTerm scoreTerm
      rw [hnum]
      simp only [hp0, Bool.false_eq_true, if_false, huniq]
  · rw [filter_var_nil _ v hv]
    have hv2 : ¬ v ∈ clauseVars F c := hv
    simp [hv2]

theorem scoreOf_eq_scoreSpec (F : Instance) (hwf : WF F) (s : State) (v : Nat) :
    scoreOf F s v = scoreSpec F s v := by
  rw [scoreOf_eq_sum]
  unfold var_lit scoreSpec
  have key : ∀ n, n ≤ F.num_clauses →
      (((List.range n).flatMap
          (fun c => (F.clause_lit c).filter (fun l => decide (l.var_num = v)))).map
            (occTerm F s v)).sum =
        (((List.range n).filter
          (fun c => !s.preSat c && decide (v ∈ clauseVars F c))).map (scoreTerm F s v)).sum := by
    intro n
    induction n with
    | zero => intro _; simp
    | succ k ih =>
      intro hk
      rw [List.range_succ, List.flatMap_append, List.map_append, List.sum_append,
        List.filter_append, List.map_append, List.sum_append, ih (by omega)]
      congr 1
      simp only [List.flatMap_cons, List.flatMap_nil, List.append_nil]
      rw [occTerm_clause F hwf s v k (by omega)]
      simp only [List.filter_cons, List.filter_nil]
  exact key _ (Nat.le_refl _)

theorem scoreOf_set_score (F : Instance) (t : State) (sc : Nat → Int) (v : Nat) :
    scoreOf F { t with score := sc } v = scoreOf F t v := rfl

theorem foldl_initScore (F : Instance) (vs : List Nat) (t : State) :
    vs.foldl (initScore F) t =
      { t with
          score := fun v =>
            if v ∈ vs then (if t.varMutable v = true then scoreOf F t v else 0)
            else t.score v } := by
  induction vs generalizing t with
  | nil => simp
  | cons a as ih =>
    rw [List.foldl_cons, ih]
    unfold initScore
    by_cases hm : t.varMutable a = true
    · simp only [hm, Bool.true_eq_false, if_false, State.mk.injEq, true_and, and_true,
        scoreOf_set_score]
      funext v
      by_cases hva : v = a
      · subst hva; simp [hm]
      · simp [hva]
    · have hm0 : t.varMutable a = false := by simpa using hm
      simp only [hm0, if_true, State.mk.injEq, true_and, and_true, scoreOf_set_score]
      funext v
      by_cases hva : v = a
      · subst hva; simp [hm0]
      · simp [hva]

theorem init_score (F : Instance) (s : State) (v : Nat) (hv1 : 1 ≤ v) (hv2 : v ≤ F.num_vars)
    (hm : s.varMutable v = true) : (init F s).score v = scoreOf F (init F s) v := by
  obtain ⟨hp, _, _, hsc, hcur⟩ := init_preSat_closed F s
  rw [scoreOf_congr F (initClauses F s) (init F s) v hp hsc hcur]
  have hmut : (initClauses F s).varMutable v = true := by
    have CI := initClauses_loop F (initSoln F s) F.num_clauses
    unfold initClauses
    rw [CI.varMutable, initSoln_eq]
    exact hm
  have hmem : v ∈ List.range' 1 F.num_vars := by
    rw [List.mem_range'_1]; omega
  have hv0 : v ≠ 0 := by omega
  unfold init
  simp only [foldl_initScore, setAt_apply, hv0, if_false, hmem, if_true, hmut]

theorem init_conf_change (F : Instance) (s : State) :
    (init F s).score 0 = 0 ∧ (init F s).conf_change 0 = 0 ∧
      ∀ v, 1 ≤ v → v ≤ F.num_vars → s.varMutable v = true → (init F s).conf_change v = 1 := by
  refine ⟨by simp [init], by simp [init], ?_⟩
  intro v hv1 hv2 hm
  have hv0 : v ≠ 0 := by omega
  have CI := initClauses_loop F (initSoln F s) F.num_clauses
  have : (initClauses F s).conf_change v = 1 := by
    unfold initClauses
    rw [CI.conf_change, initSoln_eq]
    simp [hv1, hv2, hm]
  unfold init
  simp only [foldl_initScore, setAt_apply, hv0, if_false]
  exact this

/-- C8: after `init()`, for every mutable variable `v`, `score[v]` is the sum over the live
clauses `c` containing `v` of `+clause_weight[c]` if `sat_count[c] = 0`, `-clause_weight[c]`
if `sat_count[c] = 1` and the literal of `v` in `c` is true, and `0` otherwise; moreover
`score[0] = 0`, `conf_change[0] = 0` and `conf_change[v] = 1` for every mutable `v`. -/
theorem init_score_formula (F : Instance) (hwf : WF F) (s : State) (v : Nat)
    (hv1 : 1 ≤ v) (hv2 : v ≤ F.num_vars) (hm : s.varMutable v = true) :
    (init F s).score v = scoreSpec F (init F s) v ∧
      (init F s).score 0 = 0 ∧ (init F s).conf_change 0 = 0 ∧
      (init F s).conf_change v = 1 := by
  have h := init_conf_change F s
  refine ⟨?_, h.1, h.2.1, h.2.2 v hv1 hv2 hm⟩
  rw [init_score F s v hv1 hv2 hm, scoreOf_eq_scoreSpec F hwf]

theorem init_score_formula_witness :
    (init exTwo stAllMutable).score 2 = scoreSpec exTwo (init exTwo stAllMutable) 2 ∧
      (init exTwo stAllMutable).score 0 = 0 ∧ (init exTwo stAllMutable).conf_change 0 = 0 ∧
      (init exTwo stAllMutable).conf_change 2 = 1 :=
  init_score_formula exTwo (by decide) stAllMutable 2 (by decide) (by decide) (by decide)

end CCLS

namespace UBCSAT

open CCLS (setAt setAt_apply)

/-! ### `setPreSat` -/

theorem presatScan_eq (P : Formula) (m : Nat → Bool) (lits : List Nat) (cp : Bool) :
    presatScan P m lits cp = (hasImmTrueLit P m lits || (allImmLits P m lits && cp)) := by
  induction lits generalizing cp with
  | nil => simp [presatScan, hasImmTrueLit, allImmLits]
  | cons L rest ih =>
    unfold presatScan
    by_cases hm : m (P.GetVarFromLit L) = true
    · simp [hm, ih, hasImmTrueLit, allImmLits]
    · have hm0 : m (P.GetVarFromLit L) = false := by simpa using hm
      by_cases ht : P.IsLitTrue L = true
      · simp [hm0, ht, hasImmTrueLit, allImmLits]
      · have ht0 : P.IsLitTrue L = false := by simpa using ht
        simp [hm0, ht0, ih, hasImmTrueLit, allImmLits]

/-- The value that `setPreSat` stores in `preSat[j]`. -/
theorem setPreSatClause_eq (P : Formula) (m a : Nat → Bool) (st : PreSatState) (j : Nat) :
    setPreSatClause P m a st j =
      { preSat := setAt st.preSat j
          (a j || (hasImmTrueLit P m (P.pClauseLits j) || allImmLits P m (P.pClauseLits j)))
        closedFlag := st.closedFlag &&
          (a j || (hasImmTrueLit P m (P.pClauseLits j) || allImmLits P m (P.pClauseLits j))) } := by
  unfold setPreSatClause
  rw [presatScan_eq]
  by_cases ha : a j = true
  · simp [ha]
  · have ha0 : a j = false := by simpa using ha
    by_cases hs : (hasImmTrueLit P m (P.pClauseLits j) || allImmLits P m (P.pClauseLits j)) = true
    · simp only [Bool.and_true, ha0, Bool.false_eq_true, if_false, hs, if_true, Bool.false_or]
    · have hs0 : (hasImmTrueLit P m (P.pClauseLits j) || allImmLits P m (P.pClauseLits j))
          = false := by simpa using hs
      simp only [Bool.and_true, ha0, Bool.false_eq_true, if_false, hs0, Bool.false_or,
        Bool.and_false]

theorem setPreSat_loop (P : Formula) (m a : Nat → Bool) (st : PreSatState) (n : Nat) :
    (∀ j, j < n →
        ((List.range n).foldl (setPreSatClause P m a) st).preSat j =
          (a j || (hasImmTrueLit P m (P.pClauseLits j) || allImmLits P m (P.pClauseLits j)))) ∧
      ((List.range n).foldl (setPreSatClause P m a) st).closedFlag =
        (st.closedFlag && (List.range n).all
          (fun j => ((List.range n).foldl (setPreSatClause P m a) st).preSat j)) := by
  induction n with
  | zero => simp
  | succ k ih =>
    rw [List.range_succ, List.foldl_append, List.foldl_cons, List.foldl_nil, setPreSatClause_eq]
    obtain ⟨ih1, ih2⟩ := ih
    constructor
    · intro j hj
      by_cases hjk : j = k
      · subst hjk; simp
      · simp only [setAt_apply, hjk, if_false]
        exact ih1 j (by omega)
    · rw [ih2, List.all_append]
      have hall : ∀ (f : Nat → Bool) (x : Bool),
          (List.range k).all (fun j => setAt f k x j) = (List.range k).all f := by
        intro f x
        rw [Bool.eq_iff_iff, List.all_eq_true, List.all_eq_true]
        constructor
        · intro hh c hc
          have hck : c ≠ k := by
            have := List.mem_range.mp hc; omega
          simpa [hck] using hh c hc
        · intro hh c hc
          have hck : c ≠ k := by
            have := List.mem_range.mp hc; omega
          simpa [hck] using hh c hc
      rw [hall]
      simp [Bool.and_assoc]

theorem hasImmTrueLit_perm (P : Formula) (m : Nat → Bool) (l1 l2 : List Nat)
    (h : l1.Perm l2) : hasImmTrueLit P m l1 = hasImmTrueLit P m l2 := by
  unfold hasImmTrueLit
  rw [Bool.eq_iff_iff, List.any_eq_true, List.any_eq_true]
  constructor
  · rintro ⟨x, hx, hp⟩; exact ⟨x, h.mem_iff.mp hx, hp⟩
  · rintro ⟨x, hx, hp⟩; exact ⟨x, h.mem_iff.mpr hx, hp⟩

theorem allImmLits_perm (P : Formula) (m : Nat → Bool) (l1 l2 : List Nat)
    (h : l1.Perm l2) : allImmLits P m l1 = allImmLits P m l2 := by
  unfold allImmLits
  rw [Bool.eq_iff_iff, List.all_eq_true, List.all_eq_true]
  constructor
  · intro hh x hx; exact hh x (h.mem_iff.mpr hx)
  · intro hh x hx; exact hh x (h.mem_iff.mp hx)

theorem setPreSat_preSat (P : Formula) (m a : Nat → Bool) (st : PreSatState) (j : Nat)
    (hj : j < P.iNumClauses) :
    (setPreSat P m a st).preSat j =
      (a j || (hasImmTrueLit P m (P.pClauseLits j) || allImmLits P m (P.pClauseLits j))) :=
  (setPreSat_loop P m a { st with closedFlag := true } P.iNumClauses).1 j hj

/-- C5: after the pre-sat analysis (`setPreSat` in the UBCSAT variant, `init` in the CCLS
variant) `closedFlag` is true iff `preSat[c]` is true for every clause `c` in
`0..numClauses-1` (vacuously for an empty formula). -/
theorem closedFlag_iff_all_preSat (P : Formula) (m a : Nat → Bool) (st : PreSatState)
    (F : CCLS.Instance) (s : CCLS.State) :
    ((setPreSat P m a st).closedFlag = true ↔
        ∀ j, j < P.iNumClauses → (setPreSat P m a st).preSat j = true) ∧
      ((CCLS.init F s).closedFlag = true ↔
        ∀ c, c < F.num_clauses → (CCLS.init F s).preSat c = true) := by
  refine ⟨?_, CCLS.init_closedFlag F s⟩
  have h := (setPreSat_loop P m a { st with closedFlag := true } P.iNumClauses).2
  unfold setPreSat
  rw [h, Bool.true_and, List.all_eq_true]
  constructor
  · intro hh j hj; exact hh j (List.mem_range.mpr hj)
  · intro hh j hj; exact hh j (List.mem_range.mp hj)

/-- C6: `setPreSat()` sets `preSat[j]` true iff `alwaysSat[j]` holds, or clause `j` contains
a literal that is immutable and true, or every literal of `j` is immutable, and false
otherwise; the result is the same for every reordering of the literals inside the clauses. -/
theorem setPreSat_exact (P : Formula) (m a : Nat → Bool) (st : PreSatState) (j : Nat)
    (hj : j < P.iNumClauses) :
    ((setPreSat P m a st).preSat j = true ↔
        (a j = true ∨
          (∃ L ∈ P.pClauseLits j, m (P.GetVarFromLit L) = false ∧ P.IsLitTrue L = true) ∨
          (∀ L ∈ P.pClauseLits j, m (P.GetVarFromLit L) = false))) ∧
      (∀ lits : Nat → List Nat, (∀ c, (lits c).Perm (P.pClauseLits c)) →
        (setPreSat { P with pClauseLits := lits } m a st).preSat j =
          (setPreSat P m a st).preSat j) := by
  constructor
  · rw [setPreSat_preSat P m a st j hj]
    simp only [Bool.or_eq_true, hasImmTrueLit, allImmLits, List.any_eq_true, List.all_eq_true,
      Bool.and_eq_true, Bool.not_eq_true']
  · intro lits hperm
    rw [setPreSat_preSat P m a st j hj,
      setPreSat_preSat { P with pClauseLits := lits } m a st j hj]
    show (a j || (hasImmTrueLit { P with pClauseLits := lits } m (lits j) ||
      allImmLits { P with pClauseLits := lits } m (lits j))) = _
    rw [← hasImmTrueLit_perm P m _ _ (hperm j), ← allImmLits_perm P m _ _ (hperm j)]
    rfl

theorem setPreSat_exact_witness :
    ((setPreSat (exFormula [[3, 4], [5, 2]]) (fun v => decide (v = 1)) (fun _ => false)
          zeroPreSat).preSat 0 = true ↔
        ((fun _ => false) 0 = true ∨
          (∃ L ∈ (exFormula [[3, 4], [5, 2]]).pClauseLits 0,
            (fun v => decide (v = 1)) ((exFormula [[3, 4], [5, 2]]).GetVarFromLit L) = false ∧
              (exFormula [[3, 4], [5, 2]]).IsLitTrue L = true) ∨
          (∀ L ∈ (exFormula [[3, 4], [5, 2]]).pClauseLits 0,
            (fun v => decide (v = 1)) ((exFormula [[3, 4], [5, 2]]).GetVarFromLit L) = false))) ∧
      (∀ lits : Nat → List Nat,
        (∀ c, (lits c).Perm ((exFormula [[3, 4], [5, 2]]).pClauseLits c)) →
        (setPreSat { exFormula [[3, 4], [5, 2]] with pClauseLits := lits }
            (fun v => decide (v = 1)) (fun _ => false) zeroPreSat).preSat 0 =
          (setPreSat (exFormula [[3, 4], [5, 2]]) (fun v => decide (v = 1)) (fun _ => false)
            zeroPreSat).preSat 0) :=
  setPreSat_exact (exFormula [[3, 4], [5, 2]]) (fun v => decide (v = 1)) (fun _ => false)
    zeroPreSat 0 (by decide)

/-! ### `setAlwaysSat` -/

theorem alwaysSatClause_pair (P : Formula) (x y : Nat) : alwaysSatClause P [x, y] = false := by
  unfold alwaysSatClause alwaysSatInner
  simp [List.range_succ, List.range'_succ]

/-- C7 (code evaluated at the failing inputs): with `GetLitSign` true on positive literals,
`setAlwaysSat()` leaves `alwaysSat = 0` for the clauses `(x1 ∨ ¬x1)`, `(¬x1 ∨ x1)`,
`(x1 ∨ x2 ∨ ¬x1)` and `(¬x1 ∨ x1 ∨ x2)`, each of which contains `x1` with both signs; it
finds the pair only in a clause such as `(x1 ∨ ¬x1 ∨ x2)`, where the negative literal follows
the positive one and is not the last literal. -/
theorem setAlwaysSat_misses_pairs :
    (hasBothSigns (exFormula []) [3, 2] = true ∧
      setAlwaysSat (exFormula [[3, 2]]) (fun _ => false) 0 = false) ∧
    (hasBothSigns (exFormula []) [2, 3] = true ∧
      setAlwaysSat (exFormula [[2, 3]]) (fun _ => false) 0 = false) ∧
    (hasBothSigns (exFormula []) [3, 5, 2] = true ∧
      setAlwaysSat (exFormula [[3, 5, 2]]) (fun _ => false) 0 = false) ∧
    (hasBothSigns (exFormula []) [2, 3, 5] = true ∧
      setAlwaysSat (exFormula [[2, 3, 5]]) (fun _ => false) 0 = false) ∧
    setAlwaysSat (exFormula [[3, 2, 5]]) (fun _ => false) 0 = true := by
  decide

end UBCSAT

namespace CCLS

/-! ### The unsat-var stack -/

theorem VarInv_frame {F : Instance} {s t : State} (h : VarInv F s)
    (h1 : t.varMutable = s.varMutable) (h2 : t.unsat_app_count = s.unsat_app_count)
    (h3 : t.unsatvar_stack = s.unsatvar_stack)
    (h4 : t.unsatvar_stack_fill_pointer = s.unsatvar_stack_fill_pointer)
    (h5 : t.index_in_unsatvar_stack = s.index_in_unsatvar_stack) : VarInv F t := by
  unfold VarInv
  rw [h1, h2, h3, h4, h5]
  exact h

theorem unsatVar_VarInv (F : Instance) (st : State) (v : Nat) (hv1 : 1 ≤ v)
    (hv2 : v ≤ F.num_vars) (h : VarInv F st) : VarInv F (unsatVar st v) := by
  unfold unsatVar
  by_cases hm : st.varMutable v = false
  · simp only [hm, if_true]; exact h
  · have hm1 : st.varMutable v = true := by simpa using hm
    simp only [hm1, Bool.true_eq_false, if_false, setAt_apply, if_true]
    have hoff : ∀ (x : Int) (d : Nat), d ≠ v →
        isUnsatVar F.num_vars st.varMutable (setAt st.unsat_app_count v x) d =
          isUnsatVar F.num_vars st.varMutable st.unsat_app_count d := by
      intro x d hd; simp [isUnsatVar, hd]
    by_cases h1 : st.unsat_app_count v + 1 = 1
    · simp only [h1, if_true]
      have h0 : st.unsat_app_count v = 0 := by omega
      exact StackInv_push h v (by simp [isUnsatVar, h0])
        (by simp [isUnsatVar, hm1, hv1, hv2]) (hoff _)
    · simp only [h1, if_false]
      refine StackInv_congr h ?_
      intro d
      by_cases hd : d = v
      · subst hd
        have : (0 < st.unsat_app_count d + 1) = (0 < st.unsat_app_count d) := by
          apply propext; omega
        simp [isUnsatVar, this]
      · exact hoff _ d hd

theorem satVar_VarInv (F : Instance) (st : State) (v : Nat) (hv1 : 1 ≤ v)
    (hv2 : v ≤ F.num_vars) (h : VarInv F st) : VarInv F (satVar st v) := by
  unfold satVar
  by_cases hm : st.varMutable v = false
  · simp only [hm, if_true]; exact h
  · have hm1 : st.varMutable v = true := by simpa using hm
    simp only [hm1, Bool.true_eq_false, if_false, setAt_apply, if_true]
    have hoff : ∀ (x : Int) (d : Nat), d ≠ v →
        isUnsatVar F.num_vars st.varMutable (setAt st.unsat_app_count v x) d =
          isUnsatVar F.num_vars st.varMutable st.unsat_app_count d := by
      intro x d hd; simp [isUnsatVar, hd]
    by_cases h1 : st.unsat_app_count v - 1 = 0
    · simp only [h1, if_true]
      have h0 : st.unsat_app_count v = 1 := by omega
      exact StackInv_pop h v (by simp [isUnsatVar, hm1, hv1, hv2, h0])
        (by simp [isUnsatVar]) (hoff _)
    · simp only [h1, if_false]
      refine StackInv_congr h ?_
      intro d
      by_cases hd : d = v
      · subst hd
        have : (0 < st.unsat_app_count d - 1) = (0 < st.unsat_app_count d) := by
          apply propext; omega
        simp [isUnsatVar, this]
      · exact hoff _ d hd

theorem foldl_unsatVar_VarInv (F : Instance) (ls : List lit) (st : State)
    (hr : ∀ l ∈ ls, 1 ≤ l.var_num ∧ l.var_num ≤ F.num_vars) (h : VarInv F st) :
    VarInv F (ls.foldl (fun st p => unsatVar st p.var_num) st) := by
  induction ls generalizing st with
  | nil => exact h
  | cons p ps ih =>
    rw [List.foldl_cons]
    have hp := hr p (List.mem_cons_self _ _)
    exact ih _ (fun l hl => hr l (List.mem_cons_of_mem _ hl))
      (unsatVar_VarInv F st p.var_num hp.1 hp.2 h)

theorem foldl_satVar_VarInv (F : Instance) (ls : List lit) (st : State)
    (hr : ∀ l ∈ ls, 1 ≤ l.var_num ∧ l.var_num ≤ F.num_vars) (h : VarInv F st) :
    VarInv F (ls.foldl (fun st p => satVar st p.var_num) st) := by
  induction ls generalizing st with
  | nil => exact h
  | cons p ps ih =>
    rw [List.foldl_cons]
    have hp := hr p (List.mem_cons_self _ _)
    exact ih _ (fun l hl => hr l (List.mem_cons_of_mem _ hl))
      (satVar_VarInv F st p.var_num hp.1 hp.2 h)

theorem unsat_VarInv (F : Instance) (s : State) (c : Nat)
    (hr : ∀ l ∈ F.clause_lit c, 1 ≤ l.var_num ∧ l.var_num ≤ F.num_vars) (h : VarInv F s) :
    VarInv F (unsat F s c) := by
  unfold unsat
  exact foldl_unsatVar_VarInv F _ _ hr (VarInv_frame h rfl rfl rfl rfl rfl)

theorem sat_VarInv (F : Instance) (s : State) (c : Nat)
    (hr : ∀ l ∈ F.clause_lit c, 1 ≤ l.var_num ∧ l.var_num ≤ F.num_vars) (h : VarInv F s) :
    VarInv F (sat F s c) := by
  unfold sat
  exact foldl_satVar_VarInv F _ _ hr (VarInv_frame h rfl rfl rfl rfl rfl)

theorem WF_range (F : Instance) (hwf : WF F) (c : Nat) (hc : c < F.num_clauses) :
    ∀ l ∈ F.clause_lit c, 1 ≤ l.var_num ∧ l.var_num ≤ F.num_vars :=
  fun l hl => ⟨((hwf c hc).1 l hl).2.1, ((hwf c hc).1 l hl).2.2.1⟩

theorem flipStep_VarInv (F : Instance) (hwf : WF F) (flipvar : Nat) (t : State) (q : lit)
    (hcM : q.clause_num < F.num_clauses) (h : VarInv F t) :
    VarInv F (flipStep F flipvar t q) := by
  have hr := WF_range F hwf q.clause_num hcM
  by_cases hp : t.preSat q.clause_num = true
  · rw [flipStep_presat F flipvar t q hp]; exact h
  · have hp0 : t.preSat q.clause_num = false := by simpa using hp
    by_cases hs : t.cur_soln flipvar = q.sense
    · by_cases h2 : t.sat_count q.clause_num + 1 = 2
      · rw [flipStep_inc2 F flipvar t q hp0 hs h2]
        exact VarInv_frame h rfl rfl rfl rfl rfl
      · by_cases h1 : t.sat_count q.clause_num + 1 = 1
        · rw [flipStep_inc1 F flipvar t q hp0 hs h1]
          apply sat_VarInv F _ _ hr
          apply VarInv_frame h <;> simp
        · rw [flipStep_inc0 F flipvar t q hp0 hs h2 h1]
          exact VarInv_frame h rfl rfl rfl rfl rfl
    · by_cases h1 : t.sat_count q.clause_num - 1 = 1
      · obtain ⟨sc, sv, he⟩ := flipStep_dec1 F flipvar t q hp0 hs h1
        rw [he]
        exact VarInv_frame h rfl rfl rfl rfl rfl
      · by_cases h0 : t.sat_count q.clause_num - 1 = 0
        · rw [flipStep_dec0 F flipvar t q hp0 hs h0]
          apply unsat_VarInv F _ _ hr
          apply VarInv_frame h <;> simp
        · rw [flipStep_decN F flipvar t q hp0 hs h1 h0]
          exact VarInv_frame h rfl rfl rfl rfl rfl

theorem flipLoop_VarInv (F : Instance) (hwf : WF F) (flipvar : Nat) (qs : List lit) (t : State)
    (hcl : ∀ q ∈ qs, q.clause_num < F.num_clauses) (h : VarInv F t) :
    VarInv F (qs.foldl (flipStep F flipvar) t) := by
  induction qs generalizing t with
  | nil => exact h
  | cons q qs ih =>
    rw [List.foldl_cons]
    exact ih _ (fun r hr => hcl r (List.mem_cons_of_mem _ hr))
      (flipStep_VarInv F hwf flipvar t q (hcl q (List.mem_cons_self _ _)) h)

theorem flip_VarInv (F : Instance) (hwf : WF F) (s : State) (f : Nat) (h : VarInv F s) :
    VarInv F (flip F s f) := by
  obtain ⟨cc, he⟩ := flip_eq F s f
  rw [he]
  have hloop : VarInv F (flipOccurrences F s f) := by
    unfold flipOccurrences
    exact flipLoop_VarInv F hwf f (var_lit F f) _
      (fun q hq => (mem_var_lit F hwf f q hq).1) (VarInv_frame h rfl rfl rfl rfl rfl)
  exact VarInv_frame hloop rfl rfl rfl rfl rfl

theorem flips_VarInv (F : Instance) (hwf : WF F) (vs : List Nat) (s : State) (h : VarInv F s) :
    VarInv F (flips F s vs) := by
  induction vs generalizing s with
  | nil => exact h
  | cons v vs ih =>
    unfold flips at ih ⊢
    rw [List.foldl_cons]
    exact ih _ (flip_VarInv F hwf s v h)

theorem initClause_VarInv (F : Instance) (hwf : WF F) (t : State) (n : Nat)
    (hn : n < F.num_clauses) (h : VarInv F t) : VarInv F (initClause F t n) := by
  by_cases hp : (scanClause F t n).clausePresat = true
  · rw [initClause_presat F t n hp]
    exact VarInv_frame h rfl rfl rfl rfl rfl
  · have hp0 : (scanClause F t n).clausePresat = false := by simpa using hp
    by_cases hz : (scanClause F t n).sat_count = 0
    · rw [initClause_unsat F t n hp0 hz]
      exact unsat_VarInv F _ n (WF_range F hwf n hn) (VarInv_frame h rfl rfl rfl rfl rfl)
    · rw [initClause_live F t n hp0 hz]
      exact VarInv_frame h rfl rfl rfl rfl rfl

theorem initClauses_VarInv (F : Instance) (hwf : WF F) (b : State) (hb : VarInv F b) (n : Nat)
    (hn : n ≤ F.num_clauses) : VarInv F ((List.range n).foldl (initClause F) b) := by
  induction n with
  | zero => exact hb
  | succ k ih =>
    rw [List.range_succ, List.foldl_append]
    exact initClause_VarInv F hwf _ k (by omega) (ih (by omega))

theorem initSoln_VarInv (F : Instance) (s : State) : VarInv F (initSoln F s) := by
  rw [initSoln_eq]
  refine ⟨?_, ?_⟩
  · intro i hi
    exact absurd hi (Nat.not_lt_zero i)
  · intro v hv
    simp only [isUnsatVar, Bool.and_eq_true, decide_eq_true_eq] at hv
    obtain ⟨hm, hr, hpos⟩ := hv
    have hm1 : s.varMutable v = true := hm
    simp [hr, hm1] at hpos

theorem init_VarInv (F : Instance) (hwf : WF F) (s : State) : VarInv F (init F s) := by
  obtain ⟨sc, cc, he⟩ := init_eq F s
  rw [he]
  have h : VarInv F (initClauses F s) :=
    initClauses_VarInv F hwf _ (initSoln_VarInv F s) F.num_clauses (Nat.le_refl _)
  exact VarInv_frame h rfl rfl rfl rfl rfl

/-- C11: after `init()` and after every sequence of `flip(v)` calls, a variable `v` of
`1..num_vars` occurs in `unsatvar_stack[0..fill)` iff it is mutable and
`unsat_app_count[v] > 0`; it occurs at most once; and when it occurs
`unsatvar_stack[index_in_unsatvar_stack[v]] = v`. -/
theorem unsatvar_stack_exact (F : Instance) (hwf : WF F) (s0 : State) (vs : List Nat)
    (v : Nat) (hv1 : 1 ≤ v) (hv2 : v ≤ F.num_vars) :
    ((∃ i, i < (flips F (init F s0) vs).unsatvar_stack_fill_pointer ∧
          (flips F (init F s0) vs).unsatvar_stack i = v) ↔
        ((flips F (init F s0) vs).varMutable v = true ∧
          0 < (flips F (init F s0) vs).unsat_app_count v)) ∧
      (∀ i j, i < (flips F (init F s0) vs).unsatvar_stack_fill_pointer →
        j < (flips F (init F s0) vs).unsatvar_stack_fill_pointer →
        (flips F (init F s0) vs).unsatvar_stack i = v →
        (flips F (init F s0) vs).unsatvar_stack j = v → i = j) ∧
      ((∃ i, i < (flips F (init F s0) vs).unsatvar_stack_fill_pointer ∧
          (flips F (init F s0) vs).unsatvar_stack i = v) →
        (flips F (init F s0) vs).index_in_unsatvar_stack v <
            (flips F (init F s0) vs).unsatvar_stack_fill_pointer ∧
          (flips F (init F s0) vs).unsatvar_stack
            ((flips F (init F s0) vs).index_in_unsatvar_stack v) = v) := by
  obtain ⟨ha, hb⟩ := flips_VarInv F hwf vs _ (init_VarInv F hwf s0)
  have hocc : ∀ i, i < (flips F (init F s0) vs).unsatvar_stack_fill_pointer →
      (flips F (init F s0) vs).unsatvar_stack i = v →
      isUnsatVar F.num_vars (flips F (init F s0) vs).varMutable
          (flips F (init F s0) vs).unsat_app_count v = true ∧
        (flips F (init F s0) vs).index_in_unsatvar_stack v = i := by
    intro i hi hiv
    have := ha i hi
    rw [hiv] at this
    exact this
  refine ⟨⟨?_, ?_⟩, ?_, ?_⟩
  · rintro ⟨i, hi, hiv⟩
    have := (hocc i hi hiv).1
    simp only [isUnsatVar, Bool.and_eq_true, decide_eq_true_eq] at this
    exact ⟨this.1, this.2.2⟩
  · rintro ⟨hm, hpos⟩
    have hU : isUnsatVar F.num_vars (flips F (init F s0) vs).varMutable
        (flips F (init F s0) vs).unsat_app_count v = true := by
      simp [isUnsatVar, hm, hv1, hv2, hpos]
    exact ⟨_, (hb v hU).1, (hb v hU).2⟩
  · intro i j hi hj hiv hjv
    rw [← (hocc i hi hiv).2, ← (hocc j hj hjv).2]
  · rintro ⟨i, hi, hiv⟩
    exact hb v (hocc i hi hiv).1

theorem unsatvar_stack_exact_witness :
    ((∃ i, i < (flips exTwo (init exTwo stAllMutable) [2, 1, 2]).unsatvar_stack_fill_pointer ∧
          (flips exTwo (init exTwo stAllMutable) [2, 1, 2]).unsatvar_stack i = 3) ↔
        ((flips exTwo (init exTwo stAllMutable) [2, 1, 2]).varMutable 3 = true ∧
          0 < (flips exTwo (init exTwo stAllMutable) [2, 1, 2]).unsat_app_count 3)) ∧
      (∀ i j, i < (flips exTwo (init exTwo stAllMutable) [2, 1, 2]).unsatvar_stack_fill_pointer →
        j < (flips exTwo (init exTwo stAllMutable) [2, 1, 2]).unsatvar_stack_fill_pointer →
        (flips exTwo (init exTwo stAllMutable) [2, 1, 2]).unsatvar_stack i = 3 →
        (flips exTwo (init exTwo stAllMutable) [2, 1, 2]).unsatvar_stack j = 3 → i = j) ∧
      ((∃ i, i < (flips exTwo (init exTwo stAllMutable) [2, 1, 2]).unsatvar_stack_fill_pointer ∧
          (flips exTwo (init exTwo stAllMutable) [2, 1, 2]).unsatvar_stack i = 3) →
        (flips exTwo (init exTwo stAllMutable) [2, 1, 2]).index_in_unsatvar_stack 3 <
            (flips exTwo (init exTwo stAllMutable) [2, 1, 2]).unsatvar_stack_fill_pointer ∧
          (flips exTwo (init exTwo stAllMutable) [2, 1, 2]).unsatvar_stack
            ((flips exTwo (init exTwo stAllMutable) [2, 1, 2]).index_in_unsatvar_stack 3) = 3) :=
  unsatvar_stack_exact exTwo (by decide) stAllMutable [2, 1, 2] 3 (by decide) (by decide)

/-! ### The counter `total_unsat_clause_weight` -/

theorem sum_filter_toggle (l : List Nat) (hl : l.Nodup) (c : Nat) (hc : c ∈ l) (p q : Nat → Bool)
    (f : Nat → Nat) (hp : p c = false) (hq : q c = true) (hpq : ∀ d, d ≠ c → q d = p d) :
    ((l.filter q).map f).sum = ((l.filter p).map f).sum + f c := by
  induction l with
  | nil => simp at hc
  | cons a as ih =>
    rw [List.nodup_cons] at hl
    by_cases hac : a = c
    · subst hac
      have hrest : as.filter q = as.filter p := by
        apply List.filter_congr
        intro d hd
        have : d ≠ a := fun he => hl.1 (he ▸ hd)
        rw [hpq d this]
      simp [List.filter_cons, hp, hq, hrest]
      omega
    · have hc2 : c ∈ as := by
        rcases List.mem_cons.mp hc with h | h
        · exact absurd h.symm hac
        · exact h
      have := ih hl.2 hc2
      rw [List.filter_cons, List.filter_cons, hpq a hac]
      by_cases hpa : p a = true
      · simp [hpa, this]; omega
      · simp [hpa, this]

theorem wsum_push (F : Instance) (U V : Nat → Bool) (c : Nat) (hcM : c < F.num_clauses)
    (hc : U c = false) (hvc : V c = true) (hv : ∀ d, d ≠ c → V d = U d) :
    wsum F V = wsum F U + toULL (F.clause_weight c) :=
  sum_filter_toggle _ (List.nodup_range _) c (List.mem_range.mpr hcM) U V _ hc hvc hv

theorem sum_filter_le (l : List Nat) (p : Nat → Bool) (f : Nat → Nat) :
    ((l.filter p).map f).sum ≤ (l.map f).sum := by
  induction l with
  | nil => simp
  | cons a as ih =>
    rw [List.filter_cons]
    by_cases hpa : p a = true
    · simp [hpa]; omega
    · simp [hpa]; omega

theorem wsum_le (F : Instance) (U : Nat → Bool) : wsum F U ≤ totalWeight F :=
  sum_filter_le _ U _

theorem TotInv_congr {F : Instance} {U V : Nat → Bool} {s : State}
    (h : TotInv F U s) (huv : ∀ d, V d = U d) : TotInv F V s := by
  have : V = U := funext huv
  rw [this]; exact h

theorem TotInv_frame {F : Instance} {U : Nat → Bool} {s t : State} (h : TotInv F U s)
    (h1 : t.total_unsat_clause_weight = s.total_unsat_clause_weight) : TotInv F U t := by
  unfold TotInv
  rw [h1]; exact h

theorem unsat_total (F : Instance) (s : State) (c : Nat) :
    (unsat F s c).total_unsat_clause_weight =
      (s.total_unsat_clause_weight + toULL (F.clause_weight c)) % 2 ^ 64 := by
  obtain ⟨ix, stk, fp, h⟩ := unsat_eq F s c
  rw [h]

theorem sat_total (F : Instance) (s : State) (c : Nat) :
    (sat F s c).total_unsat_clause_weight =
      (s.total_unsat_clause_weight + 2 ^ 64 - toULL (F.clause_weight c)) % 2 ^ 64 := by
  obtain ⟨ix, stk, fp, h⟩ := sat_eq F s c
  rw [h]

theorem TotInv_unsat {F : Instance} (hW : totalWeight F < 2 ^ 64) {U V : Nat → Bool} {s : State}
    (h : TotInv F U s) (c : Nat) (hcM : c < F.num_clauses)
    (hc : U c = false) (hvc : V c = true) (hv : ∀ d, d ≠ c → V d = U d) :
    TotInv F V (unsat F s c) := by
  unfold TotInv at h ⊢
  rw [unsat_total, h, ← wsum_push F U V c hcM hc hvc hv]
  exact Nat.mod_eq_of_lt (lt_of_le_of_lt (wsum_le F V) hW)

theorem TotInv_sat {F : Instance} (hW : totalWeight F < 2 ^ 64) {U V : Nat → Bool} {s : State}
    (h : TotInv F U s) (c : Nat) (hcM : c < F.num_clauses)
    (hc : U c = true) (hvc : V c = false) (hv : ∀ d, d ≠ c → V d = U d) :
    TotInv F V (sat F s c) := by
  unfold TotInv at h ⊢
  have hpush := wsum_push F V U c hcM hvc hc (fun d hd => (hv d hd).symm)
  have hle := lt_of_le_of_lt (wsum_le F V) hW
  rw [sat_total, h, hpush]
  have : wsum F V + toULL (F.clause_weight c) + 2 ^ 64 - toULL (F.clause_weight c) =
      wsum F V + 2 ^ 64 := by omega
  rw [this, Nat.add_mod_right]
  exact Nat.mod_eq_of_lt hle

theorem isUnsat_setAt_nonzero (n : Nat) (p : Nat → Bool) (sc : Nat → Int) (c : Nat) (x : Int)
    (h0 : sc c ≠ 0) (hx : x ≠ 0) (d : Nat) :
    isUnsat n p (setAt sc c x) d = isUnsat n p sc d := by
  by_cases hd : d = c
  · subst hd; simp [isUnsat, h0, hx]
  · exact isUnsat_setAt_ne n p sc c x d hd

theorem flipStep_TotInv (F : Instance) (hW : totalWeight F < 2 ^ 64) (flipvar : Nat) (t : State)
    (q : lit) (hcM : q.clause_num < F.num_clauses) (hpre : StepOK flipvar t q)
    (h : TotInv F (isUnsat F.num_clauses t.preSat t.sat_count) t) :
    TotInv F
      (isUnsat F.num_clauses (flipStep F flipvar t q).preSat (flipStep F flipvar t q).sat_count)
      (flipStep F flipvar t q) := by
  by_cases hp : t.preSat q.clause_num = true
  · rw [flipStep_presat F flipvar t q hp]; exact h
  · have hp0 : t.preSat q.clause_num = false := by simpa using hp
    obtain ⟨hpre1, hpre2⟩ := hpre hp0
    by_cases hs : t.cur_soln flipvar = q.sense
    · have hm1 := hpre1 hs
      by_cases h2 : t.sat_count q.clause_num + 1 = 2
      · rw [flipStep_inc2 F flipvar t q hp0 hs h2]
        exact TotInv_congr (TotInv_frame h rfl)
          (isUnsat_setAt_nonzero _ _ _ _ _ (by omega) (by omega))
      · by_cases h1 : t.sat_count q.clause_num + 1 = 1
        · rw [flipStep_inc1 F flipvar t q hp0 hs h1]
          have h0 : t.sat_count q.clause_num = 0 := by omega
          simp only [sat_preSat, sat_sat_count, foldl_addScore_preSat, foldl_addScore_sat_count,
            addScore_preSat, addScore_sat_count]
          apply TotInv_sat hW (TotInv_frame h _) q.clause_num hcM
          · simp [isUnsat, hcM, hp0, h0]
          · simp [isUnsat, h0]
          · intro d hd; exact isUnsat_setAt_ne _ _ _ _ _ d hd
          simp
        · rw [flipStep_inc0 F flipvar t q hp0 hs h2 h1]
          exact TotInv_congr (TotInv_frame h rfl)
            (isUnsat_setAt_nonzero _ _ _ _ _ (by omega) (by omega))
    · have hne0 := hpre2 hs
      by_cases h1 : t.sat_count q.clause_num - 1 = 1
      · obtain ⟨sc, sv, he⟩ := flipStep_dec1 F flipvar t q hp0 hs h1
        rw [he]
        exact TotInv_congr (TotInv_frame h rfl)
          (isUnsat_setAt_nonzero _ _ _ _ _ hne0 (by omega))
      · by_cases h0 : t.sat_count q.clause_num - 1 = 0
        · rw [flipStep_dec0 F flipvar t q hp0 hs h0]
          simp only [unsat_preSat, unsat_sat_count, foldl_addScore_preSat,
            foldl_addScore_sat_count, addScore_preSat, addScore_sat_count]
          apply TotInv_unsat hW (TotInv_frame h _) q.clause_num hcM
          · simp [isUnsat, hne0]
          · simp [isUnsat, hcM, hp0, h0]
          · intro d hd; exact isUnsat_setAt_ne _ _ _ _ _ d hd
          simp
        · rw [flipStep_decN F flipvar t q hp0 hs h1 h0]
          exact TotInv_congr (TotInv_frame h rfl)
            (isUnsat_setAt_nonzero _ _ _ _ _ hne0 (by omega))

theorem flipLoop_TotInv (F : Instance) (hW : totalWeight F < 2 ^ 64) (flipvar : Nat)
    (qs : List lit) (t : State) (hnd : (qs.map lit.clause_num).Nodup)
    (hcl : ∀ q ∈ qs, q.clause_num < F.num_clauses)
    (hok : ∀ q ∈ qs, StepOK flipvar t q)
    (h : TotInv F (isUnsat F.num_clauses t.preSat t.sat_count) t) :
    TotInv F
      (isUnsat F.num_clauses (qs.foldl (flipStep F flipvar) t).preSat
        (qs.foldl (flipStep F flipvar) t).sat_count)
      (qs.foldl (flipStep F flipvar) t) := by
  induction qs generalizing t with
  | nil => exact h
  | cons q qs ih =>
    rw [List.map_cons, List.nodup_cons] at hnd
    rw [List.foldl_cons]
    have h1 := flipStep_frame F flipvar t q
    apply ih (flipStep F flipvar t q) hnd.2 (fun r hr => hcl r (List.mem_cons_of_mem _ hr))
    · intro r hr
      have hne : r.clause_num ≠ q.clause_num := by
        intro he
        exact hnd.1 (he ▸ List.mem_map_of_mem lit.clause_num hr)
      have := hok r (List.mem_cons_of_mem _ hr)
      unfold StepOK at this ⊢
      rw [h1.preSat, h1.cur_soln, flipStep_sat_count_ne F flipvar t q _ hne]
      exact this
    · exact flipStep_TotInv F hW flipvar t q (hcl q (List.mem_cons_self _ _))
        (hok q (List.mem_cons_self _ _)) h

/-- The occurrence steps of `flip` on a state that satisfies the invariant are guarded. -/
theorem flip_StepOK (F : Instance) (hwf : WF F) (s : State) (h : Inv F s) (f : Nat)
    (hm : s.varMutable f = true) :
    ∀ q ∈ var_lit F f,
      StepOK f { s with cur_soln := setAt s.cur_soln f (1 - s.cur_soln f) } q := by
  intro q hq hp
  obtain ⟨hq1, hq2, hq3⟩ := mem_var_lit F hwf f q hq
  have hrange := ((hwf _ hq1).1 q hq2).2
  have hbf := h.bin f (hq3 ▸ hrange.1) (hq3 ▸ hrange.2.1) hm
  have hcnt := h.cnt q.clause_num hq1 hp
  constructor
  · intro _
    show s.sat_count q.clause_num ≠ -1
    rw [hcnt]; omega
  · intro hne
    show s.sat_count q.clause_num ≠ 0
    have hsq := hrange.2.2
    have hne2 : ¬ (1 - s.cur_soln f = q.sense) := by simpa using hne
    have htrue : s.cur_soln q.var_num = q.sense := by
      rw [hq3]
      rcases hbf with hb | hb <;> rcases hsq with hs | hs <;> simp [hb, hs] at hne2 ⊢
    have := mutTrue_pos s.varMutable s.cur_soln (F.clause_lit q.clause_num) q hq2
      (by rw [hq3]; exact hm) htrue
    rw [hcnt]; omega

theorem flip_TotInv (F : Instance) (hwf : WF F) (hW : totalWeight F < 2 ^ 64) (s : State)
    (h : Inv F s) (f : Nat) (hm : s.varMutable f = true)
    (ht : TotInv F (isUnsat F.num_clauses s.preSat s.sat_count) s) :
    TotInv F (isUnsat F.num_clauses (flip F s f).preSat (flip F s f).sat_count) (flip F s f) := by
  obtain ⟨cc, he⟩ := flip_eq F s f
  rw [he]
  have hloop := flipLoop_TotInv F hW f (var_lit F f)
    { s with cur_soln := setAt s.cur_soln f (1 - s.cur_soln f) } (var_lit_nodup F hwf f)
    (fun q hq => (mem_var_lit F hwf f q hq).1) (flip_StepOK F hwf s h f hm)
    (TotInv_frame ht rfl)
  exact TotInv_frame hloop rfl

/-! ### The invariant across `flip` of any mutable variable and across `init` -/

theorem var_lit_out_of_range (F : Instance) (hwf : WF F) (f : Nat)
    (hf : ¬ (1 ≤ f ∧ f ≤ F.num_vars)) : var_lit F f = [] := by
  rw [List.eq_nil_iff_forall_not_mem]
  intro q hq
  obtain ⟨hq1, hq2, hq3⟩ := mem_var_lit F hwf f q hq
  have hr := ((hwf _ hq1).1 q hq2).2
  exact hf ⟨hq3 ▸ hr.1, hq3 ▸ hr.2.1⟩

theorem flip_Inv_any (F : Instance) (hwf : WF F) (s : State) (h : Inv F s) (f : Nat)
    (hm : s.varMutable f = true) : Inv F (flip F s f) := by
  by_cases hf : 1 ≤ f ∧ f ≤ F.num_vars
  · exact flip_Inv F hwf s h f hf.1 hf.2 hm
  · obtain ⟨cc, he⟩ := flip_eq F s f
    rw [he]
    apply Inv_conf_change
    unfold flipOccurrences
    rw [var_lit_out_of_range F hwf f hf, List.foldl_nil]
    refine ⟨?_, ?_, SetInv_frame h.set rfl rfl rfl rfl rfl⟩
    · intro v hv1 hv2 hvm
      have hvf : v ≠ f := fun he => hf (he ▸ ⟨hv1, hv2⟩)
      simp only [setAt_apply, hvf, if_false]
      exact h.bin v hv1 hv2 hvm
    · intro c hc hp
      have hnot : f ∉ (F.clause_lit c).map lit.var_num := by
        intro hmem
        obtain ⟨l, hl, hlf⟩ := List.mem_map.mp hmem
        have hr := ((hwf c hc).1 l hl).2
        exact hf ⟨hlf ▸ hr.1, hlf ▸ hr.2.1⟩
      show s.sat_count c = _
      rw [mutTrue_setAt_not_mem _ _ _ _ _ hnot]
      exact h.cnt c hc hp

theorem flip_frame (F : Instance) (s : State) (f : Nat) :
    (flip F s f).varMutable = s.varMutable ∧ (flip F s f).preSat = s.preSat ∧
      (flip F s f).best_soln = s.best_soln ∧
      (flip F s f).numPreFalsifiedClauses = s.numPreFalsifiedClauses := by
  obtain ⟨cc, he⟩ := flip_eq F s f
  have LF := flipLoop_frame F f (var_lit F f)
    { s with cur_soln := setAt s.cur_soln f (1 - s.cur_soln f) }
  rw [he]
  exact ⟨LF.varMutable, LF.preSat, LF.best_soln, LF.numPre⟩

theorem flip_Good (F : Instance) (hwf : WF F) (hW : totalWeight F < 2 ^ 64) (s : State)
    (h : Good F s) (f : Nat) (hm : s.varMutable f = true) : Good F (flip F s f) :=
  ⟨flip_Inv_any F hwf s h.inv f hm, flip_TotInv F hwf hW s h.inv f hm h.tot⟩

theorem initClause_TotInv (F : Instance) (hW : totalWeight F < 2 ^ 64) (t : State) (n : Nat)
    (hn : n < F.num_clauses) (h : TotInv F (isUnsat n t.preSat t.sat_count) t) :
    TotInv F (isUnsat (n + 1) (initClause F t n).preSat (initClause F t n).sat_count)
      (initClause F t n) := by
  have hsame : ∀ (b : Bool) (x : Int), (b = true ∨ x ≠ 0) → ∀ d,
      isUnsat (n + 1) (setAt t.preSat n b) (setAt t.sat_count n x) d =
        isUnsat n t.preSat t.sat_count d := by
    intro b x hbx d
    by_cases hd : d = n
    · subst hd
      rw [isUnsat_self]
      rcases hbx with hb | hx
      · simp [isUnsat, hb]
      · simp [isUnsat, hx]
    · exact isUnsat_succ_ne n _ _ b x d hd
  by_cases hp : (scanClause F t n).clausePresat = true
  · rw [initClause_presat F t n hp]
    exact TotInv_congr (TotInv_frame h rfl) (hsame true _ (Or.inl rfl))
  · have hp0 : (scanClause F t n).clausePresat = false := by simpa using hp
    by_cases hz : (scanClause F t n).sat_count = 0
    · rw [initClause_unsat F t n hp0 hz]
      simp only [unsat_preSat, unsat_sat_count]
      apply TotInv_unsat hW (TotInv_frame h _) n hn (isUnsat_self n _ _)
      · simp [isUnsat, hz]
      · intro d hd; exact isUnsat_succ_ne n _ _ _ _ d hd
      rfl
    · rw [initClause_live F t n hp0 hz]
      exact TotInv_congr (TotInv_frame h rfl) (hsame false _ (Or.inr hz))

theorem initClauses_TotInv (F : Instance) (hW : totalWeight F < 2 ^ 64) (b : State)
    (hb : TotInv F (isUnsat 0 b.preSat b.sat_count) b) (n : Nat) (hn : n ≤ F.num_clauses) :
    TotInv F
      (isUnsat n ((List.range n).foldl (initClause F) b).preSat
        ((List.range n).foldl (initClause F) b).sat_count)
      ((List.range n).foldl (initClause F) b) := by
  induction n with
  | zero => exact hb
  | succ k ih =>
    rw [List.range_succ, List.foldl_append]
    exact initClause_TotInv F hW _ k (by omega) (ih (by omega))

theorem initSoln_TotInv (F : Instance) (s : State) :
    TotInv F (isUnsat 0 (initSoln F s).preSat (initSoln F s).sat_count) (initSoln F s) := by
  unfold TotInv wsum
  have : (List.range F.num_clauses).filter
      (isUnsat 0 (initSoln F s).preSat (initSoln F s).sat_count) = [] := by
    rw [List.filter_eq_nil_iff]
    intro c _
    simp [isUnsat]
  rw [this, initSoln_eq]
  rfl

theorem init_Good (F : Instance) (hwf : WF F) (hW : totalWeight F < 2 ^ 64) (s : State)
    (hbest : ∀ v, s.best_soln v = 0 ∨ s.best_soln v = 1) : Good F (init F s) := by
  refine ⟨init_Inv F hwf s hbest, ?_⟩
  obtain ⟨sc, cc, he⟩ := init_eq F s
  rw [he]
  have h := initClauses_TotInv F hW _ (initSoln_TotInv F s) F.num_clauses (Nat.le_refl _)
  exact TotInv_frame h rfl

theorem init_numPre (F : Instance) (s : State) :
    (init F s).numPreFalsifiedClauses =
      (((List.range F.num_clauses).countP
        (fun c => allImmNeg s.varMutable (F.clause_lit c)) : Nat) : Int) := by
  obtain ⟨_, _, hn, _, _⟩ := init_preSat_closed F s
  rw [hn]
  have CI := initClauses_loop F (initSoln F s) F.num_clauses
  unfold initClauses
  rw [CI.numPre, initSoln_eq]
  simp

/-! ### `local_search` -/

theorem pick_var_frame (F : Instance) (prob : Int) (g : Globals) :
    (pick_var F prob g).2.s = g.s ∧ (pick_var F prob g).2.bestNumUnsat = g.bestNumUnsat ∧
      (pick_var F prob g).2.step = g.step := by
  unfold pick_var rand
  simp only
  split_ifs <;> exact ⟨rfl, rfl, rfl⟩

theorem foldl_copyBest (vs : List Nat) (s : State) :
    vs.foldl (fun st v => { st with best_soln := setAt st.best_soln v (st.cur_soln v) }) s =
      { s with best_soln := fun v => if v ∈ vs then s.cur_soln v else s.best_soln v } := by
  induction vs generalizing s with
  | nil => simp
  | cons a as ih =>
    rw [List.foldl_cons, ih]
    simp only [State.mk.injEq, true_and, and_true]
    funext v
    by_cases hva : v = a
    · subst hva; simp
    · simp [hva]

theorem copyBest_eq (F : Instance) (s : State) :
    copyBest F s =
      { s with
          best_soln := fun v =>
            if 1 ≤ v ∧ v ≤ F.num_vars then s.cur_soln v else s.best_soln v } := by
  unfold copyBest
  rw [foldl_copyBest]
  simp only [State.mk.injEq, true_and, and_true]
  funext v
  have : v ∈ List.range' 1 F.num_vars ↔ (1 ≤ v ∧ v ≤ F.num_vars) := by
    rw [List.mem_range'_1]; omega
  simp only [this]

theorem recordBest_s (F : Instance) (g : Globals) (lo : Nat) :
    (∃ b, (recordBest F g lo).s = { g.s with best_soln := b }) ∧
      (recordBest F g lo).step = g.step := by
  unfold recordBest
  split_ifs
  · exact ⟨⟨_, copyBest_eq F g.s⟩, rfl⟩
  · exact ⟨⟨g.s.best_soln, rfl⟩, rfl⟩

theorem Good_best_soln {F : Instance} {s : State} (b : Nat → Int) (h : Good F s) :
    Good F { s with best_soln := b } :=
  ⟨⟨h.inv.bin, h.inv.cnt, h.inv.set⟩, h.tot⟩

theorem toULL_natCast (P : Nat) (hP : P < 2 ^ 64) : toULL (P : Int) = P := by
  unfold toULL
  have h1 : ((P : Int) % (2 ^ 64 : Int)) = (P : Int) := by
    apply Int.emod_eq_of_lt <;> omega
  rw [h1]
  simp

theorem unsatSum_eq (F : Instance) (s : State) (P : Nat) (h : Good F s)
    (hP : s.numPreFalsifiedClauses = (P : Int)) (hb : totalWeight F + P < 2 ^ 64) :
    unsatSum s = s.total_unsat_clause_weight + P := by
  unfold unsatSum
  rw [hP, toULL_natCast P (by omega)]
  have hle : s.total_unsat_clause_weight ≤ totalWeight F := by
    rw [h.tot]; exact wsum_le F _
  exact Nat.mod_eq_of_lt (by omega)

theorem lsCheck_frame (F : Instance) (g : Globals) (lo : Nat) :
    (∃ b, (lsCheck F g lo).1.s = { g.s with best_soln := b }) ∧
      (lsCheck F g lo).1.step = g.step := by
  unfold lsCheck
  split_ifs
  · exact recordBest_s F g (unsatSum g.s)
  · exact ⟨⟨g.s.best_soln, rfl⟩, rfl⟩

theorem lsMove_step (F : Instance) (prob : Int) (g : Globals) :
    (lsMove F prob g).step = g.step + 1 := by
  unfold lsMove
  simp only
  split_ifs
  · show (pick_var F prob g).2.step + 1 = _
    rw [(pick_var_frame F prob g).2.2]
  · show (pick_var F prob g).2.step + 1 = _
    rw [(pick_var_frame F prob g).2.2]

theorem lsMove_s (F : Instance) (prob : Int) (g : Globals) :
    (lsMove F prob g).s = g.s ∨
      ∃ f, g.s.varMutable f = true ∧ (lsMove F prob g).s = flip F g.s f := by
  unfold lsMove
  simp only
  split_ifs with hmut
  · right
    rw [(pick_var_frame F prob g).1] at hmut
    exact ⟨_, hmut, by rw [(pick_var_frame F prob g).1]⟩
  · left
    exact (pick_var_frame F prob g).1

theorem lsMove_Good (F : Instance) (hwf : WF F) (hW : totalWeight F < 2 ^ 64) (prob : Int)
    (g : Globals) (h : Good F g.s) :
    Good F (lsMove F prob g).s ∧
      (lsMove F prob g).s.numPreFalsifiedClauses = g.s.numPreFalsifiedClauses := by
  rcases lsMove_s F prob g with h1 | ⟨f, hf, h1⟩
  · rw [h1]; exact ⟨h, rfl⟩
  · rw [h1]; exact ⟨flip_Good F hwf hW g.s h f hf, (flip_frame F g.s f).2.2.2⟩

theorem lsLoop_zero (F : Instance) (hwf : WF F) (prob : Int) (P : Nat)
    (hb : totalWeight F + P < 2 ^ 64) :
    ∀ (fuel : Nat) (g : Globals) (lo : Nat), Good F g.s →
      g.s.numPreFalsifiedClauses = (P : Int) → P ≤ lo →
      (lsLoop F prob fuel g lo).g.step < g.step + fuel →
      (lsLoop F prob fuel g lo).ret = toInt32 P ∧
        (lsLoop F prob fuel g lo).g.s.total_unsat_clause_weight = 0 := by
  intro fuel
  induction fuel with
  | zero =>
    intro g lo _ _ _ hstep
    simp [lsLoop] at hstep
  | succ k ih =>
    intro g lo hg hP hlo hstep
    have hsum := unsatSum_eq F g.s P hg hP hb
    obtain ⟨⟨b, hs1⟩, hstep1⟩ := lsCheck_frame F g lo
    have hlo1 : P ≤ (lsCheck F g lo).2 := by
      unfold lsCheck
      split_ifs
      · show P ≤ unsatSum g.s
        omega
      · exact hlo
    have hgood1 : Good F (lsCheck F g lo).1.s := by
      rw [hs1]; exact Good_best_soln b hg
    have hnum1 : (lsCheck F g lo).1.s.numPreFalsifiedClauses = (P : Int) := by
      rw [hs1]; exact hP
    unfold lsLoop at hstep ⊢
    by_cases hz : (lsCheck F g lo).1.s.total_unsat_clause_weight = 0
    · rw [if_pos hz] at hstep ⊢
      refine ⟨?_, hz⟩
      have hz0 : g.s.total_unsat_clause_weight = 0 := by
        rw [hs1] at hz; exact hz
      rw [hz0, Nat.zero_add] at hsum
      show toInt32 (lsCheck F g lo).2 = toInt32 P
      congr 1
      unfold lsCheck at hlo1 ⊢
      split_ifs with hlt
      · exact hsum
      · show lo = P
        omega
    · rw [if_neg hz] at hstep ⊢
      obtain ⟨hgood2, hnum2⟩ := lsMove_Good F hwf (by omega) prob _ hgood1
      apply ih _ _ hgood2 (hnum2.trans hnum1) hlo1
      rw [lsMove_step, hstep1]
      omega

theorem toInt32_small (x : Nat) (h : x < 2 ^ 31) : toInt32 x = (x : Int) := by
  unfold toInt32
  have h1 : x % 2 ^ 32 = x := Nat.mod_eq_of_lt (by omega)
  rw [h1, if_pos h]

/-- C12 (code evaluated at the failing inputs). For `(¬x1) ∧ (x2) ∧ (¬x2)` with `x1`
immutable and fixed to 1 and `maxFlips = 1`, the sum
`total_unsat_clause_weight + numPreFalsifiedClauses` is 2 at entry and 2 after the only flip,
but `local_search()` returns 3: the exit after the loop adds `numPreFalsifiedClauses` a second
time. For `(x1) ∧ (x2)` with both variables mutable and `maxFlips = 1`, the sum is 2 at entry
and 1 after the only flip, but `local_search()` returns 2: the state after the last flip is
never examined. -/
theorem local_search_return_diverges :
    (unsatSum (init exUnsatPair stFix1True) = 2 ∧
      unsatSum (local_search exUnsatPair 0 1 (mkGlobals (init exUnsatPair stFix1True))).g.s = 2 ∧
      (local_search exUnsatPair 0 1 (mkGlobals (init exUnsatPair stFix1True))).g.step = 1 ∧
      (local_search exUnsatPair 0 1 (mkGlobals (init exUnsatPair stFix1True))).ret = 3) ∧
    (unsatSum (init exTwoUnits stAllMutable) = 2 ∧
      unsatSum (local_search exTwoUnits 0 1 (mkGlobals (init exTwoUnits stAllMutable))).g.s = 1 ∧
      (local_search exTwoUnits 0 1 (mkGlobals (init exTwoUnits stAllMutable))).g.step = 1 ∧
      (local_search exTwoUnits 0 1 (mkGlobals (init exTwoUnits stAllMutable))).ret = 2) := by
  decide

/-- C13 (as stated) fails: for the unit clause `(¬x1)` with `x1` immutable and fixed to 1,
`total_unsat_clause_weight` is 0 at entry and `numPreFalsifiedClauses` is 1, and
`local_search()` returns 1, not 0. -/
theorem local_search_zero_counterexample :
    (init exWeighted stFix1True).total_unsat_clause_weight = 0 ∧
      (init exWeighted stFix1True).numPreFalsifiedClauses = 1 ∧
      (local_search exWeighted 0 5 (mkGlobals (init exWeighted stFix1True))).ret = 1 := by
  decide

/-- C13 (amended): in a playout started right after `init()`, whenever
`total_unsat_clause_weight` is 0 at entry, or the loop stops before `maxFlips` steps (which it
does exactly when `total_unsat_clause_weight` is 0 at the start of a step), `local_search()`
returns `numPreFalsifiedClauses`, which is 0 only when no clause is pre-falsified. -/
theorem local_search_zero_returns_prefalsified (F : Instance) (hwf : WF F)
    (hfit : totalWeight F + F.num_clauses < 2 ^ 31) (s0 : State)
    (hbest : ∀ v, s0.best_soln v = 0 ∨ s0.best_soln v = 1) (g : Globals)
    (hs : g.s = init F s0) (prob : Int) (maxFlips : Nat) :
    (g.s.total_unsat_clause_weight = 0 →
        (local_search F prob maxFlips g).ret = g.s.numPreFalsifiedClauses) ∧
      (g.s.total_unsat_clause_weight ≠ 0 →
        (local_search F prob maxFlips g).g.step < maxFlips →
        (local_search F prob maxFlips g).ret = g.s.numPreFalsifiedClauses ∧
          (local_search F prob maxFlips g).g.s.total_unsat_clause_weight = 0) := by
  have hP : g.s.numPreFalsifiedClauses =
      (((List.range F.num_clauses).countP
        (fun c => allImmNeg s0.varMutable (F.clause_lit c)) : Nat) : Int) := by
    rw [hs]; exact init_numPre F s0
  have hPle : (List.range F.num_clauses).countP
      (fun c => allImmNeg s0.varMutable (F.clause_lit c)) ≤ F.num_clauses := by
    have := List.countP_le_length (fun c => allImmNeg s0.varMutable (F.clause_lit c))
      (l := List.range F.num_clauses)
    simpa using this
  have hg : Good F g.s := by
    rw [hs]; exact init_Good F hwf (by omega) s0 hbest
  have hsum := unsatSum_eq F g.s _ hg hP (by omega)
  obtain ⟨⟨b, hb1⟩, hb2⟩ := recordBest_s F g (unsatSum g.s)
  have htot : (recordBest F g (unsatSum g.s)).s.total_unsat_clause_weight =
      g.s.total_unsat_clause_weight := by rw [hb1]
  constructor
  · intro hz
    unfold local_search
    simp only
    rw [htot, if_pos hz, hsum, hz, Nat.zero_add, toInt32_small _ (by omega), hP]
  · intro hnz hstep
    unfold local_search at hstep ⊢
    simp only at hstep ⊢
    rw [htot, if_neg hnz] at hstep ⊢
    have hgood1 : Good F ({ recordBest F g (unsatSum g.s) with step := 0 } : Globals).s := by
      show Good F (recordBest F g (unsatSum g.s)).s
      rw [hb1]; exact Good_best_soln b hg
    have hnum1 : ({ recordBest F g (unsatSum g.s) with step := 0 } : Globals).s.numPreFalsifiedClauses
        = (((List.range F.num_clauses).countP
          (fun c => allImmNeg s0.varMutable (F.clause_lit c)) : Nat) : Int) := by
      show (recordBest F g (unsatSum g.s)).s.numPreFalsifiedClauses = _
      rw [hb1]; exact hP
    have := lsLoop_zero F hwf prob _ (by omega) maxFlips _ (unsatSum g.s) hgood1 hnum1
      (by omega) (by simpa using hstep)
    rw [this.1, toInt32_small _ (by omega), hP]
    exact ⟨rfl, this.2⟩

theorem local_search_zero_returns_prefalsified_witness :
    ((mkGlobals (init exTwoUnits stAllMutable)).s.total_unsat_clause_weight = 0 →
        (local_search exTwoUnits 0 5 (mkGlobals (init exTwoUnits stAllMutable))).ret =
          (mkGlobals (init exTwoUnits stAllMutable)).s.numPreFalsifiedClauses) ∧
      ((mkGlobals (init exTwoUnits stAllMutable)).s.total_unsat_clause_weight ≠ 0 →
        (local_search exTwoUnits 0 5 (mkGlobals (init exTwoUnits stAllMutable))).g.step < 5 →
        (local_search exTwoUnits 0 5 (mkGlobals (init exTwoUnits stAllMutable))).ret =
            (mkGlobals (init exTwoUnits stAllMutable)).s.numPreFalsifiedClauses ∧
          (local_search exTwoUnits 0 5
            (mkGlobals (init exTwoUnits stAllMutable))).g.s.total_unsat_clause_weight = 0) :=
  local_search_zero_returns_prefalsified exTwoUnits (by decide) (by decide) stAllMutable
    (fun _ => Or.inl rfl) (mkGlobals (init exTwoUnits stAllMutable)) rfl 0 5

theorem recordBest_BestStep (F : Instance) (g : Globals) :
    BestStep F g (recordBest F g (unsatSum g.s)) := by
  unfold recordBest
  split_ifs with h
  · refine BestStep.improve _ _ h rfl ?_ ?_
    · intro v h1 h2
      show (copyBest F g.s).best_soln v = _
      rw [copyBest_eq]
      simp [h1, h2]
    · intro v hv
      show (copyBest F g.s).best_soln v = _
      rw [copyBest_eq]
      simp only [if_neg hv]
  · exact BestStep.keep _ _ rfl rfl

theorem lsCheck_BestStep (F : Instance) (g : Globals) (lo : Nat) :
    BestStep F g (lsCheck F g lo).1 := by
  unfold lsCheck
  split_ifs
  · exact recordBest_BestStep F g
  · exact BestStep.keep _ _ rfl rfl

theorem lsMove_BestStep (F : Instance) (prob : Int) (g : Globals) :
    BestStep F g (lsMove F prob g) := by
  apply BestStep.keep
  · unfold lsMove
    simp only
    split_ifs
    · exact (pick_var_frame F prob g).2.1
    · exact (pick_var_frame F prob g).2.1
  · unfold lsMove
    simp only
    split_ifs
    · show (flip F (pick_var F prob g).2.s _).best_soln = _
      rw [(flip_frame F _ _).2.2.1, (pick_var_frame F prob g).1]
    · show (pick_var F prob g).2.s.best_soln = _
      rw [(pick_var_frame F prob g).1]

theorem BestStep_le {F : Instance} {g h : Globals} (st : BestStep F g h) :
    h.bestNumUnsat ≤ g.bestNumUnsat ∧
      (h.bestNumUnsat = g.bestNumUnsat → h.s.best_soln = g.s.best_soln) := by
  cases st with
  | keep h1 h2 => exact ⟨le_of_eq h1, fun _ => h2⟩
  | improve h1 h2 _ _ => exact ⟨by omega, fun he => by omega⟩

theorem lsTrace_head (F : Instance) (prob : Int) (fuel : Nat) (g : Globals) (lo : Nat) :
    ∃ l, lsTrace F prob fuel g lo = g :: l := by
  cases fuel with
  | zero => exact ⟨[], rfl⟩
  | succ n =>
    unfold lsTrace
    split_ifs
    · exact ⟨_, rfl⟩
    · exact ⟨_, rfl⟩

theorem lsTrace_chain (F : Instance) (prob : Int) :
    ∀ (fuel : Nat) (g : Globals) (lo : Nat),
      List.Chain' (BestStep F) (lsTrace F prob fuel g lo) ∧
        (lsTrace F prob fuel g lo).getLast? = some (lsLoop F prob fuel g lo).g ∧
        (lsLoop F prob fuel g lo).g.bestNumUnsat ≤ g.bestNumUnsat ∧
        ((lsLoop F prob fuel g lo).g.bestNumUnsat = g.bestNumUnsat →
          (lsLoop F prob fuel g lo).g.s.best_soln = g.s.best_soln) := by
  intro fuel
  induction fuel with
  | zero =>
    intro g lo
    unfold lsTrace lsLoop
    exact ⟨List.chain'_singleton _, rfl, le_refl _, fun _ => rfl⟩
  | succ n ih =>
    intro g lo
    have hc := lsCheck_BestStep F g lo
    have hcl := BestStep_le hc
    unfold lsTrace lsLoop
    by_cases hz : (lsCheck F g lo).1.s.total_unsat_clause_weight = 0
    · simp only [if_pos hz]
      refine ⟨?_, rfl, hcl.1, hcl.2⟩
      exact List.Chain'.cons hc (List.chain'_singleton _)
    · simp only [if_neg hz]
      have hm := lsMove_BestStep F prob (lsCheck F g lo).1
      have hml := BestStep_le hm
      obtain ⟨i1, i2, i3, i4⟩ := ih (lsMove F prob (lsCheck F g lo).1) (lsCheck F g lo).2
      obtain ⟨l, hl⟩ := lsTrace_head F prob n (lsMove F prob (lsCheck F g lo).1) (lsCheck F g lo).2
      refine ⟨?_, ?_, by omega, ?_⟩
      · rw [hl] at i1 ⊢
        exact List.Chain'.cons hc (List.Chain'.cons hm i1)
      · rw [hl] at i2 ⊢
        rw [← i2]
        simp [List.getLast?_cons_cons]
      · intro he
        have e3 : (lsLoop F prob n (lsMove F prob (lsCheck F g lo).1) (lsCheck F g lo).2).g.bestNumUnsat
            = (lsMove F prob (lsCheck F g lo).1).bestNumUnsat := by omega
        have e2 : (lsMove F prob (lsCheck F g lo).1).bestNumUnsat =
            (lsCheck F g lo).1.bestNumUnsat := by omega
        have e1 : (lsCheck F g lo).1.bestNumUnsat = g.bestNumUnsat := by omega
        rw [i4 e3, hml.2 e2, hcl.2 e1]

/-- C14. Along the program points of `local_search()` (entry, after each test of the sum
against the incumbent, after each flip), every step either leaves `bestNumUnsat` and
`best_soln` unchanged, or happens when `total_unsat_clause_weight + numPreFalsifiedClauses`
is strictly below `bestNumUnsat`, sets `bestNumUnsat` to that sum and sets `best_soln[v]` to
`cur_soln[v]` for every `v` in `1..num_vars`. Hence `bestNumUnsat` never increases, and
`best_soln` is unchanged when `bestNumUnsat` is. -/
theorem local_search_best_update (F : Instance) (prob : Int) (maxFlips : Nat) (g : Globals) :
    List.Chain' (BestStep F) (searchTrace F prob maxFlips g) ∧
      (searchTrace F prob maxFlips g).head? = some g ∧
      (searchTrace F prob maxFlips g).getLast? = some (local_search F prob maxFlips g).g ∧
      (local_search F prob maxFlips g).g.bestNumUnsat ≤ g.bestNumUnsat ∧
      ((local_search F prob maxFlips g).g.bestNumUnsat = g.bestNumUnsat →
        (local_search F prob maxFlips g).g.s.best_soln = g.s.best_soln) := by
  have hr := recordBest_BestStep F g
  have hrl := BestStep_le hr
  unfold searchTrace local_search
  simp only
  by_cases hz : (recordBest F g (unsatSum g.s)).s.total_unsat_clause_weight = 0
  · simp only [if_pos hz]
    exact ⟨List.Chain'.cons hr (List.chain'_singleton _), rfl, rfl, hrl.1, hrl.2⟩
  · simp only [if_neg hz]
    obtain ⟨i1, i2, i3, i4⟩ := lsTrace_chain F prob maxFlips
      { recordBest F g (unsatSum g.s) with step := 0 } (unsatSum g.s)
    obtain ⟨l, hl⟩ := lsTrace_head F prob maxFlips
      { recordBest F g (unsatSum g.s) with step := 0 } (unsatSum g.s)
    have hk : BestStep F (recordBest F g (unsatSum g.s))
        { recordBest F g (unsatSum g.s) with step := 0 } := BestStep.keep _ _ rfl rfl
    refine ⟨?_, rfl, ?_, le_trans i3 hrl.1, ?_⟩
    · rw [hl] at i1 ⊢
      exact List.Chain'.cons hr (List.Chain'.cons hk i1)
    · rw [hl] at i2 ⊢
      rw [← i2]
      simp [List.getLast?_cons_cons]
    · intro he
      simp only at i3 i4
      have e1 : (recordBest F g (unsatSum g.s)).bestNumUnsat = g.bestNumUnsat := by omega
      rw [i4 (by omega)]
      exact hrl.2 e1

theorem selectBest_foldl_none (m : Nat → Bool) (vs : Nat → Int) (l : List Nat)
    (acc : List Nat × Int) (h : ∀ j ∈ l, m j = false) :
    l.foldl
      (fun acc j =>
        if m j = false then acc
        else if vs j > acc.2 then ([j], vs j)
        else if vs j = acc.2 then (acc.1 ++ [j], acc.2)
        else acc) acc = acc := by
  induction l generalizing acc with
  | nil => rfl
  | cons a as ih =>
    rw [List.foldl_cons, if_pos (h a (List.mem_cons_self _ _))]
    exact ih acc (fun j hj => h j (List.mem_cons_of_mem _ hj))

theorem selectBest_foldl_inv (m : Nat → Bool) (vs : Nat → Int) (l : List Nat)
    (hv : ∀ j ∈ l, 0 ≤ vs j) :
    ∀ (acc : List Nat × Int), -1 ≤ acc.2 → (acc.1 = [] → acc.2 = -1) →
      (∀ x ∈ (l.foldl
          (fun acc j =>
            if m j = false then acc
            else if vs j > acc.2 then ([j], vs j)
            else if vs j = acc.2 then (acc.1 ++ [j], acc.2)
            else acc) acc).1, x ∈ acc.1 ∨ (x ∈ l ∧ m x = true)) ∧
        ((acc.1 ≠ [] ∨ ∃ j ∈ l, m j = true) →
          (l.foldl
            (fun acc j =>
              if m j = false then acc
              else if vs j > acc.2 then ([j], vs j)
              else if vs j = acc.2 then (acc.1 ++ [j], acc.2)
              else acc) acc).1 ≠ []) := by
  induction l with
  | nil =>
    intro acc _ _
    refine ⟨fun x hx => Or.inl hx, ?_⟩
    rintro (h | ⟨j, hj, _⟩)
    · exact h
    · cases hj
  | cons a as ih =>
    intro acc h1 h2
    have hv2 : ∀ j ∈ as, 0 ≤ vs j := fun j hj => hv j (List.mem_cons_of_mem _ hj)
    have hva := hv a (List.mem_cons_self _ _)
    rw [List.foldl_cons]
    by_cases hm : m a = false
    · rw [if_pos hm]
      obtain ⟨i1, i2⟩ := ih hv2 acc h1 h2
      refine ⟨?_, ?_⟩
      · intro x hx
        rcases i1 x hx with h | ⟨h, h3⟩
        · exact Or.inl h
        · exact Or.inr ⟨List.mem_cons_of_mem _ h, h3⟩
      · rintro (h | ⟨j, hj, hmj⟩)
        · exact i2 (Or.inl h)
        · rcases List.mem_cons.mp hj with rfl | hj2
          · rw [hm] at hmj; cases hmj
          · exact i2 (Or.inr ⟨j, hj2, hmj⟩)
    · rw [if_neg hm]
      have hmt : m a = true := by simpa using hm
      by_cases hgt : vs a > acc.2
      · rw [if_pos hgt]
        obtain ⟨i1, i2⟩ := ih hv2 ([a], vs a) (by show (-1 : Int) ≤ vs a; omega)
          (fun h => by cases h)
        refine ⟨?_, fun _ => i2 (Or.inl (by simp))⟩
        intro x hx
        rcases i1 x hx with h | ⟨h, h3⟩
        · have hxa : x = a := by simpa using h
          subst hxa
          exact Or.inr ⟨List.mem_cons_self _ _, hmt⟩
        · exact Or.inr ⟨List.mem_cons_of_mem _ h, h3⟩
      · rw [if_neg hgt]
        by_cases heq : vs a = acc.2
        · rw [if_pos heq]
          obtain ⟨i1, i2⟩ := ih hv2 (acc.1 ++ [a], acc.2) h1 (fun h => by simp at h)
          refine ⟨?_, fun _ => i2 (Or.inl (by simp))⟩
          intro x hx
          rcases i1 x hx with h | ⟨h, h3⟩
          · rcases List.mem_append.mp h with h4 | h4
            · exact Or.inl h4
            · have hxa : x = a := by simpa using h4
              subst hxa
              exact Or.inr ⟨List.mem_cons_self _ _, hmt⟩
          · exact Or.inr ⟨List.mem_cons_of_mem _ h, h3⟩
        · rw [if_neg heq]
          obtain ⟨i1, i2⟩ := ih hv2 acc h1 h2
          have hne : acc.1 ≠ [] := by
            intro he
            have := h2 he
            omega
          refine ⟨?_, fun _ => i2 (Or.inl hne)⟩
          intro x hx
          rcases i1 x hx with h | ⟨h, h3⟩
          · exact Or.inl h
          · exact Or.inr ⟨List.mem_cons_of_mem _ h, h3⟩

theorem selectBest_none (n : Nat) (m : Nat → Bool) (vs : Nat → Int)
    (h : ∀ v, 1 ≤ v → v ≤ n → m v = false) : selectBest n m vs = ([], -1) := by
  unfold selectBest
  apply selectBest_foldl_none
  intro j hj
  rw [List.mem_range'_1] at hj
  exact h j hj.1 (by omega)

theorem selectBest_members (n : Nat) (m : Nat → Bool) (vs : Nat → Int)
    (hv : ∀ j, 1 ≤ j → j ≤ n → 0 ≤ vs j) :
    (∀ x ∈ (selectBest n m vs).1, 1 ≤ x ∧ x ≤ n ∧ m x = true) ∧
      ((∃ j, 1 ≤ j ∧ j ≤ n ∧ m j = true) → (selectBest n m vs).1 ≠ []) := by
  have hv2 : ∀ j ∈ List.range' 1 n, 0 ≤ vs j := by
    intro j hj
    rw [List.mem_range'_1] at hj
    exact hv j hj.1 (by omega)
  obtain ⟨i1, i2⟩ := selectBest_foldl_inv m vs (List.range' 1 n) hv2 ([], -1) (le_refl _)
    (fun _ => rfl)
  unfold selectBest
  refine ⟨?_, ?_⟩
  · intro x hx
    rcases i1 x hx with h | ⟨h, h3⟩
    · cases h
    · rw [List.mem_range'_1] at h
      exact ⟨h.1, by omega, h3⟩
  · rintro ⟨j, h1, h2, h3⟩
    apply i2
    right
    exact ⟨j, by rw [List.mem_range'_1]; omega, h3⟩

/-- C16 (code evaluated at the failing input). For the clauses `(x1)` and `(x1 ∨ x2)` with
both variables mutable and no clause pre-satisfied, variable 1 has 2 live occurrences and
variable 2 has 1; the third successive call of `setBranchingAtom()` of main_uct.cpp
nevertheless chooses variable 2, because its reset loop `for (j=0; j<num_vars; j++)` never
clears `varScores[num_vars]`, which keeps the counts of the earlier calls. -/
theorem setBranchingAtom_stale_counter :
    (setBranchingAtom exOneTwo (setBranchingAtom exOneTwo
        (setBranchingAtom exOneTwo (mkGlobals (init exOneTwo stAllMutable))))).nextBranchingAtom
      = 2 ∧
    (setBranchingAtom exOneTwo
        (setBranchingAtom exOneTwo (mkGlobals (init exOneTwo stAllMutable)))).s.varMutable 1
      = true ∧
    liveOcc exOneTwo (setBranchingAtom exOneTwo
        (setBranchingAtom exOneTwo (mkGlobals (init exOneTwo stAllMutable)))).s.preSat 1 = 2 ∧
    liveOcc exOneTwo (setBranchingAtom exOneTwo
        (setBranchingAtom exOneTwo (mkGlobals (init exOneTwo stAllMutable)))).s.preSat 2 = 1 ∧
    (setBranchingAtom exOneTwo (setBranchingAtom exOneTwo
        (mkGlobals (init exOneTwo stAllMutable)))).varScores 2 = 2 := by
  decide

end CCLS

namespace UBCSAT

open CCLS (setAt setAt_apply)

theorem foldl_reset_zero (l : List Nat) (a : Nat → Int) (j : Nat) (hj : j ∈ l) :
    (l.foldl (fun a j => setAt a j 0) a) j = 0 := by
  induction l generalizing a with
  | nil => cases hj
  | cons b bs ih =>
    rw [List.foldl_cons]
    by_cases hb : j ∈ bs
    · exact ih _ hb
    · have hjb : j = b := by
        rcases List.mem_cons.mp hj with h | h
        · exact h
        · exact absurd h hb
      subst hjb
      have : ∀ (l : List Nat) (a : Nat → Int), j ∉ l →
          (l.foldl (fun a j => setAt a j 0) a) j = a j := by
        intro l
        induction l with
        | nil => intro a _; rfl
        | cons c cs ihc =>
          intro a hc
          rw [List.foldl_cons, ihc _ (fun h => hc (List.mem_cons_of_mem _ h))]
          have hjc : j ≠ c := fun h => hc (by rw [h]; exact List.mem_cons_self _ _)
          rw [setAt_apply, if_neg hjc]
      rw [this bs _ hb, setAt_apply, if_pos rfl]

theorem countLits_mono (P : Formula) (lits : List Nat) (a : Nat → Int) (v : Nat) :
    a v ≤ (lits.foldl
      (fun a L => setAt a (P.GetVarFromLit L) (a (P.GetVarFromLit L) + 1)) a) v := by
  induction lits generalizing a with
  | nil => exact le_refl _
  | cons L Ls ih =>
    rw [List.foldl_cons]
    refine le_trans ?_ (ih _)
    rw [setAt_apply]
    split_ifs with h
    · rw [h]; omega
    · exact le_refl _

theorem countScores_mono (P : Formula) (preSat : Nat → Bool) (a : Nat → Int) (v : Nat) :
    a v ≤ countScores P preSat a v := by
  unfold countScores
  generalize List.range P.iNumClauses = l
  induction l generalizing a with
  | nil => exact le_refl _
  | cons j js ih =>
    rw [List.foldl_cons]
    refine le_trans ?_ (ih _)
    split_ifs
    · exact le_refl _
    · exact countLits_mono P _ a v

/-- C17 (as stated) fails in both versions: with the single clause `(x1)` pre-satisfied by
the immutable `x1` and `x2` mutable, no mutable variable has a live occurrence, and
`setBranchingAtom()` sets `nextBranchingAtom` to 2, not to the sentinel 0. -/
theorem setBranchingAtom_sentinel_counterexample :
    (CCLS.init (CCLS.mkInstance 2 [[⟨0, 1, 1⟩]] [1]) CCLS.stFix1True).preSat 0 = true ∧
    CCLS.liveOcc (CCLS.mkInstance 2 [[⟨0, 1, 1⟩]] [1])
      (CCLS.init (CCLS.mkInstance 2 [[⟨0, 1, 1⟩]] [1]) CCLS.stFix1True).preSat 2 = 0 ∧
    (CCLS.setBranchingAtom (CCLS.mkInstance 2 [[⟨0, 1, 1⟩]] [1])
      (CCLS.mkGlobals (CCLS.init (CCLS.mkInstance 2 [[⟨0, 1, 1⟩]] [1])
        CCLS.stFix1True))).nextBranchingAtom = 2 ∧
    setBranchingAtom (exFormula [[3]]) 2 (fun _ => true) (fun v => decide (v ≠ 1))
      (fun _ => 7) (fun _ => 0) = 2 := by
  decide

/-- C17 (amended): `setBranchingAtom()` sets `nextBranchingAtom` to the sentinel 0 when no
variable of `1..N` is mutable, in both versions; in the version of uct.c, whose counters are
all reset, this is the only case (a mutable variable with no live occurrence is still
chosen), provided `RandomInt(n)` is below `n`. -/
theorem setBranchingAtom_sentinel_no_mutable (F : CCLS.Instance) (g : CCLS.Globals)
    (P : Formula) (iNumVars : Nat) (preSat varMutable : Nat → Bool) (varScores : Nat → Int)
    (RandomInt : Nat → Nat) (hR : ∀ n, 0 < n → RandomInt n < n) :
    ((∀ v, 1 ≤ v → v ≤ F.num_vars → g.s.varMutable v = false) →
        (CCLS.setBranchingAtom F g).nextBranchingAtom = 0) ∧
      (setBranchingAtom P iNumVars preSat varMutable varScores RandomInt = 0 ↔
        ∀ v, 1 ≤ v → v ≤ iNumVars → varMutable v = false) := by
  constructor
  · intro h
    unfold CCLS.setBranchingAtom
    simp only
    rw [CCLS.selectBest_none _ _ _ h]
    rfl
  · have hv : ∀ j, 1 ≤ j → j ≤ iNumVars →
        0 ≤ countScores P preSat
          ((List.range' 1 iNumVars).foldl (fun a j => setAt a j 0) varScores) j := by
      intro j h1 h2
      refine le_trans (le_of_eq ?_) (countScores_mono P preSat _ j)
      exact (foldl_reset_zero _ _ j (by rw [List.mem_range'_1]; omega)).symm
    obtain ⟨m1, m2⟩ := CCLS.selectBest_members iNumVars varMutable _ hv
    unfold setBranchingAtom
    simp only
    constructor
    · intro h0 v h1 h2
      by_contra hm
      have hmt : varMutable v = true := by simpa using hm
      have hne := m2 ⟨v, h1, h2, hmt⟩
      have hlen : 0 < (CCLS.selectBest iNumVars varMutable (countScores P preSat
          ((List.range' 1 iNumVars).foldl (fun a j => setAt a j 0) varScores))).1.length :=
        List.length_pos.mpr hne
      rw [if_neg (by omega)] at h0
      have hlt := hR _ hlen
      rw [List.getD_eq_getElem _ _ hlt] at h0
      have := (m1 _ (List.getElem_mem hlt)).1
      omega
    · intro h
      rw [CCLS.selectBest_none _ _ _ h]
      rfl

theorem setBranchingAtom_sentinel_no_mutable_witness :
    (∀ n, 0 < n → (fun _ : Nat => 0) n < n) ∧
    (((∀ v, 1 ≤ v → v ≤ CCLS.exWeighted.num_vars →
          (CCLS.mkGlobals (CCLS.init CCLS.exWeighted CCLS.stFix1True)).s.varMutable v = false) →
        (CCLS.setBranchingAtom CCLS.exWeighted
          (CCLS.mkGlobals (CCLS.init CCLS.exWeighted CCLS.stFix1True))).nextBranchingAtom = 0) ∧
      (setBranchingAtom (exFormula [[2]]) 1 (fun _ => false) (fun _ => false) (fun _ => 7)
          (fun _ => 0) = 0 ↔
        ∀ v, 1 ≤ v → v ≤ 1 → (fun _ : Nat => false) v = false)) :=
  ⟨fun _ h => h,
    setBranchingAtom_sentinel_no_mutable CCLS.exWeighted
      (CCLS.mkGlobals (CCLS.init CCLS.exWeighted CCLS.stFix1True))
      (exFormula [[2]]) 1 (fun _ => false) (fun _ => false) (fun _ => 7) (fun _ => 0)
      (fun _ h => h)⟩

end UBCSAT

namespace UBCSAT

/-- C15 (code evaluated at the failing input). No iteration of the loop of `ubcsatrun()`
changes `runBestNumFalse`, whatever the procedures of UBCSAT do. On the formula
`(x1) ∧ (x2) ∧ (¬x2)` (initialisation to all 0, then flips of `x1`), the run starts with
`runBestNumFalse = MAX_NUM_CLAUSES + 1`. With a cutoff of 2 steps `bestSoln` ends as
`x1 = 1, x2 = 0`, which falsifies 1 clause. With a cutoff of 3 steps the playout still
returns the best count 1, `runBestNumFalse` is still `MAX_NUM_CLAUSES + 1` afterwards, and
`bestSoln` has been overwritten again at the second flip: it ends as the assignment all 0,
which falsifies 2 clauses. -/
theorem ubcsatrun_bestSoln_overwritten :
    (∀ (ι : Type) (RP : Event → Engine ι → Engine ι) (st : UctRun ι),
        (ubcsatStep RP st).runBestNumFalse = st.runBestNumFalse) ∧
      ((ubcsatrun toyProcedures 2 (toyStart 2)).map (fun r => r.1)) = some 1 ∧
      (runState toyProcedures 2 (toyStart 2)).bestSoln 1 = 1 ∧
      (runState toyProcedures 2 (toyStart 2)).bestSoln 2 = 0 ∧
      toyNumFalse (runState toyProcedures 2 (toyStart 2)).bestSoln = 1 ∧
      ((ubcsatrun toyProcedures 3 (toyStart 3)).map (fun r => r.1)) = some 1 ∧
      (runState toyProcedures 3 (toyStart 3)).e.iStep = 3 ∧
      (runState toyProcedures 3 (toyStart 3)).runBestNumFalse = MAX_NUM_CLAUSES + 1 ∧
      (runState toyProcedures 3 (toyStart 3)).bestSoln 1 = 0 ∧
      (runState toyProcedures 3 (toyStart 3)).bestSoln 2 = 0 ∧
      toyNumFalse (runState toyProcedures 3 (toyStart 3)).bestSoln = 2 := by
  refine ⟨?_, by decide⟩
  intro ι RP st
  unfold ubcsatStep
  simp only
  split_ifs <;> rfl

end UBCSAT

namespace UCT

theorem setArm_same {α : Type} (f : Bool → α) (a : Bool) (v : α) : setArm f a v a = v := by
  unfold setArm
  rw [if_pos rfl]

theorem setArm_not {α : Type} (f : Bool → α) (a : Bool) (v : α) :
    setArm f a v (!a) = f (!a) := by
  unfold setArm
  cases a <;> rfl

theorem setArm_true_of_true (f : Bool → Bool) (a b : Bool) (h : f b = true) :
    setArm f a true b = true := by
  unfold setArm
  split_ifs
  · rfl
  · exact h

theorem playArm_frame {E : Type} (W : World E) (a : Bool) (d : NodeData) (e : E) :
    (playArm W a d e).1.n = d.n ∧ (playArm W a d e).1.atom = d.atom ∧
      (playArm W a d e).1.depth = d.depth ∧
      (playArm W a d e).1.x = setArm d.x a (W.estimateReward (W.setValue d.atom a e)).1 ∧
      (∀ b, d.closed b = true → (playArm W a d e).1.closed b = true) := by
  unfold playArm
  simp only
  split_ifs
  · exact ⟨rfl, rfl, rfl, rfl, fun b hb => setArm_true_of_true _ _ _ hb⟩
  · exact ⟨rfl, rfl, rfl, rfl, fun b hb => hb⟩

theorem firstVisit_data {E : Type} (W : World E) (d : NodeData) (e : E) :
    (firstVisit W d e).2.1.n = (fun _ => 1) ∧
      (firstVisit W d e).2.1.x =
        (playArm W true (playArm W false { d with n := fun _ => 1 } e).1
          (playArm W false { d with n := fun _ => 1 } e).2).1.x ∧
      (∀ b, d.closed b = true → (firstVisit W d e).2.1.closed b = true) := by
  have h1 := playArm_frame W false { d with n := fun _ => 1 } e
  have h2 := playArm_frame W true (playArm W false { d with n := fun _ => 1 } e).1
    (playArm W false { d with n := fun _ => 1 } e).2
  unfold firstVisit
  simp only
  split_ifs
  · exact ⟨by rw [h2.1, h1.1], rfl, fun _ _ => rfl⟩
  · exact ⟨by rw [h2.1, h1.1], rfl, fun b hb => h2.2.2.2.2 b (h1.2.2.2.2 b hb)⟩

theorem firstVisit_x {E : Type} (W : World E) (d : NodeData) (e : E) (a : Bool) :
    (firstVisit W d (W.markImmutable d.atom e)).2.1.x a = firstReward W d e a := by
  have h1 := playArm_frame W false { d with n := fun _ => 1 } (W.markImmutable d.atom e)
  have h2 := playArm_frame W true
    (playArm W false { d with n := fun _ => 1 } (W.markImmutable d.atom e)).1
    (playArm W false { d with n := fun _ => 1 } (W.markImmutable d.atom e)).2
  rw [(firstVisit_data W d _).2.1, h2.2.2.2.1, h1.2.2.2.1, h1.2.1]
  unfold firstReward
  cases a
  · rfl
  · rfl

theorem backup_data (d : NodeData) (a : Bool) (reward : ℚ) (c : NodeData) :
    (backup d a reward c).n = d.n ∧
      (backup d a reward c).x = setArm d.x a (d.x a + (reward - d.x a) / (d.n a : ℚ)) ∧
      (backup d a reward c).closed a = (d.closed a || (c.closed false && c.closed true)) ∧
      (backup d a reward c).closed (!a) = d.closed (!a) ∧
      (∀ b, d.closed b = true → (backup d a reward c).closed b = true) := by
  unfold backup
  split_ifs with h
  · refine ⟨rfl, rfl, ?_, ?_, ?_⟩
    · show setArm d.closed a true a = _
      rw [setArm_same, h, Bool.or_true]
    · exact setArm_not _ _ _
    · exact fun b hb => setArm_true_of_true _ _ _ hb
  · refine ⟨rfl, rfl, ?_, rfl, fun _ hb => hb⟩
    have hf : (c.closed false && c.closed true) = false := by simpa using h
    rw [hf, Bool.or_false]

theorem finish_data {E : Type} (d : NodeData) (a : Bool) (l r : uctnode) (p : Played E) :
    (finish d a l r p).reward = p.reward ∧ (finish d a l r p).armPlayed = some a ∧
      (finish d a l r p).tree.data = backup d a p.reward p.tree.data ∧
      childOn (finish d a l r p).tree a = some p.tree.data := by
  cases a
  · exact ⟨rfl, rfl, rfl, rfl⟩
  · exact ⟨rfl, rfl, rfl, rfl⟩

theorem playNode_cases {E : Type} (W : World E) (t : uctnode) (e : E) :
    (t.data.n false = 0 ∧ (playNode W t e).armPlayed = none ∧
        (playNode W t e).tree.data =
          (firstVisit W t.data (W.markImmutable t.data.atom e)).2.1) ∨
      (t.data.n false ≠ 0 ∧ ∃ a c, (playNode W t e).armPlayed = some a ∧
        childOn (playNode W t e).tree a = some c ∧
        (playNode W t e).tree.data =
          backup { t.data with n := setArm t.data.n a (t.data.n a + 1) } a
            (playNode W t e).reward c) := by
  cases t with
  | leaf d =>
    rw [playNode]
    by_cases h : d.n false = 0
    · left
      rw [if_pos h]
      exact ⟨h, rfl, rfl⟩
    · right
      rw [if_neg h]
      simp only
      refine ⟨h, _, _, (finish_data _ _ _ _ _).2.1, (finish_data _ _ _ _ _).2.2.2, ?_⟩
      rw [(finish_data _ _ _ _ _).2.2.1, (finish_data _ _ _ _ _).1]
      rfl
  | node d l r =>
    rw [playNode]
    by_cases h : d.n false = 0
    · left
      rw [if_pos h]
      exact ⟨h, rfl, rfl⟩
    · right
      rw [if_neg h]
      simp only
      refine ⟨h, _, _, (finish_data _ _ _ _ _).2.1, (finish_data _ _ _ _ _).2.2.2, ?_⟩
      rw [(finish_data _ _ _ _ _).2.2.1, (finish_data _ _ _ _ _).1]
      rfl

theorem playNode_tree_shape {E : Type} (W : World E) (d : NodeData) (l r : uctnode)
    (e : E) :
    ∃ D, (playNode W (uctnode.node d l r) e).tree = uctnode.node D l r ∨
      (∃ e1, (playNode W (uctnode.node d l r) e).tree = uctnode.node D (playNode W l e1).tree r) ∨
      (∃ e1, (playNode W (uctnode.node d l r) e).tree = uctnode.node D l (playNode W r e1).tree) := by
  rw [playNode]
  by_cases h : d.n false = 0
  · rw [if_pos h]
    exact ⟨_, Or.inl rfl⟩
  · rw [if_neg h]
    simp only
    cases hc : (chooseArm W d (W.markImmutable d.atom e)).1
    · exact ⟨_, Or.inr (Or.inl ⟨_, rfl⟩)⟩
    · exact ⟨_, Or.inr (Or.inr ⟨_, rfl⟩)⟩

theorem playNode_data_closed {E : Type} (W : World E) (t : uctnode) (e : E) (b : Bool)
    (h : t.data.closed b = true) : (playNode W t e).tree.data.closed b = true := by
  rcases playNode_cases W t e with ⟨_, _, h3⟩ | ⟨_, a, c, _, _, h3⟩
  · rw [h3]
    exact (firstVisit_data W _ _).2.2 b h
  · rw [h3]
    exact (backup_data _ _ _ _).2.2.2.2 b h

/-- C18. Over exact rational arithmetic: when a node has been visited for the first time,
arm `a` receiving the reward `r_1` of its playout, and `playNode` has then been called on
the node any number of times, `k - 1` of which played arm `a` with the recursion returning
`r_2, ..., r_k`, then `n[a] = k` and `x[a] = (r_1 + ... + r_k) / k`. -/
theorem backup_is_mean {E : Type} (W : World E) (a : Bool) (t : uctnode) (rs : List ℚ)
    (h : ArmRun W a t rs) :
    t.data.n a = rs.length ∧ t.data.x a = rs.sum / (rs.length : ℚ) := by
  have key : rs ≠ [] ∧ t.data.n a = rs.length ∧ t.data.x a = rs.sum / (rs.length : ℚ) := by
    induction h with
    | first t e h0 =>
      rcases playNode_cases W t e with ⟨_, _, h3⟩ | ⟨h1, _⟩
      · refine ⟨by simp, ?_, ?_⟩
        · rw [h3, (firstVisit_data W _ _).1]
          rfl
        · rw [h3, firstVisit_x]
          simp
      · exact absurd h0 h1
    | played t e rs _ hp ih =>
      obtain ⟨hne, hn, hx⟩ := ih
      rcases playNode_cases W t e with ⟨_, h2, _⟩ | ⟨_, b, c, h2, _, h3⟩
      · rw [h2] at hp; cases hp
      · have hba : b = a := by
          rw [h2] at hp
          exact Option.some.inj hp
        subst hba
        have hlen : (rs.length : ℚ) ≠ 0 := by
          have : rs.length ≠ 0 := fun h0 => hne (List.length_eq_zero.mp h0)
          exact_mod_cast this
        refine ⟨by simp, ?_, ?_⟩
        · rw [h3, (backup_data _ _ _ _).1]
          show setArm t.data.n b (t.data.n b + 1) b = _
          rw [setArm_same, hn]
          simp
        · rw [h3, (backup_data _ _ _ _).2.1, setArm_same]
          show t.data.x b + ((playNode W t e).reward - t.data.x b) /
            ((setArm t.data.n b (t.data.n b + 1) b : Nat) : ℚ) = _
          rw [setArm_same, hx, hn]
          simp only [List.sum_append, List.sum_cons, List.sum_nil, List.length_append,
            List.length_cons, List.length_nil, add_zero, Nat.cast_add, Nat.cast_one]
          have hlen1 : (rs.length : ℚ) + 1 ≠ 0 := by positivity
          field_simp
          ring
    | other t e rs _ hp ih =>
      obtain ⟨hne, hn, hx⟩ := ih
      rcases playNode_cases W t e with ⟨_, h2, _⟩ | ⟨_, b, c, h2, _, h3⟩
      · rw [h2] at hp; cases hp
      · have hba : b = !a := by
          rw [h2] at hp
          exact Option.some.inj hp
        have hab : a = !b := by rw [hba, Bool.not_not]
        refine ⟨hne, ?_, ?_⟩
        · rw [h3, (backup_data _ _ _ _).1]
          show setArm t.data.n b (t.data.n b + 1) a = _
          rw [hab, setArm_not, ← hab]
          exact hn
        · rw [h3, (backup_data _ _ _ _).2.1, hab, setArm_not, ← hab]
          exact hx
  exact key.2

theorem backup_is_mean_witness :
    ArmRun (toyWorld 5) false (playNode (toyWorld 5) (toyTree1 5) 7).tree
        ([firstReward (toyWorld 5) toyRoot.data 0 false] ++
          [(playNode (toyWorld 5) (toyTree1 5) 7).reward]) ∧
      ((playNode (toyWorld 5) (toyTree1 5) 7).tree.data.n false =
          ([firstReward (toyWorld 5) toyRoot.data 0 false] ++
            [(playNode (toyWorld 5) (toyTree1 5) 7).reward]).length ∧
        (playNode (toyWorld 5) (toyTree1 5) 7).tree.data.x false =
          ([firstReward (toyWorld 5) toyRoot.data 0 false] ++
            [(playNode (toyWorld 5) (toyTree1 5) 7).reward]).sum /
          (([firstReward (toyWorld 5) toyRoot.data 0 false] ++
            [(playNode (toyWorld 5) (toyTree1 5) 7).reward]).length : ℚ)) :=
  ⟨ArmRun.played (toyTree1 5) 7 _ (ArmRun.first toyRoot 0 rfl) rfl,
    backup_is_mean (toyWorld 5) false _ _
      (ArmRun.played (toyTree1 5) 7 _ (ArmRun.first toyRoot 0 rfl) rfl)⟩

/-- C19. For every tree and every call `playNode(node)` on its root, every arm of every
node of the tree (addressed by its path from the root) that is closed before the call is
still closed after it. -/
theorem closed_monotone {E : Type} (W : World E) (t : uctnode) (e : E) (p : List Bool)
    (d : NodeData) (a : Bool) (h1 : nodeAt t p = some d) (h2 : d.closed a = true) :
    ∃ d1, nodeAt (playNode W t e).tree p = some d1 ∧ d1.closed a = true := by
  induction t generalizing e p d with
  | leaf d0 =>
    cases p with
    | nil =>
      have hd : d0 = d := by simpa [nodeAt, uctnode.data] using h1
      subst hd
      exact ⟨_, by rw [nodeAt], playNode_data_closed W (uctnode.leaf d0) e a h2⟩
    | cons b q => simp [nodeAt] at h1
  | node d0 l r ihl ihr =>
    cases p with
    | nil =>
      have hd : d0 = d := by simpa [nodeAt, uctnode.data] using h1
      subst hd
      exact ⟨_, by rw [nodeAt], playNode_data_closed W (uctnode.node d0 l r) e a h2⟩
    | cons b q =>
      obtain ⟨D, hs | ⟨e1, hs⟩ | ⟨e1, hs⟩⟩ := playNode_tree_shape W d0 l r e
      · rw [hs]
        cases b
        · exact ⟨d, by simpa [nodeAt] using h1, h2⟩
        · exact ⟨d, by simpa [nodeAt] using h1, h2⟩
      · rw [hs]
        cases b
        · have h3 : nodeAt l q = some d := by simpa [nodeAt] using h1
          obtain ⟨d1, h4, h5⟩ := ihl e1 q d h3 h2
          exact ⟨d1, by simpa [nodeAt] using h4, h5⟩
        · exact ⟨d, by simpa [nodeAt] using h1, h2⟩
      · rw [hs]
        cases b
        · exact ⟨d, by simpa [nodeAt] using h1, h2⟩
        · have h3 : nodeAt r q = some d := by simpa [nodeAt] using h1
          obtain ⟨d1, h4, h5⟩ := ihr e1 q d h3 h2
          exact ⟨d1, by simpa [nodeAt] using h4, h5⟩

theorem closed_monotone_witness :
    nodeAt (toyTree1 0) [] = some (toyTree1 0).data ∧ (toyTree1 0).data.closed false = true ∧
      ∃ d1, nodeAt (playNode (toyWorld 0) (toyTree1 0) 7).tree [] = some d1 ∧
        d1.closed false = true :=
  ⟨rfl, by decide,
    closed_monotone (toyWorld 0) (toyTree1 0) 7 [] (toyTree1 0).data false rfl (by decide)⟩

/-- C20. When `playNode` recursed into arm `a` of a node, afterwards `closed[a]` of the node
is true if the child on arm `a` (as the recursion left it) has both arms closed, it keeps
its value from before the call if the child does not have both arms closed, and the flag of
the other arm is unchanged. -/
theorem closed_propagation {E : Type} (W : World E) (t : uctnode) (e : E) (a : Bool)
    (h : (playNode W t e).armPlayed = some a) :
    ∃ c, childOn (playNode W t e).tree a = some c ∧
      ((c.closed false = true ∧ c.closed true = true) →
        (playNode W t e).tree.data.closed a = true) ∧
      (¬ (c.closed false = true ∧ c.closed true = true) →
        (playNode W t e).tree.data.closed a = t.data.closed a) ∧
      (playNode W t e).tree.data.closed (!a) = t.data.closed (!a) := by
  rcases playNode_cases W t e with ⟨_, h2, _⟩ | ⟨_, b, c, h2, hc, h3⟩
  · rw [h2] at h; cases h
  · have hba : b = a := by
      rw [h2] at h
      exact Option.some.inj h
    subst hba
    have hb := backup_data { t.data with n := setArm t.data.n b (t.data.n b + 1) } b
      (playNode W t e).reward c
    refine ⟨c, hc, ?_, ?_, ?_⟩
    · rintro ⟨c1, c2⟩
      rw [h3, hb.2.2.1, c1, c2]
      simp
    · intro hn
      rw [h3, hb.2.2.1]
      have : (c.closed false && c.closed true) = false := by
        cases h1 : c.closed false <;> cases h2 : c.closed true <;> simp_all
      rw [this, Bool.or_false]
    · rw [h3, hb.2.2.2.1]

theorem closed_propagation_witness :
    (playNode (toyWorld 0) (toyTree1 0) 7).armPlayed = some true ∧
      ∃ c, childOn (playNode (toyWorld 0) (toyTree1 0) 7).tree true = some c ∧
        ((c.closed false = true ∧ c.closed true = true) →
          (playNode (toyWorld 0) (toyTree1 0) 7).tree.data.closed true = true) ∧
        (¬ (c.closed false = true ∧ c.closed true = true) →
          (playNode (toyWorld 0) (toyTree1 0) 7).tree.data.closed true =
            (toyTree1 0).data.closed true) ∧
        (playNode (toyWorld 0) (toyTree1 0) 7).tree.data.closed (!true) =
          (toyTree1 0).data.closed (!true) :=
  ⟨by decide, closed_propagation (toyWorld 0) (toyTree1 0) 7 true (by decide)⟩

end UCT

namespace CCLS

theorem init_frame (F : Instance) (s : State) :
    (init F s).cur_soln =
        (fun v => if (1 ≤ v ∧ v ≤ F.num_vars) ∧ s.varMutable v = true then s.best_soln v
          else s.cur_soln v) ∧
      (init F s).best_soln = s.best_soln ∧ (init F s).varMutable = s.varMutable ∧
      (init F s).var_neighbor = s.var_neighbor := by
  obtain ⟨sc, cc, he⟩ := init_eq F s
  have CI := initClauses_loop F (initSoln F s) F.num_clauses
  rw [he]
  refine ⟨?_, ?_, ?_, ?_⟩
  · show (initClauses F s).cur_soln = _
    unfold initClauses
    rw [CI.cur_soln, initSoln_eq]
  · show (initClauses F s).best_soln = _
    unfold initClauses
    rw [CI.best_soln, initSoln_eq]
  · show (initClauses F s).varMutable = _
    unfold initClauses
    rw [CI.varMutable, initSoln_eq]
  · show (initClauses F s).var_neighbor = _
    unfold initClauses
    rw [CI.var_neighbor, initSoln_eq]

/-- C30. After `init()`, `cur_soln[v] = best_soln[v]` for every mutable variable `v` of
`1..num_vars`, `cur_soln[v]` is unchanged for every immutable `v`, and `best_soln` and
`varMutable` are not modified. -/
theorem init_seeds_cur_soln (F : Instance) (s : State) :
    (∀ v, 1 ≤ v → v ≤ F.num_vars → s.varMutable v = true →
        (init F s).cur_soln v = s.best_soln v) ∧
      (∀ v, s.varMutable v = false → (init F s).cur_soln v = s.cur_soln v) ∧
      (init F s).best_soln = s.best_soln ∧ (init F s).varMutable = s.varMutable := by
  obtain ⟨h1, h2, h3, _⟩ := init_frame F s
  refine ⟨?_, ?_, h2, h3⟩
  · intro v hv1 hv2 hm
    rw [h1]
    simp only [if_pos (And.intro (And.intro hv1 hv2) hm)]
  · intro v hm
    rw [h1]
    have : ¬ ((1 ≤ v ∧ v ≤ F.num_vars) ∧ s.varMutable v = true) := by
      rintro ⟨_, h⟩
      rw [hm] at h
      cases h
    simp only [if_neg this]

end CCLS

namespace UCT

theorem firstVisit_limit {E : Type} (W : World E) (d : NodeData) (e : E)
    (hd : d.depth ≥ W.depthLimit) :
    (firstVisit W d e).2.1.closed = (fun _ => true) ∧
      (firstVisit W d e).1 =
        ((firstVisit W d e).2.1.x false + (firstVisit W d e).2.1.x true) / 2 := by
  have h1 := playArm_frame W false { d with n := fun _ => 1 } e
  have h2 := playArm_frame W true (playArm W false { d with n := fun _ => 1 } e).1
    (playArm W false { d with n := fun _ => 1 } e).2
  have hdep : (playArm W true (playArm W false { d with n := fun _ => 1 } e).1
      (playArm W false { d with n := fun _ => 1 } e).2).1.depth ≥ W.depthLimit := by
    rw [h2.2.2.1, h1.2.2.1]
    exact hd
  unfold firstVisit
  simp only
  rw [if_pos hdep]
  exact ⟨rfl, rfl⟩

theorem firstVisit_reward {E : Type} (W : World E) (d : NodeData) (e : E) :
    (firstVisit W d e).1 =
      ((firstVisit W d e).2.1.x false + (firstVisit W d e).2.1.x true) / 2 := by
  unfold firstVisit
  simp only
  split_ifs
  · rfl
  · rfl

/-- C21. For every node with `n[LEFT] = 0` and `depth >= depthLimit`, after
`playNode(node)` both `closed[LEFT]` and `closed[RIGHT]` are true, `n[LEFT] = n[RIGHT] = 1`,
the children are what they were (none are created), and the reward returned is
`(x[LEFT] + x[RIGHT]) / 2`. -/
theorem first_visit_at_depth_limit {E : Type} (W : World E) (t : uctnode) (e : E)
    (h0 : t.data.n false = 0) (hd : t.data.depth ≥ W.depthLimit) :
    (playNode W t e).tree.data.closed false = true ∧
      (playNode W t e).tree.data.closed true = true ∧
      (playNode W t e).tree.data.n false = 1 ∧
      (playNode W t e).tree.data.n true = 1 ∧
      (playNode W t e).tree.children = t.children ∧
      (playNode W t e).reward =
        ((playNode W t e).tree.data.x false + (playNode W t e).tree.data.x true) / 2 := by
  cases t with
  | leaf d =>
    have hl := firstVisit_limit W d (W.markImmutable d.atom e) hd
    have hn := (firstVisit_data W d (W.markImmutable d.atom e)).1
    have h0d : d.n false = 0 := h0
    rw [playNode, if_pos h0d]
    refine ⟨?_, ?_, ?_, ?_, rfl, hl.2⟩
    · show (firstVisit W d (W.markImmutable d.atom e)).2.1.closed false = true
      rw [hl.1]
    · show (firstVisit W d (W.markImmutable d.atom e)).2.1.closed true = true
      rw [hl.1]
    · show (firstVisit W d (W.markImmutable d.atom e)).2.1.n false = 1
      rw [hn]
    · show (firstVisit W d (W.markImmutable d.atom e)).2.1.n true = 1
      rw [hn]
  | node d l r =>
    have hl := firstVisit_limit W d (W.markImmutable d.atom e) hd
    have hn := (firstVisit_data W d (W.markImmutable d.atom e)).1
    have h0d : d.n false = 0 := h0
    rw [playNode, if_pos h0d]
    refine ⟨?_, ?_, ?_, ?_, rfl, hl.2⟩
    · show (firstVisit W d (W.markImmutable d.atom e)).2.1.closed false = true
      rw [hl.1]
    · show (firstVisit W d (W.markImmutable d.atom e)).2.1.closed true = true
      rw [hl.1]
    · show (firstVisit W d (W.markImmutable d.atom e)).2.1.n false = 1
      rw [hn]
    · show (firstVisit W d (W.markImmutable d.atom e)).2.1.n true = 1
      rw [hn]

theorem first_visit_at_depth_limit_witness :
    toyRoot.data.n false = 0 ∧ toyRoot.data.depth ≥ (toyWorld 0).depthLimit ∧
      ((playNode (toyWorld 0) toyRoot 0).tree.data.closed false = true ∧
        (playNode (toyWorld 0) toyRoot 0).tree.data.closed true = true ∧
        (playNode (toyWorld 0) toyRoot 0).tree.data.n false = 1 ∧
        (playNode (toyWorld 0) toyRoot 0).tree.data.n true = 1 ∧
        (playNode (toyWorld 0) toyRoot 0).tree.children = toyRoot.children ∧
        (playNode (toyWorld 0) toyRoot 0).reward =
          ((playNode (toyWorld 0) toyRoot 0).tree.data.x false +
            (playNode (toyWorld 0) toyRoot 0).tree.data.x true) / 2) :=
  ⟨rfl, by decide, first_visit_at_depth_limit (toyWorld 0) toyRoot 0 rfl (by decide)⟩

end UCT

namespace UCT

/-- C24. Over real arithmetic, `selectMove` returns `RIGHT` when the UCB1 score of the right
arm is larger, `LEFT` when that of the left arm is larger, and the random draw modulo 2 when
the scores are equal; when `n[LEFT] = n[RIGHT]` it returns the arm with the strictly larger
`x`. -/
theorem selectMove_ucb1 (C : ℝ) (x : Bool → ℝ) (n : Bool → Nat) (draw : Nat) :
    (ucbScore Real.sqrt Real.log C x n true > ucbScore Real.sqrt Real.log C x n false →
        selectMove Real.sqrt Real.log C x n draw = true) ∧
      (ucbScore Real.sqrt Real.log C x n false > ucbScore Real.sqrt Real.log C x n true →
        selectMove Real.sqrt Real.log C x n draw = false) ∧
      (ucbScore Real.sqrt Real.log C x n false = ucbScore Real.sqrt Real.log C x n true →
        selectMove Real.sqrt Real.log C x n draw = decide (draw % 2 = 1)) ∧
      (n false = n true → x true > x false →
        selectMove Real.sqrt Real.log C x n draw = true) ∧
      (n false = n true → x false > x true →
        selectMove Real.sqrt Real.log C x n draw = false) := by
  have hR : ucbScore Real.sqrt Real.log C x n true > ucbScore Real.sqrt Real.log C x n false →
      selectMove Real.sqrt Real.log C x n draw = true := by
    intro h
    unfold selectMove
    rw [if_neg (ne_of_lt h)]
    exact decide_eq_true h
  have hL : ucbScore Real.sqrt Real.log C x n false > ucbScore Real.sqrt Real.log C x n true →
      selectMove Real.sqrt Real.log C x n draw = false := by
    intro h
    unfold selectMove
    rw [if_neg (ne_of_gt h)]
    exact decide_eq_false (not_lt.mpr (le_of_lt h))
  refine ⟨hR, hL, ?_, ?_, ?_⟩
  · intro h
    unfold selectMove
    rw [if_pos h]
  · intro hn hx
    apply hR
    unfold ucbScore
    rw [hn]
    linarith
  · intro hn hx
    apply hL
    unfold ucbScore
    rw [hn]
    linarith

end UCT

namespace CCLS

theorem foldl_conf_change_val (ls : List Nat) (s : State) (v : Nat) :
    (ls.foldl (fun t v => { t with conf_change := setAt t.conf_change v 1 }) s).conf_change v =
      if v ∈ ls then 1 else s.conf_change v := by
  induction ls generalizing s with
  | nil => simp
  | cons p ps ih =>
    rw [List.foldl_cons, ih]
    by_cases hps : v ∈ ps
    · simp [hps]
    · by_cases hvp : v = p
      · subst hvp
        simp [hps, setAt_apply]
      · simp [hps, hvp, setAt_apply]

theorem flip_conf_binary (F : Instance) (s : State) (f v : Nat)
    (h : s.conf_change v = 0 ∨ s.conf_change v = 1) :
    (flip F s f).conf_change v = 0 ∨ (flip F s f).conf_change v = 1 := by
  have LF := flipLoop_frame F f (var_lit F f)
    { s with cur_soln := setAt s.cur_soln f (1 - s.cur_soln f) }
  have hc : (flipOccurrences F s f).conf_change = s.conf_change := LF.conf_change
  unfold flip
  simp only [setAt_apply]
  split_ifs with hvf
  · exact Or.inl rfl
  · rw [foldl_conf_change_val, hc]
    split_ifs
    · exact Or.inr rfl
    · exact h

theorem flips_conf_binary (F : Instance) (fs : List Nat) (s : State) (v : Nat)
    (h : s.conf_change v = 0 ∨ s.conf_change v = 1) :
    (flips F s fs).conf_change v = 0 ∨ (flips F s fs).conf_change v = 1 := by
  induction fs generalizing s with
  | nil => exact h
  | cons f fs ih =>
    unfold flips at ih ⊢
    rw [List.foldl_cons]
    exact ih _ (flip_conf_binary F s f v h)

theorem flips_varMutable (F : Instance) (fs : List Nat) (s : State) :
    (flips F s fs).varMutable = s.varMutable := by
  induction fs generalizing s with
  | nil => rfl
  | cons f fs ih =>
    unfold flips at ih ⊢
    rw [List.foldl_cons, ih, (flip_frame F s f).1]

theorem mem_unsatVars (st : State) (v : Nat) :
    v ∈ unsatVars st ↔ ∃ i, i < st.unsatvar_stack_fill_pointer ∧ st.unsatvar_stack i = v := by
  unfold unsatVars
  simp [List.mem_map, List.mem_range]

theorem reachable_stack_binary (F : Instance) (hwf : WF F) (s0 : State) (fs : List Nat)
    (v : Nat) (hv : v ∈ unsatVars (flips F (init F s0) fs)) :
    (flips F (init F s0) fs).varMutable v = true ∧
      ((flips F (init F s0) fs).conf_change v = 0 ∨
        (flips F (init F s0) fs).conf_change v = 1) := by
  have hV : VarInv F (flips F (init F s0) fs) :=
    flips_VarInv F hwf fs _ (init_VarInv F hwf s0)
  obtain ⟨i, hi, hiv⟩ := (mem_unsatVars _ v).mp hv
  have hU := (hV.1 i hi).1
  rw [hiv] at hU
  unfold isUnsatVar at hU
  simp only [Bool.and_eq_true, decide_eq_true_eq] at hU
  refine ⟨hU.1, ?_⟩
  apply flips_conf_binary
  right
  have hm : s0.varMutable v = true := by
    have := hU.1
    rw [flips_varMutable, (init_frame F s0).2.2.1] at this
    exact this
  exact (init_conf_change F s0).2.2 v hU.2.1.1 hU.2.1.2 hm

theorem greedyRest_spec (st : State) (vs : List Nat)
    (hbin : ∀ v ∈ vs, st.conf_change v = 0 ∨ st.conf_change v = 1) :
    ∀ (ps : List Nat) (acc : List Nat × Int), acc.1 ≠ [] →
      (∀ x ∈ acc.1, x ∈ ps ∧ isCand st x = true ∧ st.score x = acc.2) →
      (∀ y ∈ ps, isCand st y = true → st.score y ≤ acc.2) →
      (∀ y ∈ ps, isCand st y = true → st.score y = acc.2 → y ∈ acc.1) →
      (greedyRest st vs acc).1 ≠ [] ∧
        (∀ x ∈ (greedyRest st vs acc).1,
          x ∈ ps ++ vs ∧ isCand st x = true ∧ st.score x = (greedyRest st vs acc).2) ∧
        (∀ y ∈ ps ++ vs, isCand st y = true → st.score y ≤ (greedyRest st vs acc).2) ∧
        (∀ y ∈ ps ++ vs, isCand st y = true → st.score y = (greedyRest st vs acc).2 →
          y ∈ (greedyRest st vs acc).1) := by
  induction vs with
  | nil =>
    intro ps acc h1 h2 h3 h4
    simp only [greedyRest, List.append_nil]
    exact ⟨h1, h2, h3, h4⟩
  | cons v vs ih =>
    intro ps acc h1 h2 h3 h4
    have hbin2 : ∀ w ∈ vs, st.conf_change w = 0 ∨ st.conf_change w = 1 :=
      fun w hw => hbin w (List.mem_cons_of_mem _ hw)
    have happ : ps ++ v :: vs = (ps ++ [v]) ++ vs := by simp
    rw [happ]
    have hnc : isCand st v = false →
        (∀ y ∈ ps ++ [v], isCand st y = true → st.score y ≤ acc.2) ∧
        (∀ y ∈ ps ++ [v], isCand st y = true → st.score y = acc.2 → y ∈ acc.1) ∧
        (∀ x ∈ acc.1, x ∈ ps ++ [v] ∧ isCand st x = true ∧ st.score x = acc.2) := by
      intro hv
      refine ⟨?_, ?_, ?_⟩
      · intro y hy hc
        rcases List.mem_append.mp hy with h | h
        · exact h3 y h hc
        · have : y = v := by simpa using h
          rw [this, hv] at hc
          cases hc
      · intro y hy hc
        rcases List.mem_append.mp hy with h | h
        · exact h4 y h hc
        · have : y = v := by simpa using h
          rw [this, hv] at hc
          cases hc
      · intro x hx
        exact ⟨List.mem_append_left _ (h2 x hx).1, (h2 x hx).2⟩
    rw [greedyRest]
    by_cases hm : st.varMutable v = false
    · rw [if_pos hm]
      have hv : isCand st v = false := by simp [isCand, hm]
      obtain ⟨a, b, c⟩ := hnc hv
      exact ih hbin2 (ps ++ [v]) acc h1 c a b
    · rw [if_neg hm]
      have hmt : st.varMutable v = true := by simpa using hm
      by_cases hc0 : st.conf_change v = 0
      · rw [if_pos hc0]
        have hv : isCand st v = false := by simp [isCand, hc0]
        obtain ⟨a, b, c⟩ := hnc hv
        exact ih hbin2 (ps ++ [v]) acc h1 c a b
      · rw [if_neg hc0]
        have hc1 : st.conf_change v = 1 := by
          rcases hbin v (List.mem_cons_self _ _) with h | h
          · exact absurd h hc0
          · exact h
        have hv : isCand st v = true := by simp [isCand, hmt, hc1]
        by_cases hgt : st.score v > acc.2
        · rw [if_pos hgt]
          apply ih hbin2 (ps ++ [v]) ([v], st.score v) (by simp)
          · intro x hx
            have : x = v := by simpa using hx
            subst this
            exact ⟨by simp, hv, rfl⟩
          · intro y hy hc
            rcases List.mem_append.mp hy with h | h
            · have := h3 y h hc
              show st.score y ≤ st.score v
              omega
            · have : y = v := by simpa using h
              rw [this]
          · intro y hy hc hs
            rcases List.mem_append.mp hy with h | h
            · have := h3 y h hc
              have hs2 : st.score y = st.score v := hs
              omega
            · have : y = v := by simpa using h
              rw [this]
              simp
        · rw [if_neg hgt]
          by_cases heq : st.score v = acc.2
          · rw [if_pos heq]
            apply ih hbin2 (ps ++ [v]) (acc.1 ++ [v], acc.2) (by simp)
            · intro x hx
              rcases List.mem_append.mp hx with h | h
              · exact ⟨List.mem_append_left _ (h2 x h).1, (h2 x h).2⟩
              · have : x = v := by simpa using h
                subst this
                exact ⟨by simp, hv, heq⟩
            · intro y hy hc
              rcases List.mem_append.mp hy with h | h
              · exact h3 y h hc
              · have : y = v := by simpa using h
                rw [this]
                exact le_of_eq heq
            · intro y hy hc hs
              rcases List.mem_append.mp hy with h | h
              · exact List.mem_append_left _ (h4 y h hc hs)
              · exact List.mem_append_right _ h
          · rw [if_neg heq]
            apply ih hbin2 (ps ++ [v]) acc h1
            · intro x hx
              exact ⟨List.mem_append_left _ (h2 x hx).1, (h2 x hx).2⟩
            · intro y hy hc
              rcases List.mem_append.mp hy with h | h
              · exact h3 y h hc
              · have : y = v := by simpa using h
                rw [this]
                omega
            · intro y hy hc hs
              rcases List.mem_append.mp hy with h | h
              · exact h4 y h hc hs
              · have : y = v := by simpa using h
                rw [this] at hs
                exact absurd hs heq

theorem greedyScan_none (st : State) (vs : List Nat)
    (h : ∀ v ∈ vs, isCand st v = false) : greedyScan st vs = ([], 0) := by
  induction vs with
  | nil => rfl
  | cons v vs ih =>
    have hv := h v (List.mem_cons_self _ _)
    have ih2 := ih (fun w hw => h w (List.mem_cons_of_mem _ hw))
    rw [greedyScan]
    by_cases hm : st.varMutable v = false
    · rw [if_pos hm]
      exact ih2
    · rw [if_neg hm]
      have hmt : st.varMutable v = true := by simpa using hm
      have hc : ¬ st.conf_change v = 1 := by
        intro hc
        simp [isCand, hmt, hc] at hv
      rw [if_neg hc]
      exact ih2

theorem greedyScan_spec (st : State) (vs : List Nat)
    (hbin : ∀ v ∈ vs, st.conf_change v = 0 ∨ st.conf_change v = 1)
    (hex : ∃ v ∈ vs, isCand st v = true) :
    (greedyScan st vs).1 ≠ [] ∧
      (∀ x ∈ (greedyScan st vs).1,
        x ∈ vs ∧ isCand st x = true ∧ st.score x = (greedyScan st vs).2) ∧
      (∀ y ∈ vs, isCand st y = true → st.score y ≤ (greedyScan st vs).2) ∧
      (∀ y ∈ vs, isCand st y = true → st.score y = (greedyScan st vs).2 →
        y ∈ (greedyScan st vs).1) := by
  induction vs with
  | nil =>
    obtain ⟨v, hv, _⟩ := hex
    cases hv
  | cons v vs ih =>
    have hbin2 : ∀ w ∈ vs, st.conf_change w = 0 ∨ st.conf_change w = 1 :=
      fun w hw => hbin w (List.mem_cons_of_mem _ hw)
    have hskip : isCand st v = false →
        (greedyScan st vs).1 ≠ [] ∧
        (∀ x ∈ (greedyScan st vs).1,
          x ∈ v :: vs ∧ isCand st x = true ∧ st.score x = (greedyScan st vs).2) ∧
        (∀ y ∈ v :: vs, isCand st y = true → st.score y ≤ (greedyScan st vs).2) ∧
        (∀ y ∈ v :: vs, isCand st y = true → st.score y = (greedyScan st vs).2 →
          y ∈ (greedyScan st vs).1) := by
      intro hv
      have hex2 : ∃ w ∈ vs, isCand st w = true := by
        obtain ⟨w, hw, hc⟩ := hex
        rcases List.mem_cons.mp hw with rfl | hw2
        · rw [hv] at hc; cases hc
        · exact ⟨w, hw2, hc⟩
      obtain ⟨a, b, c, e⟩ := ih hbin2 hex2
      refine ⟨a, fun x hx => ⟨List.mem_cons_of_mem _ (b x hx).1, (b x hx).2⟩, ?_, ?_⟩
      · intro y hy hc
        rcases List.mem_cons.mp hy with rfl | hy2
        · rw [hv] at hc; cases hc
        · exact c y hy2 hc
      · intro y hy hc
        rcases List.mem_cons.mp hy with rfl | hy2
        · rw [hv] at hc; cases hc
        · exact e y hy2 hc
    rw [greedyScan]
    by_cases hm : st.varMutable v = false
    · rw [if_pos hm]
      exact hskip (by simp [isCand, hm])
    · rw [if_neg hm]
      have hmt : st.varMutable v = true := by simpa using hm
      by_cases hc1 : st.conf_change v = 1
      · rw [if_pos hc1]
        have hv : isCand st v = true := by simp [isCand, hmt, hc1]
        have := greedyRest_spec st vs hbin2 [v] ([v], st.score v) (by simp)
          (by
            intro x hx
            have : x = v := by simpa using hx
            subst this
            exact ⟨by simp, hv, rfl⟩)
          (by
            intro y hy _
            have : y = v := by simpa using hy
            rw [this])
          (by
            intro y hy _ _
            exact hy)
        simpa using this
      · rw [if_neg hc1]
        exact hskip (by simp [isCand, hmt, hc1])

theorem pick_var_not_noise (F : Instance) (prob : Int) (g : Globals)
    (hnoise : ¬ (((g.rnd g.pos % RAND_MAX_INT : Nat) : Int) < prob)) :
    (pick_var F prob g).1 =
      if (greedyScan g.s (unsatVars g.s)).1.length > 0 then
        (greedyScan g.s (unsatVars g.s)).1.getD
          (g.rnd (g.pos + 1) % (greedyScan g.s (unsatVars g.s)).1.length) 0
      else
        ((F.clause_lit (g.s.unsat_stack
            (g.rnd (g.pos + 1) % g.s.unsat_stack_fill_pointer))).map lit.var_num).getD
          (g.rnd (g.pos + 1 + 1) %
            (F.clause_lit (g.s.unsat_stack
              (g.rnd (g.pos + 1) % g.s.unsat_stack_fill_pointer))).length) 0 := by
  unfold pick_var rand
  simp only
  rw [if_neg hnoise]
  split_ifs <;> rfl

/-- C26. In a state reached from `init()` by flips, when the noise test of `pick_var()`
fails and some mutable variable of the unsat-var stack has `conf_change = 1`, the variable
returned is in the unsat-var stack, is mutable, has `conf_change = 1`, and its score is at
least the score of every mutable variable of the stack with `conf_change = 1`; and every
such maximiser is returned for some value of the random draw. -/
theorem pick_var_greedy (F : Instance) (hwf : WF F) (s0 : State) (fs : List Nat) (prob : Int)
    (g : Globals) (hs : g.s = flips F (init F s0) fs)
    (hnoise : ¬ (((g.rnd g.pos % RAND_MAX_INT : Nat) : Int) < prob))
    (hex : ∃ v ∈ unsatVars g.s, g.s.varMutable v = true ∧ g.s.conf_change v = 1) :
    ((pick_var F prob g).1 ∈ unsatVars g.s ∧
        g.s.varMutable (pick_var F prob g).1 = true ∧
        g.s.conf_change (pick_var F prob g).1 = 1 ∧
        ∀ y ∈ unsatVars g.s, g.s.varMutable y = true → g.s.conf_change y = 1 →
          g.s.score y ≤ g.s.score (pick_var F prob g).1) ∧
      (∀ m ∈ unsatVars g.s, g.s.varMutable m = true → g.s.conf_change m = 1 →
        (∀ y ∈ unsatVars g.s, g.s.varMutable y = true → g.s.conf_change y = 1 →
          g.s.score y ≤ g.s.score m) →
        ∃ r, (pick_var F prob
          { g with rnd := fun i => if i = g.pos + 1 then r else g.rnd i }).1 = m) := by
  have hcand : ∀ v, isCand g.s v = true ↔ (g.s.varMutable v = true ∧ g.s.conf_change v = 1) := by
    intro v
    simp [isCand]
  have hbin : ∀ v ∈ unsatVars g.s, g.s.conf_change v = 0 ∨ g.s.conf_change v = 1 := by
    intro v hv
    rw [hs] at hv ⊢
    exact (reachable_stack_binary F hwf s0 fs v hv).2
  have hex2 : ∃ v ∈ unsatVars g.s, isCand g.s v = true := by
    obtain ⟨v, hv, hc⟩ := hex
    exact ⟨v, hv, (hcand v).mpr hc⟩
  obtain ⟨k1, k2, k3, k4⟩ := greedyScan_spec g.s (unsatVars g.s) hbin hex2
  have hlen : 0 < (greedyScan g.s (unsatVars g.s)).1.length := List.length_pos.mpr k1
  constructor
  · rw [pick_var_not_noise F prob g hnoise, if_pos hlen]
    have hlt : g.rnd (g.pos + 1) % (greedyScan g.s (unsatVars g.s)).1.length <
        (greedyScan g.s (unsatVars g.s)).1.length := Nat.mod_lt _ hlen
    rw [List.getD_eq_getElem _ _ hlt]
    obtain ⟨a, b, c⟩ := k2 _ (List.getElem_mem hlt)
    refine ⟨a, ((hcand _).mp b).1, ((hcand _).mp b).2, ?_⟩
    intro y hy hm hc
    rw [c]
    exact k3 y hy ((hcand y).mpr ⟨hm, hc⟩)
  · intro m hm hmm hmc hmax
    have hsc : g.s.score m = (greedyScan g.s (unsatVars g.s)).2 := by
      apply le_antisymm
      · exact k3 m hm ((hcand m).mpr ⟨hmm, hmc⟩)
      · obtain ⟨x, hx⟩ := List.exists_mem_of_ne_nil _ k1
        obtain ⟨a, b, c⟩ := k2 x hx
        rw [← c]
        exact hmax x a ((hcand x).mp b).1 ((hcand x).mp b).2
    have hin := k4 m hm ((hcand m).mpr ⟨hmm, hmc⟩) hsc
    obtain ⟨k, hk, hkm⟩ := List.getElem_of_mem hin
    refine ⟨k, ?_⟩
    have hnoise2 : ¬ ((((({ g with rnd := fun i => if i = g.pos + 1 then k else g.rnd i } :
        Globals).rnd g.pos) % RAND_MAX_INT : Nat) : Int) < prob) := by
      have : (if g.pos = g.pos + 1 then k else g.rnd g.pos) = g.rnd g.pos := by
        rw [if_neg (by omega)]
      simp only [this]
      exact hnoise
    rw [pick_var_not_noise F prob _ hnoise2]
    simp only [if_pos hlen, if_true]
    rw [Nat.mod_eq_of_lt hk, List.getD_eq_getElem _ _ hk]
    exact hkm

theorem pick_var_greedy_witness :
    (mkGlobals (flips exTwo (init exTwo stAllMutable) [])).s =
        flips exTwo (init exTwo stAllMutable) [] ∧
      (¬ ((((mkGlobals (flips exTwo (init exTwo stAllMutable) [])).rnd
          (mkGlobals (flips exTwo (init exTwo stAllMutable) [])).pos % RAND_MAX_INT : Nat) :
            Int) < 0)) ∧
      (∃ v ∈ unsatVars (mkGlobals (flips exTwo (init exTwo stAllMutable) [])).s,
        (mkGlobals (flips exTwo (init exTwo stAllMutable) [])).s.varMutable v = true ∧
          (mkGlobals (flips exTwo (init exTwo stAllMutable) [])).s.conf_change v = 1) ∧
      (((pick_var exTwo 0 (mkGlobals (flips exTwo (init exTwo stAllMutable) []))).1 ∈
            unsatVars (mkGlobals (flips exTwo (init exTwo stAllMutable) [])).s ∧
          (mkGlobals (flips exTwo (init exTwo stAllMutable) [])).s.varMutable
            (pick_var exTwo 0 (mkGlobals (flips exTwo (init exTwo stAllMutable) []))).1 = true ∧
          (mkGlobals (flips exTwo (init exTwo stAllMutable) [])).s.conf_change
            (pick_var exTwo 0 (mkGlobals (flips exTwo (init exTwo stAllMutable) []))).1 = 1 ∧
          ∀ y ∈ unsatVars (mkGlobals (flips exTwo (init exTwo stAllMutable) [])).s,
            (mkGlobals (flips exTwo (init exTwo stAllMutable) [])).s.varMutable y = true →
            (mkGlobals (flips exTwo (init exTwo stAllMutable) [])).s.conf_change y = 1 →
            (mkGlobals (flips exTwo (init exTwo stAllMutable) [])).s.score y ≤
              (mkGlobals (flips exTwo (init exTwo stAllMutable) [])).s.score
                (pick_var exTwo 0
                  (mkGlobals (flips exTwo (init exTwo stAllMutable) []))).1) ∧
        (∀ m ∈ unsatVars (mkGlobals (flips exTwo (init exTwo stAllMutable) [])).s,
          (mkGlobals (flips exTwo (init exTwo stAllMutable) [])).s.varMutable m = true →
          (mkGlobals (flips exTwo (init exTwo stAllMutable) [])).s.conf_change m = 1 →
          (∀ y ∈ unsatVars (mkGlobals (flips exTwo (init exTwo stAllMutable) [])).s,
            (mkGlobals (flips exTwo (init exTwo stAllMutable) [])).s.varMutable y = true →
            (mkGlobals (flips exTwo (init exTwo stAllMutable) [])).s.conf_change y = 1 →
            (mkGlobals (flips exTwo (init exTwo stAllMutable) [])).s.score y ≤
              (mkGlobals (flips exTwo (init exTwo stAllMutable) [])).s.score m) →
          ∃ r, (pick_var exTwo 0
            { mkGlobals (flips exTwo (init exTwo stAllMutable) []) with
              rnd := fun i =>
                if i = (mkGlobals (flips exTwo (init exTwo stAllMutable) [])).pos + 1 then r
                else (mkGlobals (flips exTwo (init exTwo stAllMutable) [])).rnd i }).1 = m)) :=
  ⟨rfl, by decide, by decide,
    pick_var_greedy exTwo (by decide) stAllMutable [] 0
      (mkGlobals (flips exTwo (init exTwo stAllMutable) [])) rfl (by decide) (by decide)⟩

/-- C27 (as stated) fails: for the clause `(¬x1 ∨ x2)` with `x1` immutable and fixed to 1
and the neighbour relation built, after `init()` and `flip(2)` the clause is the only one on
the unsat stack, the only variable of the unsat-var stack is `x2` with `conf_change = 0`,
the noise test fails, and `pick_var()` (with draws 0) returns the immutable variable 1. -/
theorem pick_var_fallback_counterexample :
    exFallback.unsat_stack_fill_pointer = 1 ∧ exFallback.unsat_stack 0 = 0 ∧
      unsatVars exFallback = [2] ∧ exFallback.conf_change 2 = 0 ∧
      (pick_var exNegPos 0 (mkGlobals exFallback)).1 = 1 ∧
      exFallback.varMutable 1 = false := by
  decide

/-- C27 (amended). When the noise test of `pick_var()` fails and no mutable variable of the
unsat-var stack has `conf_change = 1`, then for every random draw the variable returned is
a variable, mutable or not, of some clause of the unsat stack (the stack being non-empty
and its clauses having at least one literal). -/
theorem pick_var_fallback (F : Instance) (prob : Int) (g : Globals)
    (hnoise : ¬ (((g.rnd g.pos % RAND_MAX_INT : Nat) : Int) < prob))
    (hnone : ∀ v ∈ unsatVars g.s, ¬ (g.s.varMutable v = true ∧ g.s.conf_change v = 1))
    (hfill : 0 < g.s.unsat_stack_fill_pointer)
    (hne : ∀ i, i < g.s.unsat_stack_fill_pointer → F.clause_lit (g.s.unsat_stack i) ≠ []) :
    ∃ i, i < g.s.unsat_stack_fill_pointer ∧
      (pick_var F prob g).1 ∈ clauseVars F (g.s.unsat_stack i) := by
  have hscan : greedyScan g.s (unsatVars g.s) = ([], 0) := by
    apply greedyScan_none
    intro v hv
    have := hnone v hv
    cases hc : isCand g.s v
    · rfl
    · exfalso
      apply this
      simpa [isCand] using hc
  have hi : g.rnd (g.pos + 1) % g.s.unsat_stack_fill_pointer < g.s.unsat_stack_fill_pointer :=
    Nat.mod_lt _ hfill
  refine ⟨_, hi, ?_⟩
  rw [pick_var_not_noise F prob g hnoise, hscan]
  simp only [List.length_nil, gt_iff_lt, lt_self_iff_false, if_false]
  have hlen : 0 < (F.clause_lit (g.s.unsat_stack
      (g.rnd (g.pos + 1) % g.s.unsat_stack_fill_pointer))).length :=
    List.length_pos.mpr (hne _ hi)
  have hlt : g.rnd (g.pos + 1 + 1) % (F.clause_lit (g.s.unsat_stack
      (g.rnd (g.pos + 1) % g.s.unsat_stack_fill_pointer))).length <
      ((F.clause_lit (g.s.unsat_stack
        (g.rnd (g.pos + 1) % g.s.unsat_stack_fill_pointer))).map lit.var_num).length := by
    rw [List.length_map]
    exact Nat.mod_lt _ hlen
  rw [List.getD_eq_getElem _ _ hlt]
  unfold clauseVars
  exact List.getElem_mem hlt

theorem pick_var_fallback_witness :
    (¬ ((((mkGlobals exFallback).rnd (mkGlobals exFallback).pos % RAND_MAX_INT : Nat) : Int)
        < 0)) ∧
      (∀ v ∈ unsatVars (mkGlobals exFallback).s,
        ¬ ((mkGlobals exFallback).s.varMutable v = true ∧
          (mkGlobals exFallback).s.conf_change v = 1)) ∧
      0 < (mkGlobals exFallback).s.unsat_stack_fill_pointer ∧
      (∀ i, i < (mkGlobals exFallback).s.unsat_stack_fill_pointer →
        exNegPos.clause_lit ((mkGlobals exFallback).s.unsat_stack i) ≠ []) ∧
      ∃ i, i < (mkGlobals exFallback).s.unsat_stack_fill_pointer ∧
        (pick_var exNegPos 0 (mkGlobals exFallback)).1 ∈
          clauseVars exNegPos ((mkGlobals exFallback).s.unsat_stack i) :=
  ⟨by decide, by decide, by decide, by decide,
    pick_var_fallback exNegPos 0 (mkGlobals exFallback)
      (by decide) (by decide) (by decide) (by decide)⟩

theorem neighborStep_inv (v u : Nat) (acc : (Nat → Int) × List Nat) (h : ScanInv v acc) :
    ScanInv v (neighborStep acc u) ∧
      (∀ w, w ∈ (neighborStep acc u).2 ↔ (w ∈ acc.2 ∨ (w = u ∧ w ≠ v))) := by
  unfold neighborStep
  by_cases h0 : acc.1 u = 0
  · rw [if_pos h0]
    obtain ⟨huv, hut⟩ := (h.1 u).mp h0
    refine ⟨⟨?_, ?_⟩, ?_⟩
    · intro w
      simp only [setAt_apply, List.mem_append, List.mem_singleton]
      by_cases hwu : w = u
      · subst hwu
        simp
      · rw [if_neg hwu, h.1 w]
        simp [hwu]
    · exact List.Nodup.append h.2 (List.nodup_singleton u) (by simpa using hut)
    · intro w
      simp only [List.mem_append, List.mem_singleton]
      constructor
      · rintro (hw | hw)
        · exact Or.inl hw
        · exact Or.inr ⟨hw, by rw [hw]; exact huv⟩
      · rintro (hw | ⟨hw, _⟩)
        · exact Or.inl hw
        · exact Or.inr hw
  · rw [if_neg h0]
    refine ⟨h, ?_⟩
    intro w
    constructor
    · exact fun hw => Or.inl hw
    · rintro (hw | ⟨hw, hwv⟩)
      · exact hw
      · subst hw
        by_contra hnt
        exact h0 ((h.1 w).mpr ⟨hwv, hnt⟩)

theorem neighborLits_inv (v : Nat) (ls : List lit) (acc : (Nat → Int) × List Nat)
    (h : ScanInv v acc) :
    ScanInv v (ls.foldl (fun acc l => neighborStep acc l.var_num) acc) ∧
      (∀ w, w ∈ (ls.foldl (fun acc l => neighborStep acc l.var_num) acc).2 ↔
        (w ∈ acc.2 ∨ (w ≠ v ∧ w ∈ ls.map lit.var_num))) := by
  induction ls generalizing acc with
  | nil => exact ⟨h, fun w => by simp⟩
  | cons l ls ih =>
    obtain ⟨h1, h2⟩ := neighborStep_inv v l.var_num acc h
    obtain ⟨i1, i2⟩ := ih (neighborStep acc l.var_num) h1
    rw [List.foldl_cons]
    refine ⟨i1, ?_⟩
    intro w
    rw [i2 w, h2 w]
    simp only [List.map_cons, List.mem_cons]
    tauto

theorem neighborOcc_inv (F : Instance) (v : Nat) (qs : List lit)
    (acc : (Nat → Int) × List Nat) (h : ScanInv v acc) :
    ScanInv v (qs.foldl
        (fun acc q =>
          (F.clause_lit q.clause_num).foldl (fun acc l => neighborStep acc l.var_num) acc) acc) ∧
      (∀ w, w ∈ (qs.foldl
          (fun acc q =>
            (F.clause_lit q.clause_num).foldl (fun acc l => neighborStep acc l.var_num) acc)
          acc).2 ↔
        (w ∈ acc.2 ∨ (w ≠ v ∧ ∃ q ∈ qs, w ∈ clauseVars F q.clause_num))) := by
  induction qs generalizing acc with
  | nil => exact ⟨h, fun w => by simp⟩
  | cons q qs ih =>
    obtain ⟨h1, h2⟩ := neighborLits_inv v (F.clause_lit q.clause_num) acc h
    obtain ⟨i1, i2⟩ := ih _ h1
    rw [List.foldl_cons]
    refine ⟨i1, ?_⟩
    intro w
    rw [i2 w, h2 w]
    unfold clauseVars
    simp only [List.mem_cons, exists_eq_or_imp]
    tauto

theorem foldl_clear_flags (ls : List Nat) (f : Nat → Int) (u : Nat) :
    (ls.foldl (fun f u => setAt f u 0) f) u = if u ∈ ls then 0 else f u := by
  induction ls generalizing f with
  | nil => simp
  | cons a as ih =>
    rw [List.foldl_cons, ih]
    by_cases has : u ∈ as
    · simp [has]
    · by_cases hua : u = a
      · subst hua
        simp [has, setAt_apply]
      · simp [has, hua, setAt_apply]

theorem neighborVar_spec (F : Instance) (hwf : WF F) (nb : Neighbors)
    (hflag : ∀ u, nb.neighbor_flag u = 0) (v : Nat) :
    (∀ u, (neighborVar F nb v).neighbor_flag u = 0) ∧
      (∃ temp : List Nat,
        (neighborVar F nb v).var_neighbor v = temp ++ [0] ∧
        (neighborVar F nb v).var_neighbor_count v = temp.length ∧ temp.Nodup ∧
        (∀ u, u ∈ temp ↔
          (u ≠ v ∧ ∃ c, c < F.num_clauses ∧ u ∈ clauseVars F c ∧ v ∈ clauseVars F c))) ∧
      (∀ w, w ≠ v → (neighborVar F nb v).var_neighbor w = nb.var_neighbor w ∧
        (neighborVar F nb v).var_neighbor_count w = nb.var_neighbor_count w) ∧
      (neighborVar F nb v).depthLimit = nb.depthLimit := by
  have h0 : ScanInv v (setAt nb.neighbor_flag v 1, []) := by
    refine ⟨?_, List.nodup_nil⟩
    intro u
    simp only [setAt_apply, List.not_mem_nil, not_false_eq_true, and_true]
    by_cases huv : u = v
    · simp [huv]
    · simp [huv, hflag u]
  obtain ⟨h1, h2⟩ := neighborOcc_inv F v (var_lit F v) _ h0
  refine ⟨?_, ⟨(neighborScan F v (setAt nb.neighbor_flag v 1, [])).2, ?_, ?_, h1.2, ?_⟩, ?_, rfl⟩
  · intro u
    show ((neighborScan F v (setAt nb.neighbor_flag v 1, [])).2.foldl
      (fun f u => setAt f u 0)
      (setAt (neighborScan F v (setAt nb.neighbor_flag v 1, [])).1 v 0)) u = 0
    rw [foldl_clear_flags]
    split_ifs with hm
    · rfl
    · rw [setAt_apply]
      split_ifs with huv
      · rfl
      · exact (h1.1 u).mpr ⟨huv, hm⟩
  · show setAt nb.var_neighbor v _ v = _
    rw [setAt_apply, if_pos rfl]
  · show setAt nb.var_neighbor_count v _ v = _
    rw [setAt_apply, if_pos rfl]
  · intro u
    have := h2 u
    unfold neighborScan
    rw [this]
    simp only [List.not_mem_nil, false_or]
    constructor
    · rintro ⟨huv, q, hq, hu⟩
      obtain ⟨hq1, hq2, hq3⟩ := mem_var_lit F hwf v q hq
      refine ⟨huv, q.clause_num, hq1, hu, ?_⟩
      unfold clauseVars
      rw [List.mem_map]
      exact ⟨q, hq2, hq3⟩
    · rintro ⟨huv, c, hc, hu, hv⟩
      unfold clauseVars at hv
      rw [List.mem_map] at hv
      obtain ⟨l, hl, hlv⟩ := hv
      have hmem := mem_var_lit_of_mem F c hc l hl
      rw [hlv] at hmem
      have hnum : l.clause_num = c := ((hwf c hc).1 l hl).1
      exact ⟨huv, l, hmem, by rw [hnum]; exact hu⟩
  · intro w hw
    constructor
    · show setAt nb.var_neighbor v _ w = _
      rw [setAt_apply, if_neg hw]
    · show setAt nb.var_neighbor_count v _ w = _
      rw [setAt_apply, if_neg hw]

theorem neighborLoop_spec (F : Instance) (hwf : WF F) (vs : List Nat) (hnd : vs.Nodup) :
    ∀ (nb : Neighbors), (∀ u, nb.neighbor_flag u = 0) →
      (∀ u, (vs.foldl (neighborVar F) nb).neighbor_flag u = 0) ∧
        (vs.foldl (neighborVar F) nb).depthLimit = nb.depthLimit ∧
        (∀ v ∈ vs, ∃ temp : List Nat,
          (vs.foldl (neighborVar F) nb).var_neighbor v = temp ++ [0] ∧
          (vs.foldl (neighborVar F) nb).var_neighbor_count v = temp.length ∧ temp.Nodup ∧
          (∀ u, u ∈ temp ↔
            (u ≠ v ∧ ∃ c, c < F.num_clauses ∧ u ∈ clauseVars F c ∧ v ∈ clauseVars F c))) ∧
        (∀ w, w ∉ vs → (vs.foldl (neighborVar F) nb).var_neighbor w = nb.var_neighbor w ∧
          (vs.foldl (neighborVar F) nb).var_neighbor_count w = nb.var_neighbor_count w) := by
  induction vs with
  | nil =>
    intro nb h
    exact ⟨h, rfl, fun v hv => absurd hv (List.not_mem_nil v), fun _ _ => ⟨rfl, rfl⟩⟩
  | cons a as ih =>
    intro nb h
    obtain ⟨s1, s2, s3, s4⟩ := neighborVar_spec F hwf nb h a
    have hnd2 := List.nodup_cons.mp hnd
    obtain ⟨i1, i2, i3, i4⟩ := ih hnd2.2 (neighborVar F nb a) s1
    rw [List.foldl_cons]
    refine ⟨i1, by rw [i2, s4], ?_, ?_⟩
    · intro v hv
      rcases List.mem_cons.mp hv with rfl | hv2
      · obtain ⟨temp, t1, t2, t3, t4⟩ := s2
        refine ⟨temp, ?_, ?_, t3, t4⟩
        · rw [(i4 v hnd2.1).1, t1]
        · rw [(i4 v hnd2.1).2, t2]
      · exact i3 v hv2
    · intro w hw
      have hwa : w ≠ a := fun h => hw (h ▸ List.mem_cons_self _ _)
      have hwas : w ∉ as := fun h => hw (List.mem_cons_of_mem _ h)
      rw [(i4 w hwas).1, (i4 w hwas).2]
      exact s3 w hwa

/-- C28. With `neighbor_flag` all zero on entry, after `build_neighbor_relation()` for every
variable `v` of `1..N` the cells `var_neighbor[v][0..var_neighbor_count[v])` hold a variable
`u` iff `u != v` and some clause contains both `u` and `v`, they hold no variable twice, the
cell `var_neighbor[v][var_neighbor_count[v]]` is the terminator 0, and `neighbor_flag` is
all zero again (after each variable is processed, hence at the end). -/
theorem build_neighbor_relation_exact (F : Instance) (hwf : WF F) (nb : Neighbors)
    (hflag : ∀ u, nb.neighbor_flag u = 0) (v : Nat) (hv1 : 1 ≤ v) (hv2 : v ≤ F.num_vars) :
    (∀ u, u ∈ ((build_neighbor_relation F nb).var_neighbor v).take
          ((build_neighbor_relation F nb).var_neighbor_count v) ↔
        (u ≠ v ∧ ∃ c, c < F.num_clauses ∧ u ∈ clauseVars F c ∧ v ∈ clauseVars F c)) ∧
      (((build_neighbor_relation F nb).var_neighbor v).take
        ((build_neighbor_relation F nb).var_neighbor_count v)).Nodup ∧
      ((build_neighbor_relation F nb).var_neighbor v).length =
        (build_neighbor_relation F nb).var_neighbor_count v + 1 ∧
      ((build_neighbor_relation F nb).var_neighbor v).getD
        ((build_neighbor_relation F nb).var_neighbor_count v) 1 = 0 ∧
      (∀ u, (build_neighbor_relation F nb).neighbor_flag u = 0) ∧
      (∀ (nb1 : Neighbors) (w : Nat), (∀ u, nb1.neighbor_flag u = 0) →
        ∀ u, (neighborVar F nb1 w).neighbor_flag u = 0) := by
  have hmem : v ∈ List.range' 1 F.num_vars := by
    rw [List.mem_range'_1]; omega
  obtain ⟨i1, _, i3, _⟩ := neighborLoop_spec F hwf (List.range' 1 F.num_vars)
    (List.nodup_range' 1 F.num_vars) { nb with depthLimit := (F.num_vars : Int) - 1 } hflag
  obtain ⟨temp, t1, t2, t3, t4⟩ := i3 v hmem
  unfold build_neighbor_relation
  rw [t1, t2]
  refine ⟨?_, ?_, by simp, ?_, i1, fun nb1 w h => (neighborVar_spec F hwf nb1 h w).1⟩
  · intro u
    rw [List.take_left']
    · exact t4 u
    · rfl
  · rw [List.take_left']
    · exact t3
    · rfl
  · rw [List.getD_eq_getElem _ _ (by simp)]
    simp

theorem build_neighbor_relation_exact_witness :
    WF exTwo ∧ (∀ u, zeroNeighbors.neighbor_flag u = 0) ∧ 1 ≤ 2 ∧ 2 ≤ exTwo.num_vars ∧
    ((∀ u, u ∈ ((build_neighbor_relation exTwo zeroNeighbors).var_neighbor 2).take
          ((build_neighbor_relation exTwo zeroNeighbors).var_neighbor_count 2) ↔
        (u ≠ 2 ∧ ∃ c, c < exTwo.num_clauses ∧ u ∈ clauseVars exTwo c ∧ 2 ∈ clauseVars exTwo c)) ∧
      (((build_neighbor_relation exTwo zeroNeighbors).var_neighbor 2).take
        ((build_neighbor_relation exTwo zeroNeighbors).var_neighbor_count 2)).Nodup ∧
      ((build_neighbor_relation exTwo zeroNeighbors).var_neighbor 2).length =
        (build_neighbor_relation exTwo zeroNeighbors).var_neighbor_count 2 + 1 ∧
      ((build_neighbor_relation exTwo zeroNeighbors).var_neighbor 2).getD
        ((build_neighbor_relation exTwo zeroNeighbors).var_neighbor_count 2) 1 = 0 ∧
      (∀ u, (build_neighbor_relation exTwo zeroNeighbors).neighbor_flag u = 0) ∧
      (∀ (nb1 : Neighbors) (w : Nat), (∀ u, nb1.neighbor_flag u = 0) →
        ∀ u, (neighborVar exTwo nb1 w).neighbor_flag u = 0)) :=
  ⟨by decide, fun _ => rfl, by decide, by decide,
    build_neighbor_relation_exact exTwo (by decide) zeroNeighbors (fun _ => rfl) 2
      (by decide) (by decide)⟩

theorem scanTemp_spec (cur : Int) (ts : List Int) :
    (-cur ∉ ts → scanTemp cur ts = (decide (cur ∈ ts), false)) ∧
      (cur ∉ ts → scanTemp cur ts = (false, decide (-cur ∈ ts))) := by
  induction ts with
  | nil => simp [scanTemp]
  | cons t ts ih =>
    constructor
    · intro hn
      have hnt : ¬ cur = -t := by
        intro h
        apply hn
        rw [h, neg_neg]
        exact List.mem_cons_self _ _
      have hn2 : -cur ∉ ts := fun h => hn (List.mem_cons_of_mem _ h)
      rw [scanTemp]
      by_cases h1 : cur = t
      · rw [if_pos h1]
        simp [h1]
      · rw [if_neg h1, if_neg hnt, ih.1 hn2]
        simp [h1]
    · intro hn
      have h1 : ¬ cur = t := by
        intro h
        apply hn
        rw [h]
        exact List.mem_cons_self _ _
      have hn2 : cur ∉ ts := fun h => hn (List.mem_cons_of_mem _ h)
      rw [scanTemp, if_neg h1]
      by_cases h2 : cur = -t
      · rw [if_pos h2]
        simp [h2]
      · rw [if_neg h2, ih.2 hn2]
        have : ¬ -cur = t := by
          intro h
          apply h2
          rw [← h, neg_neg]
        simp [this]

theorem dedupFirst_append (ps : List Int) (x : Int) :
    dedupFirst (ps ++ [x]) =
      if x ∈ dedupFirst ps then dedupFirst ps else dedupFirst ps ++ [x] := by
  unfold dedupFirst
  rw [List.foldl_append]
  rfl

theorem mem_dedupFirst (ps : List Int) (x : Int) : x ∈ dedupFirst ps ↔ x ∈ ps := by
  induction ps using List.reverseRecOn with
  | nil => simp [dedupFirst]
  | append_singleton ps a ih =>
    rw [dedupFirst_append]
    by_cases ha : a ∈ dedupFirst ps
    · rw [if_pos ha]
      simp only [List.mem_append, List.mem_singleton]
      constructor
      · exact fun h => Or.inl (ih.mp h)
      · rintro (h | h)
        · exact ih.mpr h
        · rw [h]; exact ha
    · rw [if_neg ha]
      simp only [List.mem_append, List.mem_singleton, ih]

theorem isTaut_iff (ls : List Int) : isTaut ls = true ↔ ∃ l ∈ ls, -l ∈ ls := by
  unfold isTaut
  simp [List.any_eq_true]

theorem isTaut_append (ps : List Int) (x : Int) (hx : x ≠ 0) :
    isTaut (ps ++ [x]) = (isTaut ps || decide (-x ∈ ps)) := by
  rw [Bool.eq_iff_iff, isTaut_iff, Bool.or_eq_true, isTaut_iff, decide_eq_true_eq]
  constructor
  · rintro ⟨l, hl, hnl⟩
    rw [List.mem_append, List.mem_singleton] at hl hnl
    rcases hl with hl | hl
    · rcases hnl with hnl | hnl
      · exact Or.inl ⟨l, hl, hnl⟩
      · right
        have : l = -x := by omega
        rw [← this]
        exact hl
    · rcases hnl with hnl | hnl
      · right
        rw [← hl]
        exact hnl
      · exfalso
        omega
  · rintro (⟨l, hl, hnl⟩ | h)
    · exact ⟨l, List.mem_append_left _ hl, List.mem_append_left _ hnl⟩
    · exact ⟨-x, List.mem_append_left _ h, by rw [neg_neg]; simp⟩

theorem prefix_setAt (temp : Nat → Int) (n : Nat) (x : Int) :
    (List.range (n + 1)).map (setAt temp n x) = (List.range n).map temp ++ [x] := by
  rw [List.range_succ, List.map_append]
  congr 1
  · apply List.map_congr_left
    intro i hi
    rw [List.mem_range] at hi
    rw [setAt_apply, if_neg (by omega)]
  · simp [setAt_apply]

theorem readLit_inv (ps : List Int) (r : Reading) (x : Int) (hx : x ≠ 0)
    (h1 : r.clause_redundent = isTaut ps)
    (h2 : isTaut ps = false → (List.range r.count).map r.temp_lit = dedupFirst ps) :
    (readLit r x).clause_redundent = isTaut (ps ++ [x]) ∧
      (isTaut (ps ++ [x]) = false →
        (List.range (readLit r x).count).map (readLit r x).temp_lit = dedupFirst (ps ++ [x])) := by
  rw [isTaut_append ps x hx]
  cases ht : isTaut ps
  · have hpre := h2 ht
    rw [ht] at h1
    by_cases hneg : -x ∈ ps
    · -- the negation has been read: the clause becomes redundant
      have hxn : x ∉ ps := by
        intro hxp
        have : isTaut ps = true := (isTaut_iff ps).mpr ⟨x, hxp, hneg⟩
        rw [ht] at this
        cases this
      have hsc : scanTemp x ((List.range r.count).map r.temp_lit) = (false, true) := by
        rw [hpre, (scanTemp_spec x _).2 (fun h => hxn ((mem_dedupFirst ps x).mp h))]
        simp [mem_dedupFirst, hneg]
      refine ⟨?_, ?_⟩
      · unfold readLit
        simp only [hsc, if_true, Bool.or_true]
        simp [hneg]
      · intro h
        simp [hneg] at h
    · have hsc : scanTemp x ((List.range r.count).map r.temp_lit) =
          (decide (x ∈ dedupFirst ps), false) := by
        rw [hpre, (scanTemp_spec x _).1 (fun h => hneg ((mem_dedupFirst ps (-x)).mp h))]
      refine ⟨?_, ?_⟩
      · unfold readLit
        simp only [hsc, Bool.or_false]
        split_ifs <;> simp [h1, hneg]
      · intro _
        rw [dedupFirst_append]
        unfold readLit
        simp only [hsc, Bool.or_false]
        by_cases hmem : x ∈ dedupFirst ps
        · simp only [hmem, decide_True, Bool.true_eq_false, if_false, if_true]
          exact hpre
        · simp only [hmem, decide_False, if_true, if_false]
          rw [prefix_setAt, hpre]
  · rw [ht] at h1
    refine ⟨?_, ?_⟩
    · unfold readLit
      simp only
      split_ifs <;> simp [h1]
    · intro h
      simp at h

theorem readClause_inv (ls : List Int) (hnz : ∀ l ∈ ls, l ≠ 0) :
    ∀ (ps : List Int) (r : Reading), r.clause_redundent = isTaut ps →
      (isTaut ps = false → (List.range r.count).map r.temp_lit = dedupFirst ps) →
      (ls.foldl readLit r).clause_redundent = isTaut (ps ++ ls) ∧
        (isTaut (ps ++ ls) = false →
          (List.range (ls.foldl readLit r).count).map (ls.foldl readLit r).temp_lit =
            dedupFirst (ps ++ ls)) := by
  induction ls with
  | nil =>
    intro ps r h1 h2
    simp only [List.foldl_nil, List.append_nil]
    exact ⟨h1, h2⟩
  | cons x xs ih =>
    intro ps r h1 h2
    obtain ⟨a, b⟩ := readLit_inv ps r x (hnz x (List.mem_cons_self _ _)) h1 h2
    have := ih (fun l hl => hnz l (List.mem_cons_of_mem _ hl)) (ps ++ [x]) (readLit r x) a b
    rw [List.foldl_cons]
    simpa using this

theorem buildClause_spec (b : Build) (c : Nat) (cl : Int × List Int)
    (hnz : ∀ l ∈ cl.2, l ≠ 0) (hcount : b.clause_lit_count c = 0) :
    (isTaut cl.2 = false →
        (buildClause b c cl).2 = c + 1 ∧
        (buildClause b c cl).1.num_clauses = b.num_clauses ∧
        (buildClause b c cl).1.clause_lit =
          setAt b.clause_lit c ((dedupFirst cl.2).map (toLit c)) ∧
        (buildClause b c cl).1.clause_lit_count =
          setAt b.clause_lit_count c (dedupFirst cl.2).length ∧
        (buildClause b c cl).1.clause_weight = setAt b.clause_weight c cl.1) ∧
      (isTaut cl.2 = true →
        (buildClause b c cl).2 = c ∧
        (buildClause b c cl).1.num_clauses = b.num_clauses - 1 ∧
        (buildClause b c cl).1.clause_lit = b.clause_lit ∧
        (buildClause b c cl).1.clause_lit_count = setAt b.clause_lit_count c 0 ∧
        (buildClause b c cl).1.clause_weight = setAt b.clause_weight c cl.1) := by
  obtain ⟨h1, h2⟩ := readClause_inv cl.2 hnz []
    { temp_lit := b.temp_lit, count := b.clause_lit_count c, clause_redundent := false }
    (by simp [isTaut]) (by intro _; simp [hcount, dedupFirst])
  rw [List.nil_append] at h1 h2
  constructor
  · intro ht
    rw [ht] at h1
    have hpre := h2 ht
    have hlen : (cl.2.foldl readLit
        { temp_lit := b.temp_lit, count := b.clause_lit_count c,
          clause_redundent := false }).count = (dedupFirst cl.2).length := by
      have := congrArg List.length hpre
      simpa using this
    unfold buildClause
    simp only [h1, if_true]
    refine ⟨trivial, trivial, ?_, ?_, trivial⟩
    · rw [← hpre, List.map_map]
      rfl
    · rw [hlen]
  · intro ht
    rw [ht] at h1
    unfold buildClause
    simp only [h1, Bool.true_eq_false, if_false]
    exact ⟨trivial, trivial, trivial, trivial, trivial⟩

theorem keptClauses_cons (cl : Int × List Int) (rest : List (Int × List Int)) :
    keptClauses (cl :: rest) =
      if isTaut cl.2 = false then cl :: keptClauses rest else keptClauses rest := by
  unfold keptClauses
  rw [List.filter_cons]
  cases isTaut cl.2 <;> simp

theorem buildLoop_spec (input : List (Int × List Int))
    (hnz : ∀ cl ∈ input, ∀ l ∈ cl.2, l ≠ 0) :
    ∀ (b : Build) (c : Nat), b.num_clauses = c + input.length →
      (∀ k, c ≤ k → k < c + input.length → b.clause_lit_count k = 0) →
      (buildLoop input b c).num_clauses = c + (keptClauses input).length ∧
        (∀ i, i < c →
          (buildLoop input b c).clause_lit i = b.clause_lit i ∧
          (buildLoop input b c).clause_lit_count i = b.clause_lit_count i ∧
          (buildLoop input b c).clause_weight i = b.clause_weight i) ∧
        (∀ j, j < (keptClauses input).length →
          (buildLoop input b c).clause_lit (c + j) =
            (dedupFirst ((keptClauses input).getD j (0, [])).2).map (toLit (c + j)) ∧
          (buildLoop input b c).clause_lit_count (c + j) =
            (dedupFirst ((keptClauses input).getD j (0, [])).2).length ∧
          (buildLoop input b c).clause_weight (c + j) =
            ((keptClauses input).getD j (0, [])).1) := by
  induction input with
  | nil =>
    intro b c hM _
    simp only [buildLoop, keptClauses, List.filter_nil, List.length_nil, Nat.add_zero]
    exact ⟨by simpa using hM, fun _ _ => ⟨trivial, trivial, trivial⟩,
      fun j hj => absurd hj (Nat.not_lt_zero j)⟩
  | cons cl rest ih =>
    intro b c hM hz
    have hnz1 : ∀ l ∈ cl.2, l ≠ 0 := hnz cl (List.mem_cons_self _ _)
    have hnz2 : ∀ cl1 ∈ rest, ∀ l ∈ cl1.2, l ≠ 0 :=
      fun cl1 h => hnz cl1 (List.mem_cons_of_mem _ h)
    have hlen : (cl :: rest).length = rest.length + 1 := List.length_cons _ _
    have hguard : c < b.num_clauses := by omega
    have hc0 : b.clause_lit_count c = 0 := hz c (le_refl _) (by omega)
    obtain ⟨sk, st⟩ := buildClause_spec b c cl hnz1 hc0
    rw [buildLoop, if_pos hguard, keptClauses_cons]
    cases ht : isTaut cl.2
    · obtain ⟨e1, e2, e3, e4, e5⟩ := sk ht
      rw [e1]
      have hM1 : (buildClause b c cl).1.num_clauses = (c + 1) + rest.length := by
        rw [e2, hM, hlen]; omega
      have hz1 : ∀ k, c + 1 ≤ k → k < (c + 1) + rest.length →
          (buildClause b c cl).1.clause_lit_count k = 0 := by
        intro k hk1 hk2
        rw [e4, setAt_apply, if_neg (by omega)]
        exact hz k (by omega) (by rw [hlen]; omega)
      obtain ⟨i1, i2, i3⟩ := ih hnz2 (buildClause b c cl).1 (c + 1) hM1 hz1
      simp only [if_true, List.length_cons]
      refine ⟨by rw [i1]; omega, ?_, ?_⟩
      · intro i hi
        obtain ⟨a1, a2, a3⟩ := i2 i (by omega)
        rw [a1, a2, a3, e3, e4, e5]
        simp only [setAt_apply, if_neg (show i ≠ c by omega)]
        exact ⟨trivial, trivial, trivial⟩
      · intro j hj
        cases j with
        | zero =>
          obtain ⟨a1, a2, a3⟩ := i2 c (by omega)
          simp only [Nat.add_zero, List.getD_cons_zero]
          rw [a1, a2, a3, e3, e4, e5]
          simp only [setAt_apply, if_true]
          exact ⟨trivial, trivial, trivial⟩
        | succ j =>
          obtain ⟨a1, a2, a3⟩ := i3 j (by omega)
          have hidx : c + (j + 1) = c + 1 + j := by omega
          simp only [List.getD_cons_succ]
          rw [hidx]
          exact ⟨a1, a2, a3⟩
    · obtain ⟨e1, e2, e3, e4, e5⟩ := st ht
      rw [e1]
      have hM1 : (buildClause b c cl).1.num_clauses = c + rest.length := by
        rw [e2, hM, hlen]; omega
      have hz1 : ∀ k, c ≤ k → k < c + rest.length →
          (buildClause b c cl).1.clause_lit_count k = 0 := by
        intro k hk1 hk2
        rw [e4, setAt_apply]
        split_ifs
        · rfl
        · exact hz k hk1 (by rw [hlen]; omega)
      obtain ⟨i1, i2, i3⟩ := ih hnz2 (buildClause b c cl).1 c hM1 hz1
      simp only [Bool.true_eq_false, if_false]
      refine ⟨i1, ?_, i3⟩
      intro i hi
      obtain ⟨a1, a2, a3⟩ := i2 i hi
      rw [a1, a2, a3, e3, e4, e5]
      simp only [setAt_apply, if_neg (show i ≠ c by omega)]
      exact ⟨trivial, trivial, trivial⟩

/-- C29. On a stream of `M = num_clauses` clauses (each the non-zero integers read before
its terminating 0), `build_instance_weighted()` and `build_instance_unweighted()` store
exactly the input clauses that do not contain a literal together with its negation, in
input order, each with its literals deduplicated in first-occurrence order and with its
weight (1 when unweighted), and `num_clauses` ends as the number of stored clauses; the
slots `clause_lit_count[c]` are zero on entry, as `build_instance` leaves them. -/
theorem build_instance_exact (input : List (Int × List Int)) (uinput : List (List Int))
    (hnz : ∀ cl ∈ input, ∀ l ∈ cl.2, l ≠ 0) (hunz : ∀ ls ∈ uinput, ∀ l ∈ ls, l ≠ 0)
    (b ub : Build) (hM : b.num_clauses = input.length) (huM : ub.num_clauses = uinput.length)
    (hz : ∀ c, c < b.num_clauses → b.clause_lit_count c = 0)
    (huz : ∀ c, c < ub.num_clauses → ub.clause_lit_count c = 0) :
    ((build_instance_weighted input b).num_clauses = (keptClauses input).length ∧
        ∀ j, j < (keptClauses input).length →
          (build_instance_weighted input b).clause_lit j =
            (dedupFirst ((keptClauses input).getD j (0, [])).2).map (toLit j) ∧
          (build_instance_weighted input b).clause_lit_count j =
            (dedupFirst ((keptClauses input).getD j (0, [])).2).length ∧
          (build_instance_weighted input b).clause_weight j =
            ((keptClauses input).getD j (0, [])).1) ∧
      ((build_instance_unweighted uinput ub).num_clauses =
          (uinput.filter (fun ls => !isTaut ls)).length ∧
        ∀ j, j < (uinput.filter (fun ls => !isTaut ls)).length →
          (build_instance_unweighted uinput ub).clause_lit j =
            (dedupFirst ((uinput.filter (fun ls => !isTaut ls)).getD j [])).map (toLit j) ∧
          (build_instance_unweighted uinput ub).clause_lit_count j =
            (dedupFirst ((uinput.filter (fun ls => !isTaut ls)).getD j [])).length ∧
          (build_instance_unweighted uinput ub).clause_weight j = 1) := by
  constructor
  · obtain ⟨i1, _, i3⟩ := buildLoop_spec input hnz b 0 (by simpa using hM)
      (fun k _ hk => hz k (by rw [hM]; simpa using hk))
    unfold build_instance_weighted
    refine ⟨by simpa using i1, ?_⟩
    intro j hj
    have := i3 j hj
    simpa using this
  · have hk : keptClauses (uinput.map (fun ls => ((1 : Int), ls))) =
        (uinput.filter (fun ls => !isTaut ls)).map (fun ls => ((1 : Int), ls)) := by
      unfold keptClauses
      rw [List.filter_map]
      rfl
    obtain ⟨i1, _, i3⟩ := buildLoop_spec (uinput.map (fun ls => ((1 : Int), ls)))
      (by
        intro cl hcl l hl
        rw [List.mem_map] at hcl
        obtain ⟨ls, hls, rfl⟩ := hcl
        exact hunz ls hls l hl)
      ub 0 (by simpa using huM)
      (fun k _ hkk => huz k (by rw [huM]; simpa using hkk))
    rw [hk] at i1 i3
    unfold build_instance_unweighted
    refine ⟨by simpa using i1, ?_⟩
    intro j hj
    have := i3 j (by simpa using hj)
    have hget : ((uinput.filter (fun ls => !isTaut ls)).map
        (fun ls => ((1 : Int), ls))).getD j (0, []) =
        (1, (uinput.filter (fun ls => !isTaut ls)).getD j []) := by
      rw [List.getD_eq_getElem _ _ (by simpa using hj), List.getD_eq_getElem _ _ hj]
      simp
    rw [hget] at this
    simpa using this

theorem build_instance_exact_witness :
    (∀ cl ∈ exStream, ∀ l ∈ cl.2, l ≠ 0) ∧ (∀ ls ∈ exStreamU, ∀ l ∈ ls, l ≠ 0) ∧
    (zeroBuild 2).num_clauses = exStream.length ∧
    (zeroBuild 2).num_clauses = exStreamU.length ∧
    (∀ c, c < (zeroBuild 2).num_clauses → (zeroBuild 2).clause_lit_count c = 0) ∧
    (∀ c, c < (zeroBuild 2).num_clauses → (zeroBuild 2).clause_lit_count c = 0) ∧
    (((build_instance_weighted exStream (zeroBuild 2)).num_clauses =
          (keptClauses exStream).length ∧
        ∀ j, j < (keptClauses exStream).length →
          (build_instance_weighted exStream (zeroBuild 2)).clause_lit j =
            (dedupFirst ((keptClauses exStream).getD j (0, [])).2).map (toLit j) ∧
          (build_instance_weighted exStream (zeroBuild 2)).clause_lit_count j =
            (dedupFirst ((keptClauses exStream).getD j (0, [])).2).length ∧
          (build_instance_weighted exStream (zeroBuild 2)).clause_weight j =
            ((keptClauses exStream).getD j (0, [])).1) ∧
      ((build_instance_unweighted exStreamU (zeroBuild 2)).num_clauses =
          (exStreamU.filter (fun ls => !isTaut ls)).length ∧
        ∀ j, j < (exStreamU.filter (fun ls => !isTaut ls)).length →
          (build_instance_unweighted exStreamU (zeroBuild 2)).clause_lit j =
            (dedupFirst ((exStreamU.filter (fun ls => !isTaut ls)).getD j [])).map (toLit j) ∧
          (build_instance_unweighted exStreamU (zeroBuild 2)).clause_lit_count j =
            (dedupFirst ((exStreamU.filter (fun ls => !isTaut ls)).getD j [])).length ∧
          (build_instance_unweighted exStreamU (zeroBuild 2)).clause_weight j = 1)) :=
  ⟨by decide, by decide, rfl, rfl, fun _ _ => rfl, fun _ _ => rfl,
    build_instance_exact exStream exStreamU (by decide) (by decide) (zeroBuild 2) (zeroBuild 2)
      rfl rfl (fun _ _ => rfl) (fun _ _ => rfl)⟩

end CCLS

namespace UCT

set_option maxRecDepth 100000 in
/-- C22 (code evaluated at the failing input). For the formula with the single clause
`(x1)`, `N = 1` and `depthLimit = 0`: the first `playNode(root)` closes both arms of the
root and the tree has 1 node; the loop of `runUCTtimed` goes on calling `playNode(root)`,
which plays `RIGHT` because the left arm is closed and calls `createChildren` under the
root although both its arms are closed: after the second call the tree has 3 nodes and
depth 1, after the third 5 nodes and depth 2, after the fourth 7 nodes and depth 3. -/
theorem tree_grows_past_depth_limit :
    exWorld.depthLimit = 0 ∧
      (uctIterate exWorld (setMutable exUnit) 1 exStart).1.data.closed false = true ∧
      (uctIterate exWorld (setMutable exUnit) 1 exStart).1.data.closed true = true ∧
      (uctIterate exWorld (setMutable exUnit) 1 exStart).1.size = 1 ∧
      (uctIterate exWorld (setMutable exUnit) 2 exStart).1.size = 3 ∧
      (uctIterate exWorld (setMutable exUnit) 2 exStart).1.maxDepth = 1 ∧
      (uctIterate exWorld (setMutable exUnit) 3 exStart).1.size = 5 ∧
      (uctIterate exWorld (setMutable exUnit) 3 exStart).1.maxDepth = 2 ∧
      (uctIterate exWorld (setMutable exUnit) 4 exStart).1.size = 7 ∧
      (uctIterate exWorld (setMutable exUnit) 4 exStart).1.maxDepth = 3 := by
  decide

end UCT

namespace CCLS

theorem flip_cur_soln (F : Instance) (s : State) (f : Nat) :
    (flip F s f).cur_soln = setAt s.cur_soln f (1 - s.cur_soln f) := by
  obtain ⟨cc, he⟩ := flip_eq F s f
  have LF := flipLoop_frame F f (var_lit F f)
    { s with cur_soln := setAt s.cur_soln f (1 - s.cur_soln f) }
  rw [he]
  exact LF.cur_soln

theorem lsMove_frame (F : Instance) (prob : Int) (g : Globals) :
    (lsMove F prob g).s.varMutable = g.s.varMutable ∧
      ∀ u, g.s.varMutable u = false → (lsMove F prob g).s.cur_soln u = g.s.cur_soln u := by
  rcases lsMove_s F prob g with h | ⟨f, hf, h⟩
  · rw [h]
    exact ⟨rfl, fun _ _ => rfl⟩
  · rw [h]
    refine ⟨(flip_frame F g.s f).1, ?_⟩
    intro u hu
    rw [flip_cur_soln, setAt_apply, if_neg]
    intro huf
    rw [huf, hf] at hu
    cases hu

theorem lsCheck_s_frame (F : Instance) (g : Globals) (lo : Nat) :
    (lsCheck F g lo).1.s.varMutable = g.s.varMutable ∧
      (lsCheck F g lo).1.s.cur_soln = g.s.cur_soln := by
  obtain ⟨⟨b, hb⟩, _⟩ := lsCheck_frame F g lo
  rw [hb]
  exact ⟨rfl, rfl⟩

theorem lsLoop_frame (F : Instance) (prob : Int) :
    ∀ (fuel : Nat) (g : Globals) (lo : Nat),
      (lsLoop F prob fuel g lo).g.s.varMutable = g.s.varMutable ∧
        ∀ u, g.s.varMutable u = false →
          (lsLoop F prob fuel g lo).g.s.cur_soln u = g.s.cur_soln u := by
  intro fuel
  induction fuel with
  | zero =>
    intro g lo
    unfold lsLoop
    exact ⟨rfl, fun _ _ => rfl⟩
  | succ n ih =>
    intro g lo
    obtain ⟨c1, c2⟩ := lsCheck_s_frame F g lo
    unfold lsLoop
    split_ifs
    · exact ⟨c1, fun u _ => by rw [c2]⟩
    · obtain ⟨m1, m2⟩ := lsMove_frame F prob (lsCheck F g lo).1
      obtain ⟨i1, i2⟩ := ih (lsMove F prob (lsCheck F g lo).1) (lsCheck F g lo).2
      refine ⟨by rw [i1, m1, c1], ?_⟩
      intro u hu
      rw [i2 u (by rw [m1, c1]; exact hu), m2 u (by rw [c1]; exact hu), c2]

theorem local_search_frame (F : Instance) (prob : Int) (maxFlips : Nat) (g : Globals) :
    (local_search F prob maxFlips g).g.s.varMutable = g.s.varMutable ∧
      ∀ u, g.s.varMutable u = false →
        (local_search F prob maxFlips g).g.s.cur_soln u = g.s.cur_soln u := by
  obtain ⟨⟨b, hb⟩, _⟩ := recordBest_s F g (unsatSum g.s)
  have r1 : (recordBest F g (unsatSum g.s)).s.varMutable = g.s.varMutable := by rw [hb]
  have r2 : (recordBest F g (unsatSum g.s)).s.cur_soln = g.s.cur_soln := by rw [hb]
  unfold local_search
  simp only
  split_ifs
  · exact ⟨r1, fun u _ => by rw [r2]⟩
  · obtain ⟨i1, i2⟩ := lsLoop_frame F prob maxFlips
      { recordBest F g (unsatSum g.s) with step := 0 } (unsatSum g.s)
    refine ⟨by rw [i1]; exact r1, ?_⟩
    intro u hu
    rw [i2 u (by show (recordBest F g (unsatSum g.s)).s.varMutable u = false; rw [r1]; exact hu)]
    show (recordBest F g (unsatSum g.s)).s.cur_soln u = _
    rw [r2]

theorem setBranchingAtom_s (F : Instance) (g : Globals) : (setBranchingAtom F g).s = g.s := by
  unfold setBranchingAtom rand
  simp only
  split_ifs <;> rfl

end CCLS

namespace UCT

open CCLS (setAt setAt_apply)

theorem lookup_cons_eq (x : Nat) (b : Bool) (path : List (Nat × Bool)) (v : Nat) :
    ((x, b) :: path).lookup v = if v = x then some b else path.lookup v := by
  rw [List.lookup_cons]
  by_cases h : v = x
  · simp [h]
  · have : (v == x) = false := by simpa using h
    rw [this, if_neg h]

theorem lookup_mem (path : List (Nat × Bool)) (v : Nat) (a : Bool)
    (h : path.lookup v = some a) : v ∈ path.map Prod.fst := by
  induction path with
  | nil => simp at h
  | cons p ps ih =>
    obtain ⟨x, b⟩ := p
    rw [lookup_cons_eq] at h
    by_cases hv : v = x
    · simp [hv]
    · rw [if_neg hv] at h
      simp [ih h]

theorem lookup_of_nodup (path : List (Nat × Bool)) (hnd : (path.map Prod.fst).Nodup)
    (v : Nat) (a : Bool) (h : (v, a) ∈ path) : path.lookup v = some a := by
  induction path with
  | nil => cases h
  | cons p ps ih =>
    obtain ⟨x, b⟩ := p
    rw [List.map_cons, List.nodup_cons] at hnd
    rw [lookup_cons_eq]
    rcases List.mem_cons.mp h with heq | hmem
    · have h1 : v = x := congrArg Prod.fst heq
      have h2 : a = b := congrArg Prod.snd heq
      rw [if_pos h1, h2]
    · have hvx : v ≠ x := by
        intro hvx
        apply hnd.1
        rw [← hvx, List.mem_map]
        exact ⟨(v, a), hmem, rfl⟩
      rw [if_neg hvx]
      exact ih hnd.2 hmem

theorem PathInv_step {E : Type} (mutv : E → Nat → Bool) (val : E → Nat → Int) (e0 e e1 : E)
    (path : List (Nat × Bool)) (x : Nat) (b : Bool) (h : PathInv mutv val e0 e path)
    (hm : ∀ u, mutv e1 u = if u = x then false else mutv e u)
    (hx : val e1 x = armVal b)
    (hv : ∀ u, u ≠ x → mutv e u = false → val e1 u = val e u) :
    PathInv mutv val e0 e1 ((x, b) :: path) := by
  refine ⟨?_, ?_⟩
  · intro v
    rw [hm v]
    by_cases hvx : v = x
    · simp [hvx]
    · rw [if_neg hvx, h.1 v]
      simp [hvx]
  · intro v a hl
    rw [lookup_cons_eq] at hl
    by_cases hvx : v = x
    · rw [if_pos hvx] at hl
      have : a = b := (Option.some.inj hl).symm
      rw [hvx, this]
      exact hx
    · rw [if_neg hvx] at hl
      have himm : mutv e v = false := (h.1 v).mpr (Or.inr (lookup_mem path v a hl))
      rw [hv v hvx himm]
      exact h.2 v a hl

theorem playArm_env {E : Type} (W : World E) (mutv : E → Nat → Bool) (val : E → Nat → Int)
    (L : Laws W mutv val) (a : Bool) (d : NodeData) (e : E) :
    (∀ u, mutv (playArm W a d e).2 u = mutv (W.setValue d.atom a e) u) ∧
      (∀ u, mutv (W.setValue d.atom a e) u = false →
        val (playArm W a d e).2 u = val (W.setValue d.atom a e) u) := by
  unfold playArm
  simp only
  split_ifs
  · refine ⟨fun u => by rw [L.clear_mut, L.est_mut], ?_⟩
    intro u hu
    rw [L.clear_val, L.est_val _ u hu]
  · exact ⟨fun u => L.est_mut _ u, fun u hu => L.est_val _ u hu⟩

theorem fresh_PathInv {E : Type} (W : World E) (mutv : E → Nat → Bool) (val : E → Nat → Int)
    (L : Laws W mutv val) (e0 e : E) (path : List (Nat × Bool)) (d : NodeData)
    (h : PathInv mutv val e0 e path) :
    PathInv mutv val e0 (W.setValue d.atom false (W.markImmutable d.atom e))
        ((d.atom, false) :: path) ∧
      PathInv mutv val e0
        (W.setValue d.atom true
          (playArm W false { d with n := fun _ => 1 } (W.markImmutable d.atom e)).2)
        ((d.atom, true) :: path) := by
  constructor
  · apply PathInv_step mutv val e0 e _ path d.atom false h
    · intro u
      rw [L.set_mut, L.mark_mut]
    · rw [L.set_val, if_pos rfl]
    · intro u hu _
      rw [L.set_val, if_neg hu, L.mark_val]
  · obtain ⟨p1, p2⟩ := playArm_env W mutv val L false { d with n := fun _ => 1 }
      (W.markImmutable d.atom e)
    apply PathInv_step mutv val e0 e _ path d.atom true h
    · intro u
      rw [L.set_mut, p1 u]
      show mutv (W.setValue d.atom false (W.markImmutable d.atom e)) u = _
      rw [L.set_mut, L.mark_mut]
    · rw [L.set_val, if_pos rfl]
    · intro u hu himm
      have h1 : mutv (W.setValue d.atom false (W.markImmutable d.atom e)) u = false := by
        rw [L.set_mut, L.mark_mut, if_neg hu]
        exact himm
      rw [L.set_val, if_neg hu, p2 u h1]
      show val (W.setValue d.atom false (W.markImmutable d.atom e)) u = _
      rw [L.set_val, if_neg hu, L.mark_val]

theorem chooseArm_env {E : Type} (W : World E) (mutv : E → Nat → Bool) (val : E → Nat → Int)
    (L : Laws W mutv val) (d : NodeData) (e : E) :
    (∀ u, mutv (chooseArm W d e).2 u = mutv e u) ∧ (∀ u, val (chooseArm W d e).2 u = val e u) := by
  unfold chooseArm
  split_ifs
  · exact ⟨fun _ => rfl, fun _ => rfl⟩
  · exact ⟨fun _ => rfl, fun _ => rfl⟩
  · exact ⟨fun u => L.sel_mut d e u, fun u => L.sel_val d e u⟩

theorem later_PathInv {E : Type} (W : World E) (mutv : E → Nat → Bool) (val : E → Nat → Int)
    (L : Laws W mutv val) (e0 e : E) (path : List (Nat × Bool)) (d : NodeData) (a : Bool)
    (h : PathInv mutv val e0 e path) :
    PathInv mutv val e0
      (W.setValue d.atom a (chooseArm W d (W.markImmutable d.atom e)).2)
      ((d.atom, a) :: path) := by
  obtain ⟨c1, c2⟩ := chooseArm_env W mutv val L d (W.markImmutable d.atom e)
  apply PathInv_step mutv val e0 e _ path d.atom a h
  · intro u
    rw [L.set_mut, c1, L.mark_mut]
  · rw [L.set_val, if_pos rfl]
  · intro u hu _
    rw [L.set_val, if_neg hu, c2, L.mark_val]

theorem playouts_PathInv {E : Type} (W : World E) (mutv : E → Nat → Bool)
    (val : E → Nat → Int) (L : Laws W mutv val) (e0 : E) (t : uctnode) :
    ∀ (e : E) (path : List (Nat × Bool)), PathInv mutv val e0 e path →
      ∀ pl ∈ playouts W t e path, PathInv mutv val e0 pl.2 pl.1 := by
  induction t with
  | leaf d =>
    intro e path h pl hpl
    rw [playouts] at hpl
    by_cases h0 : d.n false = 0
    · rw [if_pos h0] at hpl
      obtain ⟨f1, f2⟩ := fresh_PathInv W mutv val L e0 e path d h
      simp only [List.mem_cons, List.mem_singleton, List.not_mem_nil, or_false] at hpl
      rcases hpl with rfl | rfl
      · exact f1
      · exact f2
    · rw [if_neg h0] at hpl
      have hl := later_PathInv W mutv val L e0 e path d
        (chooseArm W d (W.markImmutable d.atom e)).1 h
      generalize chooseArm W d (W.markImmutable d.atom e) = c at hpl hl
      obtain ⟨f1, f2⟩ := fresh_PathInv W mutv val L e0 _ _
        (getNewNode W { d with n := setArm d.n c.1 (d.n c.1 + 1) } c.1) hl
      simp only [List.mem_cons, List.mem_singleton, List.not_mem_nil, or_false] at hpl
      rcases hpl with rfl | rfl
      · exact f1
      · exact f2
  | node d l r ihl ihr =>
    intro e path h pl hpl
    rw [playouts] at hpl
    by_cases h0 : d.n false = 0
    · rw [if_pos h0] at hpl
      obtain ⟨f1, f2⟩ := fresh_PathInv W mutv val L e0 e path d h
      simp only [List.mem_cons, List.mem_singleton, List.not_mem_nil, or_false] at hpl
      rcases hpl with rfl | rfl
      · exact f1
      · exact f2
    · rw [if_neg h0] at hpl
      simp only at hpl
      cases hc : (chooseArm W d (W.markImmutable d.atom e)).1
      · have hl := later_PathInv W mutv val L e0 e path d false h
        rw [hc] at hpl
        exact ihl _ _ hl pl hpl
      · have hl := later_PathInv W mutv val L e0 e path d true h
        rw [hc] at hpl
        exact ihr _ _ hl pl hpl

theorem cclsWorld_laws (F : CCLS.Instance) (prob : Int) (maxFlips : Nat)
    (sel : NodeData → Run → Bool × Run) (uninit : Bool → Nat)
    (hsel : ∀ d r, (sel d r).2.g.s = r.g.s) :
    Laws (cclsWorld F prob maxFlips sel uninit) (fun r v => r.g.s.varMutable v)
      (fun r v => r.g.s.cur_soln v) := by
  have hest : ∀ r : Run, (estimateReward F prob maxFlips r).2.g.s =
      (CCLS.local_search F prob maxFlips { r.g with s := CCLS.init F r.g.s }).g.s := by
    intro r
    unfold estimateReward
    simp only
    split_ifs
    · rfl
    · exact CCLS.setBranchingAtom_s F _
  refine ⟨?_, ?_, ?_, ?_, ?_, ?_, ?_, ?_, ?_, ?_⟩
  · intro v e u
    show setAt e.g.s.varMutable v false u = _
    rw [setAt_apply]
  · intro v e u
    rfl
  · intro v a e u
    rfl
  · intro v a e u
    show setAt e.g.s.cur_soln v (armVal a) u = _
    rw [setAt_apply]
  · intro e u
    show (estimateReward F prob maxFlips e).2.g.s.varMutable u = _
    rw [hest, (CCLS.local_search_frame F prob maxFlips _).1]
    show (CCLS.init F e.g.s).varMutable u = _
    rw [(CCLS.init_frame F e.g.s).2.2.1]
  · intro e u hu
    show (estimateReward F prob maxFlips e).2.g.s.cur_soln u = _
    have hu1 : e.g.s.varMutable u = false := hu
    rw [hest, (CCLS.local_search_frame F prob maxFlips _).2 u
      (by show (CCLS.init F e.g.s).varMutable u = false
          rw [(CCLS.init_frame F e.g.s).2.2.1]; exact hu1)]
    show (CCLS.init F e.g.s).cur_soln u = _
    rw [(CCLS.init_frame F e.g.s).1]
    have : ¬ ((1 ≤ u ∧ u ≤ F.num_vars) ∧ e.g.s.varMutable u = true) := by
      rintro ⟨_, h⟩
      rw [hu1] at h
      cases h
    simp only [if_neg this]
  · intro e u
    rfl
  · intro e u
    rfl
  · intro d e u
    show (sel d e).2.g.s.varMutable u = _
    rw [hsel]
  · intro d e u
    show (sel d e).2.g.s.cur_soln u = _
    rw [hsel]

set_option maxRecDepth 100000 in
/-- C23 (code evaluated at the failing input). For the formula with the single clause
`(x1)`, after two rounds `setMutable(); playNode(root);` both arms of the root (atom 1) are
closed, and the third round still descends: it plays `RIGHT` at the root and at its right
child and runs the two playouts of a grandchild. The child and the grandchild were created
by `createChildren` below closed arms and carry the content of a `nextAtom` cell that was
never assigned. With fresh memory reading 0 the path of the first playout (from the node
up) is atom 0 by `LEFT`, atom 0 by `RIGHT`, atom 1 by `RIGHT`: the atom 0 is not a variable
and `cur_soln[0]` is 0 although the path leaves the ancestor with atom 0 by `RIGHT`. With
fresh memory reading 1 the three nodes of the path all have atom 1 and `cur_soln[1]` is 0
although the path leaves the root by `RIGHT`. -/
theorem path_value_overwritten :
    (uctIterate (atomWorld exUnit 0) (setMutable exUnit) 2
        (atomStart exUnit 0 (fun _ => 0))).1.data.closed false = true ∧
      (uctIterate (atomWorld exUnit 0) (setMutable exUnit) 2
        (atomStart exUnit 0 (fun _ => 0))).1.data.closed true = true ∧
      (playouts (atomWorld exUnit 0)
          (uctIterate (atomWorld exUnit 0) (setMutable exUnit) 2
            (atomStart exUnit 0 (fun _ => 0))).1
          (setMutable exUnit (uctIterate (atomWorld exUnit 0) (setMutable exUnit) 2
            (atomStart exUnit 0 (fun _ => 0))).2) []).map
        (fun pl => (pl.1, pl.2.g.s.cur_soln 0)) =
        [([(0, false), (0, true), (1, true)], 0), ([(0, true), (0, true), (1, true)], 1)] ∧
      (playouts (atomWorld exUnit 1)
          (uctIterate (atomWorld exUnit 1) (setMutable exUnit) 2
            (atomStart exUnit 1 (fun _ => 0))).1
          (setMutable exUnit (uctIterate (atomWorld exUnit 1) (setMutable exUnit) 2
            (atomStart exUnit 1 (fun _ => 0))).2) []).map
        (fun pl => (pl.1, pl.2.g.s.cur_soln 1)) =
        [([(1, false), (1, true), (1, true)], 0), ([(1, true), (1, true), (1, true)], 1)] := by
  decide

/-- The path invariant of `playNode`, for every world satisfying the frame laws: for a call
`playNode(root)` made when every variable of `1..N` is mutable, at the moment each playout
starts at a node `n`, a variable of `1..N` is immutable iff it is the atom of a node of the
root-to-`n` path; the value of every atom of the path is the arm taken at the deepest node
of the path with that atom; so when the atoms of the path are pairwise distinct, the value
of the atom of every node of the path is the arm by which the path leaves it. -/
theorem path_immutability {E : Type} (W : World E) (mutv : E → Nat → Bool)
    (val : E → Nat → Int) (L : Laws W mutv val) (N : Nat) (t : uctnode) (e : E)
    (hstart : ∀ v, 1 ≤ v → v ≤ N → mutv e v = true) :
    ∀ pl ∈ playouts W t e [],
      (∀ v, 1 ≤ v → v ≤ N → (mutv pl.2 v = false ↔ v ∈ pl.1.map Prod.fst)) ∧
        (∀ v a, pl.1.lookup v = some a → val pl.2 v = armVal a) ∧
        ((pl.1.map Prod.fst).Nodup → ∀ v a, (v, a) ∈ pl.1 → val pl.2 v = armVal a) := by
  intro pl hpl
  have h0 : PathInv mutv val e e [] := by
    refine ⟨fun v => by simp, ?_⟩
    intro v a h
    simp at h
  obtain ⟨h1, h2⟩ := playouts_PathInv W mutv val L e t e [] h0 pl hpl
  refine ⟨?_, h2, ?_⟩
  · intro v hv1 hv2
    rw [h1 v]
    have := hstart v hv1 hv2
    simp [this]
  · intro hnd v a hmem
    exact h2 v a (lookup_of_nodup pl.1 hnd v a hmem)

set_option maxRecDepth 100000 in
theorem path_immutability_witness :
    Laws exWorld (fun r v => r.g.s.varMutable v) (fun r v => r.g.s.cur_soln v) ∧
      (∀ v, 1 ≤ v → v ≤ 1 → (setMutable exUnit exStart.2).g.s.varMutable v = true) ∧
      ∀ pl ∈ playouts exWorld exStart.1 (setMutable exUnit exStart.2) [],
        (∀ v, 1 ≤ v → v ≤ 1 → (pl.2.g.s.varMutable v = false ↔ v ∈ pl.1.map Prod.fst)) ∧
          (∀ v a, pl.1.lookup v = some a → pl.2.g.s.cur_soln v = armVal a) ∧
          ((pl.1.map Prod.fst).Nodup → ∀ v a, (v, a) ∈ pl.1 → pl.2.g.s.cur_soln v = armVal a) :=
  ⟨cclsWorld_laws exUnit 0 10 (fun _ r => (false, r)) (fun _ => 0) (fun _ _ => rfl),
    fun v h1 h2 => by
      have hv : v = 1 := by omega
      subst hv
      decide,
    path_immutability exWorld (fun r v => r.g.s.varMutable v) (fun r v => r.g.s.cur_soln v)
      (cclsWorld_laws exUnit 0 10 (fun _ r => (false, r)) (fun _ => 0) (fun _ _ => rfl)) 1
      exStart.1 (setMutable exUnit exStart.2)
      (fun v h1 h2 => by
        have hv : v = 1 := by omega
        subst hv
        decide)⟩

end UCT

namespace UCT

set_option maxRecDepth 100000 in
/-- C33 (code evaluated at the failing input). For the formula with the single clause
`(x1)`, after the first `playNode(root)` the root has been visited once and both its arms
are closed. The next call `playNode(root)` nevertheless plays `RIGHT`, whose `closed` flag
is true before the call: it calls `createChildren` (the root had no children and has two
afterwards) and recurses into `children[RIGHT]`, which comes back visited once. -/
theorem playNode_enters_closed_arm :
    (uctIterate exWorld (setMutable exUnit) 1 exStart).1.data.n false = 1 ∧
      (uctIterate exWorld (setMutable exUnit) 1 exStart).1.data.closed false = true ∧
      (uctIterate exWorld (setMutable exUnit) 1 exStart).1.data.closed true = true ∧
      (uctIterate exWorld (setMutable exUnit) 1 exStart).1.children.isSome = false ∧
      (playNode exWorld (uctIterate exWorld (setMutable exUnit) 1 exStart).1
        (setMutable exUnit (uctIterate exWorld (setMutable exUnit) 1 exStart).2)).armPlayed
        = some true ∧
      (playNode exWorld (uctIterate exWorld (setMutable exUnit) 1 exStart).1
        (setMutable exUnit
          (uctIterate exWorld (setMutable exUnit) 1 exStart).2)).tree.children.isSome = true ∧
      (childOn (playNode exWorld (uctIterate exWorld (setMutable exUnit) 1 exStart).1
        (setMutable exUnit (uctIterate exWorld (setMutable exUnit) 1 exStart).2)).tree
          true).map (fun d => d.n false) = some 1 := by
  decide

end UCT

namespace CCLS

/-- C34 (code evaluated at the failing inputs). For the clause `(x1)` with `x1` immutable
and fixed to 0, `init()` marks the clause pre-satisfied because its immutable literal is
positive, so the playout leaves `bestNumUnsat = 0`, while `best_soln` falsifies the clause
and `verify_sol_non_partial` computes the weight 1. For the clause `(¬x1)` of weight 5 with
`x1` immutable and fixed to 1, the playout leaves `bestNumUnsat = 1`, the number of
pre-falsified clauses, while the recomputed weight is 5. -/
theorem incumbent_differs_from_verify :
    (local_search UCT.exUnit 0 10 (mkGlobals (init UCT.exUnit
        (zeroState (fun v => decide (v ≠ 1)) (fun _ => 0) (fun _ => 0))))).g.bestNumUnsat = 0 ∧
      verifyWeights UCT.exUnit (local_search UCT.exUnit 0 10 (mkGlobals (init UCT.exUnit
        (zeroState (fun v => decide (v ≠ 1)) (fun _ => 0) (fun _ => 0))))).g.s.best_soln = 1 ∧
      verify_sol_non_partial UCT.exUnit (local_search UCT.exUnit 0 10 (mkGlobals (init UCT.exUnit
        (zeroState (fun v => decide (v ≠ 1)) (fun _ => 0) (fun _ => 0))))).g.s.best_soln
        (local_search UCT.exUnit 0 10 (mkGlobals (init UCT.exUnit
          (zeroState (fun v => decide (v ≠ 1)) (fun _ => 0) (fun _ => 0))))).g.bestNumUnsat
        = false ∧
      (local_search exWeighted 0 10
        (mkGlobals (init exWeighted stFix1True))).g.bestNumUnsat = 1 ∧
      verifyWeights exWeighted (local_search exWeighted 0 10
        (mkGlobals (init exWeighted stFix1True))).g.s.best_soln = 5 := by
  decide

/-- C38 (code evaluated at the failing input). Clause `(¬x1 ∨ x3 ∨ x2)` with `x1` immutable
and fixed to 0, `x2 = 0` and `x3 = 1` mutable. After `init()` the clause is live with
`sat_count = 1` and `score[3] = -1`. The first `flip(2)` raises `sat_count` to 2 and adds the
weight to `score[sat_var] = score[3]`; the second `flip(2)` lowers it to 1 and looks for the
remaining true literal, stops at the immutable literal `¬x1` and subtracts the weight from
`score[1]`: `score[3]` of the mutable variable 3 is 0 instead of -1, while `cur_soln` and
`sat_count` are restored. -/
theorem flip_twice_changes_score :
    WF exThreeB ∧ stFix1FalseB.varMutable 2 = true ∧ stFix1FalseB.varMutable 3 = true ∧
      (init exThreeB stFix1FalseB).preSat 0 = false ∧
      (init exThreeB stFix1FalseB).sat_count 0 = 1 ∧
      (init exThreeB stFix1FalseB).score 3 = -1 ∧
      (flip exThreeB (flip exThreeB (init exThreeB stFix1FalseB) 2) 2).score 3 = 0 ∧
      (flip exThreeB (flip exThreeB (init exThreeB stFix1FalseB) 2) 2).sat_count 0 = 1 ∧
      (flip exThreeB (flip exThreeB (init exThreeB stFix1FalseB) 2) 2).cur_soln 2 = 0 := by
  decide

/-- C39 (code evaluated at the failing input). For the clauses `(x1)` and `(x1 ∨ x2)` with
no clause pre-satisfied, both variables mutable and the random draw 0, the version of uct.c
chooses variable 1 whatever its local array held, and so does the first call of the version
of main_uct.cpp; the third call of the version of main_uct.cpp chooses variable 2, because
`varScores[2] = varScores[num_vars]` is not reset and holds 3 against 2 for variable 1. -/
theorem setBranchingAtom_versions_differ :
    UBCSAT.setBranchingAtom (UBCSAT.exFormula [[3], [3, 5]]) 2 (fun _ => false) (fun _ => true)
        (fun _ => 7) (fun _ => 0) = 1 ∧
      (∀ c, c < 2 → (init exOneTwo stAllMutable).preSat c = false) ∧
      (setBranchingAtom exOneTwo (mkGlobals (init exOneTwo stAllMutable))).nextBranchingAtom
        = 1 ∧
      (setBranchingAtom exOneTwo (setBranchingAtom exOneTwo (setBranchingAtom exOneTwo
        (mkGlobals (init exOneTwo stAllMutable))))).nextBranchingAtom = 2 ∧
      (setBranchingAtom exOneTwo (setBranchingAtom exOneTwo (setBranchingAtom exOneTwo
        (mkGlobals (init exOneTwo stAllMutable))))).varScores 1 = 2 ∧
      (setBranchingAtom exOneTwo (setBranchingAtom exOneTwo (setBranchingAtom exOneTwo
        (mkGlobals (init exOneTwo stAllMutable))))).varScores 2 = 3 := by
  decide

end CCLS

namespace UCT

end UCT

namespace CCLS

theorem flips_preSat (F : Instance) (fs : List Nat) (s : State) :
    (flips F s fs).preSat = s.preSat := by
  induction fs generalizing s with
  | nil => rfl
  | cons f fs ih =>
    unfold flips at ih ⊢
    rw [List.foldl_cons, ih, (flip_frame F s f).2.1]

theorem flips_Good (F : Instance) (hwf : WF F) (hW : totalWeight F < 2 ^ 64) (vs : List Nat)
    (s : State) (h : Good F s) (hvs : ∀ v ∈ vs, s.varMutable v = true) :
    Good F (flips F s vs) := by
  induction vs generalizing s with
  | nil => exact h
  | cons v vs ih =>
    unfold flips at ih ⊢
    rw [List.foldl_cons]
    apply ih _ (flip_Good F hwf hW s h v (hvs v (List.mem_cons_self _ _)))
    intro w hw
    rw [(flip_frame F s v).1]
    exact hvs w (List.mem_cons_of_mem _ hw)

theorem reachable_Good (F : Instance) (hwf : WF F) (hW : totalWeight F < 2 ^ 64) (s0 : State)
    (hbest : ∀ v, s0.best_soln v = 0 ∨ s0.best_soln v = 1) (vs : List Nat)
    (hvs : ∀ v ∈ vs, s0.varMutable v = true) : Good F (flips F (init F s0) vs) :=
  flips_Good F hwf hW vs _ (init_Good F hwf hW s0 hbest)
    (fun v hv => by rw [init_varMutable]; exact hvs v hv)

theorem init_preSat_eq (F : Instance) (s : State) (c : Nat) (hc : c < F.num_clauses) :
    (init F s).preSat c =
      (hasImmPos s.varMutable (F.clause_lit c) || allImm s.varMutable (F.clause_lit c)) := by
  obtain ⟨hp, _, _, _, _⟩ := init_preSat_closed F s
  rw [hp]
  have CI := initClauses_loop F (initSoln F s) F.num_clauses
  unfold initClauses
  rw [CI.preSat_lt c hc, initSoln_eq]

theorem stack_perm (U : Nat → Bool) (stack : Nat → Nat) (fill : Nat) (index : Nat → Nat)
    (n : Nat) (h : StackInv U stack fill index) (hU : ∀ c, U c = true → c < n) :
    List.Perm ((List.range fill).map stack) ((List.range n).filter U) := by
  apply (List.perm_ext_iff_of_nodup ?_ ?_).mpr
  · intro a
    rw [List.mem_map, List.mem_filter, List.mem_range]
    constructor
    · rintro ⟨i, hi, rfl⟩
      have := (h.1 i (List.mem_range.mp hi)).1
      exact ⟨hU _ this, this⟩
    · rintro ⟨_, ha⟩
      exact ⟨index a, List.mem_range.mpr (h.2 a ha).1, (h.2 a ha).2⟩
  · apply List.Nodup.map_on _ (List.nodup_range fill)
    intro i hi j hj hij
    have h1 := (h.1 i (List.mem_range.mp hi)).2
    have h2 := (h.1 j (List.mem_range.mp hj)).2
    rw [← h1, ← h2, hij]
  · exact (List.nodup_range n).filter _

theorem isUnsat_lt (n : Nat) (p : Nat → Bool) (sc : Nat → Int) (c : Nat)
    (h : isUnsat n p sc c = true) : c < n ∧ p c = false ∧ sc c = 0 := by
  unfold isUnsat at h
  simp only [Bool.and_eq_true, decide_eq_true_eq, Bool.not_eq_true'] at h
  exact ⟨h.1, h.2.1, h.2.2⟩

theorem toULL_of_nonneg (w : Int) (h0 : 0 ≤ w) (h1 : w < 2 ^ 64) : ((toULL w : Nat) : Int) = w := by
  unfold toULL
  rw [Int.emod_eq_of_lt h0 h1, Int.toNat_of_nonneg h0]

theorem sum_map_cast (l : List Nat) (f : Nat → Nat) (w : Nat → Int)
    (h : ∀ c ∈ l, ((f c : Nat) : Int) = w c) :
    (((l.map f).sum : Nat) : Int) = (l.map w).sum := by
  induction l with
  | nil => simp
  | cons a as ih =>
    rw [List.map_cons, List.sum_cons, List.map_cons, List.sum_cons, Nat.cast_add,
      h a (List.mem_cons_self _ _), ih (fun c hc => h c (List.mem_cons_of_mem _ hc))]

/-- C37: after `init()` and after every sequence of `flip(v)` calls on mutable variables,
when the weights of all the clauses add up to less than `2^64`, the counter
`total_unsat_clause_weight` is the sum of the weights (as converted to `unsigned long long`
by `+=`) of the clauses in `unsat_stack[0..fill)`, which is the sum of the weights of the
clauses `c` with `preSat[c] = 0` and `sat_count[c] = 0`; with weights in `0..2^31-1` it is
the sum of `clause_weight[c]` itself. -/
theorem total_weight_is_stack_sum (F : Instance) (hwf : WF F) (hW : totalWeight F < 2 ^ 64)
    (s0 : State) (hbest : ∀ v, s0.best_soln v = 0 ∨ s0.best_soln v = 1) (vs : List Nat)
    (hvs : ∀ v ∈ vs, s0.varMutable v = true) :
    (flips F (init F s0) vs).total_unsat_clause_weight =
        ((List.range (flips F (init F s0) vs).unsat_stack_fill_pointer).map
          (fun i => toULL (F.clause_weight ((flips F (init F s0) vs).unsat_stack i)))).sum ∧
      (flips F (init F s0) vs).total_unsat_clause_weight =
        (((List.range F.num_clauses).filter
          (fun c => !(flips F (init F s0) vs).preSat c &&
            decide ((flips F (init F s0) vs).sat_count c = 0))).map
          (fun c => toULL (F.clause_weight c))).sum ∧
      ((∀ c, c < F.num_clauses → 0 ≤ F.clause_weight c ∧ F.clause_weight c < 2 ^ 31) →
        (((flips F (init F s0) vs).total_unsat_clause_weight : Nat) : Int) =
          (((List.range F.num_clauses).filter
            (fun c => !(flips F (init F s0) vs).preSat c &&
              decide ((flips F (init F s0) vs).sat_count c = 0))).map F.clause_weight).sum) := by
  have hG := reachable_Good F hwf hW s0 hbest vs hvs
  generalize flips F (init F s0) vs = s at hG ⊢
  have hperm := stack_perm _ _ _ _ F.num_clauses hG.inv.set.1
    (fun c hc => (isUnsat_lt _ _ _ c hc).1)
  have hfilter : (List.range F.num_clauses).filter (isUnsat F.num_clauses s.preSat s.sat_count) =
      (List.range F.num_clauses).filter
        (fun c => !s.preSat c && decide (s.sat_count c = 0)) := by
    apply List.filter_congr
    intro c hc
    unfold isUnsat
    rw [decide_eq_true (List.mem_range.mp hc), Bool.true_and]
  have h2 : s.total_unsat_clause_weight =
      (((List.range F.num_clauses).filter
        (fun c => !s.preSat c && decide (s.sat_count c = 0))).map
        (fun c => toULL (F.clause_weight c))).sum := by
    rw [← hfilter]
    exact hG.tot
  refine ⟨?_, h2, ?_⟩
  · have := (hperm.map (fun c => toULL (F.clause_weight c))).sum_eq
    rw [List.map_map] at this
    rw [hG.tot]
    unfold wsum
    rw [← this]
    rfl
  · intro hw
    rw [h2]
    apply sum_map_cast
    intro c hc
    have hcM := List.mem_range.mp (List.mem_filter.mp hc).1
    exact toULL_of_nonneg _ (hw c hcM).1 (lt_trans (hw c hcM).2 (by norm_num))

theorem total_weight_is_stack_sum_witness :
    (flips exTwo (init exTwo stAllMutable) [2, 1, 2]).total_unsat_clause_weight =
        ((List.range (flips exTwo (init exTwo stAllMutable) [2, 1, 2]).unsat_stack_fill_pointer).map
          (fun i => toULL (exTwo.clause_weight
            ((flips exTwo (init exTwo stAllMutable) [2, 1, 2]).unsat_stack i)))).sum ∧
      (flips exTwo (init exTwo stAllMutable) [2, 1, 2]).total_unsat_clause_weight =
        (((List.range exTwo.num_clauses).filter
          (fun c => !(flips exTwo (init exTwo stAllMutable) [2, 1, 2]).preSat c &&
            decide ((flips exTwo (init exTwo stAllMutable) [2, 1, 2]).sat_count c = 0))).map
          (fun c => toULL (exTwo.clause_weight c))).sum ∧
      ((∀ c, c < exTwo.num_clauses → 0 ≤ exTwo.clause_weight c ∧ exTwo.clause_weight c < 2 ^ 31) →
        (((flips exTwo (init exTwo stAllMutable) [2, 1, 2]).total_unsat_clause_weight : Nat)
            : Int) =
          (((List.range exTwo.num_clauses).filter
            (fun c => !(flips exTwo (init exTwo stAllMutable) [2, 1, 2]).preSat c &&
              decide ((flips exTwo (init exTwo stAllMutable) [2, 1, 2]).sat_count c = 0))).map
            exTwo.clause_weight).sum) :=
  total_weight_is_stack_sum exTwo (by decide) (by decide) stAllMutable (fun _ => Or.inl rfl)
    [2, 1, 2] (by decide)

end CCLS

namespace CCLS

theorem getD_mod_mem (l : List Nat) (r : Nat) (h : 0 < l.length) :
    l.getD (r % l.length) 0 ∈ l := by
  have hlt : r % l.length < l.length := Nat.mod_lt _ h
  rw [List.getD_eq_getElem l 0 hlt]
  exact List.getElem_mem _

theorem pick_var_noise (F : Instance) (prob : Int) (g : Globals)
    (hnoise : ((g.rnd g.pos % RAND_MAX_INT : Nat) : Int) < prob) :
    (pick_var F prob g).1 =
      (((F.clause_lit (g.s.unsat_stack
          (g.rnd (g.pos + 1) % g.s.unsat_stack_fill_pointer))).map lit.var_num).filter
        (fun v => g.s.varMutable v)).getD
        (g.rnd (g.pos + 1 + 1) %
          (((F.clause_lit (g.s.unsat_stack
            (g.rnd (g.pos + 1) % g.s.unsat_stack_fill_pointer))).map lit.var_num).filter
          (fun v => g.s.varMutable v)).length) 0 := by
  unfold pick_var rand
  simp only
  rw [if_pos hnoise]

/-- C36: in a state reached by `init()` and flips of mutable variables (the weights of all
the clauses adding up to less than `2^64`), a nonzero `total_unsat_clause_weight` implies a
nonzero `unsat_stack_fill_pointer`; and in the noise branch of `pick_var`, entered with a
nonempty unsat stack, the clause drawn from the stack is a live clause with `sat_count = 0`
that has a mutable variable, so `best_array_count > 0`, and the variable returned is a
mutable variable of that clause. -/
theorem pick_var_safe (F : Instance) (hwf : WF F) (hW : totalWeight F < 2 ^ 64) (s0 : State)
    (hbest : ∀ v, s0.best_soln v = 0 ∨ s0.best_soln v = 1) (fs : List Nat)
    (hfs : ∀ v ∈ fs, s0.varMutable v = true) (prob : Int) (g : Globals)
    (hs : g.s = flips F (init F s0) fs) :
    (0 < g.s.total_unsat_clause_weight → 0 < g.s.unsat_stack_fill_pointer) ∧
      (0 < g.s.unsat_stack_fill_pointer →
        ((g.rnd g.pos % RAND_MAX_INT : Nat) : Int) < prob →
        g.s.unsat_stack (g.rnd (g.pos + 1) % g.s.unsat_stack_fill_pointer) < F.num_clauses ∧
        g.s.preSat (g.s.unsat_stack (g.rnd (g.pos + 1) % g.s.unsat_stack_fill_pointer))
          = false ∧
        g.s.sat_count (g.s.unsat_stack (g.rnd (g.pos + 1) % g.s.unsat_stack_fill_pointer))
          = 0 ∧
        0 < (((F.clause_lit (g.s.unsat_stack
            (g.rnd (g.pos + 1) % g.s.unsat_stack_fill_pointer))).map lit.var_num).filter
          (fun v => g.s.varMutable v)).length ∧
        (pick_var F prob g).1 ∈
          clauseVars F (g.s.unsat_stack (g.rnd (g.pos + 1) % g.s.unsat_stack_fill_pointer)) ∧
        g.s.varMutable (pick_var F prob g).1 = true) := by
  have hG : Good F g.s := by rw [hs]; exact reachable_Good F hwf hW s0 hbest fs hfs
  have hpre : ∀ c, c < F.num_clauses → g.s.preSat c =
      (hasImmPos g.s.varMutable (F.clause_lit c) || allImm g.s.varMutable (F.clause_lit c)) := by
    intro c hc
    rw [hs, flips_preSat, flips_varMutable, init_varMutable]
    exact init_preSat_eq F s0 c hc
  constructor
  · intro htot
    have ht : g.s.total_unsat_clause_weight = wsum F _ := hG.tot
    rw [ht] at htot
    unfold wsum at htot
    have hne : (List.range F.num_clauses).filter
        (isUnsat F.num_clauses g.s.preSat g.s.sat_count) ≠ [] := by
      intro he
      rw [he] at htot
      simp at htot
    obtain ⟨c, hc⟩ := List.exists_mem_of_ne_nil _ hne
    have hU := (List.mem_filter.mp hc).2
    have := (hG.inv.set.1.2 c hU).1
    omega
  · intro hfill hnoise
    have hi : g.rnd (g.pos + 1) % g.s.unsat_stack_fill_pointer < g.s.unsat_stack_fill_pointer :=
      Nat.mod_lt _ hfill
    have hU := (hG.inv.set.1.1 _ hi).1
    obtain ⟨hc, hp, hz⟩ := isUnsat_lt _ _ _ _ hU
    rw [pick_var_noise F prob g hnoise]
    generalize g.s.unsat_stack (g.rnd (g.pos + 1) % g.s.unsat_stack_fill_pointer) = c
      at hc hp hz ⊢
    have hall : allImm g.s.varMutable (F.clause_lit c) = false := by
      have := hpre c hc
      rw [hp] at this
      cases ha : allImm g.s.varMutable (F.clause_lit c)
      · rfl
      · rw [ha, Bool.or_true] at this
        cases this
    have hex : ∃ l ∈ F.clause_lit c, g.s.varMutable l.var_num = true := by
      unfold allImm at hall
      by_contra hcon
      have : (F.clause_lit c).all (fun l => !g.s.varMutable l.var_num) = true := by
        rw [List.all_eq_true]
        intro l hl
        cases hm : g.s.varMutable l.var_num
        · rfl
        · exact absurd ⟨l, hl, hm⟩ hcon
      rw [this] at hall
      cases hall
    obtain ⟨l, hl, hm⟩ := hex
    have hmem : l.var_num ∈ ((F.clause_lit c).map lit.var_num).filter
        (fun v => g.s.varMutable v) :=
      List.mem_filter.mpr ⟨List.mem_map.mpr ⟨l, hl, rfl⟩, hm⟩
    have hlen : 0 < (((F.clause_lit c).map lit.var_num).filter
        (fun v => g.s.varMutable v)).length := List.length_pos_of_mem hmem
    have hres := getD_mod_mem _ (g.rnd (g.pos + 1 + 1)) hlen
    have hres2 := List.mem_filter.mp hres
    exact ⟨hc, hp, hz, hlen, hres2.1, hres2.2⟩

theorem pick_var_safe_witness :
    (0 < (mkGlobals (init exTwo stAllMutable)).s.total_unsat_clause_weight →
        0 < (mkGlobals (init exTwo stAllMutable)).s.unsat_stack_fill_pointer) ∧
      (0 < (mkGlobals (init exTwo stAllMutable)).s.unsat_stack_fill_pointer →
        (((mkGlobals (init exTwo stAllMutable)).rnd (mkGlobals (init exTwo stAllMutable)).pos
          % RAND_MAX_INT : Nat) : Int) < 1 →
        (mkGlobals (init exTwo stAllMutable)).s.unsat_stack
            ((mkGlobals (init exTwo stAllMutable)).rnd
              ((mkGlobals (init exTwo stAllMutable)).pos + 1) %
              (mkGlobals (init exTwo stAllMutable)).s.unsat_stack_fill_pointer)
          < exTwo.num_clauses ∧
        (mkGlobals (init exTwo stAllMutable)).s.preSat
          ((mkGlobals (init exTwo stAllMutable)).s.unsat_stack
            ((mkGlobals (init exTwo stAllMutable)).rnd
              ((mkGlobals (init exTwo stAllMutable)).pos + 1) %
              (mkGlobals (init exTwo stAllMutable)).s.unsat_stack_fill_pointer)) = false ∧
        (mkGlobals (init exTwo stAllMutable)).s.sat_count
          ((mkGlobals (init exTwo stAllMutable)).s.unsat_stack
            ((mkGlobals (init exTwo stAllMutable)).rnd
              ((mkGlobals (init exTwo stAllMutable)).pos + 1) %
              (mkGlobals (init exTwo stAllMutable)).s.unsat_stack_fill_pointer)) = 0 ∧
        0 < (((exTwo.clause_lit ((mkGlobals (init exTwo stAllMutable)).s.unsat_stack
            ((mkGlobals (init exTwo stAllMutable)).rnd
              ((mkGlobals (init exTwo stAllMutable)).pos + 1) %
              (mkGlobals (init exTwo stAllMutable)).s.unsat_stack_fill_pointer))).map
            lit.var_num).filter
          (fun v => (mkGlobals (init exTwo stAllMutable)).s.varMutable v)).length ∧
        (pick_var exTwo 1 (mkGlobals (init exTwo stAllMutable))).1 ∈
          clauseVars exTwo ((mkGlobals (init exTwo stAllMutable)).s.unsat_stack
            ((mkGlobals (init exTwo stAllMutable)).rnd
              ((mkGlobals (init exTwo stAllMutable)).pos + 1) %
              (mkGlobals (init exTwo stAllMutable)).s.unsat_stack_fill_pointer)) ∧
        (mkGlobals (init exTwo stAllMutable)).s.varMutable
          (pick_var exTwo 1 (mkGlobals (init exTwo stAllMutable))).1 = true) :=
  pick_var_safe exTwo (by decide) (by decide) stAllMutable (fun _ => Or.inl rfl) []
    (fun _ h => absurd h (List.not_mem_nil _)) 1 (mkGlobals (init exTwo stAllMutable)) rfl

end CCLS

namespace UBCSAT

open CCLS (setAt setAt_apply)

theorem setPreSat_live_mutable (P : Formula) (m a : Nat → Bool) (st : PreSatState) (j : Nat)
    (hj : j < P.iNumClauses) (h : (setPreSat P m a st).preSat j = false) :
    ∃ L ∈ P.pClauseLits j, m (P.GetVarFromLit L) = true := by
  rw [setPreSat_preSat P m a st j hj] at h
  simp only [Bool.or_eq_false_iff] at h
  have hall := h.2.2
  unfold allImmLits at hall
  by_contra hcon
  have : (P.pClauseLits j).all (fun L => !m (P.GetVarFromLit L)) = true := by
    rw [List.all_eq_true]
    intro L hL
    cases hm : m (P.GetVarFromLit L)
    · rfl
    · exact absurd ⟨L, hL, hm⟩ hcon
  rw [this] at hall
  cases hall

theorem selectedClause_mem (K : Picker) (hne : falseClauses K ≠ [])
    (hR : ∀ k n, 0 < n → K.RandomInt k n < n) :
    selectedClause K < K.iNumClauses ∧ K.preSat (selectedClause K) = false ∧
      K.aNumTrueLit (selectedClause K) = 0 := by
  have hlen : 0 < (falseClauses K).length := List.length_pos.mpr hne
  have hlt := hR 0 _ hlen
  have hmem : selectedClause K ∈ falseClauses K := by
    unfold selectedClause
    rw [List.getD_eq_getElem _ 0 hlt]
    exact List.getElem_mem _
  unfold falseClauses at hmem
  rw [List.mem_filter, List.mem_range] at hmem
  simp only [Bool.and_eq_true, Bool.not_eq_true', decide_eq_true_eq] at hmem
  exact ⟨hmem.1, hmem.2.1, hmem.2.2⟩

theorem WalkInv_step (K : Picker) (B0 : Int) (S : Nat → Prop) (a : Cands) (L : Nat)
    (h : WalkInv K B0 S a) : WalkInv K B0 (fun x => S x ∨ x = L) (walkStep K a L) := by
  unfold walkStep
  by_cases hm : K.varMutable (K.GetVarFromLit L) = false
  · rw [if_pos hm]
    refine ⟨?_, ?_, h.le0, ?_, h.zero⟩
    · intro i hi
      obtain ⟨M, h1, h2⟩ := h.mem i hi
      exact ⟨M, Or.inl h1, h2⟩
    · intro M hM hMm
      rcases hM with hM | rfl
      · exact h.low M hM hMm
      · rw [hm] at hMm; cases hMm
    · rintro ⟨M, hM, hMm, hMb⟩
      rcases hM with hM | rfl
      · exact h.some ⟨M, hM, hMm, hMb⟩
      · rw [hm] at hMm; cases hMm
  · rw [if_neg hm]
    have hmt : K.varMutable (K.GetVarFromLit L) = true := by simpa using hm
    by_cases hle : breakCount K L ≤ a.iBestScore
    · rw [if_pos hle]
      by_cases hlt : breakCount K L < a.iBestScore
      · simp only [if_pos hlt]
        refine ⟨?_, ?_, ?_, ?_, ?_⟩
        · intro i hi
          have hi0 : i = 0 := by simp only at hi; omega
          subst hi0
          exact ⟨L, Or.inr rfl, hmt, by simp, rfl⟩
        · intro M hM hMm
          rcases hM with hM | rfl
          · exact le_trans hle (h.low M hM hMm)
          · exact le_refl _
        · exact le_trans hle h.le0
        · intro _
          simp
        · intro h0
          simp at h0
      · simp only [if_neg hlt]
        have heq : breakCount K L = a.iBestScore := le_antisymm hle (not_lt.mp hlt)
        refine ⟨?_, ?_, h.le0, ?_, ?_⟩
        · intro i hi
          simp only at hi
          by_cases hin : i = a.iNumCandidates
          · subst hin
            exact ⟨L, Or.inr rfl, hmt, by simp, heq⟩
          · obtain ⟨M, h1, h2, h3, h4⟩ := h.mem i (by omega)
            exact ⟨M, Or.inl h1, h2, by simp [hin, h3], h4⟩
        · intro M hM hMm
          rcases hM with hM | rfl
          · exact h.low M hM hMm
          · exact le_of_eq heq.symm
        · intro _
          simp
        · intro h0
          simp at h0
    · rw [if_neg hle]
      refine ⟨?_, ?_, h.le0, ?_, h.zero⟩
      · intro i hi
        obtain ⟨M, h1, h2⟩ := h.mem i hi
        exact ⟨M, Or.inl h1, h2⟩
      · intro M hM hMm
        rcases hM with hM | rfl
        · exact h.low M hM hMm
        · exact le_of_lt (not_le.mp hle)
      · rintro ⟨M, hM, hMm, hMb⟩
        rcases hM with hM | rfl
        · exact h.some ⟨M, hM, hMm, hMb⟩
        · by_contra h0
          have := h.zero (by omega)
          omega

theorem WalkInv_congr (K : Picker) (B0 : Int) (S T : Nat → Prop) (a : Cands)
    (hST : ∀ x, S x ↔ T x) (h : WalkInv K B0 S a) : WalkInv K B0 T a := by
  have : S = T := funext (fun x => propext (hST x))
  rw [← this]; exact h

theorem WalkInv_fold (K : Picker) (B0 : Int) (ls : List Nat) :
    ∀ (S : Nat → Prop) (a : Cands), WalkInv K B0 S a →
      WalkInv K B0 (fun x => S x ∨ x ∈ ls) (ls.foldl (walkStep K) a) := by
  induction ls with
  | nil =>
    intro S a h
    exact WalkInv_congr K B0 S _ a (fun x => by simp) h
  | cons L ls ih =>
    intro S a h
    rw [List.foldl_cons]
    have := ih _ _ (WalkInv_step K B0 S a L h)
    refine WalkInv_congr K B0 _ _ _ (fun x => ?_) this
    simp only [List.mem_cons]
    tauto

theorem walkCands_inv (K : Picker) :
    WalkInv K (K.iNumClauses : Int) (fun L => L ∈ K.pClauseLits (selectedClause K))
      (walkCands K) := by
  have h0 : WalkInv K (K.iNumClauses : Int) (fun _ => False)
      { aCandidateList := K.aCandidateList, iNumCandidates := 0,
        iBestScore := (K.iNumClauses : Int) } :=
    ⟨fun i hi => absurd hi (Nat.not_lt_zero i), fun L hL => hL.elim, le_refl _,
      fun ⟨L, hL, _⟩ => hL.elim, fun _ => rfl⟩
  have := WalkInv_fold K _ (K.pClauseLits (selectedClause K)) _ _ h0
  exact WalkInv_congr K _ _ _ _ (fun x => by simp) this

theorem OkVar_mono (K : Picker) (S T : Nat → Prop) (v : Nat) (hST : ∀ x, S x → T x)
    (h : OkVar K S v) : OkVar K T v := by
  rcases h with h | ⟨h1, L, h2, h3⟩
  · exact Or.inl h
  · exact Or.inr ⟨h1, L, hST L h2, h3⟩

theorem noveltyStep_ok (K : Picker) (S : Nat → Prop) (a : Nov) (L : Nat)
    (h1 : OkVar K S a.iBestVar) (h2 : OkVar K S a.iSecondBestVar) :
    OkVar K (fun x => S x ∨ x = L) (noveltyStep K a L).iBestVar ∧
      OkVar K (fun x => S x ∨ x = L) (noveltyStep K a L).iSecondBestVar := by
  have m1 := OkVar_mono K S (fun x => S x ∨ x = L) _ (fun x hx => Or.inl hx) h1
  have m2 := OkVar_mono K S (fun x => S x ∨ x = L) _ (fun x hx => Or.inl hx) h2
  unfold noveltyStep
  by_cases hm : K.varMutable (K.GetVarFromLit L) = false
  · rw [if_pos hm]
    exact ⟨m1, m2⟩
  · rw [if_neg hm]
    have hmt : K.varMutable (K.GetVarFromLit L) = true := by simpa using hm
    have hL : OkVar K (fun x => S x ∨ x = L) (K.GetVarFromLit L) :=
      Or.inr ⟨hmt, L, Or.inr rfl, rfl⟩
    simp only
    split_ifs <;> first | exact ⟨hL, m1⟩ | exact ⟨m1, hL⟩ | exact ⟨m1, m2⟩

theorem noveltyFold_ok (K : Picker) (ls : List Nat) :
    ∀ (S : Nat → Prop) (a : Nov), OkVar K S a.iBestVar → OkVar K S a.iSecondBestVar →
      OkVar K (fun x => S x ∨ x ∈ ls) (ls.foldl (noveltyStep K) a).iBestVar ∧
        OkVar K (fun x => S x ∨ x ∈ ls) (ls.foldl (noveltyStep K) a).iSecondBestVar := by
  induction ls with
  | nil =>
    intro S a h1 h2
    exact ⟨OkVar_mono K _ _ _ (fun x hx => Or.inl hx) h1,
      OkVar_mono K _ _ _ (fun x hx => Or.inl hx) h2⟩
  | cons L ls ih =>
    intro S a h1 h2
    rw [List.foldl_cons]
    obtain ⟨s1, s2⟩ := noveltyStep_ok K S a L h1 h2
    obtain ⟨i1, i2⟩ := ih _ _ s1 s2
    have hsub : ∀ x, ((S x ∨ x = L) ∨ x ∈ ls) → (S x ∨ x ∈ L :: ls) := by
      intro x hx
      simp only [List.mem_cons]
      tauto
    exact ⟨OkVar_mono K _ _ _ hsub i1, OkVar_mono K _ _ _ hsub i2⟩

theorem noveltyLoop_ok (K : Picker) :
    OkVar K (fun L => L ∈ K.pClauseLits (selectedClause K)) (noveltyLoop K).iBestVar ∧
      OkVar K (fun L => L ∈ K.pClauseLits (selectedClause K)) (noveltyLoop K).iSecondBestVar := by
  obtain ⟨i1, i2⟩ := noveltyFold_ok K (K.pClauseLits (selectedClause K)) (fun _ => False)
    { iBestVar := 0, iSecondBestVar := 0, iBestScore := K.iNumClauses,
      iSecondBestScore := K.iNumClauses,
      iYoungestVar := K.GetVarFromLit ((K.pClauseLits (selectedClause K)).getD 0 0) }
    (Or.inl rfl) (Or.inl rfl)
  have hsub : ∀ x, (False ∨ x ∈ K.pClauseLits (selectedClause K)) →
      x ∈ K.pClauseLits (selectedClause K) := fun x hx => hx.resolve_left id
  exact ⟨OkVar_mono K _ _ _ hsub i1, OkVar_mono K _ _ _ hsub i2⟩

theorem breakCount_le (K : Picker) (L : Nat) :
    breakCount K L ≤ ((K.pLitClause (K.GetNegatedLit L)).length : Int) := by
  unfold breakCount
  exact_mod_cast List.countP_le_length _

theorem walkCands_pos (K : Picker)
    (hocc : ∀ L, (K.pLitClause L).length ≤ K.iNumClauses)
    (hex : ∃ L ∈ K.pClauseLits (selectedClause K), K.varMutable (K.GetVarFromLit L) = true) :
    0 < (walkCands K).iNumCandidates := by
  obtain ⟨L, hL, hm⟩ := hex
  apply (walkCands_inv K).some
  refine ⟨L, hL, hm, le_trans (breakCount_le K L) ?_⟩
  exact_mod_cast hocc _

theorem walkCands_pick (K : Picker) (hR : ∀ k n, 0 < n → K.RandomInt k n < n)
    (hpos : 0 < (walkCands K).iNumCandidates) :
    ∃ i, i < (walkCands K).iNumCandidates ∧
      (if (walkCands K).iNumCandidates > 1 then
        (walkCands K).aCandidateList (K.RandomInt 1 (walkCands K).iNumCandidates)
      else (walkCands K).aCandidateList 0) = (walkCands K).aCandidateList i := by
  by_cases h1 : (walkCands K).iNumCandidates > 1
  · rw [if_pos h1]
    exact ⟨_, hR 1 _ hpos, rfl⟩
  · rw [if_neg h1]
    exact ⟨0, hpos, rfl⟩

theorem PickWalkSatUCT_greedy (K : Picker) (hF : K.iNumFalse ≠ 0) (hne : falseClauses K ≠ [])
    (hbr : ¬ ((walkCands K).iBestScore > 0 ∧ K.RandomProb = true)) :
    (PickWalkSatUCT K).iFlipCandidate =
      if (walkCands K).iNumCandidates > 1 then
        (walkCands K).aCandidateList (K.RandomInt 1 (walkCands K).iNumCandidates)
      else (walkCands K).aCandidateList 0 := by
  have hlen : ¬ (falseClauses K).length = 0 := by
    intro h; exact hne (List.length_eq_zero.mp h)
  unfold PickWalkSatUCT
  rw [if_neg hF, if_neg hlen, if_neg hbr]
  split_ifs <;> rfl

theorem PickWalkSatUCT_walk (K : Picker) (hF : K.iNumFalse ≠ 0) (hne : falseClauses K ≠ [])
    (hbr : (walkCands K).iBestScore > 0 ∧ K.RandomProb = true) :
    (PickWalkSatUCT K).iFlipCandidate =
      if K.varMutable (K.GetVarFromLit ((K.pClauseLits (selectedClause K)).getD
          (K.RandomInt 1 (K.pClauseLits (selectedClause K)).length) 0)) = false then 0
      else K.GetVarFromLit ((K.pClauseLits (selectedClause K)).getD
          (K.RandomInt 1 (K.pClauseLits (selectedClause K)).length) 0) := by
  have hlen : ¬ (falseClauses K).length = 0 := by
    intro h; exact hne (List.length_eq_zero.mp h)
  unfold PickWalkSatUCT
  rw [if_neg hF, if_neg hlen, if_pos hbr]
  split_ifs <;> rfl

end UBCSAT

namespace UBCSAT

theorem pickers_mutable_of_sync (K : Picker) (hF : K.iNumFalse ≠ 0)
    (hne : falseClauses K ≠ []) (hR : ∀ k n, 0 < n → K.RandomInt k n < n)
    (hsync : ∀ j, j < K.iNumClauses → K.preSat j = false →
      ∃ L ∈ K.pClauseLits j, K.varMutable (K.GetVarFromLit L) = true)
    (hocc : ∀ L, (K.pLitClause L).length ≤ K.iNumClauses) :
    (selectedClause K < K.iNumClauses ∧ K.preSat (selectedClause K) = false ∧
        K.aNumTrueLit (selectedClause K) = 0) ∧
      ((PickWalkSatUCT K).iFlipCandidate = 0 ∨
        (K.varMutable (PickWalkSatUCT K).iFlipCandidate = true ∧
          ∃ L ∈ K.pClauseLits (selectedClause K),
            K.GetVarFromLit L = (PickWalkSatUCT K).iFlipCandidate)) ∧
      ((PickNoveltyUCT K).iFlipCandidate = 0 ∨
        (K.varMutable (PickNoveltyUCT K).iFlipCandidate = true ∧
          ∃ L ∈ K.pClauseLits (selectedClause K),
            K.GetVarFromLit L = (PickNoveltyUCT K).iFlipCandidate)) := by
  have hsel := selectedClause_mem K hne hR
  have hex := hsync _ hsel.1 hsel.2.1
  have hlen : ¬ (falseClauses K).length = 0 := by
    intro h; exact hne (List.length_eq_zero.mp h)
  refine ⟨hsel, ?_, ?_⟩
  · by_cases hbr : (walkCands K).iBestScore > 0 ∧ K.RandomProb = true
    · rw [PickWalkSatUCT_walk K hF hne hbr]
      by_cases hm : K.varMutable (K.GetVarFromLit ((K.pClauseLits (selectedClause K)).getD
          (K.RandomInt 1 (K.pClauseLits (selectedClause K)).length) 0)) = false
      · rw [if_pos hm]
        exact Or.inl rfl
      · rw [if_neg hm]
        right
        refine ⟨by simpa using hm, _, ?_, rfl⟩
        obtain ⟨L, hL, _⟩ := hex
        have hpos : 0 < (K.pClauseLits (selectedClause K)).length := List.length_pos_of_mem hL
        rw [List.getD_eq_getElem _ 0 (hR 1 _ hpos)]
        exact List.getElem_mem _
    · rw [PickWalkSatUCT_greedy K hF hne hbr]
      obtain ⟨i, hi, heq⟩ := walkCands_pick K hR (walkCands_pos K hocc hex)
      rw [heq]
      obtain ⟨L, hL, hm, hc, _⟩ := (walkCands_inv K).mem i hi
      right
      rw [hc]
      exact ⟨hm, L, hL, rfl⟩
  · obtain ⟨o1, o2⟩ := noveltyLoop_ok K
    unfold PickNoveltyUCT
    rw [if_neg hF, if_neg hlen]
    split_ifs
    · exact o1
    · exact o2
    · exact o1

/-- C31: in the state in which `ubcsatrun()` runs a picker, where `preSat` is what
`setPreSat()` has just computed from the current `varMutable` (uct.c lines 220-222), with
`RandomInt(n)` below `n` and no literal having more occurrences than there are clauses: the
candidate of `PickWalkSatUCT` and the candidate of `PickNoveltyUCT` are each the sentinel 0
or a mutable variable of a literal of the selected clause; and when a picker selects a
clause, it is a false clause that is not pre-sat and has a mutable literal. -/
theorem pickers_honour_mutability (K0 : Picker) (GetLitSign IsLitTrue alwaysSat : Nat → Bool)
    (K : Picker) (hK : K = afterSetPreSat K0 GetLitSign IsLitTrue alwaysSat)
    (hR : ∀ k n, 0 < n → K.RandomInt k n < n)
    (hocc : ∀ L, (K.pLitClause L).length ≤ K.iNumClauses) :
    ((PickWalkSatUCT K).iFlipCandidate = 0 ∨
        (K.varMutable (PickWalkSatUCT K).iFlipCandidate = true ∧
          ∃ L ∈ K.pClauseLits (selectedClause K),
            K.GetVarFromLit L = (PickWalkSatUCT K).iFlipCandidate)) ∧
      ((PickNoveltyUCT K).iFlipCandidate = 0 ∨
        (K.varMutable (PickNoveltyUCT K).iFlipCandidate = true ∧
          ∃ L ∈ K.pClauseLits (selectedClause K),
            K.GetVarFromLit L = (PickNoveltyUCT K).iFlipCandidate)) ∧
      (K.iNumFalse ≠ 0 → falseClauses K ≠ [] →
        selectedClause K < K.iNumClauses ∧ K.preSat (selectedClause K) = false ∧
          K.aNumTrueLit (selectedClause K) = 0 ∧
          ∃ L ∈ K.pClauseLits (selectedClause K), K.varMutable (K.GetVarFromLit L) = true) := by
  have hsync : ∀ j, j < K.iNumClauses → K.preSat j = false →
      ∃ L ∈ K.pClauseLits j, K.varMutable (K.GetVarFromLit L) = true := by
    intro j hj hp
    subst hK
    exact setPreSat_live_mutable
      { iNumClauses := K0.iNumClauses, pClauseLits := K0.pClauseLits,
        GetVarFromLit := K0.GetVarFromLit, GetLitSign := GetLitSign, IsLitTrue := IsLitTrue }
      K0.varMutable alwaysSat { preSat := K0.preSat, closedFlag := K0.closedFlag } j hj hp
  by_cases hF : K.iNumFalse = 0
  · refine ⟨Or.inl ?_, Or.inl ?_, fun h => absurd hF h⟩
    · unfold PickWalkSatUCT
      rw [if_pos hF]
    · unfold PickNoveltyUCT
      rw [if_pos hF]
  · by_cases hne : falseClauses K = []
    · have hlen : (falseClauses K).length = 0 := by rw [hne]; rfl
      refine ⟨Or.inl ?_, Or.inl ?_, fun _ h => absurd hne h⟩
      · unfold PickWalkSatUCT
        rw [if_neg hF, if_pos hlen]
      · unfold PickNoveltyUCT
        rw [if_neg hF, if_pos hlen]
    · obtain ⟨h1, h2, h3⟩ := pickers_mutable_of_sync K hF hne hR hsync hocc
      exact ⟨h2, h3, fun _ _ => ⟨h1.1, h1.2.1, h1.2.2, hsync _ h1.1 h1.2.1⟩⟩

theorem pickers_honour_mutability_witness :
    ((PickWalkSatUCT (afterSetPreSat (exPicker false) (fun L => decide (L % 2 = 1))
          (fun L => decide (L % 2 = 0)) (fun _ => false))).iFlipCandidate = 2 ∧
      (PickNoveltyUCT (afterSetPreSat (exPicker false) (fun L => decide (L % 2 = 1))
          (fun L => decide (L % 2 = 0)) (fun _ => false))).iFlipCandidate = 2 ∧
      selectedClause (afterSetPreSat (exPicker false) (fun L => decide (L % 2 = 1))
          (fun L => decide (L % 2 = 0)) (fun _ => false)) = 0) ∧
    (((PickWalkSatUCT (afterSetPreSat (exPicker false) (fun L => decide (L % 2 = 1))
            (fun L => decide (L % 2 = 0)) (fun _ => false))).iFlipCandidate = 0 ∨
        ((afterSetPreSat (exPicker false) (fun L => decide (L % 2 = 1))
            (fun L => decide (L % 2 = 0)) (fun _ => false)).varMutable
            (PickWalkSatUCT (afterSetPreSat (exPicker false) (fun L => decide (L % 2 = 1))
              (fun L => decide (L % 2 = 0)) (fun _ => false))).iFlipCandidate = true ∧
          ∃ L ∈ (afterSetPreSat (exPicker false) (fun L => decide (L % 2 = 1))
              (fun L => decide (L % 2 = 0)) (fun _ => false)).pClauseLits
              (selectedClause (afterSetPreSat (exPicker false) (fun L => decide (L % 2 = 1))
                (fun L => decide (L % 2 = 0)) (fun _ => false))),
            (afterSetPreSat (exPicker false) (fun L => decide (L % 2 = 1))
              (fun L => decide (L % 2 = 0)) (fun _ => false)).GetVarFromLit L =
              (PickWalkSatUCT (afterSetPreSat (exPicker false) (fun L => decide (L % 2 = 1))
                (fun L => decide (L % 2 = 0)) (fun _ => false))).iFlipCandidate)) ∧
      ((PickNoveltyUCT (afterSetPreSat (exPicker false) (fun L => decide (L % 2 = 1))
            (fun L => decide (L % 2 = 0)) (fun _ => false))).iFlipCandidate = 0 ∨
        ((afterSetPreSat (exPicker false) (fun L => decide (L % 2 = 1))
            (fun L => decide (L % 2 = 0)) (fun _ => false)).varMutable
            (PickNoveltyUCT (afterSetPreSat (exPicker false) (fun L => decide (L % 2 = 1))
              (fun L => decide (L % 2 = 0)) (fun _ => false))).iFlipCandidate = true ∧
          ∃ L ∈ (afterSetPreSat (exPicker false) (fun L => decide (L % 2 = 1))
              (fun L => decide (L % 2 = 0)) (fun _ => false)).pClauseLits
              (selectedClause (afterSetPreSat (exPicker false) (fun L => decide (L % 2 = 1))
                (fun L => decide (L % 2 = 0)) (fun _ => false))),
            (afterSetPreSat (exPicker false) (fun L => decide (L % 2 = 1))
              (fun L => decide (L % 2 = 0)) (fun _ => false)).GetVarFromLit L =
              (PickNoveltyUCT (afterSetPreSat (exPicker false) (fun L => decide (L % 2 = 1))
                (fun L => decide (L % 2 = 0)) (fun _ => false))).iFlipCandidate)) ∧
      ((afterSetPreSat (exPicker false) (fun L => decide (L % 2 = 1))
            (fun L => decide (L % 2 = 0)) (fun _ => false)).iNumFalse ≠ 0 →
        falseClauses (afterSetPreSat (exPicker false) (fun L => decide (L % 2 = 1))
            (fun L => decide (L % 2 = 0)) (fun _ => false)) ≠ [] →
        selectedClause (afterSetPreSat (exPicker false) (fun L => decide (L % 2 = 1))
            (fun L => decide (L % 2 = 0)) (fun _ => false)) <
          (afterSetPreSat (exPicker false) (fun L => decide (L % 2 = 1))
            (fun L => decide (L % 2 = 0)) (fun _ => false)).iNumClauses ∧
        (afterSetPreSat (exPicker false) (fun L => decide (L % 2 = 1))
            (fun L => decide (L % 2 = 0)) (fun _ => false)).preSat
          (selectedClause (afterSetPreSat (exPicker false) (fun L => decide (L % 2 = 1))
            (fun L => decide (L % 2 = 0)) (fun _ => false))) = false ∧
        (afterSetPreSat (exPicker false) (fun L => decide (L % 2 = 1))
            (fun L => decide (L % 2 = 0)) (fun _ => false)).aNumTrueLit
          (selectedClause (afterSetPreSat (exPicker false) (fun L => decide (L % 2 = 1))
            (fun L => decide (L % 2 = 0)) (fun _ => false))) = 0 ∧
        ∃ L ∈ (afterSetPreSat (exPicker false) (fun L => decide (L % 2 = 1))
            (fun L => decide (L % 2 = 0)) (fun _ => false)).pClauseLits
            (selectedClause (afterSetPreSat (exPicker false) (fun L => decide (L % 2 = 1))
              (fun L => decide (L % 2 = 0)) (fun _ => false))),
          (afterSetPreSat (exPicker false) (fun L => decide (L % 2 = 1))
            (fun L => decide (L % 2 = 0)) (fun _ => false)).varMutable
            ((afterSetPreSat (exPicker false) (fun L => decide (L % 2 = 1))
              (fun L => decide (L % 2 = 0)) (fun _ => false)).GetVarFromLit L) = true)) :=
  ⟨by decide,
    pickers_honour_mutability (exPicker false) (fun L => decide (L % 2 = 1))
      (fun L => decide (L % 2 = 0)) (fun _ => false) _ rfl (fun _ _ h => h)
      (fun L => by
        show (if L = 3 then [0] else if L = 5 then [0] else if L = 4 then [1] else []).length ≤ 2
        split_ifs <;> simp)⟩

/-- C32 (as stated) fails on the random-walk branch: for the clauses `(x1 ∨ x2)` and `(¬x2)`
with both variables false, `x1` immutable and `x2` mutable, the false clause `(x1 ∨ x2)` is
selected, the only candidate `x2` has breakcount 1, the random-walk branch is taken and draws
the first literal `x1`; its variable is immutable and the candidate is the sentinel 0, which
is the variable of no literal of the clause, although the clause has the mutable literal
`x2`. -/
theorem walk_branch_counterexample :
    selectedClause (exPicker true) = 0 ∧ (exPicker true).preSat 0 = false ∧
      (exPicker true).aNumTrueLit 0 = 0 ∧ (walkCands (exPicker true)).iBestScore = 1 ∧
      (exPicker true).RandomProb = true ∧
      (∃ L ∈ (exPicker true).pClauseLits 0,
        (exPicker true).varMutable ((exPicker true).GetVarFromLit L) = true) ∧
      (PickWalkSatUCT (exPicker true)).iFlipCandidate = 0 ∧
      ¬ (∃ L ∈ (exPicker true).pClauseLits 0,
        (exPicker true).GetVarFromLit L = (PickWalkSatUCT (exPicker true)).iFlipCandidate) := by
  decide

/-- C32 (amended). When a false clause that is not pre-sat is selected and has a mutable
literal (`RandomInt(n)` being below `n` and no literal having more occurrences than there
are clauses): `iBestScore` is positive iff every mutable literal of the clause has a positive
breakcount; on the random-walk branch (`iBestScore > 0` and `RandomProb(iWp)`) the candidate
is the variable of the literal drawn among all the literals of the clause when that variable
is mutable and the sentinel 0 when it is not; otherwise the candidate is the variable of a
mutable literal of the clause whose breakcount, the number of occurrences of the negated
literal in clauses with exactly one true literal, is minimal among the mutable literals of
the clause. -/
theorem PickWalkSatUCT_spec (K : Picker) (hF : K.iNumFalse ≠ 0) (hne : falseClauses K ≠ [])
    (hR : ∀ k n, 0 < n → K.RandomInt k n < n)
    (hocc : ∀ L, (K.pLitClause L).length ≤ K.iNumClauses)
    (hex : ∃ L ∈ K.pClauseLits (selectedClause K), K.varMutable (K.GetVarFromLit L) = true) :
    ((walkCands K).iBestScore > 0 ↔
        ∀ L ∈ K.pClauseLits (selectedClause K), K.varMutable (K.GetVarFromLit L) = true →
          0 < breakCount K L) ∧
      (((walkCands K).iBestScore > 0 ∧ K.RandomProb = true) →
        (K.pClauseLits (selectedClause K)).getD
            (K.RandomInt 1 (K.pClauseLits (selectedClause K)).length) 0
          ∈ K.pClauseLits (selectedClause K) ∧
        (PickWalkSatUCT K).iFlipCandidate =
          if K.varMutable (K.GetVarFromLit ((K.pClauseLits (selectedClause K)).getD
              (K.RandomInt 1 (K.pClauseLits (selectedClause K)).length) 0)) = true then
            K.GetVarFromLit ((K.pClauseLits (selectedClause K)).getD
              (K.RandomInt 1 (K.pClauseLits (selectedClause K)).length) 0)
          else 0) ∧
      (¬ ((walkCands K).iBestScore > 0 ∧ K.RandomProb = true) →
        ∃ L ∈ K.pClauseLits (selectedClause K),
          K.varMutable (K.GetVarFromLit L) = true ∧
          (PickWalkSatUCT K).iFlipCandidate = K.GetVarFromLit L ∧
          ∀ M ∈ K.pClauseLits (selectedClause K), K.varMutable (K.GetVarFromLit M) = true →
            breakCount K L ≤ breakCount K M) := by
  have hI := walkCands_inv K
  have hpos := walkCands_pos K hocc hex
  refine ⟨?_, ?_, ?_⟩
  · obtain ⟨L0, hL0, hm0, _, hb0⟩ := hI.mem 0 hpos
    constructor
    · intro hb L hL hm
      exact lt_of_lt_of_le hb (hI.low L hL hm)
    · intro h
      have := h L0 hL0 hm0
      rw [hb0] at this
      exact this
  · intro hbr
    constructor
    · obtain ⟨L, hL, _⟩ := hex
      have hp : 0 < (K.pClauseLits (selectedClause K)).length := List.length_pos_of_mem hL
      rw [List.getD_eq_getElem _ 0 (hR 1 _ hp)]
      exact List.getElem_mem _
    · rw [PickWalkSatUCT_walk K hF hne hbr]
      cases hm : K.varMutable (K.GetVarFromLit ((K.pClauseLits (selectedClause K)).getD
          (K.RandomInt 1 (K.pClauseLits (selectedClause K)).length) 0)) <;> simp
  · intro hbr
    rw [PickWalkSatUCT_greedy K hF hne hbr]
    obtain ⟨i, hi, heq⟩ := walkCands_pick K hR hpos
    rw [heq]
    obtain ⟨L, hL, hm, hc, hb⟩ := hI.mem i hi
    refine ⟨L, hL, hm, hc, ?_⟩
    intro M hM hMm
    rw [hb]
    exact hI.low M hM hMm

theorem PickWalkSatUCT_spec_witness :
    ((walkCands (exPicker false)).iBestScore > 0 ↔
        ∀ L ∈ (exPicker false).pClauseLits (selectedClause (exPicker false)),
          (exPicker false).varMutable ((exPicker false).GetVarFromLit L) = true →
          0 < breakCount (exPicker false) L) ∧
      (((walkCands (exPicker false)).iBestScore > 0 ∧ (exPicker false).RandomProb = true) →
        ((exPicker false).pClauseLits (selectedClause (exPicker false))).getD
            ((exPicker false).RandomInt 1
              ((exPicker false).pClauseLits (selectedClause (exPicker false))).length) 0
          ∈ (exPicker false).pClauseLits (selectedClause (exPicker false)) ∧
        (PickWalkSatUCT (exPicker false)).iFlipCandidate =
          if (exPicker false).varMutable ((exPicker false).GetVarFromLit
              (((exPicker false).pClauseLits (selectedClause (exPicker false))).getD
                ((exPicker false).RandomInt 1
                  ((exPicker false).pClauseLits (selectedClause (exPicker false))).length) 0))
              = true then
            (exPicker false).GetVarFromLit
              (((exPicker false).pClauseLits (selectedClause (exPicker false))).getD
                ((exPicker false).RandomInt 1
                  ((exPicker false).pClauseLits (selectedClause (exPicker false))).length) 0)
          else 0) ∧
      (¬ ((walkCands (exPicker false)).iBestScore > 0 ∧ (exPicker false).RandomProb = true) →
        ∃ L ∈ (exPicker false).pClauseLits (selectedClause (exPicker false)),
          (exPicker false).varMutable ((exPicker false).GetVarFromLit L) = true ∧
          (PickWalkSatUCT (exPicker false)).iFlipCandidate = (exPicker false).GetVarFromLit L ∧
          ∀ M ∈ (exPicker false).pClauseLits (selectedClause (exPicker false)),
            (exPicker false).varMutable ((exPicker false).GetVarFromLit M) = true →
            breakCount (exPicker false) L ≤ breakCount (exPicker false) M) :=
  PickWalkSatUCT_spec (exPicker false) (by decide) (by decide) (fun _ _ h => h)
    (fun L => by
      show (if L = 3 then [0] else if L = 5 then [0] else if L = 4 then [1] else []).length ≤ 2
      split_ifs <;> simp)
    (by decide)

end UBCSAT

namespace UCT

open CCLS (setAt setAt_apply)

theorem pathMask_cons (x : Nat) (anc : List Nat) (v : Nat) :
    pathMask (x :: anc) v = if v = x then false else pathMask anc v := by
  unfold pathMask
  by_cases h : v = x
  · simp [h]
  · simp [h]

theorem pathMask_true (anc : List Nat) (v : Nat) : pathMask anc v = true ↔ v ∉ anc := by
  unfold pathMask
  simp

theorem live_eq {E : Type} {W : World E} {mutv : E → Nat → Bool} {N : Nat} {ok : E → Prop}
    {live : (Nat → Bool) → Bool} (A : AtomLaws W mutv N ok live) (m1 m2 : Nat → Bool)
    (h : ∀ v, 1 ≤ v → v ≤ N → m1 v = m2 v) : live m1 = live m2 := by
  cases h1 : live m1 <;> cases h2 : live m2
  · rfl
  · have := A.live_mono m2 m1 (fun v a b c => by rw [h v a b]; exact c) h2
    rw [h1] at this
    cases this
  · have := A.live_mono m1 m2 (fun v a b c => by rw [← h v a b]; exact c) h1
    rw [h2] at this
    cases this
  · rfl

theorem EnvOK_mark {E : Type} {W : World E} {mutv : E → Nat → Bool} {N : Nat} {ok : E → Prop}
    {live : (Nat → Bool) → Bool} (A : AtomLaws W mutv N ok live) (anc : List Nat) (e : E)
    (x : Nat) (h : EnvOK mutv N ok anc e) :
    EnvOK mutv N ok (x :: anc) (W.markImmutable x e) := by
  refine ⟨A.mark_ok x e h.1, ?_⟩
  intro v h1 h2
  rw [A.mark_mut, pathMask_cons, h.2 v h1 h2]

theorem EnvOK_of_mut {E : Type} {mutv : E → Nat → Bool} {N : Nat} {ok : E → Prop}
    (anc : List Nat) (e e1 : E) (h : EnvOK mutv N ok anc e) (hok : ok e1)
    (hm : ∀ u, mutv e1 u = mutv e u) : EnvOK mutv N ok anc e1 :=
  ⟨hok, fun v h1 h2 => by rw [hm, h.2 v h1 h2]⟩

theorem playArm_ok {E : Type} {W : World E} {mutv : E → Nat → Bool} {N : Nat} {ok : E → Prop}
    {live : (Nat → Bool) → Bool} (A : AtomLaws W mutv N ok live) (a : Bool) (d : NodeData)
    (e : E) (h : ok e) :
    ok (playArm W a d e).2 ∧ ∀ u, mutv (playArm W a d e).2 u = mutv e u := by
  have h1 := A.est_ok _ (A.set_ok d.atom a e h)
  unfold playArm
  simp only
  split_ifs
  · refine ⟨A.clear_ok _ h1, fun u => ?_⟩
    rw [A.clear_mut, A.est_mut, A.set_mut]
  · refine ⟨h1, fun u => ?_⟩
    rw [A.est_mut, A.set_mut]

theorem playArm_fresh {E : Type} {W : World E} {mutv : E → Nat → Bool} {N : Nat}
    {ok : E → Prop} {live : (Nat → Bool) → Bool} (A : AtomLaws W mutv N ok live) (a : Bool)
    (d : NodeData) (e : E) (P : List Nat) (h : EnvOK mutv N ok P e) :
    (∀ b, b ≠ a → (playArm W a d e).1.nextAtom b = d.nextAtom b) ∧
      (live (pathMask P) = true → FreshAt N P ((playArm W a d e).1.nextAtom a)) := by
  have hok1 : ok (W.setValue d.atom a e) := A.set_ok d.atom a e h.1
  have hcl := A.est_closed _ hok1
  have hle : live (mutv (W.setValue d.atom a e)) = live (pathMask P) :=
    live_eq A _ _ (fun v h1 h2 => by rw [A.set_mut, h.2 v h1 h2])
  unfold playArm
  simp only
  by_cases hc : W.closedFlag (W.estimateReward (W.setValue d.atom a e)).2 = true
  · rw [if_pos hc]
    refine ⟨fun _ _ => rfl, ?_⟩
    intro hl
    rw [hc, hle, hl] at hcl
    cases hcl
  · rw [if_neg hc]
    refine ⟨?_, ?_⟩
    · intro b hb
      show setArm d.nextAtom a _ b = _
      unfold setArm
      rw [if_neg hb]
    · intro hl
      show FreshAt N P (setArm d.nextAtom a _ a)
      rw [setArm_same]
      obtain ⟨a1, a2, a3⟩ := A.est_atom _ hok1 (by rw [hle]; exact hl)
      refine ⟨a1, a2, ?_⟩
      rw [A.set_mut, h.2 _ a1 a2] at a3
      exact (pathMask_true P _).mp a3

theorem firstVisit_ok {E : Type} {W : World E} {mutv : E → Nat → Bool} {N : Nat}
    {ok : E → Prop} {live : (Nat → Bool) → Bool} (A : AtomLaws W mutv N ok live)
    (d : NodeData) (e : E) (h : ok e) :
    ok (firstVisit W d e).2.2 ∧ (firstVisit W d e).2.1.atom = d.atom ∧
      (firstVisit W d e).2.1.n false ≠ 0 := by
  obtain ⟨o1, _⟩ := playArm_ok A false { d with n := fun _ => 1 } e h
  obtain ⟨o2, _⟩ := playArm_ok A true (playArm W false { d with n := fun _ => 1 } e).1
    (playArm W false { d with n := fun _ => 1 } e).2 o1
  have f1 := playArm_frame W false { d with n := fun _ => 1 } e
  have f2 := playArm_frame W true (playArm W false { d with n := fun _ => 1 } e).1
    (playArm W false { d with n := fun _ => 1 } e).2
  have hn := (firstVisit_data W d e).1
  refine ⟨?_, ?_, by rw [hn]; exact Nat.one_ne_zero⟩
  · unfold firstVisit
    simp only
    split_ifs <;> exact o2
  · unfold firstVisit
    simp only
    split_ifs
    · show (playArm W true _ _).1.atom = _
      rw [f2.2.1, f1.2.1]
    · rw [f2.2.1, f1.2.1]

theorem firstVisit_fresh {E : Type} {W : World E} {mutv : E → Nat → Bool} {N : Nat}
    {ok : E → Prop} {live : (Nat → Bool) → Bool} (A : AtomLaws W mutv N ok live)
    (d : NodeData) (e : E) (P : List Nat) (h : EnvOK mutv N ok P e)
    (hl : live (pathMask P) = true) (a : Bool) :
    FreshAt N P ((firstVisit W d e).2.1.nextAtom a) := by
  obtain ⟨o1, m1⟩ := playArm_ok A false { d with n := fun _ => 1 } e h.1
  have hE1 : EnvOK mutv N ok P (playArm W false { d with n := fun _ => 1 } e).2 :=
    EnvOK_of_mut P e _ h o1 m1
  obtain ⟨p1, q1⟩ := playArm_fresh A false { d with n := fun _ => 1 } e P h
  obtain ⟨p2, q2⟩ := playArm_fresh A true (playArm W false { d with n := fun _ => 1 } e).1
    (playArm W false { d with n := fun _ => 1 } e).2 P hE1
  have key : FreshAt N P ((playArm W true (playArm W false { d with n := fun _ => 1 } e).1
      (playArm W false { d with n := fun _ => 1 } e).2).1.nextAtom a) := by
    cases a
    · rw [p2 false (by decide)]
      exact q1 hl
    · exact q2 hl
  unfold firstVisit
  simp only
  split_ifs
  · exact key
  · exact key

theorem backup_atom (d : NodeData) (a : Bool) (reward : ℚ) (c : NodeData) :
    (backup d a reward c).atom = d.atom ∧ (backup d a reward c).nextAtom = d.nextAtom := by
  unfold backup
  split_ifs <;> exact ⟨rfl, rfl⟩

theorem playNode_atom {E : Type} (W : World E) (t : uctnode) (e : E) :
    (playNode W t e).tree.data.atom = t.data.atom := by
  rcases playNode_cases W t e with ⟨_, _, h3⟩ | ⟨_, a, c, _, _, h3⟩
  · rw [h3]
    have f1 := playArm_frame W false { t.data with n := fun _ => 1 }
      (W.markImmutable t.data.atom e)
    have f2 := playArm_frame W true
      (playArm W false { t.data with n := fun _ => 1 } (W.markImmutable t.data.atom e)).1
      (playArm W false { t.data with n := fun _ => 1 } (W.markImmutable t.data.atom e)).2
    unfold firstVisit
    simp only
    split_ifs
    · show (playArm W true _ _).1.atom = _
      rw [f2.2.1, f1.2.1]
    · rw [f2.2.1, f1.2.1]
  · rw [h3, (backup_atom _ _ _ _).1]

theorem chooseArm_atomEnv {E : Type} {W : World E} {mutv : E → Nat → Bool} {N : Nat}
    {ok : E → Prop} {live : (Nat → Bool) → Bool} (A : AtomLaws W mutv N ok live)
    (d : NodeData) (e : E) (h : ok e) :
    ok (chooseArm W d e).2 ∧ ∀ u, mutv (chooseArm W d e).2 u = mutv e u := by
  unfold chooseArm
  split_ifs
  · exact ⟨h, fun _ => rfl⟩
  · exact ⟨h, fun _ => rfl⟩
  · exact ⟨A.sel_ok d e h, A.sel_mut d e⟩

theorem playFresh_ok {E : Type} {W : World E} {mutv : E → Nat → Bool} {N : Nat}
    {ok : E → Prop} {live : (Nat → Bool) → Bool} (A : AtomLaws W mutv N ok live)
    (d : NodeData) (e : E) (h : ok e) : ok (playFresh W d e).env :=
  (firstVisit_ok A d _ (A.mark_ok d.atom e h)).1

theorem playNode_ok {E : Type} {W : World E} {mutv : E → Nat → Bool} {N : Nat}
    {ok : E → Prop} {live : (Nat → Bool) → Bool} (A : AtomLaws W mutv N ok live)
    (t : uctnode) : ∀ e : E, ok e → ok (playNode W t e).env := by
  induction t with
  | leaf d =>
    intro e h
    rw [playNode]
    by_cases h0 : d.n false = 0
    · rw [if_pos h0]
      exact playFresh_ok A d e h
    · rw [if_neg h0]
      simp only
      show ok (playFresh W _ _).env
      apply playFresh_ok A
      exact A.set_ok _ _ _ (chooseArm_atomEnv A d _ (A.mark_ok d.atom e h)).1
  | node d l r ihl ihr =>
    intro e h
    rw [playNode]
    by_cases h0 : d.n false = 0
    · rw [if_pos h0]
      exact (firstVisit_ok A d _ (A.mark_ok d.atom e h)).1
    · rw [if_neg h0]
      simp only
      have hc := (chooseArm_atomEnv A d _ (A.mark_ok d.atom e h)).1
      cases hcc : (chooseArm W d (W.markImmutable d.atom e)).1
      · exact ihl _ (A.set_ok _ _ _ hc)
      · exact ihr _ (A.set_ok _ _ _ hc)

theorem playFresh_tree {E : Type} {W : World E} {mutv : E → Nat → Bool} {N : Nat}
    {ok : E → Prop} {live : (Nat → Bool) → Bool} (A : AtomLaws W mutv N ok live)
    (d : NodeData) (e : E) (anc : List Nat) (hE : EnvOK mutv N ok anc e)
    (hd : FreshAt N anc d.atom) : FreshTree N live (playFresh W d e).tree anc := by
  have hE1 := EnvOK_mark A anc e d.atom hE
  have hat := (firstVisit_ok A d (W.markImmutable d.atom e) hE1.1).2.1
  show NodeOK N live anc (firstVisit W d (W.markImmutable d.atom e)).2.1
  unfold NodeOK
  rw [hat]
  exact ⟨hd, fun _ hl a => firstVisit_fresh A d _ _ hE1 hl a⟩

theorem playNode_fresh {E : Type} {W : World E} {mutv : E → Nat → Bool} {N : Nat}
    {ok : E → Prop} {live : (Nat → Bool) → Bool} (A : AtomLaws W mutv N ok live)
    (t : uctnode) : ∀ (anc : List Nat) (e : E), FreshTree N live t anc →
      EnvOK mutv N ok anc e → FreshTree N live (playNode W t e).tree anc := by
  induction t with
  | leaf d =>
    intro anc e hT hE
    have hN : NodeOK N live anc d := hT
    rw [playNode]
    by_cases h0 : d.n false = 0
    · rw [if_pos h0]
      exact playFresh_tree A d e anc hE hN.1
    · rw [if_neg h0]
      simp only
      have hE0 := EnvOK_mark A anc e d.atom hE
      obtain ⟨c1, c2⟩ := chooseArm_atomEnv A d _ hE0.1
      have hE1 : ∀ a, EnvOK mutv N ok (d.atom :: anc)
          (W.setValue d.atom a (chooseArm W d (W.markImmutable d.atom e)).2) := by
        intro a
        apply EnvOK_of_mut _ _ _ hE0 (A.set_ok _ _ _ c1)
        intro u
        rw [A.set_mut, c2]
      cases hcc : (chooseArm W d (W.markImmutable d.atom e)).1
      · have hn1 : ¬ ({ d with n := setArm d.n false (d.n false + 1) } : NodeData).n false = 0 := by
          show ¬ setArm d.n false (d.n false + 1) false = 0
          rw [setArm_same]
          omega
        refine ⟨?_, ?_, ?_, ?_, ?_⟩
        · unfold NodeOK
          rw [(backup_atom _ _ _ _).1, (backup_atom _ _ _ _).2]
          exact ⟨hN.1, fun _ hl a => hN.2 h0 hl a⟩
        · rw [(backup_data _ _ _ _).1]
          exact hn1
        · rw [(backup_atom _ _ _ _).2]
          exact (firstVisit_ok A _ _ (A.mark_ok _ _ (hE1 false).1)).2.1
        · rw [(backup_atom _ _ _ _).2]
          rfl
        · rw [(backup_atom _ _ _ _).1]
          intro hl
          have hf := hN.2 h0 hl
          exact ⟨playFresh_tree A _ _ _ (hE1 false) (hf false), ⟨hf true, fun hz => absurd rfl hz⟩⟩
      · have hn1 : ¬ ({ d with n := setArm d.n true (d.n true + 1) } : NodeData).n false = 0 := by
          show ¬ setArm d.n true (d.n true + 1) false = 0
          unfold setArm
          rw [if_neg (by decide)]
          exact h0
        refine ⟨?_, ?_, ?_, ?_, ?_⟩
        · unfold NodeOK
          rw [(backup_atom _ _ _ _).1, (backup_atom _ _ _ _).2]
          exact ⟨hN.1, fun _ hl a => hN.2 h0 hl a⟩
        · rw [(backup_data _ _ _ _).1]
          exact hn1
        · rw [(backup_atom _ _ _ _).2]
          rfl
        · rw [(backup_atom _ _ _ _).2]
          exact (firstVisit_ok A _ _ (A.mark_ok _ _ (hE1 true).1)).2.1
        · rw [(backup_atom _ _ _ _).1]
          intro hl
          have hf := hN.2 h0 hl
          exact ⟨⟨hf false, fun hz => absurd rfl hz⟩, playFresh_tree A _ _ _ (hE1 true) (hf true)⟩
  | node d l r ihl ihr =>
    intro anc e hT hE
    obtain ⟨hN, hn, hal, har, hsub⟩ := hT
    rw [playNode, if_neg hn]
    simp only
    have hE0 := EnvOK_mark A anc e d.atom hE
    obtain ⟨c1, c2⟩ := chooseArm_atomEnv A d _ hE0.1
    have hE1 : ∀ a, EnvOK mutv N ok (d.atom :: anc)
        (W.setValue d.atom a (chooseArm W d (W.markImmutable d.atom e)).2) := by
      intro a
      apply EnvOK_of_mut _ _ _ hE0 (A.set_ok _ _ _ c1)
      intro u
      rw [A.set_mut, c2]
    cases hcc : (chooseArm W d (W.markImmutable d.atom e)).1
    · refine ⟨?_, ?_, ?_, ?_, ?_⟩
      · unfold NodeOK
        rw [(backup_atom _ _ _ _).1, (backup_atom _ _ _ _).2]
        exact ⟨hN.1, fun _ hl a => hN.2 hn hl a⟩
      · rw [(backup_data _ _ _ _).1]
        show ¬ setArm d.n false (d.n false + 1) false = 0
        rw [setArm_same]
        omega
      · rw [(backup_atom _ _ _ _).2]
        show (playNode W l _).tree.data.atom = _
        rw [playNode_atom]
        exact hal
      · rw [(backup_atom _ _ _ _).2]
        exact har
      · rw [(backup_atom _ _ _ _).1]
        intro hl
        exact ⟨ihl _ _ (hsub hl).1 (hE1 false), (hsub hl).2⟩
    · refine ⟨?_, ?_, ?_, ?_, ?_⟩
      · unfold NodeOK
        rw [(backup_atom _ _ _ _).1, (backup_atom _ _ _ _).2]
        exact ⟨hN.1, fun _ hl a => hN.2 hn hl a⟩
      · rw [(backup_data _ _ _ _).1]
        show ¬ setArm d.n true (d.n true + 1) false = 0
        unfold setArm
        rw [if_neg (by decide)]
        exact hn
      · rw [(backup_atom _ _ _ _).2]
        exact hal
      · rw [(backup_atom _ _ _ _).2]
        show (playNode W r _).tree.data.atom = _
        rw [playNode_atom]
        exact har
      · rw [(backup_atom _ _ _ _).1]
        intro hl
        exact ⟨(hsub hl).1, ihr _ _ (hsub hl).2 (hE1 true)⟩

end UCT

namespace CCLS

theorem flip_closedFlag (F : Instance) (s : State) (f : Nat) :
    (flip F s f).closedFlag = s.closedFlag := by
  obtain ⟨cc, he⟩ := flip_eq F s f
  have LF := flipLoop_frame F f (var_lit F f)
    { s with cur_soln := setAt s.cur_soln f (1 - s.cur_soln f) }
  rw [he]
  exact LF.closedFlag

theorem pick_var_varScores (F : Instance) (prob : Int) (g : Globals) :
    (pick_var F prob g).2.varScores = g.varScores := by
  unfold pick_var rand
  simp only
  split_ifs <;> rfl

theorem recordBest_keep (F : Instance) (g : Globals) (lo : Nat) :
    (recordBest F g lo).varScores = g.varScores ∧
      (recordBest F g lo).s.closedFlag = g.s.closedFlag := by
  obtain ⟨⟨b, hb⟩, _⟩ := recordBest_s F g lo
  refine ⟨?_, by rw [hb]⟩
  unfold recordBest
  split_ifs <;> rfl

theorem lsCheck_keep (F : Instance) (g : Globals) (lo : Nat) :
    (lsCheck F g lo).1.varScores = g.varScores ∧
      (lsCheck F g lo).1.s.closedFlag = g.s.closedFlag := by
  unfold lsCheck
  split_ifs
  · exact recordBest_keep F g _
  · exact ⟨rfl, rfl⟩

theorem lsMove_keep (F : Instance) (prob : Int) (g : Globals) :
    (lsMove F prob g).varScores = g.varScores ∧
      (lsMove F prob g).s.closedFlag = g.s.closedFlag := by
  constructor
  · unfold lsMove
    simp only
    split_ifs
    · exact pick_var_varScores F prob g
    · exact pick_var_varScores F prob g
  · rcases lsMove_s F prob g with h | ⟨f, _, h⟩
    · rw [h]
    · rw [h, flip_closedFlag]

theorem lsLoop_keep (F : Instance) (prob : Int) :
    ∀ (fuel : Nat) (g : Globals) (lo : Nat),
      (lsLoop F prob fuel g lo).g.varScores = g.varScores ∧
        (lsLoop F prob fuel g lo).g.s.closedFlag = g.s.closedFlag := by
  intro fuel
  induction fuel with
  | zero =>
    intro g lo
    unfold lsLoop
    exact ⟨rfl, rfl⟩
  | succ n ih =>
    intro g lo
    obtain ⟨c1, c2⟩ := lsCheck_keep F g lo
    unfold lsLoop
    split_ifs
    · exact ⟨c1, c2⟩
    · obtain ⟨i1, i2⟩ := ih (lsMove F prob (lsCheck F g lo).1) (lsCheck F g lo).2
      obtain ⟨m1, m2⟩ := lsMove_keep F prob (lsCheck F g lo).1
      exact ⟨by rw [i1, m1, c1], by rw [i2, m2, c2]⟩

theorem local_search_keep (F : Instance) (prob : Int) (maxFlips : Nat) (g : Globals) :
    (local_search F prob maxFlips g).g.varScores = g.varScores ∧
      (local_search F prob maxFlips g).g.s.closedFlag = g.s.closedFlag := by
  obtain ⟨r1, r2⟩ := recordBest_keep F g (unsatSum g.s)
  unfold local_search
  simp only
  split_ifs
  · exact ⟨r1, r2⟩
  · obtain ⟨i1, i2⟩ := lsLoop_keep F prob maxFlips
      { recordBest F g (unsatSum g.s) with step := 0 } (unsatSum g.s)
    exact ⟨by rw [i1]; exact r1, by rw [i2]; exact r2⟩

theorem foldl_reset_other (l : List Nat) (a : Nat → Int) (j : Nat) (hj : j ∉ l) :
    (l.foldl (fun a j => setAt a j 0) a) j = a j := by
  induction l generalizing a with
  | nil => rfl
  | cons c cs ih =>
    rw [List.foldl_cons, ih _ (fun h => hj (List.mem_cons_of_mem _ h))]
    have hjc : j ≠ c := fun h => hj (by rw [h]; exact List.mem_cons_self _ _)
    rw [setAt_apply, if_neg hjc]

theorem countLits_ge (lits : List lit) (a : Nat → Int) (v : Nat) :
    a v ≤ (lits.foldl (fun a l => setAt a l.var_num (a l.var_num + 1)) a) v := by
  induction lits generalizing a with
  | nil => exact le_refl _
  | cons L Ls ih =>
    rw [List.foldl_cons]
    refine le_trans ?_ (ih _)
    rw [setAt_apply]
    split_ifs with h
    · rw [h]; omega
    · exact le_refl _

theorem countLive_ge (F : Instance) (preSat : Nat → Bool) (a : Nat → Int) (v : Nat) :
    a v ≤ countLive F preSat a v := by
  unfold countLive
  generalize List.range F.num_clauses = l
  induction l generalizing a with
  | nil => exact le_refl _
  | cons j js ih =>
    rw [List.foldl_cons]
    refine le_trans ?_ (ih _)
    split_ifs
    · exact le_refl _
    · exact countLits_ge _ a v

theorem resetScores_ge (n : Nat) (a : Nat → Int) (h : -1 ≤ a n) (j : Nat) (hj : j ≤ n) :
    -1 ≤ ((List.range n).foldl (fun a j => setAt a j 0) a) j := by
  by_cases hjn : j < n
  · rw [UBCSAT.foldl_reset_zero _ _ j (List.mem_range.mpr hjn)]
    omega
  · have : j = n := by omega
    subst this
    rw [foldl_reset_other _ _ _ (by simp)]
    exact h

theorem selectBest_foldl_low (m : Nat → Bool) (vs : Nat → Int) (l : List Nat)
    (hv : ∀ j ∈ l, -1 ≤ vs j) :
    ∀ (acc : List Nat × Int), -1 ≤ acc.2 → (acc.1 = [] → acc.2 = -1) →
      (∀ x ∈ (l.foldl
          (fun acc j =>
            if m j = false then acc
            else if vs j > acc.2 then ([j], vs j)
            else if vs j = acc.2 then (acc.1 ++ [j], acc.2)
            else acc) acc).1, x ∈ acc.1 ∨ (x ∈ l ∧ m x = true)) ∧
        ((acc.1 ≠ [] ∨ ∃ j ∈ l, m j = true) →
          (l.foldl
            (fun acc j =>
              if m j = false then acc
              else if vs j > acc.2 then ([j], vs j)
              else if vs j = acc.2 then (acc.1 ++ [j], acc.2)
              else acc) acc).1 ≠ []) := by
  induction l with
  | nil =>
    intro acc _ _
    refine ⟨fun x hx => Or.inl hx, ?_⟩
    rintro (h | ⟨j, hj, _⟩)
    · exact h
    · cases hj
  | cons a as ih =>
    intro acc h1 h2
    have hv2 : ∀ j ∈ as, -1 ≤ vs j := fun j hj => hv j (List.mem_cons_of_mem _ hj)
    have hva := hv a (List.mem_cons_self _ _)
    rw [List.foldl_cons]
    by_cases hm : m a = false
    · rw [if_pos hm]
      obtain ⟨i1, i2⟩ := ih hv2 acc h1 h2
      refine ⟨?_, ?_⟩
      · intro x hx
        rcases i1 x hx with h | ⟨h, h3⟩
        · exact Or.inl h
        · exact Or.inr ⟨List.mem_cons_of_mem _ h, h3⟩
      · rintro (h | ⟨j, hj, hmj⟩)
        · exact i2 (Or.inl h)
        · rcases List.mem_cons.mp hj with rfl | hj2
          · rw [hm] at hmj; cases hmj
          · exact i2 (Or.inr ⟨j, hj2, hmj⟩)
    · rw [if_neg hm]
      have hmt : m a = true := by simpa using hm
      by_cases hgt : vs a > acc.2
      · rw [if_pos hgt]
        obtain ⟨i1, i2⟩ := ih hv2 ([a], vs a) hva (fun h => by cases h)
        refine ⟨?_, fun _ => i2 (Or.inl (by simp))⟩
        intro x hx
        rcases i1 x hx with h | ⟨h, h3⟩
        · have hxa : x = a := by simpa using h
          subst hxa
          exact Or.inr ⟨List.mem_cons_self _ _, hmt⟩
        · exact Or.inr ⟨List.mem_cons_of_mem _ h, h3⟩
      · rw [if_neg hgt]
        by_cases heq : vs a = acc.2
        · rw [if_pos heq]
          obtain ⟨i1, i2⟩ := ih hv2 (acc.1 ++ [a], acc.2) h1 (fun h => by simp at h)
          refine ⟨?_, fun _ => i2 (Or.inl (by simp))⟩
          intro x hx
          rcases i1 x hx with h | ⟨h, h3⟩
          · rcases List.mem_append.mp h with h4 | h4
            · exact Or.inl h4
            · have hxa : x = a := by simpa using h4
              subst hxa
              exact Or.inr ⟨List.mem_cons_self _ _, hmt⟩
          · exact Or.inr ⟨List.mem_cons_of_mem _ h, h3⟩
        · rw [if_neg heq]
          obtain ⟨i1, i2⟩ := ih hv2 acc h1 h2
          have hne : acc.1 ≠ [] := by
            intro he
            have := h2 he
            omega
          refine ⟨?_, fun _ => i2 (Or.inl hne)⟩
          intro x hx
          rcases i1 x hx with h | ⟨h, h3⟩
          · exact Or.inl h
          · exact Or.inr ⟨List.mem_cons_of_mem _ h, h3⟩

theorem selectBest_members_low (n : Nat) (m : Nat → Bool) (vs : Nat → Int)
    (hv : ∀ j, 1 ≤ j → j ≤ n → -1 ≤ vs j) :
    (∀ x ∈ (selectBest n m vs).1, 1 ≤ x ∧ x ≤ n ∧ m x = true) ∧
      ((∃ j, 1 ≤ j ∧ j ≤ n ∧ m j = true) → (selectBest n m vs).1 ≠ []) := by
  have hv2 : ∀ j ∈ List.range' 1 n, -1 ≤ vs j := by
    intro j hj
    rw [List.mem_range'_1] at hj
    exact hv j hj.1 (by omega)
  obtain ⟨i1, i2⟩ := selectBest_foldl_low m vs (List.range' 1 n) hv2 ([], -1) (le_refl _)
    (fun _ => rfl)
  unfold selectBest
  refine ⟨?_, ?_⟩
  · intro x hx
    rcases i1 x hx with h | ⟨h, h3⟩
    · cases h
    · rw [List.mem_range'_1] at h
      exact ⟨h.1, by omega, h3⟩
  · rintro ⟨j, h1, h2, h3⟩
    apply i2
    right
    exact ⟨j, by rw [List.mem_range'_1]; omega, h3⟩

theorem setBranchingAtom_varScores (F : Instance) (g : Globals)
    (hvs : -1 ≤ g.varScores F.num_vars) :
    -1 ≤ (setBranchingAtom F g).varScores F.num_vars := by
  have h1 := resetScores_ge F.num_vars g.varScores hvs F.num_vars (le_refl _)
  have h2 := countLive_ge F g.s.preSat
    ((List.range F.num_vars).foldl (fun a j => setAt a j 0) g.varScores) F.num_vars
  unfold setBranchingAtom rand
  simp only
  split_ifs
  · exact le_trans h1 h2
  · exact le_trans h1 h2

theorem setBranchingAtom_atom (F : Instance) (g : Globals)
    (hvs : -1 ≤ g.varScores F.num_vars)
    (hex : ∃ v, 1 ≤ v ∧ v ≤ F.num_vars ∧ g.s.varMutable v = true) :
    1 ≤ (setBranchingAtom F g).nextBranchingAtom ∧
      (setBranchingAtom F g).nextBranchingAtom ≤ F.num_vars ∧
      g.s.varMutable (setBranchingAtom F g).nextBranchingAtom = true := by
  have hv : ∀ j, 1 ≤ j → j ≤ F.num_vars → -1 ≤ countLive F g.s.preSat
      ((List.range F.num_vars).foldl (fun a j => setAt a j 0) g.varScores) j := by
    intro j _ h2
    exact le_trans (resetScores_ge F.num_vars g.varScores hvs j h2) (countLive_ge F _ _ j)
  obtain ⟨m1, m2⟩ := selectBest_members_low F.num_vars g.s.varMutable _ hv
  have hne := m2 hex
  have hlen : 0 < (selectBest F.num_vars g.s.varMutable (countLive F g.s.preSat
      ((List.range F.num_vars).foldl (fun a j => setAt a j 0) g.varScores))).1.length :=
    List.length_pos.mpr hne
  unfold setBranchingAtom rand
  simp only
  rw [if_neg (by omega)]
  exact m1 _ (getD_mod_mem _ _ hlen)

end CCLS

namespace UCT

open CCLS (setAt setAt_apply)

theorem liveMask_iff (F : CCLS.Instance) (m : Nat → Bool) :
    liveMask F m = true ↔ ∃ c, c < F.num_clauses ∧
      (∀ l ∈ F.clause_lit c, m l.var_num = false → l.sense = 0) ∧
      (∃ l ∈ F.clause_lit c, m l.var_num = true) := by
  unfold liveMask CCLS.hasImmPos CCLS.allImm
  simp only [List.any_eq_true, List.mem_range, Bool.not_eq_true', Bool.or_eq_false_iff,
    List.any_eq_false, List.all_eq_false, Bool.and_eq_true, decide_eq_true_eq, not_and,
    Bool.not_eq_true, Decidable.not_not, Bool.not_eq_false']
  constructor
  · rintro ⟨c, hc, h1, l, hl, h2⟩
    exact ⟨c, hc, fun l hl hm => h1 l hl hm, l, hl, by simpa using h2⟩
  · rintro ⟨c, hc, h1, l, hl, h2⟩
    exact ⟨c, hc, fun l hl hm => h1 l hl hm, l, hl, by simpa using h2⟩

end UCT

namespace UCT

open CCLS (setAt setAt_apply)

theorem init_closed_live (F : CCLS.Instance) (s : CCLS.State) :
    (CCLS.init F s).closedFlag = !liveMask F s.varMutable := by
  have hcf := CCLS.init_closedFlag F s
  cases hl : liveMask F s.varMutable
  · show _ = true
    rw [hcf]
    intro c hc
    rw [CCLS.init_preSat_eq F s c hc]
    unfold liveMask at hl
    rw [List.any_eq_false] at hl
    have := hl c (List.mem_range.mpr hc)
    cases hx : (CCLS.hasImmPos s.varMutable (F.clause_lit c) ||
      CCLS.allImm s.varMutable (F.clause_lit c))
    · rw [hx] at this
      exact absurd rfl this
    · rfl
  · show _ = false
    cases hcl : (CCLS.init F s).closedFlag
    · rfl
    · exfalso
      unfold liveMask at hl
      rw [List.any_eq_true] at hl
      obtain ⟨c, hc, hlc⟩ := hl
      have hcM := List.mem_range.mp hc
      have := hcf.mp hcl c hcM
      rw [CCLS.init_preSat_eq F s c hcM] at this
      rw [this] at hlc
      cases hlc

theorem liveMask_mono (F : CCLS.Instance) (hwf : CCLS.WF F) (m1 m2 : Nat → Bool)
    (h : ∀ v, 1 ≤ v → v ≤ F.num_vars → m1 v = true → m2 v = true)
    (hl : liveMask F m1 = true) : liveMask F m2 = true := by
  rw [liveMask_iff] at hl ⊢
  obtain ⟨c, hc, h1, l, hl1, h2⟩ := hl
  have hr := CCLS.WF_range F hwf c hc
  refine ⟨c, hc, ?_, l, hl1, h (l.var_num) (hr l hl1).1 (hr l hl1).2 h2⟩
  intro k hk hm
  apply h1 k hk
  cases hm1 : m1 k.var_num
  · rfl
  · have := h k.var_num (hr k hk).1 (hr k hk).2 hm1
    rw [hm] at this
    cases this

theorem liveMask_mutable (F : CCLS.Instance) (hwf : CCLS.WF F) (m : Nat → Bool)
    (hl : liveMask F m = true) : ∃ v, 1 ≤ v ∧ v ≤ F.num_vars ∧ m v = true := by
  rw [liveMask_iff] at hl
  obtain ⟨c, hc, _, l, hl1, h2⟩ := hl
  have hr := CCLS.WF_range F hwf c hc l hl1
  exact ⟨l.var_num, hr.1, hr.2, h2⟩

theorem estimateReward_s (F : CCLS.Instance) (prob : Int) (maxFlips : Nat) (r : Run) :
    (estimateReward F prob maxFlips r).2.g.s =
      (CCLS.local_search F prob maxFlips { r.g with s := CCLS.init F r.g.s }).g.s := by
  unfold estimateReward
  simp only
  split_ifs
  · rfl
  · exact CCLS.setBranchingAtom_s F _

theorem estimateReward_closed (F : CCLS.Instance) (prob : Int) (maxFlips : Nat) (r : Run) :
    (estimateReward F prob maxFlips r).2.g.s.closedFlag = !liveMask F r.g.s.varMutable := by
  rw [estimateReward_s, (CCLS.local_search_keep F prob maxFlips _).2]
  exact init_closed_live F r.g.s

theorem estimateReward_varScores (F : CCLS.Instance) (prob : Int) (maxFlips : Nat) (r : Run)
    (h : -1 ≤ r.g.varScores F.num_vars) :
    -1 ≤ (estimateReward F prob maxFlips r).2.g.varScores F.num_vars := by
  have hk : (CCLS.local_search F prob maxFlips
      { r.g with s := CCLS.init F r.g.s }).g.varScores F.num_vars = r.g.varScores F.num_vars := by
    rw [(CCLS.local_search_keep F prob maxFlips _).1]
  unfold estimateReward
  simp only
  split_ifs
  · rw [hk]; exact h
  · exact CCLS.setBranchingAtom_varScores F _ (by rw [hk]; exact h)

theorem estimateReward_atom (F : CCLS.Instance) (hwf : CCLS.WF F) (prob : Int)
    (maxFlips : Nat) (r : Run) (h : -1 ≤ r.g.varScores F.num_vars)
    (hl : liveMask F r.g.s.varMutable = true) :
    1 ≤ (estimateReward F prob maxFlips r).2.g.nextBranchingAtom ∧
      (estimateReward F prob maxFlips r).2.g.nextBranchingAtom ≤ F.num_vars ∧
      r.g.s.varMutable (estimateReward F prob maxFlips r).2.g.nextBranchingAtom = true := by
  have hk : (CCLS.local_search F prob maxFlips
      { r.g with s := CCLS.init F r.g.s }).g.varScores F.num_vars = r.g.varScores F.num_vars := by
    rw [(CCLS.local_search_keep F prob maxFlips _).1]
  have hm : (CCLS.local_search F prob maxFlips
      { r.g with s := CCLS.init F r.g.s }).g.s.varMutable = r.g.s.varMutable := by
    rw [(CCLS.local_search_frame F prob maxFlips _).1]
    exact CCLS.init_varMutable F r.g.s
  have hc : ¬ (CCLS.local_search F prob maxFlips
      { r.g with s := CCLS.init F r.g.s }).g.s.closedFlag = true := by
    rw [(CCLS.local_search_keep F prob maxFlips _).2]
    show ¬ (CCLS.init F r.g.s).closedFlag = true
    rw [init_closed_live, hl]
    decide
  obtain ⟨v, v1, v2, v3⟩ := liveMask_mutable F hwf _ hl
  have hat := CCLS.setBranchingAtom_atom F (CCLS.local_search F prob maxFlips
      { r.g with s := CCLS.init F r.g.s }).g (by rw [hk]; exact h)
      ⟨v, v1, v2, by rw [hm]; exact v3⟩
  rw [hm] at hat
  unfold estimateReward
  simp only
  rw [if_neg hc]
  exact hat

theorem cclsWorld_atomLaws (F : CCLS.Instance) (hwf : CCLS.WF F) (prob : Int) (maxFlips : Nat)
    (sel : NodeData → Run → Bool × Run) (uninit : Bool → Nat)
    (hsel : ∀ d r, (sel d r).2.g.s = r.g.s ∧ (sel d r).2.g.varScores = r.g.varScores) :
    AtomLaws (cclsWorld F prob maxFlips sel uninit) (fun r v => r.g.s.varMutable v)
      F.num_vars (fun r => -1 ≤ r.g.varScores F.num_vars) (liveMask F) := by
  have L := cclsWorld_laws F prob maxFlips sel uninit (fun d r => (hsel d r).1)
  refine ⟨L.mark_mut, L.set_mut, L.est_mut, L.clear_mut, L.sel_mut, ?_, ?_, ?_, ?_, ?_, ?_, ?_,
    liveMask_mono F hwf⟩
  · intro v e h
    exact h
  · intro v a e h
    exact h
  · intro e h
    exact estimateReward_varScores F prob maxFlips e h
  · intro e h
    exact h
  · intro d e h
    show -1 ≤ (sel d e).2.g.varScores F.num_vars
    rw [(hsel d e).2]
    exact h
  · intro e _
    exact estimateReward_closed F prob maxFlips e
  · intro e h hl
    exact estimateReward_atom F hwf prob maxFlips e h hl

theorem foldl_setAt_true (l : List Nat) (m : Nat → Bool) (v : Nat) (hv : v ∈ l) :
    (l.foldl (fun m i => setAt m i true) m) v = true := by
  have key : ∀ (l : List Nat) (m : Nat → Bool), (v ∈ l ∨ m v = true) →
      (l.foldl (fun m i => setAt m i true) m) v = true := by
    intro l
    induction l with
    | nil =>
      intro m h
      rcases h with h | h
      · cases h
      · exact h
    | cons a as ih =>
      intro m h
      rw [List.foldl_cons]
      apply ih
      by_cases hva : v = a
      · right
        rw [setAt_apply, if_pos hva]
      · rcases h with h | h
        · rcases List.mem_cons.mp h with h1 | h1
          · exact absurd h1 hva
          · exact Or.inl h1
        · right
          rw [setAt_apply, if_neg hva]
          exact h
  exact key l m (Or.inl hv)

theorem setMutable_EnvOK (F : CCLS.Instance) (r : Run) (h : -1 ≤ r.g.varScores F.num_vars) :
    EnvOK (fun (r : Run) v => r.g.s.varMutable v) F.num_vars
      (fun r => -1 ≤ r.g.varScores F.num_vars) [] (setMutable F r) := by
  refine ⟨h, ?_⟩
  intro v h1 h2
  show (List.range' 1 F.num_vars).foldl (fun m i => setAt m i true) r.g.s.varMutable v = _
  rw [foldl_setAt_true _ _ v (by rw [List.mem_range'_1]; omega)]
  rfl

theorem uctIterate_fresh {E : Type} {W : World E} {mutv : E → Nat → Bool} {N : Nat}
    {ok : E → Prop} {live : (Nat → Bool) → Bool} (A : AtomLaws W mutv N ok live)
    (prep : E → E) (hprep : ∀ e, ok e → EnvOK mutv N ok [] (prep e)) :
    ∀ (k : Nat) (p : uctnode × E), FreshTree N live p.1 [] → ok p.2 →
      FreshTree N live (uctIterate W prep k p).1 [] ∧ ok (uctIterate W prep k p).2 := by
  intro k
  induction k with
  | zero =>
    intro p h1 h2
    exact ⟨h1, h2⟩
  | succ n ih =>
    intro p h1 h2
    rw [uctIterate]
    exact ih _ (playNode_fresh A p.1 [] _ h1 (hprep _ h2)) (playNode_ok A p.1 _ (hprep _ h2).1)

theorem FreshTree_data (N : Nat) (live : (Nat → Bool) → Bool) (t : uctnode) (anc : List Nat)
    (h : FreshTree N live t anc) : NodeOK N live anc t.data := by
  cases t with
  | leaf d => exact h
  | node d l r => exact h.1

theorem nodeAt_nil (t : uctnode) : nodeAt t [] = some t.data := by
  cases t <;> rfl

theorem path_fresh (N : Nat) (live : (Nat → Bool) → Bool)
    (hmono : ∀ m1 m2 : Nat → Bool, (∀ v, 1 ≤ v → v ≤ N → m1 v = true → m2 v = true) →
      live m1 = true → live m2 = true) (p : List Bool) :
    ∀ (t : uctnode) (anc : List Nat) (d : NodeData), FreshTree N live t anc → anc.Nodup →
      nodeAt t p = some d → live (pathMask (ancAtoms t p ++ anc)) = true →
      FreshAt N (ancAtoms t p ++ anc) d.atom ∧ (d.atom :: (ancAtoms t p ++ anc)).Nodup ∧
        (∀ q a parent, p = q ++ [a] → nodeAt t q = some parent →
          d.atom = parent.nextAtom a) := by
  induction p with
  | nil =>
    intro t anc d hT hnd hat _
    rw [nodeAt_nil] at hat
    have hd : d = t.data := (Option.some.inj hat).symm
    subst hd
    have hN := FreshTree_data N live t anc hT
    have he : ancAtoms t [] ++ anc = anc := by
      cases t <;> rfl
    rw [he]
    refine ⟨hN.1, List.nodup_cons.mpr ⟨hN.1.2.2, hnd⟩, ?_⟩
    intro q a parent hq _
    cases q <;> cases hq
  | cons b p ih =>
    intro t anc d hT hnd hat hl
    cases t with
    | leaf d0 => cases hat
    | node d0 l r =>
      obtain ⟨hN, _, hal, har, hsub⟩ := hT
      have hnd2 : (d0.atom :: anc).Nodup := List.nodup_cons.mpr ⟨hN.1.2.2, hnd⟩
      have hlive0 : ∀ (as : List Nat), live (pathMask ((as ++ [d0.atom]) ++ anc)) = true →
          live (pathMask (d0.atom :: anc)) = true := by
        intro as h
        apply hmono _ _ _ h
        intro v _ _ hv
        rw [pathMask_true] at hv ⊢
        intro hmem
        apply hv
        simp only [List.append_assoc, List.singleton_append, List.mem_append]
        exact Or.inr hmem
      cases b with
      | false =>
        have hat2 : nodeAt l p = some d := hat
        have he : ancAtoms (uctnode.node d0 l r) (false :: p) ++ anc =
            ancAtoms l p ++ (d0.atom :: anc) := by
          show (ancAtoms l p ++ [d0.atom]) ++ anc = _
          simp
        have hl0 := hlive0 (ancAtoms l p) hl
        rw [he] at hl ⊢
        obtain ⟨i1, i2, i3⟩ := ih l (d0.atom :: anc) d (hsub hl0).1 hnd2 hat2 hl
        refine ⟨i1, i2, ?_⟩
        intro q a parent hq hpar
        cases q with
        | nil =>
          have h1 : false = a ∧ p = [] := by
            simpa using hq
          obtain ⟨ha, hp⟩ := h1
          subst ha
          subst hp
          rw [nodeAt_nil] at hat2 hpar
          have e1 : d = l.data := (Option.some.inj hat2).symm
          have e2 : parent = d0 := (Option.some.inj hpar).symm
          rw [e1, e2]
          exact hal
        | cons b2 q2 =>
          have h1 : false = b2 ∧ p = q2 ++ [a] := by
            simpa using hq
          obtain ⟨hb, hp⟩ := h1
          subst hb
          exact i3 q2 a parent hp hpar
      | true =>
        have hat2 : nodeAt r p = some d := hat
        have he : ancAtoms (uctnode.node d0 l r) (true :: p) ++ anc =
            ancAtoms r p ++ (d0.atom :: anc) := by
          show (ancAtoms r p ++ [d0.atom]) ++ anc = _
          simp
        have hl0 := hlive0 (ancAtoms r p) hl
        rw [he] at hl ⊢
        obtain ⟨i1, i2, i3⟩ := ih r (d0.atom :: anc) d (hsub hl0).2 hnd2 hat2 hl
        refine ⟨i1, i2, ?_⟩
        intro q a parent hq hpar
        cases q with
        | nil =>
          have h1 : true = a ∧ p = [] := by
            simpa using hq
          obtain ⟨ha, hp⟩ := h1
          subst ha
          subst hp
          rw [nodeAt_nil] at hat2 hpar
          have e1 : d = r.data := (Option.some.inj hat2).symm
          have e2 : parent = d0 := (Option.some.inj hpar).symm
          rw [e1, e2]
          exact har
        | cons b2 q2 =>
          have h1 : true = b2 ∧ p = q2 ++ [a] := by
            simpa using hq
          obtain ⟨hb, hp⟩ := h1
          subst hb
          exact i3 q2 a parent hp hpar

theorem setRootNode_fresh (F : CCLS.Instance) (hwf : CCLS.WF F) (uninit : Bool → Nat)
    (r : Run) (h : -1 ≤ r.g.varScores F.num_vars)
    (hl : liveMask F r.g.s.varMutable = true) :
    FreshTree F.num_vars (liveMask F) (setRootNode F uninit r).1 [] ∧
      -1 ≤ (setRootNode F uninit r).2.g.varScores F.num_vars := by
  obtain ⟨v, v1, v2, v3⟩ := liveMask_mutable F hwf _ hl
  have hat := CCLS.setBranchingAtom_atom F { r.g with s := CCLS.init F r.g.s } h
    ⟨v, v1, v2, by show (CCLS.init F r.g.s).varMutable v = true
                   rw [CCLS.init_varMutable]; exact v3⟩
  refine ⟨?_, CCLS.setBranchingAtom_varScores F { r.g with s := CCLS.init F r.g.s } h⟩
  show NodeOK F.num_vars (liveMask F) [] _
  exact ⟨⟨hat.1, hat.2.1, List.not_mem_nil _⟩, fun h0 => absurd rfl h0⟩

end UCT

namespace UCT

open CCLS (setAt setAt_apply)

/-- Freshness of the branching atoms with respect to the pre-sat test of `init()`. In the
search of main_uct.cpp on a well-formed formula, started by `setMutable()` and
`setRootNode()` and continued by any number `k` of rounds `setMutable(); playNode(root)`
(`selectMove` leaving the SLS state and `varScores` alone, and the cell `varScores[num_vars]`
holding at least -1 at the start): for every node of the tree, reached by the path `p`, such
that `init()` leaves a clause not pre-sat when the atoms of its ancestors are immutable
(`liveMask`), the atom of the node is a variable of `1..N` different from the atoms of all
its ancestors, the atoms from the node up to the root are pairwise distinct, and the atom is
the `nextAtom` of its parent for the arm taken. That `nextAtom[a]` is the
`nextBranchingAtom` left by the playout of arm `a` in the first visit of the parent,
whenever that playout did not raise `closedFlag`. -/
theorem branching_atoms_fresh (F : CCLS.Instance) (hwf : CCLS.WF F) (prob : Int)
    (maxFlips : Nat) (sel : NodeData → Run → Bool × Run) (uninit : Bool → Nat)
    (hsel : ∀ d r, (sel d r).2.g.s = r.g.s ∧ (sel d r).2.g.varScores = r.g.varScores)
    (r0 : Run) (hvs : -1 ≤ r0.g.varScores F.num_vars) (k : Nat) (p : List Bool) :
    (∀ d, nodeAt (uctIterate (cclsWorld F prob maxFlips sel uninit) (setMutable F) k
          (setRootNode F uninit (setMutable F r0))).1 p = some d →
        liveMask F (pathMask (ancAtoms (uctIterate (cclsWorld F prob maxFlips sel uninit)
          (setMutable F) k (setRootNode F uninit (setMutable F r0))).1 p)) = true →
        (1 ≤ d.atom ∧ d.atom ≤ F.num_vars ∧
          d.atom ∉ ancAtoms (uctIterate (cclsWorld F prob maxFlips sel uninit) (setMutable F) k
            (setRootNode F uninit (setMutable F r0))).1 p) ∧
        (d.atom :: ancAtoms (uctIterate (cclsWorld F prob maxFlips sel uninit) (setMutable F) k
            (setRootNode F uninit (setMutable F r0))).1 p).Nodup ∧
        (∀ q a parent, p = q ++ [a] →
          nodeAt (uctIterate (cclsWorld F prob maxFlips sel uninit) (setMutable F) k
            (setRootNode F uninit (setMutable F r0))).1 q = some parent →
          d.atom = parent.nextAtom a)) ∧
      (∀ (a : Bool) (n : NodeData) (e : Run),
        (cclsWorld F prob maxFlips sel uninit).closedFlag
            ((cclsWorld F prob maxFlips sel uninit).estimateReward
              ((cclsWorld F prob maxFlips sel uninit).setValue n.atom a e)).2 = false →
          (playArm (cclsWorld F prob maxFlips sel uninit) a n e).1.nextAtom a =
            (cclsWorld F prob maxFlips sel uninit).nextBranchingAtom
              ((cclsWorld F prob maxFlips sel uninit).estimateReward
                ((cclsWorld F prob maxFlips sel uninit).setValue n.atom a e)).2) := by
  have A := cclsWorld_atomLaws F hwf prob maxFlips sel uninit hsel
  constructor
  · intro d hat hl
    have hE0 := setMutable_EnvOK F r0 hvs
    have hl0 : liveMask F (pathMask []) = true := by
      apply liveMask_mono F hwf _ _ _ hl
      intro v _ _ _
      rfl
    have hl1 : liveMask F (setMutable F r0).g.s.varMutable = true := by
      apply liveMask_mono F hwf _ _ _ hl0
      intro v h1 h2 _
      exact (hE0.2 v h1 h2).trans rfl
    obtain ⟨f1, f2⟩ := setRootNode_fresh F hwf uninit (setMutable F r0) hE0.1 hl1
    obtain ⟨hT, _⟩ := uctIterate_fresh A (setMutable F)
      (fun e he => setMutable_EnvOK F e he) k _ f1 f2
    have := path_fresh F.num_vars (liveMask F) (liveMask_mono F hwf) p _ [] d hT
      List.nodup_nil hat (by rw [List.append_nil]; exact hl)
    rw [List.append_nil] at this
    exact this
  · intro a n e hc
    unfold playArm
    simp only
    rw [if_neg (by rw [hc]; decide)]
    show setArm n.nextAtom a _ a = _
    rw [setArm_same]

set_option maxRecDepth 100000 in
theorem branching_atoms_fresh_witness :
    ((nodeAt (uctIterate (cclsWorld exFresh 0 10 (fun _ r => (false, r)) (fun _ => 0))
          (setMutable exFresh) 2
          (setRootNode exFresh (fun _ => 0) (setMutable exFresh
            { g := CCLS.mkGlobals (CCLS.zeroState (fun _ => false) (fun _ => 0) (fun _ => 0)),
              bestReward := 0 }))).1 [false]).map (fun d => d.atom) = some 3 ∧
      ancAtoms (uctIterate (cclsWorld exFresh 0 10 (fun _ r => (false, r)) (fun _ => 0))
          (setMutable exFresh) 2
          (setRootNode exFresh (fun _ => 0) (setMutable exFresh
            { g := CCLS.mkGlobals (CCLS.zeroState (fun _ => false) (fun _ => 0) (fun _ => 0)),
              bestReward := 0 }))).1 [false] = [1] ∧
      liveMask exFresh (pathMask [1]) = true) ∧
    ((∀ d, nodeAt (uctIterate (cclsWorld exFresh 0 10 (fun _ r => (false, r)) (fun _ => 0))
          (setMutable exFresh) 2
          (setRootNode exFresh (fun _ => 0) (setMutable exFresh
            { g := CCLS.mkGlobals (CCLS.zeroState (fun _ => false) (fun _ => 0) (fun _ => 0)),
              bestReward := 0 }))).1 [false] = some d →
        liveMask exFresh (pathMask (ancAtoms
          (uctIterate (cclsWorld exFresh 0 10 (fun _ r => (false, r)) (fun _ => 0))
            (setMutable exFresh) 2
            (setRootNode exFresh (fun _ => 0) (setMutable exFresh
              { g := CCLS.mkGlobals (CCLS.zeroState (fun _ => false) (fun _ => 0) (fun _ => 0)),
                bestReward := 0 }))).1 [false])) = true →
        (1 ≤ d.atom ∧ d.atom ≤ exFresh.num_vars ∧
          d.atom ∉ ancAtoms
            (uctIterate (cclsWorld exFresh 0 10 (fun _ r => (false, r)) (fun _ => 0))
              (setMutable exFresh) 2
              (setRootNode exFresh (fun _ => 0) (setMutable exFresh
                { g := CCLS.mkGlobals
                    (CCLS.zeroState (fun _ => false) (fun _ => 0) (fun _ => 0)),
                  bestReward := 0 }))).1 [false]) ∧
        (d.atom :: ancAtoms
            (uctIterate (cclsWorld exFresh 0 10 (fun _ r => (false, r)) (fun _ => 0))
              (setMutable exFresh) 2
              (setRootNode exFresh (fun _ => 0) (setMutable exFresh
                { g := CCLS.mkGlobals
                    (CCLS.zeroState (fun _ => false) (fun _ => 0) (fun _ => 0)),
                  bestReward := 0 }))).1 [false]).Nodup ∧
        (∀ q a parent, [false] = q ++ [a] →
          nodeAt (uctIterate (cclsWorld exFresh 0 10 (fun _ r => (false, r)) (fun _ => 0))
            (setMutable exFresh) 2
            (setRootNode exFresh (fun _ => 0) (setMutable exFresh
              { g := CCLS.mkGlobals (CCLS.zeroState (fun _ => false) (fun _ => 0) (fun _ => 0)),
                bestReward := 0 }))).1 q = some parent →
          d.atom = parent.nextAtom a)) ∧
      (∀ (a : Bool) (n : NodeData) (e : Run),
        (cclsWorld exFresh 0 10 (fun _ r => (false, r)) (fun _ => 0)).closedFlag
            ((cclsWorld exFresh 0 10 (fun _ r => (false, r)) (fun _ => 0)).estimateReward
              ((cclsWorld exFresh 0 10 (fun _ r => (false, r)) (fun _ => 0)).setValue
                n.atom a e)).2 = false →
          (playArm (cclsWorld exFresh 0 10 (fun _ r => (false, r)) (fun _ => 0)) a n e).1.nextAtom a
            = (cclsWorld exFresh 0 10 (fun _ r => (false, r)) (fun _ => 0)).nextBranchingAtom
              ((cclsWorld exFresh 0 10 (fun _ r => (false, r)) (fun _ => 0)).estimateReward
                ((cclsWorld exFresh 0 10 (fun _ r => (false, r)) (fun _ => 0)).setValue
                  n.atom a e)).2)) :=
  ⟨by decide,
    branching_atoms_fresh exFresh (by decide) 0 10 (fun _ r => (false, r)) (fun _ => 0)
      (fun _ _ => ⟨rfl, rfl⟩)
      { g := CCLS.mkGlobals (CCLS.zeroState (fun _ => false) (fun _ => 0) (fun _ => 0)),
        bestReward := 0 }
      (by decide) 2 [false]⟩

set_option maxRecDepth 100000 in
/-- C40 (code evaluated at the failing inputs). First input: the clause `(x1 ∨ x2)`,
zero-initialised globals. The root branches on atom 1. Under `x1 = 0` the clause has no true
immutable literal and has the mutable literal `x2`, so it is live; `init()` nevertheless
marks it pre-sat (its immutable literal is positive), both playouts of the first visit raise
`closedFlag`, both arms of the root are closed and `nextAtom` is never assigned. The second
round calls `createChildren` on the root: the child on `LEFT` has for atom the content of the
unassigned cell, 0 when fresh memory reads 0 (not a variable) and 1 when it reads 1 (the atom
of its parent). Second input: the clause `(¬x1 ∨ x2)` with the cell `varScores[2]`
(`varScores[num_vars]`, never reset) holding -5 and fresh memory reading 7. The root
branches on atom 1 and its first visit closes no arm; under `x1 = 1` the clause is live, but
the only mutable variable `x2` has a score below -1, `setBranchingAtom()` leaves the sentinel
0 in `nextAtom[RIGHT]`, and the child created on `RIGHT` in the second round has atom 0. -/
theorem child_atom_unassigned :
    ((atomStart CCLS.exPosPos 0 (fun _ => 0)).1.data.atom = 1 ∧
      (uctIterate (atomWorld CCLS.exPosPos 0) (setMutable CCLS.exPosPos) 1
        (atomStart CCLS.exPosPos 0 (fun _ => 0))).1.data.closed false = true ∧
      (uctIterate (atomWorld CCLS.exPosPos 0) (setMutable CCLS.exPosPos) 1
        (atomStart CCLS.exPosPos 0 (fun _ => 0))).1.data.closed true = true ∧
      CCLS.hasImmTrue (fun v => decide (v ≠ 1)) (fun _ => 0) (CCLS.exPosPos.clause_lit 0)
        = false ∧
      CCLS.allImm (fun v => decide (v ≠ 1)) (CCLS.exPosPos.clause_lit 0) = false ∧
      (nodeAt (uctIterate (atomWorld CCLS.exPosPos 0) (setMutable CCLS.exPosPos) 2
        (atomStart CCLS.exPosPos 0 (fun _ => 0))).1 [false]).map (fun d => d.atom) = some 0 ∧
      (nodeAt (uctIterate (atomWorld CCLS.exPosPos 1) (setMutable CCLS.exPosPos) 2
        (atomStart CCLS.exPosPos 1 (fun _ => 0))).1 [false]).map (fun d => d.atom) = some 1) ∧
    ((atomStart CCLS.exNegPos 7 (fun j => if j = 2 then -5 else 0)).1.data.atom = 1 ∧
      (uctIterate (atomWorld CCLS.exNegPos 7) (setMutable CCLS.exNegPos) 1
        (atomStart CCLS.exNegPos 7 (fun j => if j = 2 then -5 else 0))).1.data.closed false
        = false ∧
      (uctIterate (atomWorld CCLS.exNegPos 7) (setMutable CCLS.exNegPos) 1
        (atomStart CCLS.exNegPos 7 (fun j => if j = 2 then -5 else 0))).1.data.closed true
        = false ∧
      (uctIterate (atomWorld CCLS.exNegPos 7) (setMutable CCLS.exNegPos) 1
        (atomStart CCLS.exNegPos 7 (fun j => if j = 2 then -5 else 0))).1.data.nextAtom true
        = 0 ∧
      CCLS.hasImmTrue (fun v => decide (v ≠ 1)) (fun _ => 1) (CCLS.exNegPos.clause_lit 0)
        = false ∧
      CCLS.allImm (fun v => decide (v ≠ 1)) (CCLS.exNegPos.clause_lit 0) = false ∧
      (nodeAt (uctIterate (atomWorld CCLS.exNegPos 7) (setMutable CCLS.exNegPos) 2
        (atomStart CCLS.exNegPos 7 (fun j => if j = 2 then -5 else 0))).1 [true]).map
        (fun d => d.atom) = some 0) := by
  decide

end UCT
